import Mathlib

/-!
# A shallow embedding of `fs.c` (inode filesystem over a block device)

The C program keeps its state in three globals (`fs_mounted`, `bitmap`,
`bitmapSize`) and on the block device.  The embedding threads that state
explicitly through `FsState`.

Modelling conventions.

* C `int` values are mathematical integers (`Int`).  Signed overflow is
  undefined behaviour in C, so the embedding agrees with the program on every
  run in which no intermediate value leaves the 32-bit range.  `/` and `%`
  of C are `Int.tdiv` and `Int.tmod` (truncation towards zero).
* A block (`union fs_block`) is its 4096 bytes.  The `int` views of the union
  (`super`, `inode[]`, `pointers[]`) decode four bytes, little-endian, two's
  complement, at word offsets fixed by the struct layouts
  (`sizeof(struct fs_inode) = 32`).
* Arrays are indexed by `Int`; an index outside the C array is outside the
  defined behaviour of the program and plays no role in the theorems.
* A local buffer that the C code uses before initialising it (`writeBlock` in
  `fs_write`) gets its contents from an explicit parameter (`Uninit`).
-/

set_option linter.all false

namespace SimpleFS

/-! ## Constants -/

abbrev FS_MAGIC : Int := 0xf0f03410
abbrev INODES_PER_BLOCK : Int := 128
abbrev POINTERS_PER_INODE : Int := 5
abbrev POINTERS_PER_BLOCK : Int := 1024
abbrev BYTES_PER_BLOCK : Int := 4096

/-! ## Blocks and their typed views -/

/-- A byte buffer (`char *`), indexed from 0. -/
abbrev Bytes := Int → UInt8

/-- The C `union fs_block`: 4096 bytes. -/
abbrev Block := Bytes

/-- The all-zero block. -/
def zeroBlock : Block := fun _ => 0

/-- The unsigned little-endian value of the four bytes of word `w`. -/
def getU32 (b : Block) (w : Int) : Nat :=
  (b (4 * w)).toNat + 256 * (b (4 * w + 1)).toNat
    + 65536 * (b (4 * w + 2)).toNat + 16777216 * (b (4 * w + 3)).toNat

/-- The `int` stored in word `w` of a block (two's complement). -/
def getInt (b : Block) (w : Int) : Int :=
  if getU32 b w < 2147483648 then (getU32 b w : Int) else (getU32 b w : Int) - 4294967296

/-- Store the `int` `v` in word `w` of a block. -/
def setInt (b : Block) (w : Int) (v : Int) : Block := fun i =>
  if i / 4 = w then UInt8.ofNat ((v % 4294967296).toNat / 256 ^ (i % 4).toNat % 256) else b i

/-- The C `memcpy(&dst[dstOff], &src[srcOff], n)`. -/
def memcpy (dst : Bytes) (dstOff : Int) (src : Bytes) (srcOff : Int) (n : Int) : Bytes := fun i =>
  if dstOff ≤ i ∧ i < dstOff + n then src (srcOff + (i - dstOff)) else dst i

/-- Field `super.magic`. -/
def super_magic (b : Block) : Int := getInt b 0
/-- Field `super.nblocks`. -/
def super_nblocks (b : Block) : Int := getInt b 1
/-- Field `super.ninodeblocks`. -/
def super_ninodeblocks (b : Block) : Int := getInt b 2
/-- Field `super.ninodes`. -/
def super_ninodes (b : Block) : Int := getInt b 3

/-- Field `inode[j].isvalid`. -/
def inode_isvalid (b : Block) (j : Int) : Int := getInt b (8 * j)
/-- Field `inode[j].size`. -/
def inode_size (b : Block) (j : Int) : Int := getInt b (8 * j + 1)
/-- Field `inode[j].direct[k]`. -/
def inode_direct (b : Block) (j k : Int) : Int := getInt b (8 * j + 2 + k)
/-- Field `inode[j].indirect`. -/
def inode_indirect (b : Block) (j : Int) : Int := getInt b (8 * j + 7)
/-- Entry `pointers[k]`. -/
def pointers (b : Block) (k : Int) : Int := getInt b k

/-- Assignment `inode[j].isvalid = v`. -/
def set_inode_isvalid (b : Block) (j v : Int) : Block := setInt b (8 * j) v
/-- Assignment `inode[j].size = v`. -/
def set_inode_size (b : Block) (j v : Int) : Block := setInt b (8 * j + 1) v
/-- Assignment `inode[j].direct[k] = v`. -/
def set_inode_direct (b : Block) (j k v : Int) : Block := setInt b (8 * j + 2 + k) v
/-- Assignment `inode[j].indirect = v`. -/
def set_inode_indirect (b : Block) (j v : Int) : Block := setInt b (8 * j + 7) v
/-- Assignment `pointers[k] = v`. -/
def set_pointers (b : Block) (k v : Int) : Block := setInt b k v

/-! ## The block device -/

/-- Modelled from the spec: the block device of `disk.h` (its implementation is
not among the sources), "a fixed array of equally-sized blocks with whole-block
I/O".  `nblocks` is what `disk_size()` returns. -/
structure Disk where
  nblocks : Int
  blocks : Int → Block

/-- Modelled from the spec: `disk_read(blocknum, data)`.  The spec says nothing
about a block number outside the device; the model then delivers zeros. -/
def disk_read (d : Disk) (blocknum : Int) : Block :=
  if 0 ≤ blocknum ∧ blocknum < d.nblocks then d.blocks blocknum else zeroBlock

/-- Modelled from the spec: `disk_write(blocknum, data)`.  A block number outside
the device leaves the device as it is. -/
def disk_write (d : Disk) (blocknum : Int) (data : Block) : Disk :=
  if 0 ≤ blocknum ∧ blocknum < d.nblocks then
    { d with blocks := Function.update d.blocks blocknum data }
  else d

/-- Modelled from the spec: `disk_size()`. -/
def disk_size (d : Disk) : Int := d.nblocks

/-! ## Program state -/

/-- The device together with the globals of `fs.c`.  `bitmapNull` records
whether the pointer `bitmap` is `NULL`; the cells of the array it points to are
`bitmap`. -/
structure FsState where
  disk : Disk
  fs_mounted : Bool
  bitmap : Int → Bool
  bitmapNull : Bool
  bitmapSize : Int

/-- Contents of the local buffers that `fs_write` declares without
initialising: `direct k` is `writeBlock` at the start of iteration `k` of the
direct loop, `indirect` is the `writeBlock` declared before the indirect loop. -/
structure Uninit where
  direct : Int → Block
  indirect : Block

/-! ## `getNewInode` -/

/-- The scan `for(i = 0; i<bitmapSize ; i++)` of `getNewInode`, from index `i`,
with at most `n` iterations left. -/
def getNewInodeLoop (st : FsState) : Nat → Int → Int × FsState
  | 0, _ => (-1, st)
  | n + 1, i =>
    if i < st.bitmapSize then
      if st.bitmap i = false then
        (i, { st with bitmap := Function.update st.bitmap i true })
      else getNewInodeLoop st n (i + 1)
    else (-1, st)

/-- `getNewInode()`: result and new state. -/
def getNewInode (st : FsState) : Int × FsState :=
  getNewInodeLoop st st.bitmapSize.toNat 0

/-! ## `fs_format` -/

/-- The loop `for(j = 0; j < INODES_PER_BLOCK ; j++) inode_block.inode[j].isvalid = 0`. -/
def formatInvalidate (b : Block) : Nat → Int → Block
  | 0, _ => b
  | n + 1, j =>
    if j < INODES_PER_BLOCK then formatInvalidate (set_inode_isvalid b j 0) n (j + 1) else b

/-- The loop `for(i = 0; i < ninode_blocks; i++)` of `fs_format`. -/
def formatLoop (ninode_blocks : Int) : Nat → Int → Disk → Disk
  | 0, _, d => d
  | n + 1, i, d =>
    if i < ninode_blocks then
      formatLoop ninode_blocks n (i + 1)
        (disk_write d (i + 1) (formatInvalidate (disk_read d (i + 1)) 128 0))
    else d

/-- The number of inode blocks `fs_format` computes from the device size. -/
def format_ninode_blocks (blocks : Int) : Int :=
  let ninode_blocks := blocks.tdiv 10
  if ninode_blocks ≠ 0 then
    if blocks.tmod ninode_blocks ≠ 0 then ninode_blocks + 1 else ninode_blocks
  else 1

/-- `fs_format()`: result and new state. -/
def fs_format (st : FsState) : Int × FsState :=
  if st.fs_mounted = true then (0, st)
  else
    let blocks := disk_size st.disk
    if blocks < 3 then (0, st)
    else
      let ninode_blocks := format_ninode_blocks blocks
      let block := disk_read st.disk 0
      let block := setInt block 0 FS_MAGIC
      let block := setInt block 1 blocks
      let block := setInt block 2 ninode_blocks
      let block := setInt block 3 (ninode_blocks * INODES_PER_BLOCK)
      let d := disk_write st.disk 0 block
      (1, { st with disk := formatLoop ninode_blocks ninode_blocks.toNat 0 d })

/-! ## Block counts of an inode -/

/-- The number of blocks of a file of `size` bytes, as every operation computes
it: `size/BYTES_PER_BLOCK`, plus one if `size%BYTES_PER_BLOCK != 0`. -/
def nblocksOf (size : Int) : Int :=
  if size.tmod BYTES_PER_BLOCK ≠ 0 then size.tdiv BYTES_PER_BLOCK + 1
  else size.tdiv BYTES_PER_BLOCK

/-- The value `direct_blocks`. -/
def directBlocks (nblocks : Int) : Int :=
  if nblocks > POINTERS_PER_INODE then POINTERS_PER_INODE else nblocks

/-- The value `indirect_blocks` before any cap. -/
def indirectBlocks (nblocks : Int) : Int :=
  if nblocks > POINTERS_PER_INODE then nblocks - POINTERS_PER_INODE else 0

/-- The value `indirect_blocks` after the cap that delete, read and write apply. -/
def indirectBlocksCapped (nblocks : Int) : Int :=
  if indirectBlocks nblocks > POINTERS_PER_BLOCK then POINTERS_PER_BLOCK else indirectBlocks nblocks

/-- The test `blockNum <= ninodeblocks || blockNum >= diskSize`. -/
def badBlock (ninodeblocks diskSize blockNum : Int) : Bool :=
  decide (blockNum ≤ ninodeblocks) || decide (blockNum ≥ diskSize)

/-! ## `fs_mount` -/

/-- The loops over `direct[k]` and over `pointers[k]` in `fs_mount` have the
same body; this is that loop, `blk k` being the block number read at
iteration `k`.  `none` is the failing `return 0`. -/
def mountLoop (ninodeblocks diskSize : Int) (blk : Int → Int) (bound : Int) :
    Nat → Int → (Int → Bool) → Option (Int → Bool)
  | 0, _, bm => some bm
  | n + 1, k, bm =>
    if k < bound then
      let blockNum := blk k
      if badBlock ninodeblocks diskSize blockNum then none
      else mountLoop ninodeblocks diskSize blk bound n (k + 1) (Function.update bm blockNum true)
    else some bm

/-- The body of the loop over `j` in `fs_mount` for one inode. -/
def mountInode (d : Disk) (ninodeblocks diskSize : Int) (inodeB : Block) (j : Int)
    (bm : Int → Bool) : Option (Int → Bool) :=
  if inode_isvalid inodeB j = 1 then
    let nblocks := nblocksOf (inode_size inodeB j)
    let direct_blocks := directBlocks nblocks
    let indirect_blocks := indirectBlocks nblocks
    if indirect_blocks > POINTERS_PER_BLOCK then none
    else
      match mountLoop ninodeblocks diskSize (inode_direct inodeB j) direct_blocks
          direct_blocks.toNat 0 bm with
      | none => none
      | some bm1 =>
        if indirect_blocks > 0 then
          let bm2 := Function.update bm1 (inode_indirect inodeB j) true
          let pointers_block := disk_read d (inode_indirect inodeB j)
          mountLoop ninodeblocks diskSize (pointers pointers_block) indirect_blocks
            indirect_blocks.toNat 0 bm2
        else some bm1
  else some bm

/-- The loop `for(j = 0; j < INODES_PER_BLOCK ; j++)` of `fs_mount`. -/
def mountSlots (d : Disk) (ninodeblocks diskSize : Int) (inodeB : Block) :
    Nat → Int → (Int → Bool) → Option (Int → Bool)
  | 0, _, bm => some bm
  | n + 1, j, bm =>
    if j < INODES_PER_BLOCK then
      match mountInode d ninodeblocks diskSize inodeB j bm with
      | none => none
      | some bm1 => mountSlots d ninodeblocks diskSize inodeB n (j + 1) bm1
    else some bm

/-- The loop `for(i = 1; i <= block.super.ninodeblocks; i++)` of `fs_mount`. -/
def mountBlocks (d : Disk) (ninodeblocks diskSize : Int) :
    Nat → Int → (Int → Bool) → Option (Int → Bool)
  | 0, _, bm => some bm
  | n + 1, i, bm =>
    if i ≤ ninodeblocks then
      match mountSlots d ninodeblocks diskSize (disk_read d i) 128 0
          (Function.update bm i true) with
      | none => none
      | some bm1 => mountBlocks d ninodeblocks diskSize n (i + 1) bm1
    else some bm

/-- `fs_mount()`: result and new state. -/
def fs_mount (st : FsState) : Int × FsState :=
  let block := disk_read st.disk 0
  if (super_magic block) % 4294967296 ≠ FS_MAGIC then (0, st)
  else
    let bm0 : Int → Bool := Function.update (fun _ => false) 0 true
    let diskSize := disk_size st.disk
    match mountBlocks st.disk (super_ninodeblocks block) diskSize
        (super_ninodeblocks block).toNat 1 bm0 with
    | none => (0, { st with bitmap := fun _ => false, bitmapNull := true })
    | some bm =>
      (1, { st with fs_mounted := true, bitmap := bm, bitmapNull := false,
                    bitmapSize := super_nblocks block })

/-! ## `fs_create` -/

/-- The loop `for(j = 0; j < INODES_PER_BLOCK; j++)` of `fs_create`: the slot at
which it breaks, if any. -/
def createSlots (inodeB : Block) (i : Int) : Nat → Int → Option Int
  | 0, _ => none
  | n + 1, j =>
    if j < INODES_PER_BLOCK then
      if inode_isvalid inodeB j = 0 ∧ j + i ≠ 0 then some j
      else createSlots inodeB i n (j + 1)
    else none

/-- The loop `for(i= 0; i < super.super.ninodeblocks;i++)` of `fs_create`: the
values of `i`, `foundInode` and `inodeB` at the `break`, if any. -/
def createBlocks (d : Disk) (ninodeblocks : Int) : Nat → Int → Option (Int × Int × Block)
  | 0, _ => none
  | n + 1, i =>
    if i < ninodeblocks then
      let inodeB := disk_read d (i + 1)
      match createSlots inodeB i 128 0 with
      | some j => some (i, j, inodeB)
      | none => createBlocks d ninodeblocks n (i + 1)
    else none

/-- `fs_create()`: result and new state. -/
def fs_create (st : FsState) : Int × FsState :=
  if st.fs_mounted = false then (0, st)
  else
    let super := disk_read st.disk 0
    match createBlocks st.disk (super_ninodeblocks super) (super_ninodeblocks super).toNat 0 with
    | some (i, foundInode, inodeB) =>
      let inodeB := set_inode_isvalid inodeB foundInode 1
      let inodeB := set_inode_size inodeB foundInode 0
      (foundInode + i * INODES_PER_BLOCK,
        { st with disk := disk_write st.disk (i + 1) inodeB })
    | none => (0, st)

/-! ## The inode-number check shared by delete, getsize, read and write -/

/-- The test `inodeBlock > ninodeblocks || inumber > ninodes || inumber < 1`. -/
def badInumber (super : Block) (inumber : Int) : Bool :=
  decide (inumber.tdiv INODES_PER_BLOCK > super_ninodeblocks super)
    || decide (inumber > super_ninodes super) || decide (inumber < 1)

/-! ## `fs_delete` -/

/-- The loops over `direct[k]` and over `pointers[k]` in `fs_delete` have the
same body; this is that loop, `blk k` being the block number read at
iteration `k`. -/
def deleteLoop (ninodeblocks diskSize : Int) (blk : Int → Int) (bound : Int) :
    Nat → Int → (Int → Bool) → (Int → Bool)
  | 0, _, bm => bm
  | n + 1, k, bm =>
    if k < bound then
      let blockNum := blk k
      deleteLoop ninodeblocks diskSize blk bound n (k + 1)
        (if badBlock ninodeblocks diskSize blockNum then bm
         else Function.update bm blockNum false)
    else bm

/-- `fs_delete(inumber)`: result and new state. -/
def fs_delete (st : FsState) (inumber : Int) : Int × FsState :=
  if st.fs_mounted = false then (0, st)
  else
    let super := disk_read st.disk 0
    let inodeBlock := inumber.tdiv INODES_PER_BLOCK
    if badInumber super inumber then (0, st)
    else
      let inodeB := disk_read st.disk (inodeBlock + 1)
      let inodeIndex := inumber - INODES_PER_BLOCK * inodeBlock
      if inode_isvalid inodeB inodeIndex ≠ 0 then
        let diskSize := disk_size st.disk
        let nblocks := nblocksOf (inode_size inodeB inodeIndex)
        let direct_blocks := directBlocks nblocks
        let indirect_blocks := indirectBlocksCapped nblocks
        let bm1 := deleteLoop (super_ninodeblocks super) diskSize
          (inode_direct inodeB inodeIndex) direct_blocks direct_blocks.toNat 0 st.bitmap
        let bm2 :=
          if indirect_blocks > 0 then
            let pointers_block := disk_read st.disk (inode_indirect inodeB inodeIndex)
            Function.update
              (deleteLoop (super_ninodeblocks super) diskSize (pointers pointers_block)
                indirect_blocks indirect_blocks.toNat 0 bm1)
              (inode_indirect inodeB inodeIndex) false
          else bm1
        let inodeB := set_inode_size inodeB inodeIndex 0
        let inodeB := set_inode_isvalid inodeB inodeIndex 0
        (1, { st with disk := disk_write st.disk (inodeBlock + 1) inodeB, bitmap := bm2 })
      else (0, st)

/-! ## `fs_getsize` -/

/-- `fs_getsize(inumber)`. -/
def fs_getsize (st : FsState) (inumber : Int) : Int :=
  if st.fs_mounted = false then -1
  else
    let super := disk_read st.disk 0
    let inodeBlock := inumber.tdiv INODES_PER_BLOCK
    if badInumber super inumber then -1
    else
      let inodeB := disk_read st.disk (inodeBlock + 1)
      let inodeIndex := inumber - INODES_PER_BLOCK * inodeBlock
      if inode_isvalid inodeB inodeIndex ≠ 0 then inode_size inodeB inodeIndex
      else -1

/-! ## Start positions shared by read and write -/

/-- The value `startIndirectByte`. -/
def startIndirectByteOf (offset : Int) : Int :=
  let b := (offset - BYTES_PER_BLOCK * POINTERS_PER_INODE).tmod BYTES_PER_BLOCK
  if b < 0 then 0 else b

/-- The value `startIndirectBlock`. -/
def startIndirectBlockOf (offset : Int) : Int :=
  let b := (offset - BYTES_PER_BLOCK * POINTERS_PER_INODE).tdiv BYTES_PER_BLOCK
  if b < 0 then 0 else b

/-- The value that an `int` expression takes when its exact value is `x`: the
sum of two `int`s is computed in 32 bits and wraps around. -/
def int32 (x : Int) : Int := (x + 2147483648) % 4294967296 - 2147483648

/-- The number of bytes moved for one block (`to_read`, `to_write`), given the
bytes still wanted and the start byte of this block. -/
def chunk (remaining startByte : Int) : Int :=
  if startByte > 0 then
    (if remaining > BYTES_PER_BLOCK - startByte then BYTES_PER_BLOCK - startByte else remaining)
  else (if remaining > BYTES_PER_BLOCK then BYTES_PER_BLOCK else remaining)

/-! ## `fs_read` -/

/-- Local variables of `fs_read` that its loops change; `returned` records the
`return read` inside a loop. -/
structure ReadVars where
  data : Bytes
  read : Int
  startByte : Int
  returned : Bool

/-- One iteration of a read loop on block `blockNum`.  The `memmove` on the
not yet filled `readBlock` is overwritten by the `disk_read` that follows it
and is left out. -/
def readBody (d : Disk) (ninodeblocks diskSize length blockNum : Int) (v : ReadVars) : ReadVars :=
  if badBlock ninodeblocks diskSize blockNum then { v with returned := true }
  else
    let to_read := chunk (length - v.read) v.startByte
    let readBlock := disk_read d blockNum
    { v with data := memcpy v.data v.read readBlock 0 to_read,
             read := v.read + to_read, startByte := 0 }

/-- The loops `for(k = startDirectBlock; k < direct_blocks && read < length; k++)`
and `for(k = startIndirectBlock; k < indirect_blocks && read < length; k++)`
have the same body; this is that loop, `blk k` being the block number read at
iteration `k`. -/
def readLoop (d : Disk) (ninodeblocks diskSize length : Int) (blk : Int → Int) (bound : Int) :
    Nat → Int → ReadVars → ReadVars
  | 0, _, v => v
  | n + 1, k, v =>
    if k < bound ∧ v.read < length then
      let v1 := readBody d ninodeblocks diskSize length (blk k) v
      if v1.returned then v1
      else readLoop d ninodeblocks diskSize length blk bound n (k + 1) v1
    else v

/-- The part of `fs_read` inside `if(inodeB.inode[inodeIndex].isvalid)`: `inodeB`
is the inode block, `ninodeblocks` the superblock field.  The sum in the test
`length + offset > size` is an `int` and wraps around. -/
def readInode (d : Disk) (ninodeblocks : Int) (inodeB : Block) (inodeIndex : Int) (data : Bytes)
    (length offset : Int) : Int × Bytes :=
  let size := inode_size inodeB inodeIndex
  let length := if int32 (length + offset) > size then size - offset else length
  if offset > size then (0, data)
  else
    let diskSize := disk_size d
    let nblocks := nblocksOf size
    let startDirectByte := offset.tmod BYTES_PER_BLOCK
    let startIndirectByte := startIndirectByteOf offset
    let startDirectBlock := offset.tdiv BYTES_PER_BLOCK
    let startIndirectBlock := startIndirectBlockOf offset
    let direct_blocks := directBlocks nblocks
    let indirect_blocks := indirectBlocksCapped nblocks
    let v1 := readLoop d ninodeblocks diskSize length
      (inode_direct inodeB inodeIndex) direct_blocks
      (direct_blocks - startDirectBlock).toNat startDirectBlock
      { data := data, read := 0, startByte := startDirectByte, returned := false }
    if v1.returned then (v1.read, v1.data)
    else if indirect_blocks > 0 then
      let pointers_block := disk_read d (inode_indirect inodeB inodeIndex)
      let v2 := readLoop d ninodeblocks diskSize length
        (pointers pointers_block) indirect_blocks
        (indirect_blocks - startIndirectBlock).toNat
        startIndirectBlock { v1 with startByte := startIndirectByte }
      (v2.read, v2.data)
    else (v1.read, v1.data)

/-- `fs_read(inumber, data, length, offset)`: result and the caller's buffer
afterwards. -/
def fs_read (st : FsState) (inumber : Int) (data : Bytes) (length offset : Int) : Int × Bytes :=
  if st.fs_mounted = false then (0, data)
  else
    let super := disk_read st.disk 0
    let inodeBlock := inumber.tdiv INODES_PER_BLOCK
    if badInumber super inumber then (0, data)
    else
      let inodeB := disk_read st.disk (inodeBlock + 1)
      let inodeIndex := inumber - INODES_PER_BLOCK * inodeBlock
      if inode_isvalid inodeB inodeIndex ≠ 0 then
        readInode st.disk (super_ninodeblocks super) inodeB inodeIndex data length offset
      else (0, data)

/-! ## `fs_write` -/

/-- The value `blocksToAllocate`. -/
def blocksToAllocateOf (bytesToAllocate : Int) : Int :=
  if bytesToAllocate.tmod BYTES_PER_BLOCK ≠ 0 then bytesToAllocate.tdiv BYTES_PER_BLOCK + 1
  else bytesToAllocate.tdiv BYTES_PER_BLOCK

/-- Variables that the direct loop of `fs_write` changes. -/
structure WriteVars where
  st : FsState
  inodeB : Block
  written : Int
  startByte : Int
  changedInodeBlock : Bool
  ranOutOfMemory : Bool

/-- The first half of an iteration of the direct loop: the choice of `blockNum`. -/
def writeDirectPick (inodeIndex directAllocateIndex k : Int) (v : WriteVars) : Int × WriteVars :=
  if k > directAllocateIndex then
    let r := getNewInode v.st
    if r.1 < 0 then (r.1, { v with st := r.2, ranOutOfMemory := true })
    else (r.1, { v with st := r.2, inodeB := set_inode_direct v.inodeB inodeIndex k r.1,
                        changedInodeBlock := true })
  else (inode_direct v.inodeB inodeIndex k, v)

/-- One iteration of the direct loop of `fs_write`. -/
def writeDirectBody (ninodeblocks diskSize inodeIndex directAllocateIndex : Int) (data : Bytes)
    (length : Int) (writeBlock : Block) (k : Int) (v : WriteVars) : WriteVars :=
  let p := writeDirectPick inodeIndex directAllocateIndex k v
  let blockNum := p.1
  let v1 := p.2
  if badBlock ninodeblocks diskSize blockNum then v1
  else
    let to_write := chunk (length - v1.written) v1.startByte
    let writeBlock :=
      if v1.startByte > 0 then memcpy writeBlock v1.startByte data v1.written to_write
      else memcpy writeBlock 0 data v1.written to_write
    { v1 with st := { v1.st with disk := disk_write v1.st.disk blockNum writeBlock },
              written := v1.written + to_write, startByte := 0 }

/-- The loop `for(k = startDirectBlock; k < direct_blocks && written < length; k++)`. -/
def writeDirect (ninodeblocks diskSize inodeIndex directAllocateIndex : Int) (data : Bytes)
    (length : Int) (uninit : Int → Block) (direct_blocks : Int) : Nat → Int → WriteVars → WriteVars
  | 0, _, v => v
  | n + 1, k, v =>
    if k < direct_blocks ∧ v.written < length then
      writeDirect ninodeblocks diskSize inodeIndex directAllocateIndex data length uninit
        direct_blocks n (k + 1)
        (writeDirectBody ninodeblocks diskSize inodeIndex directAllocateIndex data length
          (uninit k) k v)
    else v

/-- Variables that the indirect loop of `fs_write` changes; `returned` records
the `return written` inside the loop. -/
structure WriteIndVars where
  st : FsState
  pointers_block : Block
  writeBlock : Block
  written : Int
  startByte : Int
  changedPointersBlock : Bool
  ranOutOfMemory : Bool
  returned : Bool

/-- The part of an iteration of the indirect loop after `blockNum` is known to
be `pointers_block.pointers[k]`. -/
def writeIndirectStore (ninodeblocks diskSize : Int) (data : Bytes) (length k : Int)
    (v : WriteIndVars) : WriteIndVars :=
  let blockNum := pointers v.pointers_block k
  if badBlock ninodeblocks diskSize blockNum then { v with returned := true }
  else
    let to_write := chunk (length - v.written) v.startByte
    let writeBlock :=
      if v.startByte > 0 then memcpy v.writeBlock v.startByte data v.written to_write
      else memcpy v.writeBlock 0 data v.written to_write
    { v with st := { v.st with disk := disk_write v.st.disk blockNum writeBlock },
             writeBlock := writeBlock, written := v.written + to_write, startByte := 0 }

/-- One iteration of the indirect loop of `fs_write`.  When `getNewInode` fails
the C code sets `ranOutOfMemory` and leaves the loop with `break`; here the
iteration ends with `ranOutOfMemory` set, which makes the next loop test
fail. -/
def writeIndirectBody (ninodeblocks diskSize indirectAllocateIndex : Int) (data : Bytes)
    (length k : Int) (v : WriteIndVars) : WriteIndVars :=
  if k > indirectAllocateIndex then
    let r := getNewInode v.st
    if r.1 < 0 then { v with st := r.2, ranOutOfMemory := true }
    else
      writeIndirectStore ninodeblocks diskSize data length k
        { v with st := r.2, pointers_block := set_pointers v.pointers_block k r.1,
                 changedPointersBlock := true }
  else writeIndirectStore ninodeblocks diskSize data length k v

/-- The loop `for(k = startIndirectBlock; k < indirect_blocks && written < length &&
!ranOutOfMemory; k++)`; it stops at the `return written` inside the body. -/
def writeIndirect (ninodeblocks diskSize indirectAllocateIndex : Int) (data : Bytes)
    (length indirect_blocks : Int) : Nat → Int → WriteIndVars → WriteIndVars
  | 0, _, v => v
  | n + 1, k, v =>
    if k < indirect_blocks ∧ v.written < length ∧ v.ranOutOfMemory = false then
      let v1 := writeIndirectBody ninodeblocks diskSize indirectAllocateIndex data length k v
      if v1.returned then v1
      else writeIndirect ninodeblocks diskSize indirectAllocateIndex data length
        indirect_blocks n (k + 1) v1
    else v

/-- The end of `fs_write`: the update of `size` and the result. -/
def writeFinish (st : FsState) (inodeBlock inodeIndex : Int) (inodeB : Block)
    (size offset written : Int) : Int × FsState :=
  let max_size := BYTES_PER_BLOCK * (POINTERS_PER_INODE + POINTERS_PER_BLOCK)
  if offset + written > size then
    let new_size := if offset + written > max_size then max_size else offset + written
    let inodeB := set_inode_size inodeB inodeIndex new_size
    (written, { st with disk := disk_write st.disk (inodeBlock + 1) inodeB })
  else (written, st)

/-- The allocation of the indirect block at the start of the indirect part of
`fs_write`: the new value of `ranOutOfMemory`, the new state and the new inode
block. -/
def allocIndirect (st1 : FsState) (inodeIndex : Int) (inodeB : Block)
    (allocateIndirectBlock : Bool) : Bool × FsState × Block :=
  if allocateIndirectBlock then
    let r := getNewInode st1
    if r.1 < 0 then (true, r.2, inodeB)
    else (false, r.2, set_inode_indirect inodeB inodeIndex r.1)
  else (false, st1, inodeB)

/-- The indirect part of `fs_write` after the allocation of the indirect block,
up to the end of the function. -/
def writeIndirectRun (st : FsState) (ranOutOfMemory : Bool) (ninodeblocks diskSize inodeBlock
    inodeIndex : Int) (inodeB2 : Block) (data : Bytes) (length : Int) (writeBlock : Block)
    (size offset : Int)
    (indirectAllocateIndex indirect_blocks startIndirectBlock startIndirectByte written : Int) :
    Int × FsState :=
  let pointers_block := disk_read st.disk (inode_indirect inodeB2 inodeIndex)
  let v2 := writeIndirect ninodeblocks diskSize indirectAllocateIndex
    data length indirect_blocks (indirect_blocks - startIndirectBlock).toNat
    startIndirectBlock
    { st := st, pointers_block := pointers_block, writeBlock := writeBlock,
      written := written, startByte := startIndirectByte,
      changedPointersBlock := false, ranOutOfMemory := ranOutOfMemory, returned := false }
  if v2.returned then (v2.written, v2.st)
  else
    let st2 : FsState :=
      if v2.changedPointersBlock then
        { v2.st with disk := disk_write v2.st.disk (inode_indirect inodeB2 inodeIndex)
                               v2.pointers_block }
      else v2.st
    writeFinish st2 inodeBlock inodeIndex inodeB2 size offset v2.written

/-- The indirect part of `fs_write`, entered when
`indirect_blocks > 0 && !ranOutOfMemory`, up to the end of the function: `st1`
and `inodeB` are the state and the inode block after the direct loop,
`written` the bytes written so far, `offset` the clamped offset. -/
def writeIndirectPart (st1 : FsState) (ninodeblocks diskSize inodeBlock inodeIndex : Int)
    (inodeB : Block) (data : Bytes) (length : Int) (writeBlock : Block) (size offset : Int)
    (allocateIndirectBlock : Bool)
    (indirectAllocateIndex indirect_blocks startIndirectBlock startIndirectByte written : Int) :
    Int × FsState :=
  let a := allocIndirect st1 inodeIndex inodeB allocateIndirectBlock
  writeIndirectRun a.2.1 a.1 ninodeblocks diskSize inodeBlock inodeIndex a.2.2 data length
    writeBlock size offset indirectAllocateIndex indirect_blocks startIndirectBlock
    startIndirectByte written

/-- The part of `fs_write` from `if(inodeB.inode[inodeIndex].isvalid)` to the
end: `inodeB` is the inode block read from block `inodeBlock + 1`,
`ninodeblocks` the superblock field. -/
def writeInode (st : FsState) (ninodeblocks inodeBlock inodeIndex : Int) (inodeB : Block)
    (data : Bytes) (length offset : Int) (uninit : Uninit) : Int × FsState :=
  let size := inode_size inodeB inodeIndex
  let diskSize := disk_size st.disk
  let onblocks := nblocksOf size
  let startDirectByte := offset.tmod BYTES_PER_BLOCK
  let startIndirectByte := startIndirectByteOf offset
  let startDirectBlock := offset.tdiv BYTES_PER_BLOCK
  let startIndirectBlock := startIndirectBlockOf offset
  let bytesToAllocate := (offset + length) - onblocks * BYTES_PER_BLOCK
  let blocksToAllocate := blocksToAllocateOf bytesToAllocate
  let directAllocateIndex :=
    if onblocks ≥ POINTERS_PER_INODE then POINTERS_PER_INODE - 1 else onblocks - 1
  let indirectAllocateIndex :=
    if onblocks ≥ POINTERS_PER_INODE then onblocks - POINTERS_PER_INODE - 1 else -1
  let nblocks := onblocks + blocksToAllocate
  let allocateIndirectBlock :=
    decide (onblocks ≤ POINTERS_PER_INODE) && decide (nblocks > POINTERS_PER_INODE)
  let offset := if offset > BYTES_PER_BLOCK * onblocks then BYTES_PER_BLOCK * onblocks else offset
  let direct_blocks := directBlocks nblocks
  let indirect_blocks := indirectBlocksCapped nblocks
  let v1 := writeDirect ninodeblocks diskSize inodeIndex directAllocateIndex
    data length uninit.direct direct_blocks (direct_blocks - startDirectBlock).toNat
    startDirectBlock
    { st := st, inodeB := inodeB, written := 0, startByte := startDirectByte,
      changedInodeBlock := false, ranOutOfMemory := false }
  let st1 : FsState :=
    if v1.changedInodeBlock then
      { v1.st with disk := disk_write v1.st.disk (inodeBlock + 1) v1.inodeB }
    else v1.st
  if indirect_blocks > 0 ∧ v1.ranOutOfMemory = false then
    writeIndirectPart st1 ninodeblocks diskSize inodeBlock inodeIndex v1.inodeB data length
      uninit.indirect size offset allocateIndirectBlock indirectAllocateIndex indirect_blocks
      startIndirectBlock startIndirectByte v1.written
  else writeFinish st1 inodeBlock inodeIndex v1.inodeB size offset v1.written

/-- `fs_write(inumber, data, length, offset)`: result and new state. -/
def fs_write (st : FsState) (inumber : Int) (data : Bytes) (length offset : Int)
    (uninit : Uninit) : Int × FsState :=
  if st.fs_mounted = false then (0, st)
  else
    let super := disk_read st.disk 0
    let inodeBlock := inumber.tdiv INODES_PER_BLOCK
    if badInumber super inumber then (0, st)
    else
      let inodeB := disk_read st.disk (inodeBlock + 1)
      let inodeIndex := inumber - INODES_PER_BLOCK * inodeBlock
      if inode_isvalid inodeB inodeIndex ≠ 0 then
        writeInode st (super_ninodeblocks super) inodeBlock inodeIndex inodeB data length offset
          uninit
      else (0, st)

/-! ## Vocabulary of the properties -/

/-- The superblock as the operations read it. -/
def superOf (st : FsState) : Block := disk_read st.disk 0

/-- The superblock's `ninodeblocks`. -/
def ninodeblocksOf (st : FsState) : Int := super_ninodeblocks (superOf st)

/-- The superblock's `ninodes`. -/
def ninodesOf (st : FsState) : Int := super_ninodes (superOf st)

/-- The inode block that holds inode number `n`. -/
def inodeBlockOf (d : Disk) (n : Int) : Block := disk_read d (n / 128 + 1)

/-- On-disk `isvalid` of inode number `n`. -/
def ino_isvalid (d : Disk) (n : Int) : Int := inode_isvalid (inodeBlockOf d n) (n % 128)

/-- On-disk `size` of inode number `n`. -/
def ino_size (d : Disk) (n : Int) : Int := inode_size (inodeBlockOf d n) (n % 128)

/-- On-disk `direct[k]` of inode number `n`. -/
def ino_direct (d : Disk) (n k : Int) : Int := inode_direct (inodeBlockOf d n) (n % 128) k

/-- On-disk `indirect` of inode number `n`. -/
def ino_indirect (d : Disk) (n : Int) : Int := inode_indirect (inodeBlockOf d n) (n % 128)

/-- The number of blocks of inode number `n`, `ceil(size/4096)`. -/
def ino_nblocks (d : Disk) (n : Int) : Int := nblocksOf (ino_size d n)

/-- The block number of logical block `l` of the inode in slot `j` of the inode
block `inodeB`: `direct[l]` for `l < 5`, entry `l - 5` of the indirect block
otherwise. -/
def slotFileBlock (d : Disk) (inodeB : Block) (j l : Int) : Int :=
  if l < POINTERS_PER_INODE then inode_direct inodeB j l
  else pointers (disk_read d (inode_indirect inodeB j)) (l - POINTERS_PER_INODE)

/-- The block number of logical block `l` of inode number `n`. -/
def fileBlock (d : Disk) (n l : Int) : Int := slotFileBlock d (inodeBlockOf d n) (n % 128) l

/-- Where `readLoop` takes the byte it stores at distance `rel` from the start
of its output, when it starts at index `k` with start byte `sb`: the index
into the block map and the byte within that block.  In the first block the
byte index does not include the start byte. -/
def readSrc (k sb rel : Int) : Int × Int :=
  (k + (rel + sb) / 4096, if rel + sb < 4096 then rel else (rel + sb) % 4096)

/-- The file byte of inode `n` at position `p`. -/
def fileByte (d : Disk) (n p : Int) : UInt8 :=
  disk_read d (fileBlock d n (p / BYTES_PER_BLOCK)) (p % BYTES_PER_BLOCK)

/-- The maximum file size `4096 * 1029`. -/
abbrev S_max : Int := 4214784

/-- Block `b` lies in the data region and is marked used. -/
def usedData (st : FsState) (b : Int) : Prop :=
  ninodeblocksOf st < b ∧ b < super_nblocks (superOf st) ∧ st.bitmap b = true

instance (st : FsState) (b : Int) : Decidable (usedData st b) := by
  unfold usedData; infer_instance

/-- The superblock agrees with the device and the session: `nblocks` is the
device size and the bitmap length, the inode table lies inside the device and
`ninodes = 128 * ninodeblocks`. -/
def SuperOK (st : FsState) : Prop :=
  super_nblocks (superOf st) = st.disk.nblocks ∧ st.bitmapSize = st.disk.nblocks
    ∧ 0 ≤ ninodeblocksOf st ∧ ninodeblocksOf st < st.disk.nblocks
    ∧ ninodesOf st = 128 * ninodeblocksOf st

instance (st : FsState) : Decidable (SuperOK st) := by
  unfold SuperOK; infer_instance

/-- Bits `0..ninodeblocks` of the bitmap are set. -/
def MetaUsed (st : FsState) : Prop :=
  ∀ b : Nat, b < (ninodeblocksOf st + 1).toNat → st.bitmap (b : Int) = true

instance (st : FsState) : Decidable (MetaUsed st) := by
  unfold MetaUsed; infer_instance

/-- Every inode's `isvalid` is 0 or 1 and every valid inode has
`0 ≤ size ≤ S_max`. -/
def SizesOK (st : FsState) : Prop :=
  ∀ n : Nat, n < (ninodesOf st).toNat →
    (ino_isvalid st.disk n = 0 ∨ ino_isvalid st.disk n = 1) ∧
    (ino_isvalid st.disk n ≠ 0 → 0 ≤ ino_size st.disk n ∧ ino_size st.disk n ≤ S_max)

instance (st : FsState) : Decidable (SizesOK st) := by
  unfold SizesOK; infer_instance

/-- Every data block reachable from a valid inode (its used direct pointers
and the used pointers of its indirect block) lies strictly between
`ninodeblocks` and `nblocks` and is marked used. -/
def ReachableOK (st : FsState) : Prop :=
  ∀ n : Nat, n < (ninodesOf st).toNat → ino_isvalid st.disk n ≠ 0 →
    ∀ l : Nat, l < (ino_nblocks st.disk n).toNat → usedData st (fileBlock st.disk n l)

instance (st : FsState) : Decidable (ReachableOK st) := by
  unfold ReachableOK; infer_instance

/-- The indirect block of every valid inode of more than 5 blocks lies strictly
between `ninodeblocks` and `nblocks` and is marked used. -/
def IndirectOK (st : FsState) : Prop :=
  ∀ n : Nat, n < (ninodesOf st).toNat → ino_isvalid st.disk n ≠ 0 →
    ino_nblocks st.disk n > POINTERS_PER_INODE → usedData st (ino_indirect st.disk n)

instance (st : FsState) : Decidable (IndirectOK st) := by
  unfold IndirectOK; infer_instance

/-- No data block of inode `n` is a data block of inode `m`, except a logical
block of one inode compared with itself. -/
def dataApart (st : FsState) (n m : Nat) : Prop :=
  ∀ l : Nat, l < (ino_nblocks st.disk n).toNat →
    ∀ l2 : Nat, l2 < (ino_nblocks st.disk m).toNat → (n ≠ m ∨ l ≠ l2) →
      fileBlock st.disk n l ≠ fileBlock st.disk m l2

instance (st : FsState) (n m : Nat) : Decidable (dataApart st n m) := by
  unfold dataApart; infer_instance

/-- The indirect block of inode `n`, when `n` has more than 5 blocks, is no data
block of inode `m` and, for `m ≠ n`, not the indirect block of `m`. -/
def indirectApart (st : FsState) (n m : Nat) : Prop :=
  ino_nblocks st.disk n > POINTERS_PER_INODE →
    (∀ l2 : Nat, l2 < (ino_nblocks st.disk m).toNat →
      ino_indirect st.disk n ≠ fileBlock st.disk m l2) ∧
    (ino_nblocks st.disk m > POINTERS_PER_INODE → n ≠ m →
      ino_indirect st.disk n ≠ ino_indirect st.disk m)

instance (st : FsState) (n m : Nat) : Decidable (indirectApart st n m) := by
  unfold indirectApart; infer_instance

/-- The data blocks reachable from two distinct valid inodes are disjoint. -/
def ReachableDisjoint (st : FsState) : Prop :=
  ∀ n : Nat, n < (ninodesOf st).toNat → ino_isvalid st.disk n ≠ 0 →
  ∀ m : Nat, m < (ninodesOf st).toNat → ino_isvalid st.disk m ≠ 0 → n ≠ m →
    dataApart st n m

instance (st : FsState) : Decidable (ReachableDisjoint st) := by
  unfold ReachableDisjoint; infer_instance

/-- All blocks reachable from valid inodes, indirect blocks included, are
pairwise distinct, within one inode and across inodes. -/
def AllDistinct (st : FsState) : Prop :=
  ∀ n : Nat, n < (ninodesOf st).toNat → ino_isvalid st.disk n ≠ 0 →
  ∀ m : Nat, m < (ninodesOf st).toNat → ino_isvalid st.disk m ≠ 0 →
    dataApart st n m ∧ indirectApart st n m

instance (st : FsState) : Decidable (AllDistinct st) := by
  unfold AllDistinct; infer_instance

/-- A mounted, well-formed state. -/
def WF (st : FsState) : Prop :=
  st.fs_mounted = true ∧ SuperOK st ∧ MetaUsed st ∧ SizesOK st ∧ ReachableOK st
    ∧ IndirectOK st ∧ AllDistinct st

instance (st : FsState) : Decidable (WF st) := by
  unfold WF; infer_instance

/-- The number of free bits of the bitmap. -/
def freeCount (st : FsState) : Nat :=
  (List.range st.bitmapSize.toNat).countP (fun i : Nat => st.bitmap (i : Int) == false)

/-- What the direct loop of `fs_write` guarantees, in any state, when it runs
over the indices `k ≤ l < db` from the variables `v` and ends with `r`. -/
structure DirectFrame (nib ds j dAI db L k : Int) (v r : WriteVars) : Prop where
  mounted : r.st.fs_mounted = v.st.fs_mounted
  bitmapSize : r.st.bitmapSize = v.st.bitmapSize
  bitmapNull : r.st.bitmapNull = v.st.bitmapNull
  nblocks : r.st.disk.nblocks = v.st.disk.nblocks
  bitmap_mono : ∀ b, v.st.bitmap b = true → r.st.bitmap b = true
  bitmap_range : ∀ b, (b < 0 ∨ v.st.bitmapSize ≤ b) → r.st.bitmap b = v.st.bitmap b
  written_ge : v.written ≤ r.written
  written_le : r.written ≤ L
  written_cap : r.written ≤ v.written + 4096 * max (db - k) 0
  startByte : 0 ≤ r.startByte ∧ r.startByte < 4096
  disk_bad : ∀ b, badBlock nib ds b = true → disk_read r.st.disk b = disk_read v.st.disk b
  disk_frame : ∀ b, v.st.bitmap b = true →
    (∀ l, k ≤ l → l < db → l ≤ dAI → b ≠ inode_direct v.inodeB j l) →
    disk_read r.st.disk b = disk_read v.st.disk b
  inode_frame : ∀ i, ¬ (8 * j + 2 + k ≤ i / 4 ∧ 8 * j + 2 + dAI < i / 4 ∧ i / 4 < 8 * j + 2 + db) →
    r.inodeB i = v.inodeB i
  unchanged : r.changedInodeBlock = false → r.inodeB = v.inodeB
  changed_mono : v.changedInodeBlock = true → r.changedInodeBlock = true
  ranOut_mono : v.ranOutOfMemory = true → r.ranOutOfMemory = true
  count : dAI < k → r.written + 4096 * (freeCount r.st : Int) ≤ v.written + 4096 * (freeCount v.st : Int)

/-- What the indirect loop of `fs_write` guarantees, in any state whose bitmap
is no longer than `2^31`, when it runs over the indices `k ≤ l < ib` from the
variables `v` and ends with `r`. -/
structure IndirectFrame (nib ds iAI ib L k : Int) (v r : WriteIndVars) : Prop where
  mounted : r.st.fs_mounted = v.st.fs_mounted
  bitmapSize : r.st.bitmapSize = v.st.bitmapSize
  bitmapNull : r.st.bitmapNull = v.st.bitmapNull
  nblocks : r.st.disk.nblocks = v.st.disk.nblocks
  bitmap_mono : ∀ b, v.st.bitmap b = true → r.st.bitmap b = true
  bitmap_range : ∀ b, (b < 0 ∨ v.st.bitmapSize ≤ b) → r.st.bitmap b = v.st.bitmap b
  written_ge : v.written ≤ r.written
  written_le : r.written ≤ L
  written_cap : r.written ≤ v.written + 4096 * max (ib - k) 0
  startByte : 0 ≤ r.startByte ∧ r.startByte < 4096
  disk_bad : ∀ b, badBlock nib ds b = true → disk_read r.st.disk b = disk_read v.st.disk b
  disk_frame : ∀ b, v.st.bitmap b = true →
    (∀ l, k ≤ l → l < ib → l ≤ iAI → b ≠ pointers v.pointers_block l) →
    disk_read r.st.disk b = disk_read v.st.disk b
  pointers_frame : ∀ i, ¬ (k ≤ i / 4 ∧ iAI < i / 4 ∧ i / 4 < ib) →
    r.pointers_block i = v.pointers_block i
  unchanged : r.changedPointersBlock = false → r.pointers_block = v.pointers_block
  changed_mono : v.changedPointersBlock = true → r.changedPointersBlock = true
  ranOut_mono : v.ranOutOfMemory = true → r.ranOutOfMemory = true
  count : iAI < k →
    r.written + 4096 * (freeCount r.st : Int) ≤ v.written + 4096 * (freeCount v.st : Int)
  stuck : v.ranOutOfMemory = true → r = v
  noreturn : v.returned = false → (∀ b, 0 ≤ b → b ≤ nib → v.st.bitmap b = true) →
    v.st.bitmapSize ≤ ds →
    (∀ l, k ≤ l → l < ib → l ≤ iAI → badBlock nib ds (pointers v.pointers_block l) = false) →
    r.returned = false

/-- What a part of `fs_write` that starts in state `st1` with `written` bytes
written and ends with result `r` guarantees about the session, the metadata
blocks and the inode in slot `j` of block `inodeBlock + 1`; `inodeB0` is that
inode block as it was when `fs_write` read it, `size` the old size and `offset`
the clamped offset; `fresh` says that every block the part writes is newly
allocated. -/
structure PartFrame (st1 : FsState) (nib inodeBlock j : Int) (inodeB0 : Block)
    (L size offset written cap : Int) (fresh : Prop) (r : Int × FsState) : Prop where
  mounted : r.2.fs_mounted = st1.fs_mounted
  bitmapSize : r.2.bitmapSize = st1.bitmapSize
  bitmapNull : r.2.bitmapNull = st1.bitmapNull
  nblocks : r.2.disk.nblocks = st1.disk.nblocks
  bitmap_mono : ∀ b, st1.bitmap b = true → r.2.bitmap b = true
  written_ge : written ≤ r.1
  written_le : r.1 ≤ L
  written_cap : r.1 ≤ written + 4096 * cap
  meta_frame : ∀ b, 0 ≤ b → b ≤ nib → b ≠ inodeBlock + 1 →
    disk_read r.2.disk b = disk_read st1.disk b
  inode_bytes : ∀ i, ¬ (8 * j + 1 ≤ i / 4 ∧ i / 4 ≤ 8 * j + 7) →
    disk_read r.2.disk (inodeBlock + 1) i = inodeB0 i
  inode_size : inode_size (disk_read r.2.disk (inodeBlock + 1)) j
    = if offset + r.1 > size then min (offset + r.1) S_max else size
  count : fresh → r.1 + 4096 * (freeCount r.2 : Int) ≤ written + 4096 * (freeCount st1 : Int)

/-- Block `b` of the device holds logical block `l` of the `L` bytes `W`: its
byte `i` is `W (4096 * l + i)` as far as the data reaches. -/
def Holds (d : Disk) (W : Bytes) (L l b : Int) : Prop :=
  ∀ i, 0 ≤ i → i < 4096 → 4096 * l + i < L → disk_read d b i = W (4096 * l + i)

/-- During a write of `W` that started in state `st0`: logical block `l` has
been stored in block `b`.  The block passes the range test, is marked used in
the current state `cur`, holds the data, and is either the block `blk0 l` that
the file had at `l` before the write (`l < onb`) or was free in `st0`. -/
structure Placed (st0 cur : FsState) (nib ds : Int) (blk0 : Int → Int) (onb : Int) (W : Bytes)
    (L l b : Int) : Prop where
  good : badBlock nib ds b = false
  used : cur.bitmap b = true
  origin : (l < onb ∧ b = blk0 l) ∨ st0.bitmap b = false
  holds : Holds cur.disk W L l b

/-- The invariant of the direct loop of a write of `W` at offset 0, before
iteration `k`: the bytes written so far, and where the logical blocks below `k`
have been placed; the direct pointers from `k` on are still those of the file
before the write. -/
structure DirectInv (st0 : FsState) (nib ds j : Int) (blk0 : Int → Int) (onb : Int) (W : Bytes)
    (L k : Int) (v : WriteVars) : Prop where
  bitmapSize : v.st.bitmapSize = ds
  nblocks : v.st.disk.nblocks = ds
  mono : ∀ b, st0.bitmap b = true → v.st.bitmap b = true
  written : v.written = min L (4096 * k)
  startByte : v.startByte = 0
  ranOut : v.ranOutOfMemory = false
  placed : ∀ l, 0 ≤ l → l < k →
    Placed st0 v.st nib ds blk0 onb W L l (inode_direct v.inodeB j l)
  pending : ∀ l, k ≤ l → l < onb → l < 5 → inode_direct v.inodeB j l = blk0 l

/-- The invariant of the indirect loop of a write of `W` at offset 0, before
iteration `k`; `dir` are the direct pointers after the direct loop and `P` is
the block number of the indirect block. -/
structure IndirectInv (st0 : FsState) (nib ds : Int) (blk0 : Int → Int) (onb : Int) (W : Bytes)
    (L : Int) (dir : Int → Int) (P k : Int) (v : WriteIndVars) : Prop where
  bitmapSize : v.st.bitmapSize = ds
  nblocks : v.st.disk.nblocks = ds
  mono : ∀ b, st0.bitmap b = true → v.st.bitmap b = true
  written : v.written = min L (4096 * (k + 5))
  startByte : v.startByte = 0
  ranOut : v.ranOutOfMemory = false
  returned : v.returned = false
  placedDirect : ∀ l, 0 ≤ l → l < 5 → Placed st0 v.st nib ds blk0 onb W L l (dir l)
  placed : ∀ l, 0 ≤ l → l < k →
    Placed st0 v.st nib ds blk0 onb W L (l + 5) (pointers v.pointers_block l)
  pending : ∀ l, k ≤ l → l + 5 < onb → pointers v.pointers_block l = blk0 (l + 5)
  ptrUsed : v.st.bitmap P = true
  ptrDirect : ∀ l, 0 ≤ l → l < 5 → dir l ≠ P
  ptrApart : ∀ l, 0 ≤ l → l < k → pointers v.pointers_block l ≠ P
  ptrDisk : v.changedPointersBlock = false → disk_read v.st.disk P = v.pointers_block

/-- The first `L` bytes of the file in slot `j` of inode block `iB + 1` are the
bytes `W`, held in blocks that pass the range test. -/
def Stored (st : FsState) (nib ds iB j : Int) (W : Bytes) (L : Int) : Prop :=
  ∀ l, 0 ≤ l → 4096 * l < L →
    badBlock nib ds (slotFileBlock st.disk (disk_read st.disk (iB + 1)) j l) = false ∧
    Holds st.disk W L l (slotFileBlock st.disk (disk_read st.disk (iB + 1)) j l)

/-- The number of blocks of a file of `size` bytes as the specification writes
it, `ceil(size/4096)`. -/
def specBlocks (size : Int) : Int := (size + 4095) / 4096

/-- Block `b` belongs to inode number `n` when a file of `size` bytes is taken
to have `cnt size` blocks: `b` is one of the first `min (cnt size) 5` direct
pointers or, when `cnt size > 5`, the indirect block or one of the first
`cnt size - 5` pointers stored in it. -/
def reachVia (cnt : Int → Int) (d : Disk) (n b : Int) : Prop :=
  (∃ k : Nat, k < (min (cnt (ino_size d n)) 5).toNat ∧ ino_direct d n k = b) ∨
  (cnt (ino_size d n) > 5 ∧
    (ino_indirect d n = b ∨
      ∃ k : Nat, k < (cnt (ino_size d n) - 5).toNat ∧
        pointers (disk_read d (ino_indirect d n)) k = b))

instance (cnt : Int → Int) (d : Disk) (n b : Int) : Decidable (reachVia cnt d n b) := by
  unfold reachVia; infer_instance

/-- Block `b` is the superblock or an inode block (`b ≤ nib`), or belongs, in
the sense of `reachVia`, to one of the `128 * nib` inodes of the inode table
whose `isvalid` is 1. -/
def markedVia (cnt : Int → Int) (d : Disk) (nib b : Int) : Prop :=
  b ≤ nib ∨ ∃ n : Nat, n < (128 * nib).toNat ∧ ino_isvalid d n = 1 ∧ reachVia cnt d n b

instance (cnt : Int → Int) (d : Disk) (nib b : Int) : Decidable (markedVia cnt d nib b) := by
  unfold markedVia; infer_instance

/-- The blocks whose bit `fs_mount` sets for the inode in slot `j` of the inode
block `inodeB`, once it has found `isvalid == 1` there. -/
def slotMarks (d : Disk) (inodeB : Block) (j b : Int) : Prop :=
  (∃ k, 0 ≤ k ∧ k < directBlocks (nblocksOf (inode_size inodeB j)) ∧
    inode_direct inodeB j k = b) ∨
  (indirectBlocks (nblocksOf (inode_size inodeB j)) > 0 ∧
    (inode_indirect inodeB j = b ∨
      ∃ k, 0 ≤ k ∧ k < indirectBlocks (nblocksOf (inode_size inodeB j)) ∧
        pointers (disk_read d (inode_indirect inodeB j)) k = b))

/-! ## Well-formedness as the specification lists it -/

/-- Well-formedness without the layout of the superblock: the state is
mounted, `nblocks` is the device size and the bitmap length, bits
`0..ninodeblocks` are set, every inode's `isvalid` is 0 or 1, every valid inode
has `0 ≤ size ≤ S_max`, every reachable block lies in the data region and is
marked used, and all reachable blocks are pairwise distinct.  `WF` adds
`0 ≤ ninodeblocks < nblocks` and `ninodes = 128 * ninodeblocks`. -/
def WFBare (st : FsState) : Prop :=
  st.fs_mounted = true ∧ super_nblocks (superOf st) = st.disk.nblocks
    ∧ st.bitmapSize = st.disk.nblocks ∧ MetaUsed st ∧ SizesOK st ∧ ReachableOK st
    ∧ IndirectOK st ∧ AllDistinct st

instance (st : FsState) : Decidable (WFBare st) := by
  unfold WFBare; infer_instance

/-- No block of inode `n`, its indirect block included, is a data block of
inode `m` or, for `m ≠ n`, the indirect block of `m`. -/
def pairApart (st : FsState) (n m : Nat) : Prop := dataApart st n m ∧ indirectApart st n m

instance (st : FsState) (n m : Nat) : Decidable (pairApart st n m) := by
  unfold pairApart; infer_instance

/-- No block reachable from a valid inode, its indirect block included, is
reachable from another valid inode. -/
def CrossApart (st : FsState) : Prop :=
  ∀ n : Nat, n < (ninodesOf st).toNat → ino_isvalid st.disk n ≠ 0 →
  ∀ m : Nat, m < (ninodesOf st).toNat → ino_isvalid st.disk m ≠ 0 → n ≠ m →
    pairApart st n m

instance (st : FsState) : Decidable (CrossApart st) := by
  unfold CrossApart; infer_instance

/-- The state is mounted, bits `0..ninodeblocks` of the bitmap are set, every
block reachable from a valid inode lies in the data region and is marked used,
and no such block is reachable from another valid inode. -/
def WFAcross (st : FsState) : Prop :=
  st.fs_mounted = true ∧ MetaUsed st ∧ ReachableOK st ∧ IndirectOK st ∧ CrossApart st

instance (st : FsState) : Decidable (WFAcross st) := by
  unfold WFAcross; infer_instance

/-- The indirect block of inode `a`, when `a` has more than 5 blocks, is none
of the five direct blocks of `a`. -/
def SelfApart (st : FsState) (a : Int) : Prop :=
  ino_nblocks st.disk a > 5 →
    ∀ l : Nat, l < 5 → ino_indirect st.disk a ≠ ino_direct st.disk a l

instance (st : FsState) (a : Int) : Decidable (SelfApart st a) := by
  unfold SelfApart; infer_instance

/-- What a write to inode `a` relies on when `a` has more than 5 blocks: its
indirect block lies behind the inode table, is marked used and is none of its
direct blocks, and the pointers in use in the indirect block pass the range
test. -/
def TargetOK (st : FsState) (a : Int) : Prop :=
  ino_nblocks st.disk a > 5 →
    ninodeblocksOf st < ino_indirect st.disk a ∧
    st.bitmap (ino_indirect st.disk a) = true ∧
    (∀ l, 0 ≤ l → l < 5 → ino_indirect st.disk a ≠ ino_direct st.disk a l) ∧
    (∀ l, 5 ≤ l → l < ino_nblocks st.disk a →
      badBlock (ninodeblocksOf st) (disk_size st.disk) (fileBlock st.disk a l) = false)

/-! ## Vocabulary of the growth of a file during a write -/

/-- During a write that started in state `st0`: block `b` has been newly
allocated.  It passes the range test, was free in `st0` and is marked used in
the current state `cur`. -/
def Fresh (st0 cur : FsState) (nib ds b : Int) : Prop :=
  badBlock nib ds b = false ∧ st0.bitmap b = false ∧ cur.bitmap b = true

/-- The block number recorded for logical block `l` when the direct pointers
are `dir` and the indirect block holds `pb`. -/
def slotPtr (dir : Int → Int) (pb : Block) (l : Int) : Int :=
  if l < 5 then dir l else pointers pb (l - 5)

/-- How far a write of `L` bytes at `offset`, started in state `st0` on a file
of `onb` blocks, has come: `m` is the fill level, the number of leading
logical blocks that have been handled without the allocator failing; `ptr l`
is the block number now recorded for logical block `l`.  The bytes written so
far end at or before logical block `m`, and the logical blocks from `onb` up to
`m` sit in newly allocated, pairwise distinct blocks.  `ranOut` is only set
when no free block is left. -/
structure Fill (st0 cur : FsState) (nib ds onb offset L m : Int) (ptr : Int → Int)
    (written startByte : Int) (ranOut : Bool) : Prop where
  bitmapSize : cur.bitmapSize = ds
  mono : ∀ b, st0.bitmap b = true → cur.bitmap b = true
  full : ranOut = true → ∀ b, 0 ≤ b → b < ds → cur.bitmap b = true
  written_nn : 0 ≤ written
  sb_range : 0 ≤ startByte ∧ startByte < 4096
  bytes : 0 < L → offset + written ≤ 4096 * m + startByte
  start : startByte = 0 ∨ written = 0
  fresh : ∀ l, onb ≤ l → l < m → Fresh st0 cur nib ds (ptr l)
  apart : ∀ l l2, onb ≤ l → l < l2 → l2 < m → ptr l ≠ ptr l2

/-- The shape of the inode in slot `j` of inode block `iB + 1` after a write
with result `r` that started in state `st0`, where the inode block was `B0`
and the file had `onb` blocks: the first `onb` logical blocks are where they
were, the logical blocks from `onb` on sit in newly allocated, pairwise
distinct blocks, and the indirect block is the old one or, when the file had
at most 5 blocks and now has more, newly allocated and none of the new data
blocks. -/
structure WShape (st0 : FsState) (nib ds iB j : Int) (B0 : Block) (onb : Int)
    (r : Int × FsState) : Prop where
  old : ∀ l, 0 ≤ l → l < onb →
    slotFileBlock r.2.disk (disk_read r.2.disk (iB + 1)) j l = slotFileBlock st0.disk B0 j l
  fresh : ∀ l, onb ≤ l → l < nblocksOf (inode_size (disk_read r.2.disk (iB + 1)) j) →
    Fresh st0 r.2 nib ds (slotFileBlock r.2.disk (disk_read r.2.disk (iB + 1)) j l)
  apart : ∀ l l2, onb ≤ l → l < l2 →
    l2 < nblocksOf (inode_size (disk_read r.2.disk (iB + 1)) j) →
    slotFileBlock r.2.disk (disk_read r.2.disk (iB + 1)) j l
      ≠ slotFileBlock r.2.disk (disk_read r.2.disk (iB + 1)) j l2
  ind_old : onb > 5 → inode_indirect (disk_read r.2.disk (iB + 1)) j = inode_indirect B0 j
  ind_new : onb ≤ 5 → nblocksOf (inode_size (disk_read r.2.disk (iB + 1)) j) > 5 →
    Fresh st0 r.2 nib ds (inode_indirect (disk_read r.2.disk (iB + 1)) j) ∧
    ∀ l, onb ≤ l → l < nblocksOf (inode_size (disk_read r.2.disk (iB + 1)) j) →
      slotFileBlock r.2.disk (disk_read r.2.disk (iB + 1)) j l
        ≠ inode_indirect (disk_read r.2.disk (iB + 1)) j

/-! ## Concrete states -/

/-- The superblock of a formatted 20-block device. -/
def sb20 : Block := setInt (setInt (setInt (setInt zeroBlock 0 FS_MAGIC) 1 20) 2 2) 3 256

/-- A 20-block device holding a superblock and nothing else. -/
def disk20 : Disk := { nblocks := 20, blocks := fun b => if b = 0 then sb20 else zeroBlock }

/-- The 20-block device, mounted: bits 0, 1, 2 of the bitmap are set. -/
def fresh20 : FsState :=
  { disk := disk20, fs_mounted := true, bitmap := fun b => decide (b < 3), bitmapNull := false,
    bitmapSize := 20 }

/-- The bytes of "hello". -/
def hello : Bytes := fun i =>
  if i = 0 then 104 else if i = 1 then 101 else if i = 2 then 108 else if i = 3 then 108
  else if i = 4 then 111 else 0

/-- The bytes of "WORLD". -/
def world : Bytes := fun i =>
  if i = 0 then 87 else if i = 1 then 79 else if i = 2 then 82 else if i = 3 then 76
  else if i = 4 then 68 else 0

/-- Local buffers that happen to hold zeros. -/
def zeroUninit : Uninit := { direct := fun _ => zeroBlock, indirect := zeroBlock }

/-- The state `fresh20` after `fs_create()`, which returns 1. -/
def created20 : FsState := (fs_create fresh20).2

/-- The state `created20` after `fs_write(1, "hello", 5, 0)`. -/
def hello20 : FsState := (fs_write created20 1 hello 5 0 zeroUninit).2

/-- The state `hello20` after a second `fs_create()`, which returns 2. -/
def created2 : FsState := (fs_create hello20).2

/-- Scenario 3 of the specification: `created2` after
`fs_write(2, zeros, 5*4096+100, 0)`. -/
def scenario3 : FsState := (fs_write created2 2 zeroBlock 20580 0 zeroUninit).2

/-- An unmounted session on the device of a state. -/
def unmounted (d : Disk) : FsState :=
  { disk := d, fs_mounted := false, bitmap := fun _ => false, bitmapNull := true, bitmapSize := 0 }

/-- A 22-block device of zeros, nothing mounted. -/
def blank22 : FsState := unmounted { nblocks := 22, blocks := fun _ => zeroBlock }

/-- An inode block in which inode 1 has `isvalid = 1`, `size = -1` and
`direct[0] = 5`. -/
def negsizeBlock : Block :=
  set_inode_direct (set_inode_size (set_inode_isvalid zeroBlock 1 1) 1 (-1)) 1 0 5

/-- A 20-block image with the superblock `sb20` whose inode 1 has size -1. -/
def negsize20 : FsState :=
  unmounted { nblocks := 20,
              blocks := fun b => if b = 0 then sb20 else if b = 1 then negsizeBlock
                else zeroBlock }

/-- An inode block in which inode 1 has `isvalid = 1`, `size = 6 * 4096`, the
direct pointers 3..7 and `indirect = 1`, the number of this very inode block;
word 0 of the block (the field `isvalid` of inode 0) is 8. -/
def selfIndirectBlock : Block :=
  set_inode_indirect
    (set_inode_direct (set_inode_direct (set_inode_direct (set_inode_direct (set_inode_direct
      (set_inode_size (set_inode_isvalid (set_inode_isvalid zeroBlock 0 8) 1 1) 1 24576)
      1 0 3) 1 1 4) 1 2 5) 1 3 6) 1 4 7)
    1 1

/-- A 20-block image with the superblock `sb20` whose inode 1 names inode
block 1 as its indirect block. -/
def selfIndirect20 : FsState :=
  unmounted { nblocks := 20,
              blocks := fun b => if b = 0 then sb20 else if b = 1 then selfIndirectBlock
                else zeroBlock }

/-- The state `created20` after `fs_write(1, "hello", 5, 8192)`. -/
def holed20 : FsState := (fs_write created20 1 hello 5 8192 zeroUninit).2

/-- The state `created20` after `fs_write(1, zeros, 5*4096, 0)`: inode 1 has
exactly 5 blocks. -/
def five20 : FsState := (fs_write created20 1 zeroBlock 20480 0 zeroUninit).2

/-- The first 32 bytes are an inode record with `isvalid = 1`,
`size = 6 * 4096`, direct pointers 0 and `indirect = 1`. -/
def forgedInode : Bytes :=
  set_inode_indirect (set_inode_size (set_inode_isvalid zeroBlock 0 1) 0 24576) 0 1

/-- The state after `fs_mount()` on the formatted 20-block device `disk20`. -/
def mounted20 : FsState := (fs_mount (unmounted disk20)).2

/-- The state `mounted20` after `fs_create()`, which returns 1, and
`fs_write(1, forgedInode, 32, 0)`. -/
def forged20 : FsState := (fs_write (fs_create mounted20).2 1 forgedInode 32 0 zeroUninit).2

/-- A superblock for 20 blocks with `ninodeblocks = 1` but `ninodes = 2`. -/
def sbNarrow : Block := setInt (setInt (setInt (setInt zeroBlock 0 FS_MAGIC) 1 20) 2 1) 3 2

/-- An inode block in which inode 1 is valid and empty. -/
def oneInodeBlock : Block := set_inode_size (set_inode_isvalid zeroBlock 1 1) 1 0

/-- The state after `fs_mount()` on a 20-block image with the superblock
`sbNarrow` in which inode 1 is valid and empty. -/
def narrow20 : FsState :=
  (fs_mount (unmounted
    { nblocks := 20
      blocks := fun b => if b = 0 then sbNarrow else if b = 1 then oneInodeBlock
        else zeroBlock })).2

/-- A superblock for 20 blocks with `ninodeblocks = 1` but `ninodes = 256`. -/
def sbWide : Block := setInt (setInt (setInt (setInt zeroBlock 0 FS_MAGIC) 1 20) 2 1) 3 256

/-- The state after `fs_mount()` on a 20-block image with the superblock
`sbWide` in which inode 1 is valid and empty and all other blocks are zero. -/
def wide20 : FsState :=
  (fs_mount (unmounted
    { nblocks := 20
      blocks := fun b => if b = 0 then sbWide else if b = 1 then oneInodeBlock
        else zeroBlock })).2

/-- A block whose first word is 7. -/
def seven : Bytes := fun i => if i = 0 then 7 else 0

/-- A block read as an inode block in which the inode in slot 2 is valid and
empty. -/
def slotTwoBlock : Block := set_inode_size (set_inode_isvalid zeroBlock 2 1) 2 0

/-- The state after `fs_mount()` on a 20-block image with the superblock
`sbWide` in which inode 1 is valid and empty and block 2, which the inode
numbers 128..255 address, holds a valid empty inode 130. -/
def wideTwo20 : FsState :=
  (fs_mount (unmounted
    { nblocks := 20
      blocks := fun b => if b = 0 then sbWide else if b = 1 then oneInodeBlock
        else if b = 2 then slotTwoBlock else zeroBlock })).2

/-- A superblock that claims 40 blocks, with `ninodeblocks = 2` and
`ninodes = 256`. -/
def sbOver : Block := setInt (setInt (setInt (setInt zeroBlock 0 FS_MAGIC) 1 40) 2 2) 3 256

/-- The state after `fs_mount()` and `fs_create()`, which returns 1, on a
20-block device whose superblock `sbOver` claims 40 blocks. -/
def over20 : FsState :=
  (fs_create (fs_mount (unmounted
    { nblocks := 20
      blocks := fun b => if b = 0 then sbOver else zeroBlock })).2).2

/-- A block whose first word is 9. -/
def nine : Bytes := fun i => if i = 0 then 9 else 0

/-- An inode block in which inode 1 has `isvalid = 1`, `size = 6 * 4096`, the
direct pointers 3..7 and `indirect = 3`, its own first direct block, and
inode 2 has `isvalid = 1`, `size = 4096` and `direct[0] = 9`. -/
def aliasInodeBlock : Block :=
  set_inode_direct (set_inode_size (set_inode_isvalid
    (set_inode_indirect
      (set_inode_direct (set_inode_direct (set_inode_direct (set_inode_direct (set_inode_direct
        (set_inode_size (set_inode_isvalid zeroBlock 1 1) 1 24576)
        1 0 3) 1 1 4) 1 2 5) 1 3 6) 1 4 7)
      1 3)
    2 1) 2 4096) 2 0 9

/-- A block that, read as an indirect block, has the pointer 8 in entry 0. -/
def aliasPointers : Block := set_pointers zeroBlock 0 8

/-- The state after `fs_mount()` on a 20-block image with the superblock `sb20`
in which inode 1 has six blocks, 3..7 and 8, with block 3 also serving as its
indirect block, and inode 2 has the one block 9, which holds "hello". -/
def aliased20 : FsState :=
  (fs_mount (unmounted
    { nblocks := 20
      blocks := fun b => if b = 0 then sb20 else if b = 1 then aliasInodeBlock
        else if b = 3 then aliasPointers else if b = 9 then hello else zeroBlock })).2

/-! ## Basic facts: words, device, arithmetic -/

theorem toNat_ofNat_u8 (n : Nat) : (UInt8.ofNat n).toNat = n % 256 := rfl

theorem getU32_lt (b : Block) (w : Int) : getU32 b w < 4294967296 := by
  unfold getU32
  have h0 := UInt8.toNat_lt (b (4 * w))
  have h1 := UInt8.toNat_lt (b (4 * w + 1))
  have h2 := UInt8.toNat_lt (b (4 * w + 2))
  have h3 := UInt8.toNat_lt (b (4 * w + 3))
  norm_num at h0 h1 h2 h3
  omega

theorem getInt_range (b : Block) (w : Int) :
    -2147483648 ≤ getInt b w ∧ getInt b w < 2147483648 := by
  have h := getU32_lt b w
  unfold getInt
  split <;> omega

theorem getU32_setInt_same (b : Block) (w v : Int) :
    getU32 (setInt b w v) w = (v % 4294967296).toNat := by
  have e0 : (4 * w) / 4 = w := by omega
  have e1 : (4 * w + 1) / 4 = w := by omega
  have e2 : (4 * w + 2) / 4 = w := by omega
  have e3 : (4 * w + 3) / 4 = w := by omega
  have m0 : ((4 * w) % 4).toNat = 0 := by omega
  have m1 : ((4 * w + 1) % 4).toNat = 1 := by omega
  have m2 : ((4 * w + 2) % 4).toNat = 2 := by omega
  have m3 : ((4 * w + 3) % 4).toNat = 3 := by omega
  have hx : (v % 4294967296).toNat < 4294967296 := by omega
  simp only [getU32, setInt, e0, e1, e2, e3, m0, m1, m2, m3, if_true, toNat_ofNat_u8]
  norm_num
  omega

theorem getInt_setInt_same (b : Block) (w v : Int) (h1 : -2147483648 ≤ v) (h2 : v < 2147483648) :
    getInt (setInt b w v) w = v := by
  unfold getInt
  rw [getU32_setInt_same]
  split <;> omega

theorem setInt_other (b : Block) (w v i : Int) (h : i / 4 ≠ w) : setInt b w v i = b i := by
  simp [setInt, h]

theorem getInt_setInt_ne (b : Block) (w w' v : Int) (h : w' ≠ w) :
    getInt (setInt b w v) w' = getInt b w' := by
  have e0 : (4 * w') / 4 ≠ w := by omega
  have e1 : (4 * w' + 1) / 4 ≠ w := by omega
  have e2 : (4 * w' + 2) / 4 ≠ w := by omega
  have e3 : (4 * w' + 3) / 4 ≠ w := by omega
  simp only [getInt, getU32, setInt_other _ _ _ _ e0, setInt_other _ _ _ _ e1,
    setInt_other _ _ _ _ e2, setInt_other _ _ _ _ e3]

theorem disk_write_nblocks (d : Disk) (b : Int) (x : Block) : (disk_write d b x).nblocks = d.nblocks := by
  unfold disk_write; split <;> rfl

theorem disk_read_write_same (d : Disk) (b : Int) (x : Block) (h0 : 0 ≤ b) (h1 : b < d.nblocks) :
    disk_read (disk_write d b x) b = x := by
  simp [disk_read, disk_write, h0, h1]

theorem disk_read_write_ne (d : Disk) (b b' : Int) (x : Block) (h : b' ≠ b) :
    disk_read (disk_write d b x) b' = disk_read d b' := by
  unfold disk_write disk_read
  split
  · simp [Function.update_noteq h]
  · rfl

theorem slotFileBlock_direct (d : Disk) (inodeB : Block) (j l : Int) (hl : l < 5) :
    slotFileBlock d inodeB j l = inode_direct inodeB j l := by
  unfold slotFileBlock; simp only [POINTERS_PER_INODE]; simp [hl]

theorem slotFileBlock_indirect (d : Disk) (inodeB : Block) (j l : Int) (hl : 5 ≤ l) :
    slotFileBlock d inodeB j l = pointers (disk_read d (inode_indirect inodeB j)) (l - 5) := by
  unfold slotFileBlock; simp only [POINTERS_PER_INODE]
  have : ¬ l < 5 := by omega
  simp [this]

theorem fileBlock_direct (d : Disk) (n l : Int) (hl : l < 5) :
    fileBlock d n l = ino_direct d n l := slotFileBlock_direct _ _ _ _ hl

theorem fileBlock_indirect (d : Disk) (n l : Int) (hl : 5 ≤ l) :
    fileBlock d n l = pointers (disk_read d (ino_indirect d n)) (l - 5) :=
  slotFileBlock_indirect _ _ _ _ hl

theorem int32_id (x : Int) (h0 : -2147483648 ≤ x) (h1 : x < 2147483648) : int32 x = x := by
  unfold int32
  omega

theorem tdiv_nonneg_eq (a b : Int) (ha : 0 ≤ a) (hb : 0 ≤ b) : a.tdiv b = a / b :=
  Int.tdiv_eq_ediv ha hb

theorem tmod_nonneg_eq (a b : Int) (ha : 0 ≤ a) (hb : 0 ≤ b) : a.tmod b = a % b :=
  Int.tmod_eq_emod ha hb

theorem nblocksOf_nonneg (s : Int) (h : 0 ≤ s) : nblocksOf s = (s + 4095) / 4096 := by
  unfold nblocksOf
  rw [Int.tdiv_eq_ediv h (by decide), Int.tmod_eq_emod h (by decide)]
  simp only [BYTES_PER_BLOCK]
  split <;> omega

theorem getNewInodeLoop_spec (st : FsState) (n : Nat) (i : Int) :
    (getNewInodeLoop st n i = (-1, st) ∧
        ∀ j, i ≤ j → j < i + n → j < st.bitmapSize → st.bitmap j = true) ∨
    (∃ r, i ≤ r ∧ r < i + n ∧ r < st.bitmapSize ∧ st.bitmap r = false ∧
        (∀ j, i ≤ j → j < r → st.bitmap j = true) ∧
        getNewInodeLoop st n i = (r, { st with bitmap := Function.update st.bitmap r true })) := by
  induction n generalizing i with
  | zero =>
    left
    refine ⟨rfl, ?_⟩
    intro j h1 h2; simp at h2; omega
  | succ n ih =>
    unfold getNewInodeLoop
    by_cases hlt : i < st.bitmapSize
    · by_cases hb : st.bitmap i = false
      · right
        refine ⟨i, le_refl _, by push_cast; omega, hlt, hb, ?_, ?_⟩
        · intro j h1 h2; omega
        · simp [hlt, hb]
      · simp only [hlt, hb, if_true, if_false]
        rcases ih (i + 1) with ⟨h1, h2⟩ | ⟨r, h1, h2, h3, h4, h5, h6⟩
        · left
          refine ⟨h1, ?_⟩
          intro j hj1 hj2 hj3
          by_cases hji : j = i
          · subst hji; simpa using hb
          · exact h2 j (by omega) (by push_cast at hj2; omega) hj3
        · right
          refine ⟨r, by omega, by push_cast; omega, h3, h4, ?_, h6⟩
          intro j hj1 hj2
          by_cases hji : j = i
          · subst hji; simpa using hb
          · exact h5 j (by omega) hj2
    · left
      simp only [hlt, if_false]
      refine ⟨trivial, ?_⟩
      intro j h1 h2 h3; omega

theorem getNewInode_spec (st : FsState) :
    (getNewInode st = (-1, st) ∧ ∀ j, 0 ≤ j → j < st.bitmapSize → st.bitmap j = true) ∨
    (∃ r, 0 ≤ r ∧ r < st.bitmapSize ∧ st.bitmap r = false ∧
        (∀ j, 0 ≤ j → j < r → st.bitmap j = true) ∧
        getNewInode st = (r, { st with bitmap := Function.update st.bitmap r true })) := by
  unfold getNewInode
  rcases getNewInodeLoop_spec st st.bitmapSize.toNat 0 with ⟨h1, h2⟩ | ⟨r, h1, h2, h3, h4, h5, h6⟩
  · left
    refine ⟨h1, ?_⟩
    intro j hj1 hj2
    exact h2 j hj1 (by omega) hj2
  · right
    exact ⟨r, h1, h3, h4, h5, h6⟩

theorem countP_range_congr (p q : Nat → Bool) (N : Nat) (h : ∀ i, i < N → p i = q i) :
    (List.range N).countP p = (List.range N).countP q := by
  apply List.countP_congr
  intro x hx
  rw [List.mem_range] at hx
  rw [h x hx]

theorem countP_range_update (p : Int → Bool) (r : Nat) (N : Nat) (hr : r < N)
    (hp : p r = false) :
    (List.range N).countP (fun i : Nat => Function.update p (r : Int) true (i : Int) == false) + 1
      = (List.range N).countP (fun i : Nat => p (i : Int) == false) := by
  induction N with
  | zero => omega
  | succ N ih =>
    rw [List.range_succ, List.countP_append, List.countP_append]
    by_cases hrN : r < N
    · have := ih hrN
      have hne : ((N : Nat) : Int) ≠ (r : Int) := by omega
      simp only [List.countP_cons, List.countP_nil, Function.update_noteq hne]
      omega
    · have hrN2 : r = N := by omega
      subst hrN2
      have hc : (List.range r).countP (fun i : Nat => Function.update p (r : Int) true (i : Int) == false)
          = (List.range r).countP (fun i : Nat => p (i : Int) == false) := by
        apply countP_range_congr
        intro i hi
        have hne : ((i : Nat) : Int) ≠ (r : Int) := by omega
        simp only [Function.update_noteq hne]
      rw [hc]
      simp [hp]

theorem freeCount_zero_of_full (st : FsState)
    (h : ∀ j, 0 ≤ j → j < st.bitmapSize → st.bitmap j = true) : freeCount st = 0 := by
  unfold freeCount
  rw [List.countP_eq_zero]
  intro a ha
  rw [List.mem_range] at ha
  have := h a (by omega) (by omega)
  simp [this]

theorem freeCount_alloc (st : FsState) (r : Int) (h0 : 0 ≤ r) (h1 : r < st.bitmapSize)
    (hb : st.bitmap r = false) :
    freeCount { st with bitmap := Function.update st.bitmap r true } + 1 = freeCount st := by
  unfold freeCount
  have hr : (r.toNat : Int) = r := by omega
  have := countP_range_update st.bitmap r.toNat st.bitmapSize.toNat (by omega) (by rw [hr]; exact hb)
  rw [hr] at this
  exact this

theorem freeCount_pos_of_free (st : FsState) (r : Int) (h0 : 0 ≤ r) (h1 : r < st.bitmapSize)
    (hb : st.bitmap r = false) : 0 < freeCount st := by
  have := freeCount_alloc st r h0 h1 hb
  omega

/-! ## `fs_create` -/

theorem createSlots_spec (inodeB : Block) (i : Int) (n : Nat) (j : Int) :
    (createSlots inodeB i n j = none ∧
        ∀ j2, j ≤ j2 → j2 < j + n → j2 < 128 → ¬ (inode_isvalid inodeB j2 = 0 ∧ j2 + i ≠ 0)) ∨
    (∃ r, j ≤ r ∧ r < j + n ∧ r < 128 ∧ inode_isvalid inodeB r = 0 ∧ r + i ≠ 0 ∧
        (∀ j2, j ≤ j2 → j2 < r → ¬ (inode_isvalid inodeB j2 = 0 ∧ j2 + i ≠ 0)) ∧
        createSlots inodeB i n j = some r) := by
  induction n generalizing j with
  | zero =>
    left
    refine ⟨rfl, ?_⟩
    intro j2 h1 h2; simp at h2; omega
  | succ n ih =>
    unfold createSlots
    by_cases hlt : j < INODES_PER_BLOCK
    · by_cases hb : inode_isvalid inodeB j = 0 ∧ j + i ≠ 0
      · right
        refine ⟨j, le_refl _, by push_cast; omega, hlt, hb.1, hb.2, ?_, ?_⟩
        · intro j2 h1 h2; omega
        · simp only [hlt, hb, if_true, and_self, ne_eq, not_false_eq_true]
      · simp only [hlt, hb, if_true, if_false]
        rcases ih (j + 1) with ⟨h1, h2⟩ | ⟨r, h1, h2, h3, h4, h5, h6, h7⟩
        · left
          refine ⟨h1, ?_⟩
          intro j2 hj1 hj2 hj3
          by_cases hji : j2 = j
          · subst hji; exact hb
          · exact h2 j2 (by omega) (by push_cast at hj2; omega) hj3
        · right
          refine ⟨r, by omega, by push_cast; omega, h3, h4, h5, ?_, h7⟩
          intro j2 hj1 hj2
          by_cases hji : j2 = j
          · subst hji; exact hb
          · exact h6 j2 (by omega) hj2
    · left
      simp only [hlt, if_false]
      refine ⟨trivial, ?_⟩
      intro j2 h1 h2 h3
      simp only [INODES_PER_BLOCK] at hlt
      omega

theorem createBlocks_spec (d : Disk) (nib : Int) (n : Nat) (i : Int) :
    (createBlocks d nib n i = none ∧
        ∀ i2, i ≤ i2 → i2 < i + n → i2 < nib → ∀ j2, 0 ≤ j2 → j2 < 128 →
          ¬ (inode_isvalid (disk_read d (i2 + 1)) j2 = 0 ∧ j2 + i2 ≠ 0)) ∨
    (∃ r j, i ≤ r ∧ r < i + n ∧ r < nib ∧ 0 ≤ j ∧ j < 128 ∧
        inode_isvalid (disk_read d (r + 1)) j = 0 ∧ j + r ≠ 0 ∧
        (∀ i2, i ≤ i2 → i2 < r → ∀ j2, 0 ≤ j2 → j2 < 128 →
          ¬ (inode_isvalid (disk_read d (i2 + 1)) j2 = 0 ∧ j2 + i2 ≠ 0)) ∧
        (∀ j2, 0 ≤ j2 → j2 < j → ¬ (inode_isvalid (disk_read d (r + 1)) j2 = 0 ∧ j2 + r ≠ 0)) ∧
        createBlocks d nib n i = some (r, j, disk_read d (r + 1))) := by
  induction n generalizing i with
  | zero =>
    left
    refine ⟨rfl, ?_⟩
    intro i2 h1 h2; simp at h2; omega
  | succ n ih =>
    unfold createBlocks
    by_cases hlt : i < nib
    · simp only [hlt, if_true]
      rcases createSlots_spec (disk_read d (i + 1)) i 128 0 with ⟨h1, h2⟩ | ⟨r, h1, h2, h3, h4, h5, h6, h7⟩
      · rw [h1]
        rcases ih (i + 1) with ⟨g1, g2⟩ | ⟨r, j, g1, g2, g3, g4, g5, g6, g7, g8, g9, g10⟩
        · left
          refine ⟨g1, ?_⟩
          intro i2 hi1 hi2 hi3 j2 hj1 hj2
          by_cases hii : i2 = i
          · subst hii; exact h2 j2 hj1 (by push_cast; omega) hj2
          · exact g2 i2 (by omega) (by push_cast at hi2; omega) hi3 j2 hj1 hj2
        · right
          refine ⟨r, j, by omega, by push_cast; omega, g3, g4, g5, g6, g7, ?_, g9, g10⟩
          intro i2 hi1 hi2 j2 hj1 hj2
          by_cases hii : i2 = i
          · subst hii; exact h2 j2 hj1 (by push_cast; omega) hj2
          · exact g8 i2 (by omega) hi2 j2 hj1 hj2
      · rw [h7]
        right
        refine ⟨i, r, le_refl _, by push_cast; omega, hlt, h1, h3, h4, h5, ?_, ?_, rfl⟩
        · intro i2 hi1 hi2; omega
        · intro j2 hj1 hj2; exact h6 j2 hj1 hj2
    · left
      simp only [hlt, if_false]
      refine ⟨trivial, ?_⟩
      intro i2 h1 h2 h3; omega


theorem badInumber_false (super : Block) (n : Int) (h1 : 1 ≤ n) (h2 : n < super_ninodes super)
    (h3 : super_ninodes super = 128 * super_ninodeblocks super) : badInumber super n = false := by
  unfold badInumber
  rw [Int.tdiv_eq_ediv (by omega) (by decide)]
  simp only [INODES_PER_BLOCK]
  have : ¬ (n / 128 > super_ninodeblocks super) := by omega
  have h4 : ¬ (n > super_ninodes super) := by omega
  have h5 : ¬ (n < 1) := by omega
  simp [this, h4, h5]

theorem inodeBlock_eq (n : Int) (h : 0 ≤ n) : n.tdiv INODES_PER_BLOCK = n / 128 := by
  rw [Int.tdiv_eq_ediv h (by decide)]

theorem inodeIndex_eq (n : Int) (h : 0 ≤ n) :
    n - INODES_PER_BLOCK * n.tdiv INODES_PER_BLOCK = n % 128 := by
  rw [Int.tdiv_eq_ediv h (by decide)]
  simp only [INODES_PER_BLOCK]
  omega

/-- C9, the claim at a failing input.  The superblock of `narrow20` has
`ninodeblocks = 1` but `ninodes = 2`.  The filesystem is mounted and inode 1,
the only inode number `n` with `1 ≤ n < ninodes`, is valid, so the claim has
`fs_create` return 0; it returns 2, an inode number that is not below
`ninodes`, and marks that inode valid. -/
theorem fs_create_beyond_ninodes :
    narrow20.fs_mounted = true ∧ ninodeblocksOf narrow20 = 1 ∧ ninodesOf narrow20 = 2 ∧
      (∀ n : Nat, n < 2 → 1 ≤ n → ino_isvalid narrow20.disk n ≠ 0) ∧
      (fs_create narrow20).1 = 2 ∧
      ino_isvalid (fs_create narrow20).2.disk 2 = 1 := by
  decide!

/-- C9, amended.  When nothing is mounted `fs_create` returns 0 and changes
nothing.  On a mounted filesystem whose superblock has
`ninodes = 128 * ninodeblocks` and whose inode table lies inside the device
(`ninodeblocks` is less than the device size), `fs_create` returns the smallest
inode number `n` with `1 ≤ n < ninodes` whose on-disk `isvalid` is 0, and 0 if
there is none.  On success that inode has `isvalid = 1` and `size = 0`
afterwards, every byte of the device outside these two fields is unchanged,
the bitmap is unchanged, and `fs_getsize n` returns 0.  The result is never
inode number 0 on success. -/
theorem fs_create_first_free (st : FsState) :
    (st.fs_mounted = false → fs_create st = (0, st)) ∧
    (st.fs_mounted = true → ninodeblocksOf st < st.disk.nblocks →
      ninodesOf st = 128 * ninodeblocksOf st →
      ((∀ n, 1 ≤ n → n < ninodesOf st → ino_isvalid st.disk n ≠ 0) → fs_create st = (0, st)) ∧
      (∀ n, 1 ≤ n → n < ninodesOf st → ino_isvalid st.disk n = 0 →
        (∀ m, 1 ≤ m → m < n → ino_isvalid st.disk m ≠ 0) →
        (fs_create st).1 = n ∧
        ino_isvalid (fs_create st).2.disk n = 1 ∧ ino_size (fs_create st).2.disk n = 0 ∧
        (∀ b i, ¬ (b = n / 128 + 1 ∧ (i / 4 = 8 * (n % 128) ∨ i / 4 = 8 * (n % 128) + 1)) →
          disk_read (fs_create st).2.disk b i = disk_read st.disk b i) ∧
        (fs_create st).2.disk.nblocks = st.disk.nblocks ∧
        (fs_create st).2.bitmap = st.bitmap ∧
        (fs_create st).2.bitmapSize = st.bitmapSize ∧
        (fs_create st).2.fs_mounted = true ∧
        fs_getsize (fs_create st).2 n = 0)) := by
  constructor
  · intro hm
    simp [fs_create, hm]
  · intro hm hs4 hs5
    unfold ninodesOf ninodeblocksOf superOf at *
    have key := createBlocks_spec st.disk (super_ninodeblocks (disk_read st.disk 0))
      (super_ninodeblocks (disk_read st.disk 0)).toNat 0
    constructor
    · intro hall
      rcases key with ⟨g1, _⟩ | ⟨r, j, g1, g2, g3, g4, g5, g6, g7, g8, g9, g10⟩
      · simp [fs_create, hm, g1]
      · exfalso
        have hn := hall (128 * r + j) (by omega) (by omega)
        apply hn
        unfold ino_isvalid inodeBlockOf
        have e1 : (128 * r + j) / 128 = r := by omega
        have e2 : (128 * r + j) % 128 = j := by omega
        rw [e1, e2]; exact g6
    · intro n hn1 hn2 hfree hmin
      have hi0 : 0 ≤ n / 128 := by omega
      have hi1 : n / 128 < super_ninodeblocks (disk_read st.disk 0) := by omega
      have hj0 : 0 ≤ n % 128 := by omega
      have hj1 : n % 128 < 128 := by omega
      have hfree2 : inode_isvalid (disk_read st.disk (n / 128 + 1)) (n % 128) = 0 := hfree
      rcases key with ⟨g1, g2⟩ | ⟨r, j, g1, g2, g3, g4, g5, g6, g7, g8, g9, g10⟩
      · exfalso
        exact g2 (n / 128) hi0 (by omega) hi1 (n % 128) hj0 hj1 ⟨hfree2, by omega⟩
      · -- the slot found is inode `n`
        have hrn : 128 * r + j = n := by
          by_contra hne
          rcases lt_or_gt_of_ne hne with hlt | hgt
          · have := hmin (128 * r + j) (by omega) hlt
            apply this
            unfold ino_isvalid inodeBlockOf
            have e1 : (128 * r + j) / 128 = r := by omega
            have e2 : (128 * r + j) % 128 = j := by omega
            rw [e1, e2]; exact g6
          · by_cases hir : n / 128 < r
            · exact g8 (n / 128) hi0 hir (n % 128) hj0 hj1 ⟨hfree2, by omega⟩
            · have hir2 : n / 128 = r := by omega
              rw [hir2] at hfree2
              exact g9 (n % 128) hj0 (by omega) ⟨hfree2, by omega⟩
        have e1 : n / 128 = r := by omega
        have e2 : n % 128 = j := by omega
        have hr0 : 0 ≤ r + 1 := by omega
        have hr1 : r + 1 < st.disk.nblocks := by omega
        have hcr : fs_create st = (j + r * INODES_PER_BLOCK,
            { st with disk := (disk_write st.disk (r + 1)
                (set_inode_size (set_inode_isvalid (disk_read st.disk (r + 1)) j 1) j 0)) }) := by
          simp [fs_create, hm, g10]
        rw [hcr]
        have hblk : disk_read (disk_write st.disk (r + 1)
            (set_inode_size (set_inode_isvalid (disk_read st.disk (r + 1)) j 1) j 0)) (r + 1)
            = set_inode_size (set_inode_isvalid (disk_read st.disk (r + 1)) j 1) j 0 :=
          disk_read_write_same _ _ _ hr0 hr1
        have hv : inode_isvalid
            (set_inode_size (set_inode_isvalid (disk_read st.disk (r + 1)) j 1) j 0) j = 1 := by
          unfold inode_isvalid set_inode_size set_inode_isvalid
          rw [getInt_setInt_ne _ _ _ _ (by omega), getInt_setInt_same _ _ _ (by omega) (by omega)]
        have hz : inode_size
            (set_inode_size (set_inode_isvalid (disk_read st.disk (r + 1)) j 1) j 0) j = 0 := by
          unfold inode_size set_inode_size
          rw [getInt_setInt_same _ _ _ (by omega) (by omega)]
        refine ⟨by simp only [INODES_PER_BLOCK]; omega, ?_, ?_, ?_, ?_, rfl, rfl, hm, ?_⟩
        · show ino_isvalid (disk_write _ _ _) n = 1
          unfold ino_isvalid inodeBlockOf
          rw [e1, e2, hblk, hv]
        · show ino_size (disk_write _ _ _) n = 0
          unfold ino_size inodeBlockOf
          rw [e1, e2, hblk, hz]
        · intro b i hbi
          show disk_read (disk_write _ _ _) b i = _
          rw [e1, e2] at hbi
          by_cases hb : b = r + 1
          · subst hb
            rw [hblk]
            unfold set_inode_size set_inode_isvalid
            have h1 : ¬ (i / 4 = 8 * j + 1) := by
              intro h; exact hbi ⟨rfl, Or.inr h⟩
            have h2 : ¬ (i / 4 = 8 * j) := by
              intro h; exact hbi ⟨rfl, Or.inl h⟩
            rw [setInt_other _ _ _ _ h1, setInt_other _ _ _ _ h2]
          · rw [disk_read_write_ne _ _ _ _ hb]
        · exact disk_write_nblocks _ _ _
        · unfold fs_getsize
          have hsup : disk_read (disk_write st.disk (r + 1)
              (set_inode_size (set_inode_isvalid (disk_read st.disk (r + 1)) j 1) j 0)) 0
              = disk_read st.disk 0 := disk_read_write_ne _ _ _ _ (by omega)
          have hidx : n - INODES_PER_BLOCK * (n / 128) = j := by
            simp only [INODES_PER_BLOCK]; omega
          simp only [hm, hsup]
          rw [badInumber_false _ n hn1 hn2 hs5, inodeBlock_eq n (by omega), hidx, e1, hblk, hv, hz]
          simp

/-- Witness for C9 on the freshly formatted, mounted 20-block device: the first
`fs_create` returns inode 1. -/
theorem fs_create_first_free_witness :
    fresh20.fs_mounted = true ∧ ninodeblocksOf fresh20 = 2 ∧ ninodesOf fresh20 = 256 ∧
      (fs_create fresh20).1 = 1 ∧ fs_getsize (fs_create fresh20).2 1 = 0 ∧
      fs_create (unmounted disk20) = (0, unmounted disk20) :=
  have h := (((fs_create_first_free fresh20).2 (by decide!) (by decide!) (by decide!)).2 1
    (by decide) (by decide!) (by decide!) (fun m h1 h2 => by omega))
  ⟨by decide!, by decide!, by decide!, h.1, h.2.2.2.2.2.2.2.2,
    (fs_create_first_free (unmounted disk20)).1 rfl⟩

/-! ## Reading well-formedness at integer indices -/

theorem WF.mounted {st : FsState} (h : WF st) : st.fs_mounted = true := h.1
theorem WF.superOK {st : FsState} (h : WF st) : SuperOK st := h.2.1

theorem WF.metaUsed {st : FsState} (h : WF st) (b : Int) (h0 : 0 ≤ b)
    (h1 : b ≤ ninodeblocksOf st) : st.bitmap b = true := by
  have := h.2.2.1 b.toNat (by omega)
  have e : (b.toNat : Int) = b := by omega
  rwa [e] at this

theorem WF.isvalid01 {st : FsState} (h : WF st) (n : Int) (h0 : 0 ≤ n) (h1 : n < ninodesOf st) :
    ino_isvalid st.disk n = 0 ∨ ino_isvalid st.disk n = 1 := by
  have := (h.2.2.2.1 n.toNat (by omega)).1
  have e : (n.toNat : Int) = n := by omega
  rwa [e] at this

theorem WF.size {st : FsState} (h : WF st) (n : Int) (h0 : 0 ≤ n) (h1 : n < ninodesOf st)
    (hv : ino_isvalid st.disk n ≠ 0) : 0 ≤ ino_size st.disk n ∧ ino_size st.disk n ≤ S_max := by
  have e : (n.toNat : Int) = n := by omega
  have := (h.2.2.2.1 n.toNat (by omega)).2
  rw [e] at this
  exact this hv

theorem WF.reach {st : FsState} (h : WF st) (n : Int) (h0 : 0 ≤ n) (h1 : n < ninodesOf st)
    (hv : ino_isvalid st.disk n ≠ 0) (l : Int) (hl0 : 0 ≤ l) (hl1 : l < ino_nblocks st.disk n) :
    usedData st (fileBlock st.disk n l) := by
  have e : (n.toNat : Int) = n := by omega
  have e2 : (l.toNat : Int) = l := by omega
  have := h.2.2.2.2.1 n.toNat (by omega)
  rw [e] at this
  have := this hv l.toNat (by omega)
  rwa [e2] at this

theorem WF.indirect {st : FsState} (h : WF st) (n : Int) (h0 : 0 ≤ n) (h1 : n < ninodesOf st)
    (hv : ino_isvalid st.disk n ≠ 0) (hn : ino_nblocks st.disk n > POINTERS_PER_INODE) :
    usedData st (ino_indirect st.disk n) := by
  have e : (n.toNat : Int) = n := by omega
  have := h.2.2.2.2.2.1 n.toNat (by omega)
  rw [e] at this
  exact this hv hn

theorem WF.dataApart {st : FsState} (h : WF st) (n m : Int) (h0 : 0 ≤ n) (h1 : n < ninodesOf st)
    (hv : ino_isvalid st.disk n ≠ 0) (g0 : 0 ≤ m) (g1 : m < ninodesOf st)
    (gv : ino_isvalid st.disk m ≠ 0) (l l2 : Int) (hl0 : 0 ≤ l) (hl1 : l < ino_nblocks st.disk n)
    (hk0 : 0 ≤ l2) (hk1 : l2 < ino_nblocks st.disk m) (hne : n ≠ m ∨ l ≠ l2) :
    fileBlock st.disk n l ≠ fileBlock st.disk m l2 := by
  have e : (n.toNat : Int) = n := by omega
  have e2 : (m.toNat : Int) = m := by omega
  have e3 : (l.toNat : Int) = l := by omega
  have e4 : (l2.toNat : Int) = l2 := by omega
  have := h.2.2.2.2.2.2 n.toNat (by omega)
  rw [e] at this
  have := this hv m.toNat (by omega)
  rw [e2] at this
  have := (this gv).1 l.toNat (by rw [e]; omega) l2.toNat (by rw [e2]; omega) (by omega)
  rwa [e, e2, e3, e4] at this

theorem WF.indirectApart {st : FsState} (h : WF st) (n m : Int) (h0 : 0 ≤ n)
    (h1 : n < ninodesOf st) (hv : ino_isvalid st.disk n ≠ 0) (g0 : 0 ≤ m) (g1 : m < ninodesOf st)
    (gv : ino_isvalid st.disk m ≠ 0) (hn : ino_nblocks st.disk n > POINTERS_PER_INODE) :
    (∀ l2 : Int, 0 ≤ l2 → l2 < ino_nblocks st.disk m →
      ino_indirect st.disk n ≠ fileBlock st.disk m l2) ∧
    (ino_nblocks st.disk m > POINTERS_PER_INODE → n ≠ m →
      ino_indirect st.disk n ≠ ino_indirect st.disk m) := by
  have e : (n.toNat : Int) = n := by omega
  have e2 : (m.toNat : Int) = m := by omega
  have := h.2.2.2.2.2.2 n.toNat (by omega)
  rw [e] at this
  have := this hv m.toNat (by omega)
  rw [e2] at this
  have := (this gv).2
  unfold SimpleFS.indirectApart at this
  rw [e, e2] at this
  have := this hn
  constructor
  · intro l2 hl0 hl1
    have e4 : (l2.toNat : Int) = l2 := by omega
    have := this.1 l2.toNat (by omega)
    rwa [e4] at this
  · intro hm hne
    exact this.2 hm (by omega)

theorem MetaUsed.at_int {st : FsState} (h : MetaUsed st) (b : Int) (h0 : 0 ≤ b)
    (h1 : b ≤ ninodeblocksOf st) : st.bitmap b = true := by
  have := h b.toNat (by omega)
  have e : (b.toNat : Int) = b := by omega
  rwa [e] at this

theorem across_reach {st : FsState} (h : WFAcross st) (n : Int) (h0 : 0 ≤ n)
    (h1 : n < ninodesOf st) (hv : ino_isvalid st.disk n ≠ 0) (l : Int) (hl0 : 0 ≤ l)
    (hl1 : l < ino_nblocks st.disk n) : usedData st (fileBlock st.disk n l) := by
  have e : (n.toNat : Int) = n := by omega
  have e2 : (l.toNat : Int) = l := by omega
  have := h.2.2.1 n.toNat (by omega)
  rw [e] at this
  have := this hv l.toNat (by omega)
  rwa [e2] at this

theorem across_indirect {st : FsState} (h : WFAcross st) (n : Int) (h0 : 0 ≤ n)
    (h1 : n < ninodesOf st) (hv : ino_isvalid st.disk n ≠ 0)
    (hn : ino_nblocks st.disk n > POINTERS_PER_INODE) : usedData st (ino_indirect st.disk n) := by
  have e : (n.toNat : Int) = n := by omega
  have := h.2.2.2.1 n.toNat (by omega)
  rw [e] at this
  exact this hv hn

theorem across_dataApart {st : FsState} (h : WFAcross st) (n m : Int) (h0 : 0 ≤ n)
    (h1 : n < ninodesOf st) (hv : ino_isvalid st.disk n ≠ 0) (g0 : 0 ≤ m) (g1 : m < ninodesOf st)
    (gv : ino_isvalid st.disk m ≠ 0) (hne : n ≠ m) (l l2 : Int) (hl0 : 0 ≤ l)
    (hl1 : l < ino_nblocks st.disk n) (hk0 : 0 ≤ l2) (hk1 : l2 < ino_nblocks st.disk m) :
    fileBlock st.disk n l ≠ fileBlock st.disk m l2 := by
  have e : (n.toNat : Int) = n := by omega
  have e2 : (m.toNat : Int) = m := by omega
  have e3 : (l.toNat : Int) = l := by omega
  have e4 : (l2.toNat : Int) = l2 := by omega
  have := h.2.2.2.2 n.toNat (by omega)
  rw [e] at this
  have := this hv m.toNat (by omega)
  rw [e2] at this
  have := (this gv (by omega)).1 l.toNat (by rw [e]; omega) l2.toNat (by rw [e2]; omega)
    (Or.inl (by omega))
  rwa [e, e2, e3, e4] at this

theorem across_indirectApart {st : FsState} (h : WFAcross st) (n m : Int) (h0 : 0 ≤ n)
    (h1 : n < ninodesOf st) (hv : ino_isvalid st.disk n ≠ 0) (g0 : 0 ≤ m) (g1 : m < ninodesOf st)
    (gv : ino_isvalid st.disk m ≠ 0) (hne : n ≠ m)
    (hn : ino_nblocks st.disk n > POINTERS_PER_INODE) :
    (∀ l2 : Int, 0 ≤ l2 → l2 < ino_nblocks st.disk m →
      ino_indirect st.disk n ≠ fileBlock st.disk m l2) ∧
    (ino_nblocks st.disk m > POINTERS_PER_INODE →
      ino_indirect st.disk n ≠ ino_indirect st.disk m) := by
  have e : (n.toNat : Int) = n := by omega
  have e2 : (m.toNat : Int) = m := by omega
  have := h.2.2.2.2 n.toNat (by omega)
  rw [e] at this
  have := this hv m.toNat (by omega)
  rw [e2] at this
  have := (this gv (by omega)).2
  unfold SimpleFS.indirectApart at this
  rw [e, e2] at this
  have := this hn
  constructor
  · intro l2 hl0 hl1
    have e4 : (l2.toNat : Int) = l2 := by omega
    have := this.1 l2.toNat (by omega)
    rwa [e4] at this
  · intro hm
    exact this.2 hm (by omega)

theorem WF.across {st : FsState} (hwf : WF st) : WFAcross st :=
  ⟨hwf.1, hwf.2.2.1, hwf.2.2.2.2.1, hwf.2.2.2.2.2.1,
    fun n hn hv m hm hmv _ => hwf.2.2.2.2.2.2 n hn hv m hm hmv⟩

theorem WF.selfApart {st : FsState} (hwf : WF st) (a : Int) (h0 : 0 ≤ a)
    (h2 : a < ninodesOf st) (hv : ino_isvalid st.disk a ≠ 0) : SelfApart st a := by
  intro hon l hl
  have := (hwf.indirectApart a a h0 h2 hv h0 h2 hv hon).1 l (by omega) (by omega)
  rwa [fileBlock_direct _ _ _ (by omega)] at this

/-! ## `fs_delete` -/

theorem deleteLoop_false (nib ds : Int) (blk : Int → Int) (bound : Int) (n : Nat) (k : Int)
    (bm : Int → Bool) (b : Int) (hb : bm b = false) :
    deleteLoop nib ds blk bound n k bm b = false := by
  induction n generalizing k bm with
  | zero => exact hb
  | succ n ih =>
    unfold deleteLoop
    split
    · apply ih
      split
      · exact hb
      · by_cases h : b = blk k
        · subst h; simp
        · rw [Function.update_noteq h]; exact hb
    · exact hb

theorem deleteLoop_frame (nib ds : Int) (blk : Int → Int) (bound : Int) (n : Nat) (k : Int)
    (bm : Int → Bool) (b : Int) (hb : ∀ l, k ≤ l → l < bound → b ≠ blk l) :
    deleteLoop nib ds blk bound n k bm b = bm b := by
  induction n generalizing k bm with
  | zero => rfl
  | succ n ih =>
    unfold deleteLoop
    split
    · rename_i hk
      rw [ih (k + 1) _ (fun l h1 h2 => hb l (by omega) h2)]
      split
      · rfl
      · rw [Function.update_noteq (hb k (le_refl _) hk)]
    · rfl

theorem deleteLoop_cleared (nib ds : Int) (blk : Int → Int) (bound : Int) (n : Nat) (k : Int)
    (bm : Int → Bool) (l : Int) (h1 : k ≤ l) (h2 : l < bound) (h3 : l < k + n)
    (hg : badBlock nib ds (blk l) = false) :
    deleteLoop nib ds blk bound n k bm (blk l) = false := by
  induction n generalizing k bm with
  | zero => simp at h3; omega
  | succ n ih =>
    unfold deleteLoop
    have hk : k < bound := by omega
    simp only [hk, if_true]
    by_cases hkl : l = k
    · subst hkl
      apply deleteLoop_false
      simp [hg]
    · exact ih (k + 1) _ (by omega) (by push_cast at h3; omega)

theorem usedData_good {st : FsState} (hs : SuperOK st) {b : Int} (h : usedData st b) :
    badBlock (super_ninodeblocks (disk_read st.disk 0)) (disk_size st.disk) b = false := by
  obtain ⟨h1, h2, _⟩ := h
  unfold ninodeblocksOf superOf at h1
  unfold superOf at h2
  unfold SuperOK superOf at hs
  unfold badBlock disk_size
  have : ¬ (b ≤ super_ninodeblocks (disk_read st.disk 0)) := by omega
  have h4 : ¬ (b ≥ st.disk.nblocks) := by omega
  simp [this, h4]

theorem directBlocks_of (nb : Int) : directBlocks nb = min nb 5 := by
  unfold directBlocks; simp only [POINTERS_PER_INODE]; split <;> omega

theorem indirectBlocksCapped_of (nb : Int) (h : nb ≤ 1029) :
    indirectBlocksCapped nb = max (nb - 5) 0 := by
  unfold indirectBlocksCapped indirectBlocks
  simp only [POINTERS_PER_INODE, POINTERS_PER_BLOCK]
  split <;> split <;> omega

theorem nblocksOf_le (s : Int) (h0 : 0 ≤ s) (h1 : s ≤ S_max) :
    0 ≤ nblocksOf s ∧ nblocksOf s ≤ 1029 := by
  rw [nblocksOf_nonneg s h0]
  simp only [S_max] at h1
  omega

/-- C10.  In a mounted well-formed state, `fs_delete` of a valid inode
`1 ≤ inum < ninodes` returns 1, clears the bitmap bit of every block reachable
from the inode (its data blocks and, when it has more than 5 blocks, its
indirect block), leaves every other bitmap bit as it was, and sets the inode's
`isvalid` and `size` to 0 on disk while every byte of the device outside these
two fields is unchanged. -/
theorem fs_delete_reclaims (st : FsState) (hwf : WF st) (inum : Int) (h1 : 1 ≤ inum)
    (h2 : inum < ninodesOf st) (hv : ino_isvalid st.disk inum ≠ 0) :
    (fs_delete st inum).1 = 1 ∧
    (∀ l, 0 ≤ l → l < ino_nblocks st.disk inum →
      (fs_delete st inum).2.bitmap (fileBlock st.disk inum l) = false) ∧
    (ino_nblocks st.disk inum > 5 →
      (fs_delete st inum).2.bitmap (ino_indirect st.disk inum) = false) ∧
    (∀ b, (∀ l, 0 ≤ l → l < ino_nblocks st.disk inum → b ≠ fileBlock st.disk inum l) →
      (ino_nblocks st.disk inum > 5 → b ≠ ino_indirect st.disk inum) →
      (fs_delete st inum).2.bitmap b = st.bitmap b) ∧
    ino_isvalid (fs_delete st inum).2.disk inum = 0 ∧
    ino_size (fs_delete st inum).2.disk inum = 0 ∧
    (∀ b i, ¬ (b = inum / 128 + 1 ∧ (i / 4 = 8 * (inum % 128) ∨ i / 4 = 8 * (inum % 128) + 1)) →
      disk_read (fs_delete st inum).2.disk b i = disk_read st.disk b i) ∧
    (fs_delete st inum).2.disk.nblocks = st.disk.nblocks := by
  have hm := hwf.mounted
  have hs := hwf.superOK
  have hsz := hwf.size inum (by omega) h2 hv
  have hnb := nblocksOf_le _ hsz.1 hsz.2
  have hreach := hwf.reach inum (by omega) h2 hv
  have hind := hwf.indirect inum (by omega) h2 hv
  obtain ⟨hs1, hs2, hs3, hs4, hs5⟩ := hs
  unfold ninodesOf ninodeblocksOf superOf at *
  have hv2 : inode_isvalid (disk_read st.disk (inum / 128 + 1)) (inum % 128) ≠ 0 := hv
  have hr0 : 0 ≤ inum / 128 + 1 := by omega
  have hr1 : inum / 128 + 1 < st.disk.nblocks := by omega
  -- the state after the call
  obtain ⟨bm2, hbm2, hdel⟩ : ∃ bm2 : Int → Bool,
      bm2 = (if indirectBlocksCapped (ino_nblocks st.disk inum) > 0 then
          Function.update
            (deleteLoop (super_ninodeblocks (disk_read st.disk 0)) (disk_size st.disk)
              (pointers (disk_read st.disk (ino_indirect st.disk inum)))
              (indirectBlocksCapped (ino_nblocks st.disk inum))
              (indirectBlocksCapped (ino_nblocks st.disk inum)).toNat 0
              (deleteLoop (super_ninodeblocks (disk_read st.disk 0)) (disk_size st.disk)
                (ino_direct st.disk inum) (directBlocks (ino_nblocks st.disk inum))
                (directBlocks (ino_nblocks st.disk inum)).toNat 0 st.bitmap))
            (ino_indirect st.disk inum) false
        else
          deleteLoop (super_ninodeblocks (disk_read st.disk 0)) (disk_size st.disk)
                (ino_direct st.disk inum) (directBlocks (ino_nblocks st.disk inum))
                (directBlocks (ino_nblocks st.disk inum)).toNat 0 st.bitmap) ∧
      fs_delete st inum = (1, { st with
        disk := (disk_write st.disk (inum / 128 + 1)
          (set_inode_isvalid (set_inode_size (disk_read st.disk (inum / 128 + 1)) (inum % 128) 0)
            (inum % 128) 0)),
        bitmap := bm2 }) := by
    refine ⟨_, rfl, ?_⟩
    unfold fs_delete
    have hidx : inum - INODES_PER_BLOCK * (inum / 128) = inum % 128 := by
      simp only [INODES_PER_BLOCK]; omega
    simp only [hm]
    rw [badInumber_false _ inum h1 h2 hs5, inodeBlock_eq inum (by omega), hidx]
    rw [if_neg (by simp), if_neg (by simp), if_pos hv2]
    rfl
  rw [hdel]
  have hblk : disk_read (disk_write st.disk (inum / 128 + 1)
      (set_inode_isvalid (set_inode_size (disk_read st.disk (inum / 128 + 1)) (inum % 128) 0)
        (inum % 128) 0)) (inum / 128 + 1)
      = set_inode_isvalid (set_inode_size (disk_read st.disk (inum / 128 + 1)) (inum % 128) 0)
        (inum % 128) 0 := disk_read_write_same _ _ _ hr0 hr1
  have hnb' : ino_nblocks st.disk inum ≤ 1029 := hnb.2
  have hdb := directBlocks_of (ino_nblocks st.disk inum)
  have hib := indirectBlocksCapped_of (ino_nblocks st.disk inum) hnb'
  -- good blocks
  have hgood : ∀ l, 0 ≤ l → l < ino_nblocks st.disk inum →
      badBlock (super_ninodeblocks (disk_read st.disk 0)) (disk_size st.disk)
        (fileBlock st.disk inum l) = false :=
    fun l hl0 hl1 => usedData_good hwf.superOK (hreach l hl0 hl1)
  have hfb_d : ∀ l, l < 5 → fileBlock st.disk inum l = ino_direct st.disk inum l :=
    fun l hl => fileBlock_direct _ _ _ hl
  have hfb_i : ∀ l, 5 ≤ l → fileBlock st.disk inum l
      = pointers (disk_read st.disk (ino_indirect st.disk inum)) (l - 5) :=
    fun l hl => fileBlock_indirect _ _ _ hl
  refine ⟨rfl, ?_, ?_, ?_, ?_, ?_, ?_, ?_⟩
  · -- reachable data bits are cleared
    intro l hl0 hl1
    show bm2 (fileBlock st.disk inum l) = false
    have hcl : deleteLoop (super_ninodeblocks (disk_read st.disk 0)) (disk_size st.disk)
                (ino_direct st.disk inum) (directBlocks (ino_nblocks st.disk inum))
                (directBlocks (ino_nblocks st.disk inum)).toNat 0 st.bitmap
                (fileBlock st.disk inum l) = false ∨ 5 ≤ l := by
      by_cases hl5 : l < 5
      · left
        rw [hfb_d l hl5]
        apply deleteLoop_cleared _ _ _ _ _ _ _ l hl0 (by omega) (by omega)
        rw [← hfb_d l hl5]; exact hgood l hl0 hl1
      · right; omega
    rw [hbm2]
    split
    · by_cases he : fileBlock st.disk inum l = ino_indirect st.disk inum
      · rw [he]; simp
      · rw [Function.update_noteq he]
        rcases hcl with hcl | hl5
        · exact deleteLoop_false _ _ _ _ _ _ _ _ hcl
        · rw [hfb_i l hl5]
          apply deleteLoop_cleared _ _ _ _ _ _ _ (l - 5) (by omega) (by omega) (by omega)
          rw [← hfb_i l hl5]; exact hgood l hl0 hl1
    · rcases hcl with hcl | hl5
      · exact hcl
      · omega
  · intro h5
    show bm2 (ino_indirect st.disk inum) = false
    rw [hbm2]
    have : indirectBlocksCapped (ino_nblocks st.disk inum) > 0 := by omega
    simp [this]
  · intro b hb1 hb2
    show bm2 b = st.bitmap b
    have hd : deleteLoop (super_ninodeblocks (disk_read st.disk 0)) (disk_size st.disk)
                (ino_direct st.disk inum) (directBlocks (ino_nblocks st.disk inum))
                (directBlocks (ino_nblocks st.disk inum)).toNat 0 st.bitmap b = st.bitmap b := by
      apply deleteLoop_frame
      intro l hl0 hl1
      rw [← hfb_d l (by omega)]
      exact hb1 l hl0 (by omega)
    rw [hbm2]
    split
    · rename_i hpos
      rw [Function.update_noteq (hb2 (by omega)), deleteLoop_frame, hd]
      intro l hl0 hl1
      have := hb1 (l + 5) (by omega) (by omega)
      rw [hfb_i (l + 5) (by omega)] at this
      have e : l + 5 - 5 = l := by omega
      rwa [e] at this
    · exact hd
  · show ino_isvalid (disk_write _ _ _) inum = 0
    unfold ino_isvalid inodeBlockOf
    rw [hblk]
    unfold inode_isvalid set_inode_isvalid
    rw [getInt_setInt_same _ _ _ (by omega) (by omega)]
  · show ino_size (disk_write _ _ _) inum = 0
    unfold ino_size inodeBlockOf
    rw [hblk]
    unfold inode_size set_inode_isvalid set_inode_size
    rw [getInt_setInt_ne _ _ _ _ (by omega), getInt_setInt_same _ _ _ (by omega) (by omega)]
  · intro b i hbi
    show disk_read (disk_write _ _ _) b i = _
    by_cases hb : b = inum / 128 + 1
    · subst hb
      rw [hblk]
      unfold set_inode_size set_inode_isvalid
      have g1 : ¬ (i / 4 = 8 * (inum % 128) + 1) := by
        intro h; exact hbi ⟨rfl, Or.inr h⟩
      have g2 : ¬ (i / 4 = 8 * (inum % 128)) := by
        intro h; exact hbi ⟨rfl, Or.inl h⟩
      rw [setInt_other _ _ _ _ g2, setInt_other _ _ _ _ g1]
    · rw [disk_read_write_ne _ _ _ _ hb]
  · exact disk_write_nblocks _ _ _

/-- Witness for C10: scenario 3 of the specification.  After `fs_create() = 2`
and `fs_write(2, zeros, 5*4096+100, 0)` seven more blocks are in use, and
`fs_delete(2)` frees all seven. -/
theorem fs_delete_reclaims_witness :
    WF scenario3 ∧ freeCount hello20 = 16 ∧ freeCount scenario3 = 9 ∧
      (fs_delete scenario3 2).1 = 1 ∧ freeCount (fs_delete scenario3 2).2 = 16 :=
  ⟨by decide!, by decide!, by decide!,
    (fs_delete_reclaims scenario3 (by decide!) 2 (by decide) (by decide!) (by decide!)).1,
    by decide!⟩

/-! ## `fs_read` -/

theorem chunk_eq (rem sb : Int) (h0 : 0 ≤ sb) (_h1 : sb < 4096) :
    chunk rem sb = min rem (4096 - sb) := by
  unfold chunk
  simp only [BYTES_PER_BLOCK]
  split <;> split <;> omega

theorem tdiv_of_nonpos (a : Int) (h : a ≤ 0) : a.tdiv 4096 = -((-a) / 4096) := by
  have h1 : a = -(-a) := by omega
  rw [h1, Int.neg_tdiv, Int.tdiv_eq_ediv (by omega) (by decide)]
  simp

theorem tmod_of_nonpos (a : Int) (h : a ≤ 0) : a.tmod 4096 = -((-a) % 4096) := by
  have h1 := Int.tmod_add_tdiv a 4096
  rw [tdiv_of_nonpos a h] at h1
  omega

theorem tmod_nonpos_of_nonpos (a : Int) (h : a ≤ 0) : a.tmod 4096 ≤ 0 := by
  rw [tmod_of_nonpos a h]; omega

theorem tdiv_nonpos_of_nonpos (a : Int) (h : a ≤ 0) : a.tdiv 4096 ≤ 0 := by
  rw [tdiv_of_nonpos a h]; omega

theorem startIndirectByteOf_eq (offset : Int) :
    startIndirectByteOf offset = if 20480 ≤ offset then (offset - 20480) % 4096 else 0 := by
  unfold startIndirectByteOf
  simp only [BYTES_PER_BLOCK, POINTERS_PER_INODE]
  have e : (4096 : Int) * 5 = 20480 := by norm_num
  rw [e]
  by_cases h : 20480 ≤ offset
  · rw [Int.tmod_eq_emod (by omega) (by decide)]
    simp only [h, if_true]
    split <;> omega
  · have := tmod_nonpos_of_nonpos (offset - 20480) (by omega)
    simp only [h, if_false]
    split <;> omega

theorem startIndirectBlockOf_eq (offset : Int) :
    startIndirectBlockOf offset = if 20480 ≤ offset then (offset - 20480) / 4096 else 0 := by
  unfold startIndirectBlockOf
  simp only [BYTES_PER_BLOCK, POINTERS_PER_INODE]
  have e : (4096 : Int) * 5 = 20480 := by norm_num
  rw [e]
  by_cases h : 20480 ≤ offset
  · rw [Int.tdiv_eq_ediv (by omega) (by decide)]
    simp only [h, if_true]
    split <;> omega
  · have := tdiv_nonpos_of_nonpos (offset - 20480) (by omega)
    simp only [h, if_false]
    split <;> omega

theorem readLoop_spec (d : Disk) (nib ds length : Int) (blk : Int → Int) (bound : Int) (n : Nat)
    (k : Int) (v : ReadVars)
    (hgood : ∀ l, k ≤ l → l < bound → v.read + (l - k) * 4096 - v.startByte < length →
      badBlock nib ds (blk l) = false)
    (hsb0 : 0 ≤ v.startByte) (hsb1 : v.startByte < 4096) (hr : v.read ≤ length)
    (hret : v.returned = false) (hfuel : bound - k ≤ n) :
    (readLoop d nib ds length blk bound n k v).returned = false ∧
    (readLoop d nib ds length blk bound n k v).read
      = (if k < bound then min length (v.read + (bound - k) * 4096 - v.startByte) else v.read) ∧
    (∀ i, v.read ≤ i → i < (readLoop d nib ds length blk bound n k v).read →
      (readLoop d nib ds length blk bound n k v).data i
        = disk_read d (blk (readSrc k v.startByte (i - v.read)).1)
            (readSrc k v.startByte (i - v.read)).2) ∧
    (∀ i, i < v.read ∨ (readLoop d nib ds length blk bound n k v).read ≤ i →
      (readLoop d nib ds length blk bound n k v).data i = v.data i) := by
  induction n generalizing k v with
  | zero =>
    have hk : ¬ k < bound := by simp at hfuel; omega
    simp only [readLoop, hk, if_false]
    refine ⟨hret, trivial, ?_, ?_⟩
    · intro i h1 h2; omega
    · intro i _; trivial
  | succ n ih =>
    obtain ⟨vd, vr, vs, vret⟩ := v
    simp only at hsb0 hsb1 hr hret hgood ⊢
    subst hret
    unfold readLoop
    simp only
    by_cases hc : k < bound ∧ vr < length
    · obtain ⟨hk, hlt⟩ := hc
      have hg := hgood k (le_refl _) hk (by omega)
      simp only [hk, hlt, and_self, if_true]
      have hbody : readBody d nib ds length (blk k)
          { data := vd, read := vr, startByte := vs, returned := false } =
          { data := memcpy vd vr (disk_read d (blk k)) 0
                     (min (length - vr) (4096 - vs)),
                   read := vr + min (length - vr) (4096 - vs),
                   startByte := 0, returned := false } := by
        unfold readBody
        simp only [hg, chunk_eq _ _ hsb0 hsb1]
        simp
      rw [hbody]
      have IH := ih (k + 1)
        { data := memcpy vd vr (disk_read d (blk k)) 0
                     (min (length - vr) (4096 - vs)),
                 read := vr + min (length - vr) (4096 - vs),
                 startByte := 0, returned := false }
        (fun l h1 h2 h3 => hgood l (by omega) h2 (by simp only at h3; omega)) (le_refl _)
        (by norm_num) (by simp only; omega)
        rfl (by push_cast at hfuel; omega)
      simp only at IH
      obtain ⟨I1, I2, I3, I4⟩ := IH
      simp only [Bool.false_eq_true, if_false]
      refine ⟨I1, ?_, ?_, ?_⟩
      · rw [I2]
        split <;> omega
      · intro i h1 h2
        by_cases hi : i < vr + min (length - vr) (4096 - vs)
        · rw [I4 i (Or.inl hi)]
          unfold memcpy readSrc
          have c1 : vr ≤ i ∧ i < vr + min (length - vr) (4096 - vs) :=
            ⟨h1, hi⟩
          have c2 : i - vr + vs < 4096 := by omega
          have c3 : (i - vr + vs) / 4096 = 0 := by omega
          simp only [c1, and_self, if_true, c2, c3]
          simp
        · rw [I3 i (by omega) h2]
          unfold readSrc
          have hfull : min (length - vr) (4096 - vs) = 4096 - vs := by
            rw [I2] at h2
            split at h2 <;> omega
          rw [hfull]
          have c2 : ¬ (i - vr + vs < 4096) := by omega
          have c4 : k + 1 + (i - (vr + (4096 - vs)) + 0) / 4096
              = k + (i - vr + vs) / 4096 := by omega
          have c5 : (if i - (vr + (4096 - vs)) + 0 < 4096
              then i - (vr + (4096 - vs))
              else (i - (vr + (4096 - vs)) + 0) % 4096)
              = (i - vr + vs) % 4096 := by
            split <;> omega
          simp only [c2, if_false, c4, c5]
      · intro i hi
        rw [I4 i (by omega)]
        unfold memcpy
        have : ¬ (vr ≤ i ∧ i < vr + min (length - vr) (4096 - vs)) := by
          rw [I2] at hi
          split at hi <;> omega
        simp only [this, if_false]
    · simp only [hc, if_false]
      refine ⟨trivial, ?_, ?_, ?_⟩
      · split <;> omega
      · intro i h1 h2; omega
      · intro i _; trivial

theorem readInode_aux (d : Disk) (nib : Int) (inodeB : Block) (j : Int) (buf : Bytes)
    (length offset s nb db ib sib siy L : Int)
    (hsz : inode_size inodeB j = s) (hnbs : nblocksOf s = nb)
    (hdbg : directBlocks nb = db) (hibg : indirectBlocksCapped nb = ib)
    (hsibg : startIndirectBlockOf offset = sib) (hsiyg : startIndirectByteOf offset = siy)
    (hL : (if int32 (length + offset) > s then s - offset else length) = L)
    (hno : length + offset < 2147483648)
    (hs0 : 0 ≤ s) (hs1 : s ≤ 4214784)
    (hnbe : nb = (s + 4095) / 4096) (hnb : 0 ≤ nb ∧ nb ≤ 1029)
    (hdb : db = min nb 5) (hib : ib = max (nb - 5) 0)
    (hsib : sib = if 20480 ≤ offset then (offset - 20480) / 4096 else 0)
    (hsiy : siy = if 20480 ≤ offset then (offset - 20480) % 4096 else 0)
    (hgood : ∀ l, 0 ≤ l → l < nb → 4096 * l < offset + L →
      badBlock nib (disk_size d) (slotFileBlock d inodeB j l) = false)
    (hl : 0 ≤ length) (ho : 0 ≤ offset) :
    (readInode d nib inodeB j buf length offset).1 = min length (max 0 (s - offset)) ∧
    (∀ i, 0 ≤ i → i < (readInode d nib inodeB j buf length offset).1 →
      (readInode d nib inodeB j buf length offset).2 i
        = disk_read d (slotFileBlock d inodeB j ((offset + i) / 4096))
            (if i + offset % 4096 < 4096 then i else (offset + i) % 4096)) ∧
    (∀ i, i < 0 ∨ (readInode d nib inodeB j buf length offset).1 ≤ i →
      (readInode d nib inodeB j buf length offset).2 i = buf i) := by
  have hsdb : offset.tdiv BYTES_PER_BLOCK = offset / 4096 := Int.tdiv_eq_ediv ho (by decide)
  have hsdy : offset.tmod BYTES_PER_BLOCK = offset % 4096 := Int.tmod_eq_emod ho (by decide)
  unfold readInode
  simp only [hsdb, hsdy, hsz, hnbs, hdbg, hibg, hsibg, hsiyg, hL]
  rw [int32_id _ (by omega) hno] at hL
  by_cases hoff : offset > s
  · simp only [hoff, if_true]
    refine ⟨by omega, ?_, ?_⟩
    · intro i h1 h2; omega
    · intro i _; trivial
  · simp only [hoff, if_false]
    have hL0 : 0 ≤ L := by rw [← hL]; split <;> omega
    have hLe : L = min length (s - offset) := by rw [← hL]; split <;> omega
    have hLle : L ≤ s - offset := by omega
    have hres : min length (max 0 (s - offset)) = L := by omega
    rw [hres]
    clear hL hLe hres hsz hnbs hdbg hibg hsibg hsiyg
    have hdb5 : db ≤ 5 := by omega
    have hdbnb : db ≤ nb := by omega
    -- the direct loop
    have D := readLoop_spec d nib (disk_size d) L (inode_direct inodeB j) db
      (db - offset / 4096).toNat (offset / 4096)
      { data := buf, read := 0, startByte := offset % 4096, returned := false }
      (fun l h1 h2 h3 => by
        simp only at h3
        have := hgood l (by omega) (by omega) (by omega)
        rwa [slotFileBlock_direct _ _ _ _ (by omega)] at this)
      (by simp only; omega) (by simp only; omega) hL0 rfl (by omega)
    simp only at D
    revert D
    generalize readLoop d nib (disk_size d) L (inode_direct inodeB j) db
      (db - offset / 4096).toNat (offset / 4096)
      { data := buf, read := 0, startByte := offset % 4096, returned := false } = V1
    obtain ⟨vd, vr, vs, vret⟩ := V1
    simp only
    intro D
    obtain ⟨D1, D2, D3, D4⟩ := D
    subst D1
    simp only [Bool.false_eq_true, if_false]
    -- the bytes read by the direct loop
    have hvr : vr = L ∨ (offset / 4096 < db ∧ vr = db * 4096 - offset) ∨
        (db ≤ offset / 4096 ∧ vr = 0) := by
      rw [D2]; split <;> omega
    have hvr0 : 0 ≤ vr := by omega
    have hvrL : vr ≤ L := by omega
    have D3' : ∀ i, 0 ≤ i → i < vr → vd i
        = disk_read d (slotFileBlock d inodeB j ((offset + i) / 4096))
            (if i + offset % 4096 < 4096 then i else (offset + i) % 4096) := by
      intro i h1 h2
      have hlt : offset / 4096 < db := by
        by_contra hcon
        rw [D2] at h2; simp only [hcon, if_false] at h2; omega
      have hi2 : i < db * 4096 - offset := by
        rw [D2] at h2; simp only [hlt, if_true] at h2; omega
      rw [D3 i h1 h2]
      unfold readSrc
      have e1 : offset / 4096 + (i - 0 + offset % 4096) / 4096 = (offset + i) / 4096 := by omega
      have e2 : (if i - 0 + offset % 4096 < 4096 then i - 0 else (i - 0 + offset % 4096) % 4096)
          = (if i + offset % 4096 < 4096 then i else (offset + i) % 4096) := by
        by_cases hc : i + offset % 4096 < 4096
        · have hc2 : i - 0 + offset % 4096 < 4096 := by omega
          simp only [hc, hc2, if_true]; omega
        · have hc2 : ¬ (i - 0 + offset % 4096 < 4096) := by omega
          simp only [hc, hc2, if_false]; omega
      simp only [e1, e2]
      rw [slotFileBlock_direct _ _ _ _ (by omega)]
    by_cases hind : ib > 0
    · simp only [hind, if_true]
      have hnb5 : 5 < nb := by omega
      have hdbe : db = 5 := by omega
      have hibe : ib = nb - 5 := by omega
      subst hdbe hibe
      have hsi : (offset < 20480 ∧ sib = 0 ∧ siy = 0) ∨
          (20480 ≤ offset ∧ sib = (offset - 20480) / 4096 ∧ siy = (offset - 20480) % 4096) := by
        by_cases h20 : 20480 ≤ offset
        · simp only [h20, if_true] at hsib hsiy; right; exact ⟨h20, hsib, hsiy⟩
        · simp only [h20, if_false] at hsib hsiy; left; exact ⟨by omega, hsib, hsiy⟩
      clear hsib hsiy
      have I := readLoop_spec d nib (disk_size d) L
        (pointers (disk_read d (inode_indirect inodeB j))) (nb - 5)
        (nb - 5 - sib).toNat sib
        { data := vd, read := vr, startByte := siy, returned := false }
        (fun l h1 h2 h3 => by
          simp only at h3
          have := hgood (l + 5) (by rcases hsi with h | h <;> omega) (by omega)
            (by rcases hsi with ⟨_, hb, hy⟩ | ⟨_, hb, hy⟩ <;> rcases hvr with h | h | h <;> omega)
          rw [slotFileBlock_indirect _ _ _ _ (by rcases hsi with h | h <;> omega)] at this
          have e : l + 5 - 5 = l := by omega
          rwa [e] at this)
        (by simp only; rcases hsi with h | h <;> omega)
        (by simp only; rcases hsi with h | h <;> omega)
        hvrL rfl (by omega)
      simp only at I
      revert I
      generalize readLoop d nib (disk_size d) L
        (pointers (disk_read d (inode_indirect inodeB j))) (nb - 5)
        (nb - 5 - sib).toNat sib
        { data := vd, read := vr, startByte := siy, returned := false } = V2
      intro I
      obtain ⟨I1, I2, I3, I4⟩ := I
      have hV2r : V2.read = L := by
        rw [I2]
        rcases hsi with ⟨h20, hb, hy⟩ | ⟨h20, hb, hy⟩
        · subst hb hy
          rcases hvr with h | h | h
          · split <;> omega
          · split <;> omega
          · omega
        · subst hb hy
          rcases hvr with h | h | h
          · split <;> omega
          · omega
          · split <;> omega
      refine ⟨hV2r, ?_, ?_⟩
      · intro i h1 h2
        by_cases hi : i < vr
        · rw [I4 i (Or.inl hi)]; exact D3' i h1 hi
        · rw [I3 i (by omega) h2]
          unfold readSrc
          have hcase : (offset < 20480 ∧ vr = 20480 - offset) ∨ (20480 ≤ offset ∧ vr = 0) := by
            rcases hvr with h | h | h <;> omega
          have e1 : slotFileBlock d inodeB j ((offset + i) / 4096)
              = pointers (disk_read d (inode_indirect inodeB j)) ((offset + i) / 4096 - 5) := by
            apply slotFileBlock_indirect
            rcases hcase with h | h <;> omega
          rw [e1]
          have e2 : sib + (i - vr + siy) / 4096 = (offset + i) / 4096 - 5 := by
            rcases hsi with ⟨h20, hb, hy⟩ | ⟨h20, hb, hy⟩ <;> rcases hcase with h | h <;> omega
          have e3 : (if i - vr + siy < 4096 then i - vr else (i - vr + siy) % 4096)
              = (if i + offset % 4096 < 4096 then i else (offset + i) % 4096) := by
            rcases hsi with ⟨h20, hb, hy⟩ | ⟨h20, hb, hy⟩ <;> rcases hcase with h | h
            · have hc : ¬ (i + offset % 4096 < 4096) := by omega
              simp only [hc, if_false]; split <;> omega
            · omega
            · omega
            · by_cases hc : i + offset % 4096 < 4096
              · have hc2 : i - vr + siy < 4096 := by omega
                simp only [hc, hc2, if_true]; omega
              · have hc2 : ¬ (i - vr + siy < 4096) := by omega
                simp only [hc, hc2, if_false]; omega
          simp only [e2, e3]
      · intro i hi
        rw [I4 i (by omega), D4 i (by omega)]
    · simp only [hind, if_false]
      have hV1 : vr = L := by
        rcases hvr with h | h | h <;> omega
      refine ⟨hV1, ?_, ?_⟩
      · intro i h1 h2; exact D3' i h1 h2
      · intro i hi; exact D4 i (by omega)


theorem readInode_spec (d : Disk) (nib : Int) (inodeB : Block) (j : Int) (buf : Bytes)
    (length offset : Int)
    (hs0 : 0 ≤ inode_size inodeB j) (hs1 : inode_size inodeB j ≤ S_max)
    (hgood : ∀ l, 0 ≤ l → l < nblocksOf (inode_size inodeB j) → 4096 * l < offset + length →
      badBlock nib (disk_size d) (slotFileBlock d inodeB j l) = false)
    (hl : 0 ≤ length) (ho : 0 ≤ offset) (hno : length + offset < 2147483648) :
    (readInode d nib inodeB j buf length offset).1
      = min length (max 0 (inode_size inodeB j - offset)) ∧
    (∀ i, 0 ≤ i → i < (readInode d nib inodeB j buf length offset).1 →
      (readInode d nib inodeB j buf length offset).2 i
        = disk_read d (slotFileBlock d inodeB j ((offset + i) / 4096))
            (if i + offset % 4096 < 4096 then i else (offset + i) % 4096)) ∧
    (∀ i, i < 0 ∨ (readInode d nib inodeB j buf length offset).1 ≤ i →
      (readInode d nib inodeB j buf length offset).2 i = buf i) :=
  readInode_aux d nib inodeB j buf length offset _ _ _ _ _ _ _ rfl rfl rfl rfl rfl rfl rfl
    hno hs0 hs1 (nblocksOf_nonneg _ hs0) (nblocksOf_le _ hs0 hs1) (directBlocks_of _)
    (indirectBlocksCapped_of _ (nblocksOf_le _ hs0 hs1).2) (startIndirectBlockOf_eq _)
    (startIndirectByteOf_eq _)
    (fun l h0 h1 h2 => hgood l h0 h1 (by
      have : (if int32 (length + offset) > inode_size inodeB j then inode_size inodeB j - offset
        else length) ≤ length := by
        rw [int32_id _ (by omega) hno]
        split <;> omega
      omega))
    hl ho

theorem fs_read_valid (st : FsState) (hm : st.fs_mounted = true) (hs : SuperOK st) (inum : Int)
    (h1 : 1 ≤ inum) (h2 : inum < ninodesOf st) (hv : ino_isvalid st.disk inum ≠ 0)
    (buf : Bytes) (length offset : Int) :
    fs_read st inum buf length offset
      = readInode st.disk (ninodeblocksOf st) (inodeBlockOf st.disk inum) (inum % 128) buf
          length offset := by
  have hidx : inum - INODES_PER_BLOCK * (inum / 128) = inum % 128 := by
    simp only [INODES_PER_BLOCK]; omega
  have hv2 : inode_isvalid (disk_read st.disk (inum / 128 + 1)) (inum % 128) ≠ 0 := hv
  have h2' : inum < super_ninodes (disk_read st.disk 0) := h2
  have hs5 : super_ninodes (disk_read st.disk 0) = 128 * super_ninodeblocks (disk_read st.disk 0) :=
    hs.2.2.2.2
  unfold fs_read
  simp only [hm]
  rw [badInumber_false _ inum h1 h2' hs5, inodeBlock_eq inum (by omega), hidx]
  rw [if_neg (by simp), if_neg (by simp), if_pos hv2]
  rfl

theorem fs_read_spec (st : FsState) (hwf : WF st) (inum : Int) (h1 : 1 ≤ inum)
    (h2 : inum < ninodesOf st) (hv : ino_isvalid st.disk inum ≠ 0) (buf : Bytes)
    (length offset : Int) (hl : 0 ≤ length) (ho : 0 ≤ offset)
    (hno : length + offset < 2147483648) :
    (fs_read st inum buf length offset).1 = min length (max 0 (ino_size st.disk inum - offset)) ∧
    (∀ i, 0 ≤ i → i < (fs_read st inum buf length offset).1 →
      (fs_read st inum buf length offset).2 i
        = disk_read st.disk (fileBlock st.disk inum ((offset + i) / 4096))
            (if i + offset % 4096 < 4096 then i else (offset + i) % 4096)) ∧
    (∀ i, i < 0 ∨ (fs_read st inum buf length offset).1 ≤ i →
      (fs_read st inum buf length offset).2 i = buf i) := by
  rw [fs_read_valid st hwf.mounted hwf.superOK inum h1 h2 hv]
  have hsz := hwf.size inum (by omega) h2 hv
  exact readInode_spec st.disk (ninodeblocksOf st) (inodeBlockOf st.disk inum) (inum % 128) buf
    length offset hsz.1 hsz.2
    (fun l hl0 hl1 _ => usedData_good hwf.superOK (hwf.reach inum (by omega) h2 hv l hl0 hl1))
    hl ho hno

/-- In a mounted well-formed state, `fs_read` on a valid inode of size `s` with
`length ≥ 0`, `offset ≥ 0` and `length + offset ≤ INT_MAX` returns exactly
`min length (max 0 (s - offset))`. -/
theorem fs_read_length (st : FsState) (hwf : WF st) (inum : Int) (h1 : 1 ≤ inum)
    (h2 : inum < ninodesOf st) (hv : ino_isvalid st.disk inum ≠ 0) (buf : Bytes)
    (length offset : Int) (hl : 0 ≤ length) (ho : 0 ≤ offset)
    (hno : length + offset < 2147483648) :
    (fs_read st inum buf length offset).1
      = min length (max 0 (ino_size st.disk inum - offset)) :=
  (fs_read_spec st hwf inum h1 h2 hv buf length offset hl ho hno).1

/-- Reading 10 bytes at offset 2 of the 5-byte file "hello" returns 3. -/
theorem fs_read_length_in_range :
    WF hello20 ∧ ino_size hello20.disk 1 = 5 ∧ (fs_read hello20 1 zeroBlock 10 2).1 = 3 :=
  have h := fs_read_length hello20 (by decide!) 1 (by decide) (by decide!) (by decide!)
    zeroBlock 10 2 (by decide) (by decide) (by decide)
  ⟨by decide!, by decide!, by rw [h]; decide!⟩

/-- C8, the code at a failing input.  The 5-byte file of inode 1 holds "hello".
In `fs_read(1, buf, 2147483647, 1)` the sum `length + offset` is `2^31`, which
as an `int` is `-2^31`; the test `length + offset > size` fails, the length is
not cut down to `size - offset = 4`, and the call returns 4095, the rest of
the block: more than the 4 bytes between the offset and the end of the file.
The same call with length 2147483646 returns 4. -/
theorem fs_read_overflow_reads_past_end :
    WF hello20 ∧ ino_size hello20.disk 1 = 5 ∧
      int32 (2147483647 + 1) = -2147483648 ∧
      (fs_read hello20 1 zeroBlock 2147483647 1).1 = 4095 ∧
      (fs_read hello20 1 zeroBlock 2147483646 1).1 = 4 := by
  decide!

/-- C2, the code at a failing input.  The 5-byte file of inode 1 holds "hello".
`fs_read(1, buf, 2, 3)` returns 2 but delivers the bytes at positions 0 and 1
of the block ("he"), not the file bytes at positions 3 and 4 ("lo"). -/
theorem fs_read_ignores_start_byte :
    WF hello20 ∧ ino_size hello20.disk 1 = 5 ∧
      fileByte hello20.disk 1 3 = 108 ∧ fileByte hello20.disk 1 4 = 111 ∧
      (fs_read hello20 1 zeroBlock 2 3).1 = 2 ∧
      (fs_read hello20 1 zeroBlock 2 3).2 0 = 104 ∧
      (fs_read hello20 1 zeroBlock 2 3).2 1 = 101 := by
  decide!

/-- C3, the code at a failing input (scenario 5 of the specification).  Inode 1
holds "hello"; `fs_write(1, "WORLD", 5, 3)` returns 5 and the size becomes 8,
but the block is written from the uninitialised `writeBlock` without being
read first: bytes 0..2 of the file, which the write does not cover, are
replaced by whatever `writeBlock` held (zeros here), and a following
`fs_read(1, buf, 8, 0)` does not deliver "helWORLD".  Whatever the buffer
held, byte 0 of the file afterwards is byte 0 of that buffer. -/
theorem fs_write_clobbers_uncovered_bytes :
    (WF hello20 ∧ ino_size hello20.disk 1 = 5 ∧
      fileByte hello20.disk 1 0 = 104 ∧ fileByte hello20.disk 1 1 = 101 ∧
      fileByte hello20.disk 1 2 = 108 ∧
      (fs_write hello20 1 world 5 3 zeroUninit).1 = 5 ∧
      fs_getsize (fs_write hello20 1 world 5 3 zeroUninit).2 1 = 8 ∧
      fileByte (fs_write hello20 1 world 5 3 zeroUninit).2.disk 1 0 = 0 ∧
      fileByte (fs_write hello20 1 world 5 3 zeroUninit).2.disk 1 1 = 0 ∧
      fileByte (fs_write hello20 1 world 5 3 zeroUninit).2.disk 1 2 = 0 ∧
      (fs_read (fs_write hello20 1 world 5 3 zeroUninit).2 1 zeroBlock 8 0).1 = 8 ∧
      (fs_read (fs_write hello20 1 world 5 3 zeroUninit).2 1 zeroBlock 8 0).2 0 = 0 ∧
      (fs_read (fs_write hello20 1 world 5 3 zeroUninit).2 1 zeroBlock 8 0).2 3 = 87) ∧
    (∀ u : Uninit, fileByte (fs_write hello20 1 world 5 3 u).2.disk 1 0 = u.direct 0 0) :=
  ⟨by decide!, fun _ => rfl⟩

/-- C4, the code at a failing input.  `created20` is well formed and inode 1 is
valid with size 0.  `fs_write(1, "hello", 5, 8192)` returns 5, stores the new
block in `direct[2]` and sets the size to 5, so that afterwards the reachable
pointer `direct[0]` of inode 1 is 0: not in the data region. -/
theorem fs_write_past_end_breaks_reachable :
    WF created20 ∧ ReachableOK created20 ∧ ReachableDisjoint created20 ∧
      ino_isvalid created20.disk 1 = 1 ∧ ino_size created20.disk 1 = 0 ∧
      (fs_write created20 1 hello 5 8192 zeroUninit).1 = 5 ∧
      ino_isvalid (fs_write created20 1 hello 5 8192 zeroUninit).2.disk 1 = 1 ∧
      ino_size (fs_write created20 1 hello 5 8192 zeroUninit).2.disk 1 = 5 ∧
      fileBlock (fs_write created20 1 hello 5 8192 zeroUninit).2.disk 1 0 = 0 ∧
      ¬ ReachableOK (fs_write created20 1 hello 5 8192 zeroUninit).2 := by
  decide!

/-- C5, the code at a failing input.  Inode 1 of `created20` has size 0, so
`old_nblocks = 0` and the offset 8192 is clamped to 0.  Both
`fs_write(1, "hello", 5, 8192)` and `fs_write(1, "hello", 5, 0)` return 5 and
set the size to 5, but the first stores the data block in `direct[2]` and
leaves the reachable `direct[0]` unassigned, the second stores it in
`direct[0]`; reading the file back gives 0 bytes after the first and "hello"
after the second. -/
theorem fs_write_clamp_differs :
    ino_nblocks created20.disk 1 = 0 ∧
      (fs_write created20 1 hello 5 8192 zeroUninit).1 = 5 ∧
      (fs_write created20 1 hello 5 0 zeroUninit).1 = 5 ∧
      fs_getsize (fs_write created20 1 hello 5 8192 zeroUninit).2 1 = 5 ∧
      fs_getsize (fs_write created20 1 hello 5 0 zeroUninit).2 1 = 5 ∧
      fileBlock (fs_write created20 1 hello 5 8192 zeroUninit).2.disk 1 0 = 0 ∧
      fileBlock (fs_write created20 1 hello 5 8192 zeroUninit).2.disk 1 2 = 3 ∧
      fileBlock (fs_write created20 1 hello 5 0 zeroUninit).2.disk 1 0 = 3 ∧
      (fs_read (fs_write created20 1 hello 5 8192 zeroUninit).2 1 zeroBlock 5 0).1 = 0 ∧
      (fs_read (fs_write created20 1 hello 5 0 zeroUninit).2 1 zeroBlock 5 0).1 = 5 ∧
      (fs_read (fs_write created20 1 hello 5 0 zeroUninit).2 1 zeroBlock 5 0).2 0 = 104 := by
  decide!

/-! ## `fs_write`: one iteration -/

theorem getNewInode_cases (st : FsState) :
    (getNewInode st = (-1, st) ∧ ∀ b, 0 ≤ b → b < st.bitmapSize → st.bitmap b = true) ∨
    (∃ r, 0 ≤ r ∧ r < st.bitmapSize ∧ st.bitmap r = false ∧
        getNewInode st = (r, { st with bitmap := Function.update st.bitmap r true })) := by
  rcases getNewInode_spec st with h | ⟨r, h1, h2, h3, _, h5⟩
  · exact Or.inl h
  · exact Or.inr ⟨r, h1, h2, h3, h5⟩

theorem badBlock_neg_one (nib ds : Int) (h : 0 ≤ nib) : badBlock nib ds (-1) = true := by
  unfold badBlock
  have : (-1 : Int) ≤ nib := by omega
  simp [this]

/-- The five outcomes of one iteration of the direct loop of `fs_write`. -/
theorem writeDirectBody_cases (nib ds j dAI : Int) (data : Bytes) (L : Int) (wb : Block) (k : Int)
    (v : WriteVars) (hnib : 0 ≤ nib) (hsb0 : 0 ≤ v.startByte) (hsb1 : v.startByte < 4096) :
    -- an existing block, refused by the range test
    (k ≤ dAI ∧ badBlock nib ds (inode_direct v.inodeB j k) = true ∧
      writeDirectBody nib ds j dAI data L wb k v = v) ∨
    -- an existing block, written
    (k ≤ dAI ∧ badBlock nib ds (inode_direct v.inodeB j k) = false ∧
      writeDirectBody nib ds j dAI data L wb k v =
        { v with
          st := { v.st with disk := (disk_write v.st.disk (inode_direct v.inodeB j k)
            (memcpy wb v.startByte data v.written (min (L - v.written) (4096 - v.startByte)))) },
          written := v.written + min (L - v.written) (4096 - v.startByte),
          startByte := 0 }) ∨
    -- no free block
    (dAI < k ∧ (∀ b, 0 ≤ b → b < v.st.bitmapSize → v.st.bitmap b = true) ∧
      writeDirectBody nib ds j dAI data L wb k v = { v with ranOutOfMemory := true }) ∨
    -- a new block, refused by the range test
    (∃ r, dAI < k ∧ 0 ≤ r ∧ r < v.st.bitmapSize ∧ v.st.bitmap r = false ∧
      badBlock nib ds r = true ∧
      writeDirectBody nib ds j dAI data L wb k v =
        { v with st := { v.st with bitmap := Function.update v.st.bitmap r true },
                 inodeB := set_inode_direct v.inodeB j k r, changedInodeBlock := true }) ∨
    -- a new block, written
    (∃ r, dAI < k ∧ 0 ≤ r ∧ r < v.st.bitmapSize ∧ v.st.bitmap r = false ∧
      badBlock nib ds r = false ∧
      writeDirectBody nib ds j dAI data L wb k v =
        { v with
          st := { v.st with bitmap := Function.update v.st.bitmap r true,
                            disk := (disk_write v.st.disk r
            (memcpy wb v.startByte data v.written (min (L - v.written) (4096 - v.startByte)))) },
          inodeB := set_inode_direct v.inodeB j k r, changedInodeBlock := true,
          written := v.written + min (L - v.written) (4096 - v.startByte),
          startByte := 0 }) := by
  have hmc : (if v.startByte > 0 then
        memcpy wb v.startByte data v.written (chunk (L - v.written) v.startByte)
      else memcpy wb 0 data v.written (chunk (L - v.written) v.startByte))
      = memcpy wb v.startByte data v.written (min (L - v.written) (4096 - v.startByte)) := by
    rw [chunk_eq _ _ hsb0 hsb1]
    split
    · rfl
    · have : v.startByte = 0 := by omega
      rw [this]
  by_cases hk : k > dAI
  · rcases getNewInode_cases v.st with ⟨h1, h2⟩ | ⟨r, h1, h2, h3, h4⟩
    · right; right; left
      refine ⟨hk, h2, ?_⟩
      unfold writeDirectBody writeDirectPick
      simp only [hk, if_true, h1]
      have : ((-1 : Int) < 0) := by decide
      simp only [this, if_true, badBlock_neg_one nib ds hnib]
    · have hr : ¬ (r < 0) := by omega
      by_cases hb : badBlock nib ds r = true
      · right; right; right; left
        refine ⟨r, hk, h1, h2, h3, hb, ?_⟩
        unfold writeDirectBody writeDirectPick
        simp only [hk, if_true, h4, hr, if_false, hb]
      · right; right; right; right
        have hb' : badBlock nib ds r = false := by simpa using hb
        refine ⟨r, hk, h1, h2, h3, hb', ?_⟩
        unfold writeDirectBody writeDirectPick
        simp only [hk, if_true, h4, hr, if_false, hb']
        simp only [Bool.false_eq_true, if_false]
        rw [hmc, chunk_eq _ _ hsb0 hsb1]
  · have hk' : k ≤ dAI := by omega
    by_cases hb : badBlock nib ds (inode_direct v.inodeB j k) = true
    · left
      refine ⟨hk', hb, ?_⟩
      unfold writeDirectBody writeDirectPick
      simp only [hk, if_false, hb, if_true]
    · right; left
      have hb' : badBlock nib ds (inode_direct v.inodeB j k) = false := by simpa using hb
      refine ⟨hk', hb', ?_⟩
      unfold writeDirectBody writeDirectPick
      simp only [hk, if_false, hb']
      simp only [Bool.false_eq_true, if_false]
      rw [hmc, chunk_eq _ _ hsb0 hsb1]

/-! ## `fs_write`: what the direct loop guarantees in any state -/

theorem getInt_congr (b1 b2 : Block) (w : Int) (h : ∀ i, i / 4 = w → b1 i = b2 i) :
    getInt b1 w = getInt b2 w := by
  unfold getInt getU32
  rw [h (4 * w) (by omega), h (4 * w + 1) (by omega), h (4 * w + 2) (by omega),
    h (4 * w + 3) (by omega)]

theorem DirectFrame.frame_refl_d (nib ds j dAI db L k : Int) (v : WriteVars)
    (hsb0 : 0 ≤ v.startByte) (hsb1 : v.startByte < 4096) (hw : v.written ≤ L) :
    DirectFrame nib ds j dAI db L k v v where
  mounted := rfl
  bitmapSize := rfl
  bitmapNull := rfl
  nblocks := rfl
  bitmap_mono := fun _ h => h
  bitmap_range := fun _ _ => rfl
  written_ge := le_refl _
  written_le := hw
  written_cap := by omega
  startByte := ⟨hsb0, hsb1⟩
  disk_bad := fun _ _ => rfl
  disk_frame := fun _ _ _ => rfl
  inode_frame := fun _ _ => rfl
  unchanged := fun _ => rfl
  changed_mono := fun h => h
  ranOut_mono := fun h => h
  count := fun _ => le_refl _

theorem DirectFrame.frame_trans_d {nib ds j dAI db L k m : Int} {v v' r : WriteVars}
    (h1 : DirectFrame nib ds j dAI m L k v v') (h2 : DirectFrame nib ds j dAI db L m v' r)
    (hkm : k ≤ m) (hmd : m ≤ db) : DirectFrame nib ds j dAI db L k v r where
  mounted := h2.mounted.trans h1.mounted
  bitmapSize := h2.bitmapSize.trans h1.bitmapSize
  bitmapNull := h2.bitmapNull.trans h1.bitmapNull
  nblocks := h2.nblocks.trans h1.nblocks
  bitmap_mono := fun b h => h2.bitmap_mono b (h1.bitmap_mono b h)
  bitmap_range := fun b h => by
    rw [h2.bitmap_range b (by rw [h1.bitmapSize]; exact h), h1.bitmap_range b h]
  written_ge := le_trans h1.written_ge h2.written_ge
  written_le := h2.written_le
  written_cap := by
    have a := h1.written_cap
    have b := h2.written_cap
    omega
  startByte := h2.startByte
  disk_bad := fun b h => by rw [h2.disk_bad b h, h1.disk_bad b h]
  disk_frame := fun b hb hne => by
    rw [h2.disk_frame b (h1.bitmap_mono b hb) ?_, h1.disk_frame b hb ?_]
    · intro l hl1 hl2 hl3; exact hne l hl1 (by omega) hl3
    · intro l hl1 hl2 hl3
      have : inode_direct v'.inodeB j l = inode_direct v.inodeB j l := by
        unfold inode_direct
        apply getInt_congr
        intro i hi
        apply h1.inode_frame
        omega
      rw [this]
      exact hne l (by omega) hl2 hl3
  inode_frame := fun i hi => by
    rw [h2.inode_frame i (by omega), h1.inode_frame i (by omega)]
  unchanged := fun h => by
    have hc : v'.changedInodeBlock = false := by
      by_contra hcon
      have := h2.changed_mono (by simpa using hcon)
      rw [h] at this; exact Bool.false_ne_true this
    rw [h2.unchanged h, h1.unchanged hc]
  changed_mono := fun h => h2.changed_mono (h1.changed_mono h)
  ranOut_mono := fun h => h2.ranOut_mono (h1.ranOut_mono h)
  count := fun hk => by
    have a := h1.count hk
    have b := h2.count (by omega)
    omega

theorem freeCount_congr (st st' : FsState) (hb : st'.bitmap = st.bitmap)
    (hs : st'.bitmapSize = st.bitmapSize) : freeCount st' = freeCount st := by
  unfold freeCount; rw [hb, hs]

theorem freeCount_alloc' (st st' : FsState) (r : Int) (h0 : 0 ≤ r) (h1 : r < st.bitmapSize)
    (hb : st.bitmap r = false) (hb' : st'.bitmap = Function.update st.bitmap r true)
    (hs : st'.bitmapSize = st.bitmapSize) : (freeCount st' : Int) + 1 = freeCount st := by
  have h := freeCount_alloc st r h0 h1 hb
  have h2 := freeCount_congr { st with bitmap := Function.update st.bitmap r true } st' hb' hs
  omega

theorem setInt_bytes (b : Block) (w v i : Int) (h : i / 4 ≠ w) : setInt b w v i = b i :=
  setInt_other b w v i h

theorem DirectFrame.frame_step_d (nib ds j dAI : Int) (data : Bytes) (L : Int) (wb : Block) (k : Int)
    (v : WriteVars) (hnib : 0 ≤ nib) (hsb0 : 0 ≤ v.startByte) (hsb1 : v.startByte < 4096)
    (hw : v.written ≤ L) :
    DirectFrame nib ds j dAI (k + 1) L k v (writeDirectBody nib ds j dAI data L wb k v) := by
  have hch0 : 0 ≤ min (L - v.written) (4096 - v.startByte) := by omega
  have hch1 : min (L - v.written) (4096 - v.startByte) ≤ 4096 := by omega
  have hch2 : v.written + min (L - v.written) (4096 - v.startByte) ≤ L := by omega
  rcases writeDirectBody_cases nib ds j dAI data L wb k v hnib hsb0 hsb1 with
    ⟨h1, h2, h3⟩ | ⟨h1, h2, h3⟩ | ⟨h1, h2, h3⟩ | ⟨r, h1, hr0, hr1, hrb, h2, h3⟩ |
    ⟨r, h1, hr0, hr1, hrb, h2, h3⟩
  · rw [h3]; exact DirectFrame.frame_refl_d _ _ _ _ _ _ _ _ hsb0 hsb1 hw
  · rw [h3]
    exact {
      mounted := rfl, bitmapSize := rfl, bitmapNull := rfl
      nblocks := disk_write_nblocks _ _ _
      bitmap_mono := fun _ h => h
      bitmap_range := fun _ _ => rfl
      written_ge := by show v.written ≤ v.written + _; omega
      written_le := hch2
      written_cap := by show v.written + _ ≤ _; omega
      startByte := ⟨le_refl _, by show (0 : Int) < 4096; omega⟩
      disk_bad := fun b hb => by
        show disk_read (disk_write _ _ _) b = _
        apply disk_read_write_ne
        intro he; rw [he, h2] at hb; exact Bool.false_ne_true hb
      disk_frame := fun b _ hne => by
        show disk_read (disk_write _ _ _) b = _
        apply disk_read_write_ne
        exact hne k (le_refl _) (by omega) h1
      inode_frame := fun _ _ => rfl
      unchanged := fun _ => rfl
      changed_mono := fun h => h
      ranOut_mono := fun h => h
      count := fun hk => by omega }
  · rw [h3]
    exact {
      mounted := rfl, bitmapSize := rfl, bitmapNull := rfl, nblocks := rfl
      bitmap_mono := fun _ h => h
      bitmap_range := fun _ _ => rfl
      written_ge := le_refl _
      written_le := hw
      written_cap := by show v.written ≤ _; omega
      startByte := ⟨hsb0, hsb1⟩
      disk_bad := fun _ _ => rfl
      disk_frame := fun _ _ _ => rfl
      inode_frame := fun _ _ => rfl
      unchanged := fun _ => rfl
      changed_mono := fun h => h
      ranOut_mono := fun _ => rfl
      count := fun _ => le_refl _ }
  · have hfc := freeCount_alloc' v.st (writeDirectBody nib ds j dAI data L wb k v).st
      r hr0 hr1 hrb (by rw [h3]) (by rw [h3])
    have hwr : (writeDirectBody nib ds j dAI data L wb k v).written = v.written := by rw [h3]
    have hcount : dAI < k → (writeDirectBody nib ds j dAI data L wb k v).written
        + 4096 * (freeCount (writeDirectBody nib ds j dAI data L wb k v).st : Int)
        ≤ v.written + 4096 * (freeCount v.st : Int) := fun _ => by omega
    rw [h3] at hcount ⊢
    exact {
      mounted := rfl, bitmapSize := rfl, bitmapNull := rfl, nblocks := rfl
      bitmap_mono := fun b h => by
        show Function.update v.st.bitmap r true b = true
        by_cases hbr : b = r
        · rw [hbr]; simp
        · rw [Function.update_noteq hbr]; exact h
      bitmap_range := fun b h => by
        show Function.update v.st.bitmap r true b = _
        rw [Function.update_noteq (by omega)]
      written_ge := le_refl _
      written_le := hw
      written_cap := by show v.written ≤ _; omega
      startByte := ⟨hsb0, hsb1⟩
      disk_bad := fun _ _ => rfl
      disk_frame := fun _ _ _ => rfl
      inode_frame := fun i hi => by
        show set_inode_direct v.inodeB j k r i = _
        unfold set_inode_direct
        apply setInt_other
        omega
      unchanged := fun h => by simp at h
      changed_mono := fun _ => rfl
      ranOut_mono := fun h => h
      count := hcount }
  · have hfc := freeCount_alloc' v.st (writeDirectBody nib ds j dAI data L wb k v).st
      r hr0 hr1 hrb (by rw [h3]) (by rw [h3])
    have hwr : (writeDirectBody nib ds j dAI data L wb k v).written
        = v.written + min (L - v.written) (4096 - v.startByte) := by rw [h3]
    have hcount : dAI < k → (writeDirectBody nib ds j dAI data L wb k v).written
        + 4096 * (freeCount (writeDirectBody nib ds j dAI data L wb k v).st : Int)
        ≤ v.written + 4096 * (freeCount v.st : Int) := fun _ => by omega
    rw [h3] at hcount ⊢
    exact {
      mounted := rfl, bitmapSize := rfl, bitmapNull := rfl
      nblocks := disk_write_nblocks _ _ _
      bitmap_mono := fun b h => by
        show Function.update v.st.bitmap r true b = true
        by_cases hbr : b = r
        · rw [hbr]; simp
        · rw [Function.update_noteq hbr]; exact h
      bitmap_range := fun b h => by
        show Function.update v.st.bitmap r true b = _
        rw [Function.update_noteq (by omega)]
      written_ge := by show v.written ≤ v.written + _; omega
      written_le := hch2
      written_cap := by show v.written + _ ≤ _; omega
      startByte := ⟨le_refl _, by show (0 : Int) < 4096; omega⟩
      disk_bad := fun b hb => by
        show disk_read (disk_write _ _ _) b = _
        apply disk_read_write_ne
        intro he; rw [he, h2] at hb; exact Bool.false_ne_true hb
      disk_frame := fun b hb _ => by
        show disk_read (disk_write _ _ _) b = _
        apply disk_read_write_ne
        intro he; rw [he, hrb] at hb; exact Bool.false_ne_true hb
      inode_frame := fun i hi => by
        show set_inode_direct v.inodeB j k r i = _
        unfold set_inode_direct
        apply setInt_other
        omega
      unchanged := fun h => by simp at h
      changed_mono := fun _ => rfl
      ranOut_mono := fun h => h
      count := hcount }

theorem writeDirect_frame (nib ds j dAI : Int) (data : Bytes) (L : Int) (uninit : Int → Block)
    (db : Int) (n : Nat) (k : Int) (v : WriteVars) (hnib : 0 ≤ nib) (hsb0 : 0 ≤ v.startByte)
    (hsb1 : v.startByte < 4096) (hw : v.written ≤ L) :
    DirectFrame nib ds j dAI db L k v (writeDirect nib ds j dAI data L uninit db n k v) := by
  induction n generalizing k v with
  | zero => exact DirectFrame.frame_refl_d _ _ _ _ _ _ _ _ hsb0 hsb1 hw
  | succ n ih =>
    unfold writeDirect
    by_cases hc : k < db ∧ v.written < L
    · simp only [hc, and_self, if_true]
      have hs := DirectFrame.frame_step_d nib ds j dAI data L (uninit k) k v hnib hsb0 hsb1 hw
      have h2 := ih (k + 1) (writeDirectBody nib ds j dAI data L (uninit k) k v)
        hs.startByte.1 hs.startByte.2 hs.written_le
      exact DirectFrame.frame_trans_d hs h2 (by omega) (by omega)
    · simp only [hc, if_false]
      exact DirectFrame.frame_refl_d _ _ _ _ _ _ _ _ hsb0 hsb1 hw

/-! ## `fs_write`: what the indirect loop guarantees in any state -/

theorem pointers_set_same (pb : Block) (k r : Int) (h0 : 0 ≤ r) (h1 : r < 2147483648) :
    pointers (set_pointers pb k r) k = r := by
  unfold pointers set_pointers
  exact getInt_setInt_same _ _ _ (by omega) h1

theorem pointers_set_ne (pb : Block) (k l r : Int) (h : l ≠ k) :
    pointers (set_pointers pb k r) l = pointers pb l := by
  unfold pointers set_pointers
  exact getInt_setInt_ne _ _ _ _ h

/-- The five outcomes of one iteration of the indirect loop of `fs_write`. -/
theorem writeIndirectBody_cases (nib ds iAI : Int) (data : Bytes) (L k : Int) (v : WriteIndVars)
    (hnib : 0 ≤ nib) (hsb0 : 0 ≤ v.startByte) (hsb1 : v.startByte < 4096)
    (hsz : v.st.bitmapSize ≤ 2147483648) :
    (k ≤ iAI ∧ badBlock nib ds (pointers v.pointers_block k) = true ∧
      writeIndirectBody nib ds iAI data L k v = { v with returned := true }) ∨
    (k ≤ iAI ∧ badBlock nib ds (pointers v.pointers_block k) = false ∧
      writeIndirectBody nib ds iAI data L k v =
        { v with
          st := { v.st with disk := (disk_write v.st.disk (pointers v.pointers_block k)
            (memcpy v.writeBlock v.startByte data v.written
              (min (L - v.written) (4096 - v.startByte)))) },
          writeBlock := memcpy v.writeBlock v.startByte data v.written
              (min (L - v.written) (4096 - v.startByte)),
          written := v.written + min (L - v.written) (4096 - v.startByte),
          startByte := 0 }) ∨
    (iAI < k ∧ (∀ b, 0 ≤ b → b < v.st.bitmapSize → v.st.bitmap b = true) ∧
      writeIndirectBody nib ds iAI data L k v = { v with ranOutOfMemory := true }) ∨
    (∃ r, iAI < k ∧ 0 ≤ r ∧ r < v.st.bitmapSize ∧ v.st.bitmap r = false ∧
      badBlock nib ds r = true ∧
      writeIndirectBody nib ds iAI data L k v =
        { v with st := { v.st with bitmap := Function.update v.st.bitmap r true },
                 pointers_block := set_pointers v.pointers_block k r,
                 changedPointersBlock := true, returned := true }) ∨
    (∃ r, iAI < k ∧ 0 ≤ r ∧ r < v.st.bitmapSize ∧ v.st.bitmap r = false ∧
      badBlock nib ds r = false ∧
      writeIndirectBody nib ds iAI data L k v =
        { v with
          st := { v.st with bitmap := Function.update v.st.bitmap r true,
                            disk := (disk_write v.st.disk r
            (memcpy v.writeBlock v.startByte data v.written
              (min (L - v.written) (4096 - v.startByte)))) },
          pointers_block := set_pointers v.pointers_block k r,
          changedPointersBlock := true,
          writeBlock := memcpy v.writeBlock v.startByte data v.written
              (min (L - v.written) (4096 - v.startByte)),
          written := v.written + min (L - v.written) (4096 - v.startByte),
          startByte := 0 }) := by
  have hmc : ∀ wb : Block, (if v.startByte > 0 then
        memcpy wb v.startByte data v.written (chunk (L - v.written) v.startByte)
      else memcpy wb 0 data v.written (chunk (L - v.written) v.startByte))
      = memcpy wb v.startByte data v.written (min (L - v.written) (4096 - v.startByte)) := by
    intro wb
    rw [chunk_eq _ _ hsb0 hsb1]
    split
    · rfl
    · have : v.startByte = 0 := by omega
      rw [this]
  by_cases hk : k > iAI
  · rcases getNewInode_cases v.st with ⟨h1, h2⟩ | ⟨r, h1, h2, h3, h4⟩
    · right; right; left
      refine ⟨hk, h2, ?_⟩
      unfold writeIndirectBody
      simp only [hk, if_true, h1]
      have : ((-1 : Int) < 0) := by decide
      simp only [this, if_true]
    · have hr : ¬ (r < 0) := by omega
      have hp := pointers_set_same v.pointers_block k r h1 (by omega)
      by_cases hb : badBlock nib ds r = true
      · right; right; right; left
        refine ⟨r, hk, h1, h2, h3, hb, ?_⟩
        unfold writeIndirectBody writeIndirectStore
        simp only [hk, if_true, h4, hr, if_false, hp, hb]
      · right; right; right; right
        have hb' : badBlock nib ds r = false := by simpa using hb
        refine ⟨r, hk, h1, h2, h3, hb', ?_⟩
        unfold writeIndirectBody writeIndirectStore
        simp only [hk, if_true, h4, hr, if_false, hp, hb']
        simp only [Bool.false_eq_true, if_false]
        rw [hmc, chunk_eq _ _ hsb0 hsb1]
  · have hk' : k ≤ iAI := by omega
    by_cases hb : badBlock nib ds (pointers v.pointers_block k) = true
    · left
      refine ⟨hk', hb, ?_⟩
      unfold writeIndirectBody writeIndirectStore
      simp only [hk, if_false, hb, if_true]
    · right; left
      have hb' : badBlock nib ds (pointers v.pointers_block k) = false := by simpa using hb
      refine ⟨hk', hb', ?_⟩
      unfold writeIndirectBody writeIndirectStore
      simp only [hk, if_false, hb']
      simp only [Bool.false_eq_true, if_false]
      rw [hmc, chunk_eq _ _ hsb0 hsb1]

theorem IndirectFrame.frame_refl_i (nib ds iAI ib L k : Int) (v : WriteIndVars)
    (hsb0 : 0 ≤ v.startByte) (hsb1 : v.startByte < 4096) (hw : v.written ≤ L) :
    IndirectFrame nib ds iAI ib L k v v where
  mounted := rfl
  bitmapSize := rfl
  bitmapNull := rfl
  nblocks := rfl
  bitmap_mono := fun _ h => h
  bitmap_range := fun _ _ => rfl
  written_ge := le_refl _
  written_le := hw
  written_cap := by omega
  startByte := ⟨hsb0, hsb1⟩
  disk_bad := fun _ _ => rfl
  disk_frame := fun _ _ _ => rfl
  pointers_frame := fun _ _ => rfl
  unchanged := fun _ => rfl
  changed_mono := fun h => h
  ranOut_mono := fun h => h
  count := fun _ => le_refl _
  stuck := fun _ => rfl
  noreturn := fun h _ _ _ => h

theorem IndirectFrame.frame_trans_i {nib ds iAI ib L k m : Int} {v v' r : WriteIndVars}
    (h1 : IndirectFrame nib ds iAI m L k v v') (h2 : IndirectFrame nib ds iAI ib L m v' r)
    (hkm : k ≤ m) (hmd : m ≤ ib) : IndirectFrame nib ds iAI ib L k v r where
  mounted := h2.mounted.trans h1.mounted
  bitmapSize := h2.bitmapSize.trans h1.bitmapSize
  bitmapNull := h2.bitmapNull.trans h1.bitmapNull
  nblocks := h2.nblocks.trans h1.nblocks
  bitmap_mono := fun b h => h2.bitmap_mono b (h1.bitmap_mono b h)
  bitmap_range := fun b h => by
    rw [h2.bitmap_range b (by rw [h1.bitmapSize]; exact h), h1.bitmap_range b h]
  written_ge := le_trans h1.written_ge h2.written_ge
  written_le := h2.written_le
  written_cap := by
    have a := h1.written_cap
    have b := h2.written_cap
    omega
  startByte := h2.startByte
  disk_bad := fun b h => by rw [h2.disk_bad b h, h1.disk_bad b h]
  disk_frame := fun b hb hne => by
    rw [h2.disk_frame b (h1.bitmap_mono b hb) ?_, h1.disk_frame b hb ?_]
    · intro l hl1 hl2 hl3; exact hne l hl1 (by omega) hl3
    · intro l hl1 hl2 hl3
      have : pointers v'.pointers_block l = pointers v.pointers_block l := by
        unfold pointers
        apply getInt_congr
        intro i hi
        apply h1.pointers_frame
        omega
      rw [this]
      exact hne l (by omega) hl2 hl3
  pointers_frame := fun i hi => by
    rw [h2.pointers_frame i (by omega), h1.pointers_frame i (by omega)]
  unchanged := fun h => by
    have hc : v'.changedPointersBlock = false := by
      by_contra hcon
      have := h2.changed_mono (by simpa using hcon)
      rw [h] at this; exact Bool.false_ne_true this
    rw [h2.unchanged h, h1.unchanged hc]
  changed_mono := fun h => h2.changed_mono (h1.changed_mono h)
  ranOut_mono := fun h => h2.ranOut_mono (h1.ranOut_mono h)
  count := fun hk => by
    have a := h1.count hk
    have b := h2.count (by omega)
    omega
  stuck := fun h => by
    have e := h1.stuck h
    rw [h2.stuck (by rw [e]; exact h), e]
  noreturn := fun hr hmeta hsz hgood => by
    apply h2.noreturn
    · exact h1.noreturn hr hmeta hsz (fun l hl1 hl2 hl3 => hgood l hl1 (by omega) hl3)
    · intro b hb0 hb1; exact h1.bitmap_mono b (hmeta b hb0 hb1)
    · rw [h1.bitmapSize]; exact hsz
    · intro l hl1 hl2 hl3
      have : pointers v'.pointers_block l = pointers v.pointers_block l := by
        unfold pointers
        apply getInt_congr
        intro i hi
        apply h1.pointers_frame
        omega
      rw [this]
      exact hgood l (by omega) hl2 hl3

theorem IndirectFrame.frame_step_i (nib ds iAI : Int) (data : Bytes) (L k : Int)
    (v : WriteIndVars) (hnib : 0 ≤ nib) (hsb0 : 0 ≤ v.startByte) (hsb1 : v.startByte < 4096)
    (hw : v.written ≤ L) (hsz : v.st.bitmapSize ≤ 2147483648)
    (hro : v.ranOutOfMemory = false) :
    IndirectFrame nib ds iAI (k + 1) L k v (writeIndirectBody nib ds iAI data L k v) := by
  have hstuck : ∀ r : WriteIndVars, v.ranOutOfMemory = true → r = v := fun _ h => by
    rw [hro] at h; exact absurd h (by decide)
  have hch0 : 0 ≤ min (L - v.written) (4096 - v.startByte) := by omega
  have hch1 : min (L - v.written) (4096 - v.startByte) ≤ 4096 := by omega
  have hch2 : v.written + min (L - v.written) (4096 - v.startByte) ≤ L := by omega
  rcases writeIndirectBody_cases nib ds iAI data L k v hnib hsb0 hsb1 hsz with
    ⟨h1, h2, h3⟩ | ⟨h1, h2, h3⟩ | ⟨h1, h2, h3⟩ | ⟨r, h1, hr0, hr1, hrb, h2, h3⟩ |
    ⟨r, h1, hr0, hr1, hrb, h2, h3⟩
  · rw [h3]
    exact {
      mounted := rfl, bitmapSize := rfl, bitmapNull := rfl, nblocks := rfl
      bitmap_mono := fun _ h => h
      bitmap_range := fun _ _ => rfl
      written_ge := le_refl _
      written_le := hw
      written_cap := by show v.written ≤ _; omega
      startByte := ⟨hsb0, hsb1⟩
      disk_bad := fun _ _ => rfl
      disk_frame := fun _ _ _ => rfl
      pointers_frame := fun _ _ => rfl
      unchanged := fun _ => rfl
      changed_mono := fun h => h
      ranOut_mono := fun h => h
      count := fun _ => le_refl _
      stuck := hstuck _
      noreturn := fun _ _ _ hgood => by
        have := hgood k (le_refl _) (by omega) h1
        rw [h2] at this; exact absurd this (by decide) }
  · rw [h3]
    exact {
      mounted := rfl, bitmapSize := rfl, bitmapNull := rfl
      nblocks := disk_write_nblocks _ _ _
      bitmap_mono := fun _ h => h
      bitmap_range := fun _ _ => rfl
      written_ge := by show v.written ≤ v.written + _; omega
      written_le := hch2
      written_cap := by show v.written + _ ≤ _; omega
      startByte := ⟨le_refl _, by show (0 : Int) < 4096; omega⟩
      disk_bad := fun b hb => by
        show disk_read (disk_write _ _ _) b = _
        apply disk_read_write_ne
        intro he; rw [he, h2] at hb; exact Bool.false_ne_true hb
      disk_frame := fun b _ hne => by
        show disk_read (disk_write _ _ _) b = _
        apply disk_read_write_ne
        exact hne k (le_refl _) (by omega) h1
      pointers_frame := fun _ _ => rfl
      unchanged := fun _ => rfl
      changed_mono := fun h => h
      ranOut_mono := fun h => h
      count := fun hk => by omega
      stuck := hstuck _
      noreturn := fun h _ _ _ => h }
  · rw [h3]
    exact {
      mounted := rfl, bitmapSize := rfl, bitmapNull := rfl, nblocks := rfl
      bitmap_mono := fun _ h => h
      bitmap_range := fun _ _ => rfl
      written_ge := le_refl _
      written_le := hw
      written_cap := by show v.written ≤ _; omega
      startByte := ⟨hsb0, hsb1⟩
      disk_bad := fun _ _ => rfl
      disk_frame := fun _ _ _ => rfl
      pointers_frame := fun _ _ => rfl
      unchanged := fun _ => rfl
      changed_mono := fun h => h
      ranOut_mono := fun _ => rfl
      count := fun _ => le_refl _
      stuck := hstuck _
      noreturn := fun h _ _ _ => h }
  · have hfc := freeCount_alloc' v.st (writeIndirectBody nib ds iAI data L k v).st
      r hr0 hr1 hrb (by rw [h3]) (by rw [h3])
    have hwr : (writeIndirectBody nib ds iAI data L k v).written = v.written := by rw [h3]
    have hcount : iAI < k → (writeIndirectBody nib ds iAI data L k v).written
        + 4096 * (freeCount (writeIndirectBody nib ds iAI data L k v).st : Int)
        ≤ v.written + 4096 * (freeCount v.st : Int) := fun _ => by omega
    rw [h3] at hcount ⊢
    exact {
      mounted := rfl, bitmapSize := rfl, bitmapNull := rfl, nblocks := rfl
      bitmap_mono := fun b h => by
        show Function.update v.st.bitmap r true b = true
        by_cases hbr : b = r
        · rw [hbr]; simp
        · rw [Function.update_noteq hbr]; exact h
      bitmap_range := fun b h => by
        show Function.update v.st.bitmap r true b = _
        rw [Function.update_noteq (by omega)]
      written_ge := le_refl _
      written_le := hw
      written_cap := by show v.written ≤ _; omega
      startByte := ⟨hsb0, hsb1⟩
      disk_bad := fun _ _ => rfl
      disk_frame := fun _ _ _ => rfl
      pointers_frame := fun i hi => by
        show set_pointers v.pointers_block k r i = _
        unfold set_pointers
        apply setInt_other
        omega
      unchanged := fun h => by simp at h
      changed_mono := fun _ => rfl
      ranOut_mono := fun h => h
      count := hcount
      stuck := hstuck _
      noreturn := fun _ hmeta hszds _ => by
        exfalso
        unfold badBlock at h2
        simp only [Bool.or_eq_true, decide_eq_true_eq] at h2
        rcases h2 with h2 | h2
        · have := hmeta r hr0 h2
          rw [hrb] at this; exact Bool.false_ne_true this
        · omega }
  · have hfc := freeCount_alloc' v.st (writeIndirectBody nib ds iAI data L k v).st
      r hr0 hr1 hrb (by rw [h3]) (by rw [h3])
    have hwr : (writeIndirectBody nib ds iAI data L k v).written
        = v.written + min (L - v.written) (4096 - v.startByte) := by rw [h3]
    have hcount : iAI < k → (writeIndirectBody nib ds iAI data L k v).written
        + 4096 * (freeCount (writeIndirectBody nib ds iAI data L k v).st : Int)
        ≤ v.written + 4096 * (freeCount v.st : Int) := fun _ => by omega
    rw [h3] at hcount ⊢
    exact {
      mounted := rfl, bitmapSize := rfl, bitmapNull := rfl
      nblocks := disk_write_nblocks _ _ _
      bitmap_mono := fun b h => by
        show Function.update v.st.bitmap r true b = true
        by_cases hbr : b = r
        · rw [hbr]; simp
        · rw [Function.update_noteq hbr]; exact h
      bitmap_range := fun b h => by
        show Function.update v.st.bitmap r true b = _
        rw [Function.update_noteq (by omega)]
      written_ge := by show v.written ≤ v.written + _; omega
      written_le := hch2
      written_cap := by show v.written + _ ≤ _; omega
      startByte := ⟨le_refl _, by show (0 : Int) < 4096; omega⟩
      disk_bad := fun b hb => by
        show disk_read (disk_write _ _ _) b = _
        apply disk_read_write_ne
        intro he; rw [he, h2] at hb; exact Bool.false_ne_true hb
      disk_frame := fun b hb _ => by
        show disk_read (disk_write _ _ _) b = _
        apply disk_read_write_ne
        intro he; rw [he, hrb] at hb; exact Bool.false_ne_true hb
      pointers_frame := fun i hi => by
        show set_pointers v.pointers_block k r i = _
        unfold set_pointers
        apply setInt_other
        omega
      unchanged := fun h => by simp at h
      changed_mono := fun _ => rfl
      ranOut_mono := fun h => h
      count := hcount
      stuck := hstuck _
      noreturn := fun h _ _ _ => h }

theorem writeIndirect_frame (nib ds iAI : Int) (data : Bytes) (L ib : Int) (n : Nat) (k : Int)
    (v : WriteIndVars) (hnib : 0 ≤ nib) (hsb0 : 0 ≤ v.startByte) (hsb1 : v.startByte < 4096)
    (hw : v.written ≤ L) (hsz : v.st.bitmapSize ≤ 2147483648) :
    IndirectFrame nib ds iAI ib L k v (writeIndirect nib ds iAI data L ib n k v) := by
  induction n generalizing k v with
  | zero => exact IndirectFrame.frame_refl_i _ _ _ _ _ _ _ hsb0 hsb1 hw
  | succ n ih =>
    unfold writeIndirect
    by_cases hc : k < ib ∧ v.written < L ∧ v.ranOutOfMemory = false
    · simp only [hc, and_self, if_true]
      have hs := IndirectFrame.frame_step_i nib ds iAI data L k v hnib hsb0 hsb1 hw hsz hc.2.2
      by_cases hret : (writeIndirectBody nib ds iAI data L k v).returned = true
      · simp only [hret, if_true]
        exact IndirectFrame.frame_trans_i hs
          (IndirectFrame.frame_refl_i _ _ _ _ _ _ _ hs.startByte.1 hs.startByte.2 hs.written_le)
          (by omega) (by omega)
      · simp only [hret, if_false]
        have h2 := ih (k + 1) (writeIndirectBody nib ds iAI data L k v)
          hs.startByte.1 hs.startByte.2 hs.written_le (by rw [hs.bitmapSize]; exact hsz)
        exact IndirectFrame.frame_trans_i hs h2 (by omega) (by omega)
    · simp only [hc, if_false]
      exact IndirectFrame.frame_refl_i _ _ _ _ _ _ _ hsb0 hsb1 hw

/-! ## `fs_write`: the parts after the direct loop -/

theorem inode_size_set_size (B : Block) (j s : Int) (h0 : -2147483648 ≤ s) (h1 : s < 2147483648) :
    inode_size (set_inode_size B j s) j = s := by
  unfold inode_size set_inode_size
  exact getInt_setInt_same _ _ _ h0 h1

theorem writeFinish_frame (st2 : FsState) (nib inodeBlock j : Int) (B inodeB0 : Block)
    (L size offset w : Int) (fresh : Prop)
    (hib0 : 0 ≤ inodeBlock + 1) (hib1 : inodeBlock + 1 < st2.disk.nblocks)
    (hw : w ≤ L) (hsz0 : -2147483648 ≤ size)
    (hB : ∀ i, ¬ (8 * j + 1 ≤ i / 4 ∧ i / 4 ≤ 8 * j + 7) → B i = inodeB0 i)
    (hD : ¬ (offset + w > size) →
      (∀ i, ¬ (8 * j + 1 ≤ i / 4 ∧ i / 4 ≤ 8 * j + 7) →
        disk_read st2.disk (inodeBlock + 1) i = inodeB0 i) ∧
      inode_size (disk_read st2.disk (inodeBlock + 1)) j = size) :
    PartFrame st2 nib inodeBlock j inodeB0 L size offset w 0 fresh
      (writeFinish st2 inodeBlock j B size offset w) := by
  unfold writeFinish
  simp only [BYTES_PER_BLOCK, POINTERS_PER_INODE, POINTERS_PER_BLOCK]
  have e : (4096 : Int) * (5 + 1024) = 4214784 := by norm_num
  rw [e]
  by_cases hg : offset + w > size
  · simp only [hg, if_true]
    have hmin : (if offset + w > 4214784 then 4214784 else offset + w)
        = min (offset + w) S_max := by
      simp only [S_max]; split <;> omega
    rw [hmin]
    have hrd : disk_read (disk_write st2.disk (inodeBlock + 1)
        (set_inode_size B j (min (offset + w) S_max))) (inodeBlock + 1)
        = set_inode_size B j (min (offset + w) S_max) := disk_read_write_same _ _ _ hib0 hib1
    exact {
      mounted := rfl, bitmapSize := rfl, bitmapNull := rfl
      nblocks := disk_write_nblocks _ _ _
      bitmap_mono := fun _ h => h
      written_ge := le_refl _
      written_le := hw
      written_cap := by show w ≤ _; omega
      meta_frame := fun b _ _ hne => by
        show disk_read (disk_write _ _ _) b = _
        exact disk_read_write_ne _ _ _ _ hne
      inode_bytes := fun i hi => by
        show disk_read (disk_write _ _ _) (inodeBlock + 1) i = _
        rw [hrd]
        unfold set_inode_size
        rw [setInt_other _ _ _ _ (by omega)]
        exact hB i hi
      inode_size := by
        show inode_size (disk_read (disk_write _ _ _) (inodeBlock + 1)) j = _
        rw [hrd, inode_size_set_size _ _ _ (by simp only [S_max]; omega)
          (by simp only [S_max]; omega)]
        simp only [hg, if_true]
      count := fun _ => le_refl _ }
  · simp only [hg, if_false]
    exact {
      mounted := rfl, bitmapSize := rfl, bitmapNull := rfl, nblocks := rfl
      bitmap_mono := fun _ h => h
      written_ge := le_refl _
      written_le := hw
      written_cap := by show w ≤ _; omega
      meta_frame := fun _ _ _ _ => rfl
      inode_bytes := fun i hi => (hD hg).1 i hi
      inode_size := by
        show inode_size (disk_read st2.disk (inodeBlock + 1)) j = _
        rw [(hD hg).2]; simp only [hg, if_false]
      count := fun _ => le_refl _ }

/-- A part that runs after a step from `st1` to `st2`. -/
theorem PartFrame.pre (st1 : FsState) (w1 c1 : Int) (fresh1 : Prop)
    {st2 : FsState} {nib inodeBlock j : Int} {inodeB0 : Block}
    {L size offset w2 c2 : Int} {fresh2 : Prop} {r : Int × FsState}
    (h : PartFrame st2 nib inodeBlock j inodeB0 L size offset w2 c2 fresh2 r)
    (hm : st2.fs_mounted = st1.fs_mounted) (hbs : st2.bitmapSize = st1.bitmapSize)
    (hbn : st2.bitmapNull = st1.bitmapNull) (hnb : st2.disk.nblocks = st1.disk.nblocks)
    (hmono : ∀ b, st1.bitmap b = true → st2.bitmap b = true)
    (hw : w1 ≤ w2) (hcap : w2 ≤ w1 + 4096 * c1)
    (hmeta : ∀ b, 0 ≤ b → b ≤ nib → b ≠ inodeBlock + 1 →
      disk_read st2.disk b = disk_read st1.disk b)
    (hfresh : fresh1 → fresh2)
    (hcount : fresh1 → w2 + 4096 * (freeCount st2 : Int) ≤ w1 + 4096 * (freeCount st1 : Int)) :
    PartFrame st1 nib inodeBlock j inodeB0 L size offset w1 (c1 + c2) fresh1 r where
  mounted := h.mounted.trans hm
  bitmapSize := h.bitmapSize.trans hbs
  bitmapNull := h.bitmapNull.trans hbn
  nblocks := h.nblocks.trans hnb
  bitmap_mono := fun b hb => h.bitmap_mono b (hmono b hb)
  written_ge := le_trans hw h.written_ge
  written_le := h.written_le
  written_cap := by
    have := h.written_cap
    omega
  meta_frame := fun b h0 h1 hne => by rw [h.meta_frame b h0 h1 hne, hmeta b h0 h1 hne]
  inode_bytes := h.inode_bytes
  inode_size := h.inode_size
  count := fun hf => by
    have a := h.count (hfresh hf)
    have b := hcount hf
    omega

theorem inode_indirect_set (B : Block) (j r : Int) (h0 : 0 ≤ r) (h1 : r < 2147483648) :
    inode_indirect (set_inode_indirect B j r) j = r := by
  unfold inode_indirect set_inode_indirect
  exact getInt_setInt_same _ _ _ (by omega) h1

theorem badBlock_meta (nib ds b : Int) (h : b ≤ nib) : badBlock nib ds b = true := by
  unfold badBlock; simp [h]

theorem writeIndirectRun_frame (st : FsState) (ro : Bool) (nib ds inodeBlock j : Int)
    (B2 inodeB0 : Block) (data : Bytes) (L : Int) (wb : Block) (size offset : Int)
    (iAI ib sib siy written : Int)
    (hnib : 0 ≤ nib) (hib0 : 0 ≤ inodeBlock + 1) (hibn : inodeBlock + 1 ≤ nib)
    (hib1 : inodeBlock + 1 < st.disk.nblocks)
    (hds : st.bitmapSize ≤ ds) (hsz : st.bitmapSize ≤ 2147483648)
    (hmeta : ∀ b, 0 ≤ b → b ≤ nib → st.bitmap b = true)
    (hsb0 : 0 ≤ siy) (hsb1 : siy < 4096) (hw : written ≤ L) (hsz0 : -2147483648 ≤ size)
    (hB : ∀ i, ¬ (8 * j + 1 ≤ i / 4 ∧ i / 4 ≤ 8 * j + 7) → B2 i = inodeB0 i)
    (hD : (∀ i, ¬ (8 * j + 1 ≤ i / 4 ∧ i / 4 ≤ 8 * j + 7) →
        disk_read st.disk (inodeBlock + 1) i = inodeB0 i) ∧
      inode_size (disk_read st.disk (inodeBlock + 1)) j = size)
    (hP : ro = false → nib < inode_indirect B2 j)
    (hgood : ∀ l, sib ≤ l → l < ib → l ≤ iAI →
      badBlock nib ds (pointers (disk_read st.disk (inode_indirect B2 j)) l) = false) :
    PartFrame st nib inodeBlock j inodeB0 L size offset written (max (ib - sib) 0) (iAI < sib)
      (writeIndirectRun st ro nib ds inodeBlock j B2 data L wb size offset iAI ib sib siy
        written) := by
  unfold writeIndirectRun
  simp only []
  have F := writeIndirect_frame nib ds iAI data L ib (ib - sib).toNat sib
    { st := st, pointers_block := disk_read st.disk (inode_indirect B2 j), writeBlock := wb,
      written := written, startByte := siy, changedPointersBlock := false,
      ranOutOfMemory := ro, returned := false }
    hnib hsb0 hsb1 hw hsz
  revert F
  generalize writeIndirect nib ds iAI data L ib (ib - sib).toNat sib
    { st := st, pointers_block := disk_read st.disk (inode_indirect B2 j), writeBlock := wb,
      written := written, startByte := siy, changedPointersBlock := false,
      ranOutOfMemory := ro, returned := false } = v2
  intro F
  have hret : v2.returned = false := F.noreturn rfl hmeta hds hgood
  have hch : v2.changedPointersBlock = true → ro = false := by
    intro hc
    by_contra hro
    have hro' : ro = true := by simpa using hro
    have := F.stuck hro'
    rw [this] at hc
    exact Bool.false_ne_true hc
  simp only [hret, Bool.false_eq_true, if_false]
  -- the state after the pointer block is written back
  obtain ⟨st2, hst2⟩ : ∃ st2 : FsState, st2 = (if v2.changedPointersBlock = true then
        ({ v2.st with disk := (disk_write v2.st.disk (inode_indirect B2 j) v2.pointers_block) }
          : FsState) else v2.st) := ⟨_, rfl⟩
  rw [← hst2]
  have e1 : st2.fs_mounted = v2.st.fs_mounted := by rw [hst2]; split <;> rfl
  have e2 : st2.bitmapSize = v2.st.bitmapSize := by rw [hst2]; split <;> rfl
  have e3 : st2.bitmapNull = v2.st.bitmapNull := by rw [hst2]; split <;> rfl
  have e4 : st2.bitmap = v2.st.bitmap := by rw [hst2]; split <;> rfl
  have e5 : st2.disk.nblocks = v2.st.disk.nblocks := by
    rw [hst2]; split
    · exact disk_write_nblocks _ _ _
    · rfl
  have e6 : ∀ b, b ≤ nib → disk_read st2.disk b = disk_read st.disk b := by
    intro b hb
    have h1 : disk_read v2.st.disk b = disk_read st.disk b := F.disk_bad b (badBlock_meta _ _ _ hb)
    rw [hst2]
    by_cases hc : v2.changedPointersBlock = true
    · rw [if_pos hc]
      show disk_read (disk_write _ _ _) b = _
      rw [disk_read_write_ne _ _ _ _ (by have := hP (hch hc); omega), h1]
    · rw [if_neg hc]; exact h1
  have hfin := writeFinish_frame st2 nib inodeBlock j B2 inodeB0 L size offset v2.written
    (iAI < sib) hib0 (by rw [e5, F.nblocks]; exact hib1) F.written_le hsz0 hB
    (fun _ => by rw [e6 _ hibn]; exact hD)
  have hpre := PartFrame.pre st written (max (ib - sib) 0) (iAI < sib) hfin
    (e1.trans F.mounted) (e2.trans F.bitmapSize) (e3.trans F.bitmapNull) (e5.trans F.nblocks)
    (fun b hb => by rw [e4]; exact F.bitmap_mono b hb)
    F.written_ge F.written_cap
    (fun b _ h1 _ => e6 b h1)
    (fun h => h)
    (fun hf => by
      have := F.count hf
      rw [freeCount_congr v2.st st2 e4 e2]
      exact this)
  have e : max (ib - sib) 0 + 0 = max (ib - sib) 0 := by omega
  rw [e] at hpre
  exact hpre

theorem allocIndirect_cases (st1 : FsState) (j : Int) (inodeB : Block) (alloc : Bool) :
    (alloc = false ∧ allocIndirect st1 j inodeB alloc = (false, st1, inodeB)) ∨
    (alloc = true ∧ (∀ b, 0 ≤ b → b < st1.bitmapSize → st1.bitmap b = true) ∧
      allocIndirect st1 j inodeB alloc = (true, st1, inodeB)) ∨
    (∃ r, alloc = true ∧ 0 ≤ r ∧ r < st1.bitmapSize ∧ st1.bitmap r = false ∧
      allocIndirect st1 j inodeB alloc =
        (false, { st1 with bitmap := Function.update st1.bitmap r true },
          set_inode_indirect inodeB j r)) := by
  cases alloc with
  | false => left; exact ⟨rfl, by simp [allocIndirect]⟩
  | true =>
    right
    rcases getNewInode_cases st1 with ⟨h1, h2⟩ | ⟨r, h1, h2, h3, h4⟩
    · left
      refine ⟨rfl, h2, ?_⟩
      unfold allocIndirect
      simp only [if_true, h1]
      have : ((-1 : Int) < 0) := by decide
      simp only [this, if_true]
    · right
      refine ⟨r, rfl, h1, h2, h3, ?_⟩
      unfold allocIndirect
      have hr : ¬ (r < 0) := by omega
      simp only [if_true, h4, hr, if_false]

theorem writeIndirectPart_frame (st1 : FsState) (nib ds inodeBlock j : Int)
    (inodeB inodeB0 : Block) (data : Bytes) (L : Int) (wb : Block) (size offset : Int)
    (alloc : Bool) (iAI ib sib siy written : Int)
    (hnib : 0 ≤ nib) (hib0 : 0 ≤ inodeBlock + 1) (hibn : inodeBlock + 1 ≤ nib)
    (hib1 : inodeBlock + 1 < st1.disk.nblocks)
    (hds : st1.bitmapSize ≤ ds) (hsz : st1.bitmapSize ≤ 2147483648)
    (hmeta : ∀ b, 0 ≤ b → b ≤ nib → st1.bitmap b = true)
    (hsb0 : 0 ≤ siy) (hsb1 : siy < 4096) (hw : written ≤ L) (hsz0 : -2147483648 ≤ size)
    (hB : ∀ i, ¬ (8 * j + 1 ≤ i / 4 ∧ i / 4 ≤ 8 * j + 7) → inodeB i = inodeB0 i)
    (hD : (∀ i, ¬ (8 * j + 1 ≤ i / 4 ∧ i / 4 ≤ 8 * j + 7) →
        disk_read st1.disk (inodeBlock + 1) i = inodeB0 i) ∧
      inode_size (disk_read st1.disk (inodeBlock + 1)) j = size)
    (hP : alloc = false → nib < inode_indirect inodeB j)
    (hgood : alloc = false → ∀ l, sib ≤ l → l < ib → l ≤ iAI →
      badBlock nib ds (pointers (disk_read st1.disk (inode_indirect inodeB j)) l) = false)
    (hai : alloc = true → iAI < sib) :
    PartFrame st1 nib inodeBlock j inodeB0 L size offset written (max (ib - sib) 0) (iAI < sib)
      (writeIndirectPart st1 nib ds inodeBlock j inodeB data L wb size offset alloc iAI ib sib
        siy written) := by
  unfold writeIndirectPart
  simp only []
  rcases allocIndirect_cases st1 j inodeB alloc with ⟨ha, he⟩ | ⟨ha, hfull, he⟩ |
    ⟨r, ha, hr0, hr1, hrb, he⟩
  · rw [he]
    exact writeIndirectRun_frame st1 false nib ds inodeBlock j inodeB inodeB0 data L wb size
      offset iAI ib sib siy written hnib hib0 hibn hib1 hds hsz hmeta hsb0 hsb1 hw hsz0 hB hD
      (fun _ => hP ha) (hgood ha)
  · rw [he]
    exact writeIndirectRun_frame st1 true nib ds inodeBlock j inodeB inodeB0 data L wb size
      offset iAI ib sib siy written hnib hib0 hibn hib1 hds hsz hmeta hsb0 hsb1 hw hsz0 hB hD
      (fun h => absurd h (by decide))
      (fun l h1 _ h3 => by have := hai ha; omega)
  · rw [he]
    have hrn : nib < r := by
      by_contra hcon
      have := hmeta r hr0 (by omega)
      rw [hrb] at this; exact Bool.false_ne_true this
    have hrun := writeIndirectRun_frame
      { st1 with bitmap := Function.update st1.bitmap r true } false nib ds inodeBlock j
      (set_inode_indirect inodeB j r) inodeB0 data L wb size
      offset iAI ib sib siy written hnib hib0 hibn hib1 hds hsz
      (fun b h0 h1 => by
        show Function.update st1.bitmap r true b = true
        rw [Function.update_noteq (by omega)]; exact hmeta b h0 h1)
      hsb0 hsb1 hw hsz0
      (fun i hi => by
        unfold set_inode_indirect
        rw [setInt_other _ _ _ _ (by omega)]; exact hB i hi)
      hD
      (fun _ => by rw [inode_indirect_set _ _ _ hr0 (by omega)]; exact hrn)
      (fun l h1 _ h3 => by have := hai ha; omega)
    have hfc := freeCount_alloc' st1 { st1 with bitmap := Function.update st1.bitmap r true }
      r hr0 hr1 hrb rfl rfl
    have hpre := PartFrame.pre st1 written 0 (iAI < sib) hrun rfl rfl rfl rfl
      (fun b hb => by
        show Function.update st1.bitmap r true b = true
        by_cases hbr : b = r
        · rw [hbr]; simp
        · rw [Function.update_noteq hbr]; exact hb)
      (le_refl _) (by omega) (fun _ _ _ _ => rfl) (fun h => h) (fun _ => by omega)
    have e : 0 + max (ib - sib) 0 = max (ib - sib) 0 := by omega
    rw [e] at hpre
    exact hpre

/-! ## `fs_write` on a valid inode of a well-formed state -/

theorem indirectBlocksCapped_facts (nb : Int) :
    0 ≤ indirectBlocksCapped nb ∧ indirectBlocksCapped nb ≤ 1024 ∧
      (indirectBlocksCapped nb > 0 → nb > 5) := by
  unfold indirectBlocksCapped indirectBlocks
  simp only [POINTERS_PER_INODE, POINTERS_PER_BLOCK]
  split <;> split <;> omega

theorem PartFrame.cap_mono {st1 : FsState} {nib inodeBlock j : Int} {inodeB0 : Block}
    {L size offset w c : Int} {fresh : Prop} {r : Int × FsState} (c' : Int)
    (h : PartFrame st1 nib inodeBlock j inodeB0 L size offset w c fresh r) (hc : c ≤ c') :
    PartFrame st1 nib inodeBlock j inodeB0 L size offset w c' fresh r :=
  { h with written_cap := by have := h.written_cap; omega }

theorem inode_size_congr (B1 B2 : Block) (j : Int)
    (h : ∀ i, ¬ (8 * j + 2 ≤ i / 4 ∧ i / 4 ≤ 8 * j + 7) → B1 i = B2 i) :
    inode_size B1 j = inode_size B2 j := by
  unfold inode_size
  apply getInt_congr
  intro i hi
  exact h i (by omega)

theorem inode_indirect_congr (B1 B2 : Block) (j : Int)
    (h : ∀ i, ¬ (8 * j + 2 ≤ i / 4 ∧ i / 4 ≤ 8 * j + 6) → B1 i = B2 i) :
    inode_indirect B1 j = inode_indirect B2 j := by
  unfold inode_indirect
  apply getInt_congr
  intro i hi
  exact h i (by omega)

theorem super_nblocks_lt (b : Block) : super_nblocks b < 2147483648 := (getInt_range b 1).2

/-- The values that `fs_write` derives from the old size and the offset. -/
theorem write_indices (onb offset : Int) (h0 : 0 ≤ onb) (ho : 0 ≤ offset) :
    (if onb ≥ POINTERS_PER_INODE then POINTERS_PER_INODE - 1 else onb - 1) = min 4 (onb - 1) ∧
    (if onb ≥ POINTERS_PER_INODE then onb - POINTERS_PER_INODE - 1 else -1) = max (onb - 6) (-1) ∧
    (if offset > BYTES_PER_BLOCK * onb then BYTES_PER_BLOCK * onb else offset)
      = min offset (4096 * onb) := by
  simp only [POINTERS_PER_INODE, BYTES_PER_BLOCK]
  refine ⟨?_, ?_, ?_⟩ <;> split <;> omega

/-- The values that `fs_write` derives from the old size and the offset, for
any old block count. -/
theorem write_indices_any (onb offset : Int) :
    (if onb ≥ POINTERS_PER_INODE then POINTERS_PER_INODE - 1 else onb - 1) = min 4 (onb - 1) ∧
    (if onb ≥ POINTERS_PER_INODE then onb - POINTERS_PER_INODE - 1 else -1) = max (onb - 6) (-1) ∧
    (if offset > BYTES_PER_BLOCK * onb then BYTES_PER_BLOCK * onb else offset)
      = min offset (4096 * onb) := by
  simp only [POINTERS_PER_INODE, BYTES_PER_BLOCK]
  refine ⟨?_, ?_, ?_⟩ <;> split <;> omega

theorem writeInode_aux (st : FsState) (nib iB j : Int) (inodeB : Block) (data : Bytes)
    (L offset : Int) (u : Uninit)
    (size onb sdb sdy sib siy nb' dAI iAI db ib offset' : Int) (alloc : Bool)
    (e_size : inode_size inodeB j = size) (e_onb : nblocksOf size = onb)
    (e_sdy : offset.tmod BYTES_PER_BLOCK = sdy) (e_siy : startIndirectByteOf offset = siy)
    (e_sdb : offset.tdiv BYTES_PER_BLOCK = sdb) (e_sib : startIndirectBlockOf offset = sib)
    (e_nb : onb + blocksToAllocateOf (offset + L - onb * BYTES_PER_BLOCK) = nb')
    (e_dAI : (if onb ≥ POINTERS_PER_INODE then POINTERS_PER_INODE - 1 else onb - 1) = dAI)
    (e_iAI : (if onb ≥ POINTERS_PER_INODE then onb - POINTERS_PER_INODE - 1 else -1) = iAI)
    (e_alloc : (decide (onb ≤ POINTERS_PER_INODE) && decide (nb' > POINTERS_PER_INODE)) = alloc)
    (e_off : (if offset > BYTES_PER_BLOCK * onb then BYTES_PER_BLOCK * onb else offset) = offset')
    (e_db : directBlocks nb' = db) (e_ib : indirectBlocksCapped nb' = ib)
    (hnib : 0 ≤ nib) (hib0 : 0 ≤ iB + 1) (hibn : iB + 1 ≤ nib) (hib1 : iB + 1 < st.disk.nblocks)
    (hdsk : disk_read st.disk (iB + 1) = inodeB)
    (hbs : st.bitmapSize = st.disk.nblocks) (hsz : st.disk.nblocks ≤ 2147483648)
    (hmeta : ∀ b, 0 ≤ b → b ≤ nib → st.bitmap b = true)
    (hsz0 : -2147483648 ≤ size) (hL : 0 ≤ L)
    (hsdy0 : 0 ≤ sdy) (hsdy1 : sdy < 4096) (hsiy0 : 0 ≤ siy) (hsiy1 : siy < 4096)
    (hsdb : 0 ≤ sdb) (hsib : 0 ≤ sib) (hfr : onb ≤ sdb → iAI < sib)
    (hdAI : dAI = min 4 (onb - 1)) (hiAI : iAI = max (onb - 6) (-1))
    (hdb : db ≤ 5) (hib0' : 0 ≤ ib) (hib1' : ib ≤ 1024) (hibnb : ib > 0 → nb' > 5)
    (halloc : alloc = true ↔ (onb ≤ 5 ∧ nb' > 5))
    (hInd : onb > 5 → nib < inode_indirect inodeB j ∧
      st.bitmap (inode_indirect inodeB j) = true ∧
      (∀ l, 0 ≤ l → l < 5 → inode_indirect inodeB j ≠ inode_direct inodeB j l) ∧
      (∀ l, 0 ≤ l → l < onb - 5 → badBlock nib (disk_size st.disk)
        (pointers (disk_read st.disk (inode_indirect inodeB j)) l) = false)) :
    PartFrame st nib iB j inodeB L size offset' 0 1029 (onb ≤ sdb)
      (writeInode st nib iB j inodeB data L offset u) := by
  unfold writeInode
  simp only [e_size, e_onb, e_sdy, e_siy, e_sdb, e_sib, e_nb, e_dAI, e_iAI, e_alloc, e_off, e_db,
    e_ib]
  clear e_onb e_sdy e_siy e_sdb e_sib e_nb e_dAI e_iAI e_alloc e_off e_db e_ib
  have D := writeDirect_frame nib (disk_size st.disk) j dAI data L u.direct db (db - sdb).toNat sdb
    { st := st, inodeB := inodeB, written := 0, startByte := sdy, changedInodeBlock := false,
      ranOutOfMemory := false } hnib hsdy0 hsdy1 hL
  revert D
  generalize writeDirect nib (disk_size st.disk) j dAI data L u.direct db (db - sdb).toNat sdb
    { st := st, inodeB := inodeB, written := 0, startByte := sdy, changedInodeBlock := false,
      ranOutOfMemory := false } = v1
  intro D
  -- the state after the inode block is written back
  obtain ⟨st1, hst1⟩ : ∃ st1 : FsState, st1 = (if v1.changedInodeBlock = true then
        ({ v1.st with disk := (disk_write v1.st.disk (iB + 1) v1.inodeB) } : FsState)
      else v1.st) := ⟨_, rfl⟩
  rw [← hst1]
  have e1 : st1.fs_mounted = st.fs_mounted := by
    rw [hst1]; split <;> exact D.mounted
  have e2 : st1.bitmapSize = st.bitmapSize := by
    rw [hst1]; split <;> exact D.bitmapSize
  have e3 : st1.bitmapNull = st.bitmapNull := by
    rw [hst1]; split <;> exact D.bitmapNull
  have e4 : st1.bitmap = v1.st.bitmap := by rw [hst1]; split <;> rfl
  have e5 : st1.disk.nblocks = st.disk.nblocks := by
    rw [hst1]; split
    · show (disk_write _ _ _).nblocks = _
      rw [disk_write_nblocks]; exact D.nblocks
    · exact D.nblocks
  have e6 : ∀ b, b ≠ iB + 1 → disk_read st1.disk b = disk_read v1.st.disk b := by
    intro b hb
    rw [hst1]; split
    · exact disk_read_write_ne _ _ _ _ hb
    · rfl
  have e7 : disk_read st1.disk (iB + 1) = v1.inodeB := by
    rw [hst1]
    by_cases hc : v1.changedInodeBlock = true
    · rw [if_pos hc]
      exact disk_read_write_same _ _ _ hib0 (by rw [D.nblocks]; exact hib1)
    · rw [if_neg hc]
      have hc' : v1.changedInodeBlock = false := by simpa using hc
      rw [D.unchanged hc', D.disk_bad _ (badBlock_meta _ _ _ hibn)]
      exact hdsk
  have hB1 : ∀ i, ¬ (8 * j + 2 ≤ i / 4 ∧ i / 4 ≤ 8 * j + 6) → v1.inodeB i = inodeB i := by
    intro i hi
    exact D.inode_frame i (by omega)
  have hB1' : ∀ i, ¬ (8 * j + 1 ≤ i / 4 ∧ i / 4 ≤ 8 * j + 7) → v1.inodeB i = inodeB i :=
    fun i hi => hB1 i (by omega)
  have hs1 : inode_size v1.inodeB j = size := by
    rw [inode_size_congr v1.inodeB inodeB j (fun i hi => hB1 i (by omega))]
    exact e_size
  have hmeta1 : ∀ b, 0 ≤ b → b ≤ nib → st1.bitmap b = true := by
    intro b h0 h1; rw [e4]; exact D.bitmap_mono b (hmeta b h0 h1)
  have hD1 : (∀ i, ¬ (8 * j + 1 ≤ i / 4 ∧ i / 4 ≤ 8 * j + 7) →
        disk_read st1.disk (iB + 1) i = inodeB i) ∧
      inode_size (disk_read st1.disk (iB + 1)) j = size := by
    rw [e7]; exact ⟨hB1', hs1⟩
  -- from `st` to `st1`
  have hpre : ∀ (c2 : Int) (fresh2 : Prop) (r : Int × FsState),
      PartFrame st1 nib iB j inodeB L size offset' v1.written c2 fresh2 r →
      ((onb ≤ sdb) → fresh2) → c2 ≤ 1024 →
      PartFrame st nib iB j inodeB L size offset' 0 1029 (onb ≤ sdb) r := by
    intro c2 fresh2 r hr hf hc2
    have := PartFrame.pre st 0 (max (db - sdb) 0) (onb ≤ sdb) hr e1 e2 e3 e5
      (fun b hb => by rw [e4]; exact D.bitmap_mono b hb)
      D.written_ge D.written_cap
      (fun b _ hb1 hne => by
        rw [e6 b hne]; exact D.disk_bad b (badBlock_meta _ _ _ hb1))
      hf
      (fun hf1 => by
        have := D.count (by omega)
        rw [freeCount_congr v1.st st1 e4 (by rw [e2]; exact D.bitmapSize.symm)]
        exact this)
    exact PartFrame.cap_mono 1029 this (by omega)
  by_cases hc : ib > 0 ∧ v1.ranOutOfMemory = false
  · rw [if_pos hc]
    apply hpre (max (ib - sib) 0) (iAI < sib) _ _ hfr (by omega)
    have hnb5 := hibnb hc.1
    apply writeIndirectPart_frame st1 nib (disk_size st.disk) iB j v1.inodeB inodeB data L
      u.indirect size offset' alloc iAI ib sib siy v1.written hnib hib0 hibn
      (by rw [e5]; exact hib1) (by rw [e2, hbs]; exact le_refl _) (by rw [e2, hbs]; exact hsz)
      hmeta1 hsiy0 hsiy1 D.written_le (by omega) hB1' hD1
    · -- the existing indirect block lies in the data region
      intro ha
      have hon : onb > 5 := by
        by_contra hcon
        have : alloc = true := halloc.2 ⟨by omega, hnb5⟩
        rw [ha] at this; exact Bool.false_ne_true this
      rw [inode_indirect_congr v1.inodeB inodeB j hB1]
      exact (hInd hon).1
    · -- the existing pointers consulted by the loop are good
      intro ha l hl1 hl2 hl3
      have hon : onb > 5 := by
        by_contra hcon
        have : alloc = true := halloc.2 ⟨by omega, hnb5⟩
        rw [ha] at this; exact Bool.false_ne_true this
      obtain ⟨hI1, hI2, hI3, hI4⟩ := hInd hon
      rw [inode_indirect_congr v1.inodeB inodeB j hB1]
      have hPne : inode_indirect inodeB j ≠ iB + 1 := by omega
      rw [e6 _ hPne, D.disk_frame _ hI2 (fun l' h1' h2' h3' => hI3 l' (by omega) (by omega))]
      exact hI4 l (by omega) (by omega)
    · intro ha
      have := (halloc.1 ha).1
      omega
  · rw [if_neg hc]
    apply hpre 0 (onb ≤ sdb) _ _ (fun h => h) (by omega)
    exact writeFinish_frame st1 nib iB j v1.inodeB inodeB L size offset' v1.written (onb ≤ sdb)
      hib0 (by rw [e5]; exact hib1) D.written_le (by omega) hB1' (fun _ => hD1)

theorem fs_write_valid (st : FsState) (hm : st.fs_mounted = true) (hs : SuperOK st) (inum : Int)
    (h1 : 1 ≤ inum) (h2 : inum < ninodesOf st) (hv : ino_isvalid st.disk inum ≠ 0)
    (data : Bytes) (L offset : Int) (u : Uninit) :
    fs_write st inum data L offset u
      = writeInode st (ninodeblocksOf st) (inum / 128) (inum % 128) (inodeBlockOf st.disk inum)
          data L offset u := by
  have hidx : inum - INODES_PER_BLOCK * (inum / 128) = inum % 128 := by
    simp only [INODES_PER_BLOCK]; omega
  have hv2 : inode_isvalid (disk_read st.disk (inum / 128 + 1)) (inum % 128) ≠ 0 := hv
  have h2' : inum < super_ninodes (disk_read st.disk 0) := h2
  have hs5 : super_ninodes (disk_read st.disk 0) = 128 * super_ninodeblocks (disk_read st.disk 0) :=
    hs.2.2.2.2
  unfold fs_write
  simp only [hm]
  rw [badInumber_false _ inum h1 h2' hs5, inodeBlock_eq inum (by omega), hidx]
  rw [if_neg (by simp), if_neg (by simp), if_pos hv2]
  rfl

/-- What a well-formed state gives for a write to its valid inode `a`. -/
theorem WF.targetOK {st : FsState} (hwf : WF st) (a : Int) (h0 : 0 ≤ a)
    (h2 : a < ninodesOf st) (hv : ino_isvalid st.disk a ≠ 0) : TargetOK st a := by
  intro hon
  have hI := hwf.indirect a h0 h2 hv hon
  have hA := hwf.indirectApart a a h0 h2 hv h0 h2 hv hon
  refine ⟨hI.1, hI.2.2, ?_, ?_⟩
  · intro l hl0 hl1
    have := hA.1 l hl0 (by omega)
    rwa [fileBlock_direct _ _ _ hl1] at this
  · intro l hl0 hl1
    exact usedData_good hwf.superOK (hwf.reach a h0 h2 hv l (by omega) hl1)

/-- What the conditions across inodes, together with `SelfApart`, give for a
write to the valid inode `a`. -/
theorem across_targetOK {st : FsState} (hx : WFAcross st) (hs : SuperOK st) (a : Int)
    (h0 : 0 ≤ a) (h2 : a < ninodesOf st) (hv : ino_isvalid st.disk a ≠ 0)
    (hsa : SelfApart st a) : TargetOK st a := by
  intro hon
  have hI := across_indirect hx a h0 h2 hv hon
  refine ⟨hI.1, hI.2.2, ?_, ?_⟩
  · intro l hl0 hl1
    have := hsa hon l.toNat (by omega)
    have e : (l.toNat : Int) = l := by omega
    rwa [e] at this
  · intro l hl0 hl1
    exact usedData_good hs (across_reach hx a h0 h2 hv l (by omega) hl1)

/-- The frame of a write to a valid inode in a mounted state whose superblock
agrees with the device and whose metadata bits are set; nothing is assumed of
the other inodes. -/
theorem fs_write_frame_of (st : FsState) (hm : st.fs_mounted = true) (hs : SuperOK st)
    (hmu : MetaUsed st) (inum : Int) (h1 : 1 ≤ inum)
    (h2 : inum < ninodesOf st) (hv : ino_isvalid st.disk inum ≠ 0) (hT : TargetOK st inum)
    (data : Bytes) (L offset : Int) (u : Uninit) (hL : 0 ≤ L) (ho : 0 ≤ offset) :
    PartFrame st (ninodeblocksOf st) (inum / 128) (inum % 128) (inodeBlockOf st.disk inum) L
      (ino_size st.disk inum) (min offset (4096 * ino_nblocks st.disk inum)) 0 1029
      (ino_nblocks st.disk inum ≤ offset / 4096) (fs_write st inum data L offset u) := by
  rw [fs_write_valid st hm hs inum h1 h2 hv]
  have eS : ino_size st.disk inum = inode_size (inodeBlockOf st.disk inum) (inum % 128) := rfl
  have eN : ino_nblocks st.disk inum
      = nblocksOf (inode_size (inodeBlockOf st.disk inum) (inum % 128)) := rfl
  have eI : ino_indirect st.disk inum = inode_indirect (inodeBlockOf st.disk inum) (inum % 128) :=
    rfl
  have eD : ∀ l, ino_direct st.disk inum l
      = inode_direct (inodeBlockOf st.disk inum) (inum % 128) l := fun _ => rfl
  obtain ⟨hs1, hs2, hs3, hs4, hs5⟩ := hs
  have hsz : -2147483648 ≤ inode_size (inodeBlockOf st.disk inum) (inum % 128) :=
    (getInt_range _ _).1
  have h2' : inum < 128 * ninodeblocksOf st := by rw [← hs5]; exact h2
  have hwi := write_indices_any (nblocksOf (inode_size (inodeBlockOf st.disk inum) (inum % 128)))
    offset
  have hsib := startIndirectBlockOf_eq offset
  have hsiy := startIndirectByteOf_eq offset
  have hsdb : offset.tdiv BYTES_PER_BLOCK = offset / 4096 := Int.tdiv_eq_ediv ho (by decide)
  have hsdy : offset.tmod BYTES_PER_BLOCK = offset % 4096 := Int.tmod_eq_emod ho (by decide)
  have hibf := indirectBlocksCapped_facts
    (nblocksOf (inode_size (inodeBlockOf st.disk inum) (inum % 128))
      + blocksToAllocateOf (offset + L
          - nblocksOf (inode_size (inodeBlockOf st.disk inum) (inum % 128)) * BYTES_PER_BLOCK))
  have hInd : nblocksOf (inode_size (inodeBlockOf st.disk inum) (inum % 128)) > 5 →
      ninodeblocksOf st < inode_indirect (inodeBlockOf st.disk inum) (inum % 128) ∧
      st.bitmap (inode_indirect (inodeBlockOf st.disk inum) (inum % 128)) = true ∧
      (∀ l, 0 ≤ l → l < 5 → inode_indirect (inodeBlockOf st.disk inum) (inum % 128)
        ≠ inode_direct (inodeBlockOf st.disk inum) (inum % 128) l) ∧
      (∀ l, 0 ≤ l → l < nblocksOf (inode_size (inodeBlockOf st.disk inum) (inum % 128)) - 5 →
        badBlock (ninodeblocksOf st) (disk_size st.disk)
          (pointers (disk_read st.disk
            (inode_indirect (inodeBlockOf st.disk inum) (inum % 128))) l) = false) := by
    intro hon
    rw [← eN] at hon
    obtain ⟨t1, t2, t3, t4⟩ := hT hon
    rw [← eI]
    refine ⟨t1, t2, t3, ?_⟩
    intro l hl0 hl1
    rw [← eN] at hl1
    have hr := t4 (l + 5) (by omega) (by omega)
    rw [fileBlock_indirect _ _ _ (by omega)] at hr
    have e : l + 5 - 5 = l := by omega
    rw [e] at hr
    exact hr
  have A := writeInode_aux st (ninodeblocksOf st) (inum / 128) (inum % 128)
    (inodeBlockOf st.disk inum) data L offset u _ _ _ _ _ _ _ _ _ _ _ _ _
    rfl rfl rfl rfl rfl rfl rfl rfl rfl rfl rfl rfl rfl
    hs3 (by omega) (by omega) (by omega) rfl hs2
    (by rw [← hs1]; exact le_of_lt (super_nblocks_lt _))
    (fun b h0 h1' => hmu.at_int b h0 h1')
    hsz hL
    (by rw [hsdy]; omega) (by rw [hsdy]; omega)
    (by rw [hsiy]; split <;> omega) (by rw [hsiy]; split <;> omega)
    (by rw [hsdb]; omega) (by rw [hsib]; split <;> omega)
    (by
      rw [hsdb, hsib, hwi.2.1]
      intro h
      split <;> omega)
    hwi.1 hwi.2.1
    (by rw [directBlocks_of]; omega) hibf.1 hibf.2.1 hibf.2.2
    (by simp only [POINTERS_PER_INODE, Bool.and_eq_true, decide_eq_true_eq])
    hInd
  rw [hwi.2.2, hsdb] at A
  rw [eS, eN]
  exact A

theorem fs_write_frame (st : FsState) (hwf : WF st) (inum : Int) (h1 : 1 ≤ inum)
    (h2 : inum < ninodesOf st) (hv : ino_isvalid st.disk inum ≠ 0) (data : Bytes)
    (L offset : Int) (u : Uninit) (hL : 0 ≤ L) (ho : 0 ≤ offset) :
    PartFrame st (ninodeblocksOf st) (inum / 128) (inum % 128) (inodeBlockOf st.disk inum) L
      (ino_size st.disk inum) (min offset (4096 * ino_nblocks st.disk inum)) 0 1029
      (ino_nblocks st.disk inum ≤ offset / 4096) (fs_write st inum data L offset u) :=
  fs_write_frame_of st hwf.mounted hwf.superOK hwf.2.2.1 inum h1 h2 hv
    (hwf.targetOK inum (by omega) h2 hv) data L offset u hL ho

theorem inode_isvalid_congr (B1 B2 : Block) (j : Int) (h : ∀ i, i / 4 = 8 * j → B1 i = B2 i) :
    inode_isvalid B1 j = inode_isvalid B2 j := by
  unfold inode_isvalid
  exact getInt_congr _ _ _ h

theorem inode_size_congr' (B1 B2 : Block) (j : Int) (h : ∀ i, i / 4 = 8 * j + 1 → B1 i = B2 i) :
    inode_size B1 j = inode_size B2 j := by
  unfold inode_size
  exact getInt_congr _ _ _ h

/-- What a write leaves of the inode table: the superblock, the validity of every
inode and the size of every inode other than `inum`. -/
theorem fs_write_inodes (st : FsState) (inum : Int) (h1 : 1 ≤ inum)
    (hnib : inum / 128 + 1 ≤ ninodeblocksOf st) {L size offset w c : Int} {fresh : Prop}
    {r : Int × FsState}
    (F : PartFrame st (ninodeblocksOf st) (inum / 128) (inum % 128) (inodeBlockOf st.disk inum) L
      size offset w c fresh r) :
    disk_read r.2.disk 0 = disk_read st.disk 0 ∧
    (∀ m, 0 ≤ m → m < 128 * ninodeblocksOf st → ino_isvalid r.2.disk m = ino_isvalid st.disk m) ∧
    (∀ m, 0 ≤ m → m < 128 * ninodeblocksOf st → m ≠ inum →
      ino_size r.2.disk m = ino_size st.disk m) := by
  have hsup : disk_read r.2.disk 0 = disk_read st.disk 0 :=
    F.meta_frame 0 (le_refl _) (by omega) (by omega)
  refine ⟨hsup, ?_, ?_⟩
  · intro m hm0 hm1
    unfold ino_isvalid inodeBlockOf
    by_cases hb : m / 128 = inum / 128
    · rw [hb]
      apply inode_isvalid_congr
      intro i hi
      exact F.inode_bytes i (by omega)
    · rw [F.meta_frame (m / 128 + 1) (by omega) (by omega) (by omega)]
  · intro m hm0 hm1 hne
    unfold ino_size inodeBlockOf
    by_cases hb : m / 128 = inum / 128
    · rw [hb]
      apply inode_size_congr'
      intro i hi
      exact F.inode_bytes i (by omega)
    · rw [F.meta_frame (m / 128 + 1) (by omega) (by omega) (by omega)]

/-- C6.  In a mounted well-formed state, `fs_write` on a valid inode with
`length ≥ 0` and `offset ≥ 0` returns `n ≤ length`, and the inode's size
afterwards is `max old_size (min (offset' + n) S_max)` where
`offset' = min offset (4096 * ceil(old_size/4096))`; afterwards every valid
inode has `0 ≤ size ≤ S_max`. -/
theorem fs_write_size (st : FsState) (hwf : WF st) (inum : Int) (h1 : 1 ≤ inum)
    (h2 : inum < ninodesOf st) (hv : ino_isvalid st.disk inum ≠ 0) (data : Bytes)
    (L offset : Int) (u : Uninit) (hL : 0 ≤ L) (ho : 0 ≤ offset) :
    0 ≤ (fs_write st inum data L offset u).1 ∧
    (fs_write st inum data L offset u).1 ≤ L ∧
    ino_size (fs_write st inum data L offset u).2.disk inum
      = max (ino_size st.disk inum)
          (min (min offset (4096 * ino_nblocks st.disk inum)
            + (fs_write st inum data L offset u).1) S_max) ∧
    (∀ m, 0 ≤ m → m < ninodesOf (fs_write st inum data L offset u).2 →
      ino_isvalid (fs_write st inum data L offset u).2.disk m ≠ 0 →
      0 ≤ ino_size (fs_write st inum data L offset u).2.disk m ∧
      ino_size (fs_write st inum data L offset u).2.disk m ≤ S_max) := by
  have F := fs_write_frame st hwf inum h1 h2 hv data L offset u hL ho
  have hs := hwf.superOK
  have hsz := hwf.size inum (by omega) h2 hv
  have h2' : inum < 128 * ninodeblocksOf st := by rw [← hs.2.2.2.2]; exact h2
  have hI := fs_write_inodes st inum h1 (by omega) F
  revert F hI
  generalize fs_write st inum data L offset u = r
  intro F hI
  have hsize : ino_size r.2.disk inum = max (ino_size st.disk inum)
      (min (min offset (4096 * ino_nblocks st.disk inum) + r.1) S_max) := by
    have h := F.inode_size
    have e : ino_size r.2.disk inum
        = inode_size (disk_read r.2.disk (inum / 128 + 1)) (inum % 128) := rfl
    rw [e, h]
    simp only [S_max] at hsz ⊢
    split <;> omega
  refine ⟨F.written_ge, F.written_le, hsize, ?_⟩
  intro m hm0 hm1 hmv
  have hm1' : m < 128 * ninodeblocksOf st := by
    unfold ninodesOf superOf at hm1
    rw [hI.1] at hm1
    have := hs.2.2.2.2
    unfold ninodesOf superOf at this
    omega
  rw [hI.2.1 m hm0 hm1'] at hmv
  by_cases hmi : m = inum
  · subst hmi
    rw [hsize]
    have := F.written_ge
    simp only [S_max] at hsz ⊢
    omega
  · rw [hI.2.2 m hm0 hm1' hmi]
    exact hwf.size m hm0 (by rw [hs.2.2.2.2]; exact hm1') hmv

/-- Witness for C6: writing "WORLD" at offset 3 of the 5-byte file of inode 1
returns 5 and makes the size 8. -/
theorem fs_write_size_witness :
    WF hello20 ∧ (fs_write hello20 1 world 5 3 zeroUninit).1 = 5 ∧
      ino_size (fs_write hello20 1 world 5 3 zeroUninit).2.disk 1 = 8 :=
  have h := fs_write_size hello20 (by decide!) 1 (by decide) (by decide!) (by decide!)
    world 5 3 zeroUninit (by decide) (by decide)
  ⟨by decide!, by decide!, by rw [h.2.2.1]; decide!⟩

/-- C7, the claim at a failing input.  The superblock of `over20` claims 40
blocks on a device of 20, so the mounted bitmap has 40 bits, 37 of them free.
Inode 1 is freshly created.  A write of `S_max` zero bytes fills the blocks
3..19, is then handed block 20, which the range test refuses, and returns the
count 65536 without storing the size: `fs_getsize` still returns 0. -/
theorem fs_write_size_lost_on_short_device :
    over20.fs_mounted = true ∧ ino_isvalid over20.disk 1 = 1 ∧ ino_size over20.disk 1 = 0 ∧
      freeCount over20 = 37 ∧
      (fs_write over20 1 zeroBlock S_max 0 zeroUninit).1 = 65536 ∧
      fs_getsize (fs_write over20 1 zeroBlock S_max 0 zeroUninit).2 1 = 0 := by
  decide!

/-- C7, amended.  In a mounted state whose superblock agrees with the device
(`nblocks` is the device size and the length of the bitmap,
`0 ≤ ninodeblocks < nblocks`, `ninodes = 128 * ninodeblocks`) and whose bitmap
has the bits `0..ninodeblocks` set and `freeCount st` free bits, `fs_write` at
offset 0 with `length ≥ 0` on a valid inode of size 0 returns `n` with
`0 ≤ n ≤ length` and `n ≤ 4096 * freeCount st`, and `fs_getsize` afterwards
returns `n`; with no free bit it returns 0 and the size stays 0.  Nothing is
assumed of the other inodes. -/
theorem fs_write_exhaustion (st : FsState) (hm : st.fs_mounted = true) (hs : SuperOK st)
    (hmu : MetaUsed st) (inum : Int) (h1 : 1 ≤ inum)
    (h2 : inum < ninodesOf st) (hv : ino_isvalid st.disk inum ≠ 0)
    (hs0 : ino_size st.disk inum = 0) (data : Bytes) (L : Int) (u : Uninit) (hL : 0 ≤ L) :
    0 ≤ (fs_write st inum data L 0 u).1 ∧
    (fs_write st inum data L 0 u).1 ≤ L ∧
    (fs_write st inum data L 0 u).1 ≤ 4096 * (freeCount st : Int) ∧
    fs_getsize (fs_write st inum data L 0 u).2 inum = (fs_write st inum data L 0 u).1 ∧
    (freeCount st = 0 → (fs_write st inum data L 0 u).1 = 0 ∧
      fs_getsize (fs_write st inum data L 0 u).2 inum = 0) := by
  have hnb0 : ino_nblocks st.disk inum = 0 := by
    unfold ino_nblocks; rw [hs0]; decide
  have hT : TargetOK st inum := by
    intro hon
    rw [hnb0] at hon
    exact absurd hon (by decide)
  have F := fs_write_frame_of st hm hs hmu inum h1 h2 hv hT data L 0 u hL (le_refl _)
  have h2' : inum < 128 * ninodeblocksOf st := by rw [← hs.2.2.2.2]; exact h2
  have hI := fs_write_inodes st inum h1 (by omega) F
  revert F hI
  generalize fs_write st inum data L 0 u = r
  intro F hI
  have hcount := F.count (by rw [hnb0]; decide)
  have hcap := F.written_cap
  have hge := F.written_ge
  have hsize : ino_size r.2.disk inum = r.1 := by
    have h := F.inode_size
    have e : ino_size r.2.disk inum
        = inode_size (disk_read r.2.disk (inum / 128 + 1)) (inum % 128) := rfl
    rw [e, h, hs0, hnb0]
    simp only [S_max]
    split <;> omega
  have hget : fs_getsize r.2 inum = r.1 := by
    have hv' : ino_isvalid r.2.disk inum ≠ 0 := by
      rw [hI.2.1 inum (by omega) h2']; exact hv
    have hv2 : inode_isvalid (disk_read r.2.disk (inum / 128 + 1)) (inum % 128) ≠ 0 := hv'
    have h2'' : inum < super_ninodes (disk_read st.disk 0) := h2
    have hidx : inum - INODES_PER_BLOCK * (inum / 128) = inum % 128 := by
      simp only [INODES_PER_BLOCK]; omega
    unfold fs_getsize
    rw [F.mounted, hm, hI.1]
    simp only []
    rw [badInumber_false _ inum h1 h2'' hs.2.2.2.2, inodeBlock_eq inum (by omega), hidx]
    rw [if_neg (by simp), if_neg (by simp), if_pos hv2]
    exact hsize
  refine ⟨hge, F.written_le, by omega, hget, ?_⟩
  intro hf
  have : r.1 = 0 := by omega
  exact ⟨this, by rw [hget, this]⟩

/-- Witness for C7: scenario 4 of the specification.  On the freshly formatted
and mounted 20-block device with inode 1 created, writing `S_max` zero bytes
returns `16 * 4096` and the size is that count; a second new inode then gets
nothing written. -/
theorem fs_write_exhaustion_witness :
    created20.fs_mounted = true ∧ SuperOK created20 ∧ MetaUsed created20 ∧
      freeCount created20 = 17 ∧
      (fs_write created20 1 zeroBlock S_max 0 zeroUninit).1 = 16 * 4096 ∧
      fs_getsize (fs_write created20 1 zeroBlock S_max 0 zeroUninit).2 1 = 16 * 4096 ∧
      (fs_create (fs_write created20 1 zeroBlock S_max 0 zeroUninit).2).1 = 2 ∧
      (fs_write (fs_create (fs_write created20 1 zeroBlock S_max 0 zeroUninit).2).2 2
        hello 5 0 zeroUninit).1 = 0 :=
  have h := fs_write_exhaustion created20 (by decide!) (by decide!) (by decide!) 1 (by decide)
    (by decide!) (by decide!) (by decide!) zeroBlock S_max zeroUninit (by decide)
  ⟨by decide!, by decide!, by decide!, by decide!, by decide!, by rw [h.2.2.2.1]; decide!,
    by decide!, by decide!⟩

/-! ## `fs_write` at offset 0: where the data goes -/

theorem badBlock_false_iff (nib ds b : Int) : badBlock nib ds b = false ↔ (nib < b ∧ b < ds) := by
  unfold badBlock
  simp only [Bool.or_eq_false_iff, decide_eq_false_iff_not]
  omega

theorem badBlock_true_iff (nib ds b : Int) : badBlock nib ds b = true ↔ (b ≤ nib ∨ ds ≤ b) := by
  unfold badBlock
  simp only [Bool.or_eq_true, decide_eq_true_eq, ge_iff_le]

theorem memcpy_zero_apply (wb W : Bytes) (w n i : Int) (h0 : 0 ≤ i) (h1 : i < n) :
    memcpy wb 0 W w n i = W (w + i) := by
  unfold memcpy
  have : (0 : Int) ≤ i ∧ i < 0 + n := ⟨h0, by omega⟩
  simp only [this, and_self, if_true]
  congr 1
  omega

theorem Placed.keep {st0 cur cur' : FsState} {nib ds : Int} {blk0 : Int → Int} {onb : Int}
    {W : Bytes} {L l b : Int} (h : Placed st0 cur nib ds blk0 onb W L l b)
    (hb : ∀ x, cur.bitmap x = true → cur'.bitmap x = true)
    (hd : disk_read cur'.disk b = disk_read cur.disk b) :
    Placed st0 cur' nib ds blk0 onb W L l b :=
  { good := h.good
    used := hb b h.used
    origin := h.origin
    holds := fun i h0 h1 h2 => by rw [hd]; exact h.holds i h0 h1 h2 }

/-- A block just written with the chunk of `W` for logical block `l` holds it. -/
theorem Holds.written (d : Disk) (W : Bytes) (L l b : Int) (wb : Block) (nib : Int)
    (hnib : 0 ≤ nib) (hb : badBlock nib d.nblocks b = false) (hl : 4096 * l < L) :
    Holds (disk_write d b (memcpy wb 0 W (4096 * l) (min (L - 4096 * l) (4096 - 0)))) W L l b := by
  intro i h0 h1 h2
  rw [badBlock_false_iff] at hb
  rw [disk_read_write_same _ _ _ (by omega) hb.2, memcpy_zero_apply _ _ _ _ _ h0 (by omega)]


/-- One iteration of the direct loop at offset 0 keeps the invariant and uses a
free block only for a logical block the file did not have. -/
theorem DirectInv.inv_step_d (st0 : FsState) (nib ds j dAI : Int) (W : Bytes) (L : Int) (wb : Block)
    (blk0 : Int → Int) (onb k : Int) (v : WriteVars)
    (hnib : 0 ≤ nib) (hds : ds ≤ 2147483648) (hk0 : 0 ≤ k) (hk5 : k < 5)
    (hdAI : dAI = min 4 (onb - 1))
    (hmeta : ∀ b, 0 ≤ b → b ≤ nib → st0.bitmap b = true)
    (hex : ∀ l, 0 ≤ l → l < onb → badBlock nib ds (blk0 l) = false ∧ st0.bitmap (blk0 l) = true)
    (hdist : ∀ l l2, 0 ≤ l → l < onb → 0 ≤ l2 → l2 < onb → l ≠ l2 → blk0 l ≠ blk0 l2)
    (hI : DirectInv st0 nib ds j blk0 onb W L k v) (hwL : v.written < L)
    (hfree : onb ≤ k → 0 < freeCount v.st) :
    DirectInv st0 nib ds j blk0 onb W L (k + 1) (writeDirectBody nib ds j dAI W L wb k v) ∧
    (freeCount v.st : Int)
      ≤ freeCount (writeDirectBody nib ds j dAI W L wb k v).st + (if k < onb then 0 else 1) := by
  obtain ⟨vst, vB, vw, vsb, vch, vro⟩ := v
  obtain ⟨i1, i2, i3, i4, i5, i6, i7, i8⟩ := hI
  simp only at i1 i2 i3 i4 i5 i6 i7 i8 hwL hfree
  subst i5 i6
  have hw4 : vw = 4096 * k := by omega
  have hkL : 4096 * k < L := by omega
  have hwn : vw + min (L - vw) (4096 - 0) = min L (4096 * (k + 1)) := by omega
  rcases writeDirectBody_cases nib ds j dAI W L wb k
      { st := vst, inodeB := vB, written := vw, startByte := 0, changedInodeBlock := vch,
        ranOutOfMemory := false } hnib (le_refl _) (by norm_num)
    with ⟨h1, h2, h3⟩ | ⟨h1, h2, h3⟩ | ⟨h1, h2, h3⟩ | ⟨r, h1, hr0, hr1, hr2, h2, h3⟩ |
      ⟨r, h1, hr0, hr1, hr2, h2, h3⟩
  · -- an existing block is never refused
    exfalso
    simp only at h2
    rw [i8 k (le_refl _) (by omega) hk5, (hex k hk0 (by omega)).1] at h2
    exact Bool.false_ne_true h2
  · simp only at h2 h3
    rw [h3]
    have hkon : k < onb := by omega
    have hbk : inode_direct vB j k = blk0 k := i8 k (le_refl _) hkon hk5
    have hgood := h2
    rw [badBlock_false_iff] at hgood
    refine ⟨?_, ?_⟩
    · refine ⟨i1, ?_, i3, hwn, rfl, rfl, ?_, ?_⟩
      · show (disk_write _ _ _).nblocks = ds
        rw [disk_write_nblocks]; exact i2
      · intro l hl0 hl1
        show Placed st0 _ nib ds blk0 onb W L l (inode_direct vB j l)
        by_cases hlk : l = k
        · subst hlk
          refine ⟨h2, i3 _ (by rw [hbk]; exact (hex l hk0 hkon).2), Or.inl ⟨hkon, hbk⟩, ?_⟩
          show Holds (disk_write vst.disk _ _) W L l _
          rw [hw4]
          exact Holds.written vst.disk W L l _ wb nib hnib (by rw [i2]; exact h2) hkL
        · have hP := i7 l hl0 (by omega)
          refine hP.keep (fun x hx => hx) ?_
          show disk_read (disk_write vst.disk _ _) _ = _
          apply disk_read_write_ne
          rcases hP.origin with ⟨ho1, ho2⟩ | ho
          · rw [ho2, hbk]
            exact hdist l k hl0 ho1 hk0 hkon hlk
          · intro heq
            have := (hex k hk0 hkon).2
            rw [← hbk, ← heq, ho] at this
            exact Bool.false_ne_true this
      · intro l hl0 hl1 hl2
        exact i8 l (by omega) hl1 hl2
    · simp only [hkon, if_true]
      rw [add_zero]
      exact le_of_eq (congrArg Nat.cast (freeCount_congr _ vst rfl rfl))
  · -- a free block exists
    exfalso
    have := freeCount_zero_of_full vst h2
    have := hfree (by omega)
    omega
  · -- a new block is never refused
    exfalso
    rw [badBlock_true_iff] at h2
    simp only at hr1 hr2
    rcases h2 with h2 | h2
    · have := i3 r (hmeta r hr0 h2)
      rw [hr2] at this
      exact Bool.false_ne_true this
    · omega
  · simp only at hr1 hr2 h3
    rw [h3]
    have hkon : ¬ k < onb := by omega
    have hgood := h2
    rw [badBlock_false_iff] at hgood
    have hr31 : r < 2147483648 := by omega
    have hnew : ∀ l, inode_direct (set_inode_direct vB j k r) j l
        = if l = k then r else inode_direct vB j l := by
      intro l
      unfold inode_direct set_inode_direct
      by_cases hlk : l = k
      · subst hlk
        simp only [if_true]
        exact getInt_setInt_same _ _ _ (by omega) hr31
      · simp only [hlk, if_false]
        exact getInt_setInt_ne _ _ _ _ (by omega)
    refine ⟨?_, ?_⟩
    · refine ⟨i1, ?_, ?_, hwn, rfl, rfl, ?_, ?_⟩
      · show (disk_write _ _ _).nblocks = ds
        rw [disk_write_nblocks]; exact i2
      · intro b hb
        show Function.update vst.bitmap r true b = true
        by_cases hbr : b = r
        · rw [hbr]; simp
        · rw [Function.update_noteq hbr]; exact i3 b hb
      · intro l hl0 hl1
        show Placed st0 _ nib ds blk0 onb W L l (inode_direct (set_inode_direct vB j k r) j l)
        rw [hnew]
        by_cases hlk : l = k
        · subst hlk
          simp only [if_true]
          refine ⟨h2, ?_, Or.inr ?_, ?_⟩
          · show Function.update vst.bitmap r true r = true
            simp
          · by_contra hcon
            have := i3 r (by simpa using hcon)
            rw [hr2] at this
            exact Bool.false_ne_true this
          · show Holds (disk_write vst.disk _ _) W L l _
            rw [hw4]
            exact Holds.written vst.disk W L l _ wb nib hnib (by rw [i2]; exact h2) hkL
        · simp only [hlk, if_false]
          have hP := i7 l hl0 (by omega)
          have hne : inode_direct vB j l ≠ r := by
            intro heq
            have := hP.used
            rw [heq, hr2] at this
            exact Bool.false_ne_true this
          refine hP.keep ?_ ?_
          · intro x hx
            show Function.update vst.bitmap r true x = true
            by_cases hbr : x = r
            · rw [hbr]; simp
            · rw [Function.update_noteq hbr]; exact hx
          · show disk_read (disk_write vst.disk _ _) _ = _
            exact disk_read_write_ne _ _ _ _ hne
      · intro l hl0 hl1 hl2
        show inode_direct (set_inode_direct vB j k r) j l = blk0 l
        rw [hnew]
        have : l ≠ k := by omega
        simp only [this, if_false]
        exact i8 l (by omega) hl1 hl2
    · simp only [hkon, if_false]
      have := freeCount_alloc' vst
        { vst with bitmap := Function.update vst.bitmap r true,
                   disk := (disk_write vst.disk r
                     (memcpy wb 0 W vw (min (L - vw) (4096 - 0)))) } r hr0 hr1 hr2 rfl rfl
      omega


/-- The direct loop of a write at offset 0, given enough free blocks, stores the
logical blocks below `min db nbL`. -/
theorem writeDirect_content (st0 : FsState) (nib ds j dAI : Int) (W : Bytes) (L : Int)
    (uninit : Int → Block) (db : Int) (blk0 : Int → Int) (onb nbL : Int) (n : Nat) (k : Int)
    (v : WriteVars)
    (hnib : 0 ≤ nib) (hds : ds ≤ 2147483648) (hdb : db ≤ 5) (hdAI : dAI = min 4 (onb - 1))
    (hnbL : nbL = (L + 4095) / 4096)
    (hmeta : ∀ b, 0 ≤ b → b ≤ nib → st0.bitmap b = true)
    (hex : ∀ l, 0 ≤ l → l < onb → badBlock nib ds (blk0 l) = false ∧ st0.bitmap (blk0 l) = true)
    (hdist : ∀ l l2, 0 ≤ l → l < onb → 0 ≤ l2 → l2 < onb → l ≠ l2 → blk0 l ≠ blk0 l2)
    (hk0 : 0 ≤ k) (hI : DirectInv st0 nib ds j blk0 onb W L k v)
    (hfree : max (min db nbL - max k onb) 0 ≤ (freeCount v.st : Int))
    (hfuel : db - k ≤ n) :
    DirectInv st0 nib ds j blk0 onb W L (max k (min db nbL))
      (writeDirect nib ds j dAI W L uninit db n k v) ∧
    (freeCount v.st : Int) ≤ freeCount (writeDirect nib ds j dAI W L uninit db n k v).st
      + max (min db nbL - max k onb) 0 := by
  induction n generalizing k v with
  | zero =>
    have hK : max k (min db nbL) = k := by simp at hfuel; omega
    rw [hK]
    simp only [writeDirect]
    exact ⟨hI, by omega⟩
  | succ n ih =>
    unfold writeDirect
    have hw := hI.written
    by_cases hc : k < db ∧ v.written < L
    · rw [if_pos hc]
      obtain ⟨hc1, hc2⟩ := hc
      have hknb : k < nbL := by omega
      have hS := DirectInv.inv_step_d st0 nib ds j dAI W L (uninit k) blk0 onb k v hnib hds hk0
        (by omega) hdAI hmeta hex hdist hI hc2 (fun h => by omega)
      revert hS
      generalize writeDirectBody nib ds j dAI W L (uninit k) k v = v1
      intro hS
      obtain ⟨hS1, hS2⟩ := hS
      have hK : max k (min db nbL) = max (k + 1) (min db nbL) := by omega
      rw [hK]
      by_cases hkon : k < onb
      · simp only [hkon, if_true] at hS2
        have IH := ih (k + 1) v1 (by omega) hS1 (by omega) (by push_cast at hfuel; omega)
        refine ⟨IH.1, ?_⟩
        have := IH.2
        omega
      · simp only [hkon, if_false] at hS2
        have IH := ih (k + 1) v1 (by omega) hS1 (by omega) (by push_cast at hfuel; omega)
        refine ⟨IH.1, ?_⟩
        have := IH.2
        omega
    · rw [if_neg hc]
      have hK : max k (min db nbL) = k := by
        by_cases h1 : k < db
        · have : ¬ v.written < L := fun h => hc ⟨h1, h⟩
          omega
        · omega
      rw [hK]
      exact ⟨hI, by omega⟩

theorem pointers_set (pb : Block) (k l r : Int) (h0 : 0 ≤ r) (h1 : r < 2147483648) :
    pointers (set_pointers pb k r) l = if l = k then r else pointers pb l := by
  by_cases hlk : l = k
  · subst hlk
    simp only [if_true]
    exact pointers_set_same pb l r h0 h1
  · simp only [hlk, if_false]
    exact pointers_set_ne pb k l r hlk

theorem update_true_mono (f : Int → Bool) (r x : Int) (h : f x = true) :
    Function.update f r true x = true := by
  by_cases hbr : x = r
  · rw [hbr]; simp
  · rw [Function.update_noteq hbr]; exact h

/-- A block placed earlier differs from an existing block of another logical
index. -/
theorem Placed.ne_existing {st0 cur : FsState} {nib ds : Int} {blk0 : Int → Int} {onb : Int}
    {W : Bytes} {L l b : Int} (h : Placed st0 cur nib ds blk0 onb W L l b) (m : Int)
    (hex : ∀ l, 0 ≤ l → l < onb → badBlock nib ds (blk0 l) = false ∧ st0.bitmap (blk0 l) = true)
    (hdist : ∀ l l2, 0 ≤ l → l < onb → 0 ≤ l2 → l2 < onb → l ≠ l2 → blk0 l ≠ blk0 l2)
    (hl0 : 0 ≤ l) (hm0 : 0 ≤ m) (hm1 : m < onb) (hne : l ≠ m) : b ≠ blk0 m := by
  rcases h.origin with ⟨ho1, ho2⟩ | ho
  · rw [ho2]
    exact hdist l m hl0 ho1 hm0 hm1 hne
  · intro heq
    have := (hex m hm0 hm1).2
    rw [← heq, ho] at this
    exact Bool.false_ne_true this

/-- A block placed earlier differs from a block that is free now. -/
theorem Placed.ne_free {st0 cur : FsState} {nib ds : Int} {blk0 : Int → Int} {onb : Int}
    {W : Bytes} {L l b : Int} (h : Placed st0 cur nib ds blk0 onb W L l b) (r : Int)
    (hr : cur.bitmap r = false) : b ≠ r := by
  intro heq
  have := h.used
  rw [heq, hr] at this
  exact Bool.false_ne_true this

/-- One iteration of the indirect loop at offset 0 keeps the invariant and uses
a free block only for a logical block the file did not have. -/
theorem IndirectInv.inv_step_i (st0 : FsState) (nib ds iAI : Int) (W : Bytes) (L : Int)
    (blk0 : Int → Int) (onb : Int) (dir : Int → Int) (P k : Int) (v : WriteIndVars)
    (hnib : 0 ≤ nib) (hds : ds ≤ 2147483648) (hk0 : 0 ≤ k)
    (hiAI : iAI = max (onb - 6) (-1))
    (hmeta : ∀ b, 0 ≤ b → b ≤ nib → st0.bitmap b = true)
    (hex : ∀ l, 0 ≤ l → l < onb → badBlock nib ds (blk0 l) = false ∧ st0.bitmap (blk0 l) = true)
    (hdist : ∀ l l2, 0 ≤ l → l < onb → 0 ≤ l2 → l2 < onb → l ≠ l2 → blk0 l ≠ blk0 l2)
    (hPex : ∀ l, 0 ≤ l → l < onb → blk0 l ≠ P)
    (hI : IndirectInv st0 nib ds blk0 onb W L dir P k v) (hwL : v.written < L)
    (hfree : onb ≤ k + 5 → 0 < freeCount v.st) :
    IndirectInv st0 nib ds blk0 onb W L dir P (k + 1) (writeIndirectBody nib ds iAI W L k v) ∧
    (freeCount v.st : Int)
      ≤ freeCount (writeIndirectBody nib ds iAI W L k v).st + (if k + 5 < onb then 0 else 1) := by
  obtain ⟨vst, vpb, vwb, vw, vsb, vch, vro, vret⟩ := v
  obtain ⟨i1, i2, i3, i4, i5, i6, i6', i7d, i7, i8, i9, i10d, i10, i11⟩ := hI
  simp only at i1 i2 i3 i4 i5 i6 i6' i7d i7 i8 i9 i10d i10 i11 hwL hfree
  subst i5 i6 i6'
  have hw4 : vw = 4096 * (k + 5) := by omega
  have hkL : 4096 * (k + 5) < L := by omega
  have hwn : vw + min (L - vw) (4096 - 0) = min L (4096 * (k + 1 + 5)) := by omega
  rcases writeIndirectBody_cases nib ds iAI W L k
      { st := vst, pointers_block := vpb, writeBlock := vwb, written := vw, startByte := 0,
        changedPointersBlock := vch, ranOutOfMemory := false, returned := false }
      hnib (le_refl _) (by norm_num) (by simp only; omega)
    with ⟨h1, h2, h3⟩ | ⟨h1, h2, h3⟩ | ⟨h1, h2, h3⟩ | ⟨r, h1, hr0, hr1, hr2, h2, h3⟩ |
      ⟨r, h1, hr0, hr1, hr2, h2, h3⟩
  · exfalso
    simp only at h2
    rw [i8 k (le_refl _) (by omega), (hex (k + 5) (by omega) (by omega)).1] at h2
    exact Bool.false_ne_true h2
  · simp only at h2 h3
    rw [h3]
    have hkon : k + 5 < onb := by omega
    have hbk : pointers vpb k = blk0 (k + 5) := i8 k (le_refl _) hkon
    refine ⟨?_, ?_⟩
    · refine ⟨i1, ?_, i3, hwn, rfl, rfl, rfl, ?_, ?_, ?_, i9, i10d, ?_, ?_⟩
      · show (disk_write _ _ _).nblocks = ds
        rw [disk_write_nblocks]; exact i2
      · intro l hl0 hl1
        refine (i7d l hl0 hl1).keep (fun x hx => hx) ?_
        show disk_read (disk_write vst.disk _ _) _ = _
        apply disk_read_write_ne
        rw [hbk]
        exact (i7d l hl0 hl1).ne_existing (k + 5) hex hdist hl0 (by omega) hkon (by omega)
      · intro l hl0 hl1
        show Placed st0 _ nib ds blk0 onb W L (l + 5) (pointers vpb l)
        by_cases hlk : l = k
        · subst hlk
          refine ⟨h2, i3 _ (by rw [hbk]; exact (hex (l + 5) (by omega) hkon).2),
            Or.inl ⟨hkon, hbk⟩, ?_⟩
          show Holds (disk_write vst.disk _ _) W L (l + 5) _
          rw [hw4]
          exact Holds.written vst.disk W L (l + 5) _ vwb nib hnib (by rw [i2]; exact h2) hkL
        · have hP := i7 l hl0 (by omega)
          refine hP.keep (fun x hx => hx) ?_
          show disk_read (disk_write vst.disk _ _) _ = _
          apply disk_read_write_ne
          rw [hbk]
          exact hP.ne_existing (k + 5) hex hdist (by omega) (by omega) hkon (by omega)
      · intro l hl0 hl1
        exact i8 l (by omega) hl1
      · intro l hl0 hl1
        show pointers vpb l ≠ P
        by_cases hlk : l = k
        · subst hlk
          rw [hbk]
          exact hPex (l + 5) (by omega) hkon
        · exact i10 l hl0 (by omega)
      · intro hch
        show disk_read (disk_write vst.disk _ _) P = vpb
        rw [disk_read_write_ne _ _ _ _ (by rw [hbk]; exact (hPex (k + 5) (by omega) hkon).symm)]
        exact i11 hch
    · simp only [hkon, if_true]
      rw [add_zero]
      exact le_of_eq (congrArg Nat.cast (freeCount_congr _ vst rfl rfl))
  · exfalso
    have := freeCount_zero_of_full vst h2
    have := hfree (by omega)
    omega
  · exfalso
    rw [badBlock_true_iff] at h2
    simp only at hr1 hr2
    rcases h2 with h2 | h2
    · have := i3 r (hmeta r hr0 h2)
      rw [hr2] at this
      exact Bool.false_ne_true this
    · omega
  · simp only at hr1 hr2 h3
    rw [h3]
    have hkon : ¬ k + 5 < onb := by omega
    have hr31 : r < 2147483648 := by omega
    have hnew := fun l => pointers_set vpb k l r hr0 hr31
    refine ⟨?_, ?_⟩
    · refine ⟨i1, ?_, ?_, hwn, rfl, rfl, rfl, ?_, ?_, ?_, ?_, i10d, ?_, ?_⟩
      · show (disk_write _ _ _).nblocks = ds
        rw [disk_write_nblocks]; exact i2
      · intro b hb
        exact update_true_mono _ _ _ (i3 b hb)
      · intro l hl0 hl1
        refine (i7d l hl0 hl1).keep (fun x hx => update_true_mono _ _ _ hx) ?_
        show disk_read (disk_write vst.disk _ _) _ = _
        exact disk_read_write_ne _ _ _ _ ((i7d l hl0 hl1).ne_free r hr2)
      · intro l hl0 hl1
        show Placed st0 _ nib ds blk0 onb W L (l + 5) (pointers (set_pointers vpb k r) l)
        rw [hnew]
        by_cases hlk : l = k
        · subst hlk
          simp only [if_true]
          refine ⟨h2, ?_, Or.inr ?_, ?_⟩
          · show Function.update vst.bitmap r true r = true
            simp
          · by_contra hcon
            have := i3 r (by simpa using hcon)
            rw [hr2] at this
            exact Bool.false_ne_true this
          · show Holds (disk_write vst.disk _ _) W L (l + 5) _
            rw [hw4]
            exact Holds.written vst.disk W L (l + 5) _ vwb nib hnib (by rw [i2]; exact h2) hkL
        · simp only [hlk, if_false]
          have hP := i7 l hl0 (by omega)
          refine hP.keep (fun x hx => update_true_mono _ _ _ hx) ?_
          show disk_read (disk_write vst.disk _ _) _ = _
          exact disk_read_write_ne _ _ _ _ (hP.ne_free r hr2)
      · intro l hl0 hl1
        show pointers (set_pointers vpb k r) l = blk0 (l + 5)
        rw [hnew]
        have : l ≠ k := by omega
        simp only [this, if_false]
        exact i8 l (by omega) hl1
      · exact update_true_mono _ _ _ i9
      · intro l hl0 hl1
        show pointers (set_pointers vpb k r) l ≠ P
        rw [hnew]
        by_cases hlk : l = k
        · simp only [hlk, if_true]
          intro heq
          rw [← heq, hr2] at i9
          exact Bool.false_ne_true i9
        · simp only [hlk, if_false]
          exact i10 l hl0 (by omega)
      · intro hch
        exact absurd hch (by simp)
    · simp only [hkon, if_false]
      have := freeCount_alloc' vst
        { vst with bitmap := Function.update vst.bitmap r true,
                   disk := (disk_write vst.disk r
                     (memcpy vwb 0 W vw (min (L - vw) (4096 - 0)))) } r hr0 hr1 hr2 rfl rfl
      omega

/-- The indirect loop of a write at offset 0, given enough free blocks, stores
the logical blocks from 5 up to `nbL`. -/
theorem writeIndirect_content (st0 : FsState) (nib ds iAI : Int) (W : Bytes) (L : Int)
    (ib : Int) (blk0 : Int → Int) (onb nbL : Int) (dir : Int → Int) (P : Int) (n : Nat) (k : Int)
    (v : WriteIndVars)
    (hnib : 0 ≤ nib) (hds : ds ≤ 2147483648) (hiAI : iAI = max (onb - 6) (-1))
    (hnbL : nbL = (L + 4095) / 4096)
    (hmeta : ∀ b, 0 ≤ b → b ≤ nib → st0.bitmap b = true)
    (hex : ∀ l, 0 ≤ l → l < onb → badBlock nib ds (blk0 l) = false ∧ st0.bitmap (blk0 l) = true)
    (hdist : ∀ l l2, 0 ≤ l → l < onb → 0 ≤ l2 → l2 < onb → l ≠ l2 → blk0 l ≠ blk0 l2)
    (hPex : ∀ l, 0 ≤ l → l < onb → blk0 l ≠ P)
    (hk0 : 0 ≤ k) (hI : IndirectInv st0 nib ds blk0 onb W L dir P k v)
    (hfree : max (min ib (nbL - 5) - max k (onb - 5)) 0 ≤ (freeCount v.st : Int))
    (hfuel : ib - k ≤ n) :
    IndirectInv st0 nib ds blk0 onb W L dir P (max k (min ib (nbL - 5)))
      (writeIndirect nib ds iAI W L ib n k v) := by
  induction n generalizing k v with
  | zero =>
    have hK : max k (min ib (nbL - 5)) = k := by simp at hfuel; omega
    rw [hK]
    simp only [writeIndirect]
    exact hI
  | succ n ih =>
    unfold writeIndirect
    have hw := hI.written
    have hro := hI.ranOut
    by_cases hc : k < ib ∧ v.written < L ∧ v.ranOutOfMemory = false
    · rw [if_pos hc]
      obtain ⟨hc1, hc2, _⟩ := hc
      have hknb : k + 5 < nbL := by omega
      have hS := IndirectInv.inv_step_i st0 nib ds iAI W L blk0 onb dir P k v hnib hds hk0
        hiAI hmeta hex hdist hPex hI hc2 (fun h => by omega)
      revert hS
      generalize writeIndirectBody nib ds iAI W L k v = v1
      intro hS
      obtain ⟨hS1, hS2⟩ := hS
      have hK : max k (min ib (nbL - 5)) = max (k + 1) (min ib (nbL - 5)) := by omega
      rw [hK]
      simp only [hS1.returned, Bool.false_eq_true, if_false]
      by_cases hkon : k + 5 < onb
      · simp only [hkon, if_true] at hS2
        exact ih (k + 1) v1 (by omega) hS1 (by omega) (by push_cast at hfuel; omega)
      · simp only [hkon, if_false] at hS2
        exact ih (k + 1) v1 (by omega) hS1 (by omega) (by push_cast at hfuel; omega)
    · rw [if_neg hc]
      have hK : max k (min ib (nbL - 5)) = k := by
        by_cases h1 : k < ib
        · have : ¬ v.written < L := fun h => hc ⟨h1, h, hro⟩
          omega
        · omega
      rw [hK]
      exact hI

theorem writeFinish_fst (st : FsState) (iB j : Int) (B : Block) (size offset w : Int) :
    (writeFinish st iB j B size offset w).1 = w := by
  unfold writeFinish
  simp only []
  split <;> rfl

theorem inode_direct_set_size (B : Block) (j s l : Int) (hl : 0 ≤ l) :
    inode_direct (set_inode_size B j s) j l = inode_direct B j l := by
  unfold inode_direct set_inode_size
  exact getInt_setInt_ne _ _ _ _ (by omega)

theorem inode_indirect_set_size (B : Block) (j s : Int) :
    inode_indirect (set_inode_size B j s) j = inode_indirect B j := by
  unfold inode_indirect set_inode_size
  exact getInt_setInt_ne _ _ _ _ (by omega)

theorem inode_direct_set_indirect (B : Block) (j r l : Int) (hl : l < 5) :
    inode_direct (set_inode_indirect B j r) j l = inode_direct B j l := by
  unfold inode_direct set_inode_indirect
  exact getInt_setInt_ne _ _ _ _ (by omega)

/-- The end of a write at offset 0: when the blocks named by the inode `B2`
hold the data in `st2`, the file holds the data afterwards. -/
theorem writeFinish_content (st2 : FsState) (nib ds iB j : Int) (B2 : Block) (W : Bytes)
    (L size w : Int) (hib0 : 0 ≤ iB + 1) (hibn : iB + 1 ≤ nib) (hbn : st2.disk.nblocks = ds)
    (hib1 : iB + 1 < ds)
    (hdir : ∀ l, 0 ≤ l → l < 5 → 4096 * l < L →
      badBlock nib ds (inode_direct B2 j l) = false ∧ Holds st2.disk W L l (inode_direct B2 j l))
    (hPg : 20480 < L → badBlock nib ds (inode_indirect B2 j) = false)
    (hind : ∀ l, 5 ≤ l → 4096 * l < L →
      badBlock nib ds (pointers (disk_read st2.disk (inode_indirect B2 j)) (l - 5)) = false ∧
      Holds st2.disk W L l (pointers (disk_read st2.disk (inode_indirect B2 j)) (l - 5)))
    (hold : ¬ (0 + w > size) →
      (∀ l, 0 ≤ l → l < 5 →
        inode_direct (disk_read st2.disk (iB + 1)) j l = inode_direct B2 j l) ∧
      (20480 < L → inode_indirect (disk_read st2.disk (iB + 1)) j = inode_indirect B2 j)) :
    Stored (writeFinish st2 iB j B2 size 0 w).2 nib ds iB j W L := by
  unfold writeFinish
  simp only []
  by_cases hg : 0 + w > size
  · rw [if_pos hg]
    generalize (if 0 + w > BYTES_PER_BLOCK * (POINTERS_PER_INODE + POINTERS_PER_BLOCK)
      then BYTES_PER_BLOCK * (POINTERS_PER_INODE + POINTERS_PER_BLOCK) else 0 + w) = ns
    intro l hl0 hlL
    show badBlock nib ds (slotFileBlock (disk_write st2.disk (iB + 1) (set_inode_size B2 j ns))
        (disk_read (disk_write st2.disk (iB + 1) (set_inode_size B2 j ns)) (iB + 1)) j l) = false ∧
      Holds (disk_write st2.disk (iB + 1) (set_inode_size B2 j ns)) W L l
        (slotFileBlock (disk_write st2.disk (iB + 1) (set_inode_size B2 j ns))
          (disk_read (disk_write st2.disk (iB + 1) (set_inode_size B2 j ns)) (iB + 1)) j l)
    rw [disk_read_write_same _ _ _ hib0 (by rw [hbn]; exact hib1)]
    have hkeep : ∀ b, badBlock nib ds b = false →
        disk_read (disk_write st2.disk (iB + 1) (set_inode_size B2 j ns)) b
          = disk_read st2.disk b := by
      intro b hb
      rw [badBlock_false_iff] at hb
      exact disk_read_write_ne _ _ _ _ (by omega)
    by_cases hl5 : l < 5
    · rw [slotFileBlock_direct _ _ _ _ hl5, inode_direct_set_size _ _ _ _ hl0]
      obtain ⟨g1, g2⟩ := hdir l hl0 hl5 hlL
      refine ⟨g1, ?_⟩
      intro i h0 h1 h2
      rw [hkeep _ g1]
      exact g2 i h0 h1 h2
    · rw [slotFileBlock_indirect _ _ _ _ (by omega), inode_indirect_set_size,
        hkeep _ (hPg (by omega))]
      obtain ⟨g1, g2⟩ := hind l (by omega) hlL
      refine ⟨g1, ?_⟩
      intro i h0 h1 h2
      rw [hkeep _ g1]
      exact g2 i h0 h1 h2
  · rw [if_neg hg]
    obtain ⟨o1, o2⟩ := hold hg
    intro l hl0 hlL
    show badBlock nib ds (slotFileBlock st2.disk (disk_read st2.disk (iB + 1)) j l) = false ∧
      Holds st2.disk W L l (slotFileBlock st2.disk (disk_read st2.disk (iB + 1)) j l)
    by_cases hl5 : l < 5
    · rw [slotFileBlock_direct _ _ _ _ hl5, o1 l hl0 hl5]
      exact hdir l hl0 hl5 hlL
    · rw [slotFileBlock_indirect _ _ _ _ (by omega), o2 (by omega)]
      exact hind l (by omega) hlL

theorem writeIndirect_done (nib ds iAI : Int) (W : Bytes) (L ib : Int) (n : Nat) (k : Int)
    (v : WriteIndVars) (h : ¬ v.written < L) : writeIndirect nib ds iAI W L ib n k v = v := by
  cases n with
  | zero => rfl
  | succ n =>
    unfold writeIndirect
    rw [if_neg (fun hc => h hc.2.1)]

/-- The indirect part of a write at offset 0 after the allocation of the
indirect block. -/
theorem writeIndirectRun_content (st0 st : FsState) (ro : Bool) (nib ds iB j : Int) (B2 : Block)
    (W : Bytes) (L : Int) (wb : Block) (size iAI ib w : Int) (blk0 : Int → Int) (onb nbL : Int)
    (hnib : 0 ≤ nib) (hds : ds ≤ 2147483648) (hiAI : iAI = max (onb - 6) (-1))
    (hnbL : nbL = (L + 4095) / 4096) (hL0 : 0 ≤ L) (hnbL1 : nbL ≤ 1029)
    (hib : 5 < nbL → nbL - 5 ≤ ib) (honb : 0 ≤ onb)
    (hib0 : 0 ≤ iB + 1) (hibn : iB + 1 ≤ nib) (hib1 : iB + 1 < ds)
    (hmeta : ∀ b, 0 ≤ b → b ≤ nib → st0.bitmap b = true)
    (hex : ∀ l, 0 ≤ l → l < onb → badBlock nib ds (blk0 l) = false ∧ st0.bitmap (blk0 l) = true)
    (hdist : ∀ l l2, 0 ≤ l → l < onb → 0 ≤ l2 → l2 < onb → l ≠ l2 → blk0 l ≠ blk0 l2)
    (hbs : st.bitmapSize = ds) (hbn : st.disk.nblocks = ds)
    (hmono : ∀ b, st0.bitmap b = true → st.bitmap b = true)
    (hw : w = min L 20480)
    (hpd : ∀ l, 0 ≤ l → l < 5 → l < nbL →
      Placed st0 st nib ds blk0 onb W L l (inode_direct B2 j l))
    (hbig : 5 < nbL → ro = false ∧ badBlock nib ds (inode_indirect B2 j) = false ∧
      st.bitmap (inode_indirect B2 j) = true ∧
      (∀ l, 0 ≤ l → l < onb → blk0 l ≠ inode_indirect B2 j) ∧
      (∀ l, 0 ≤ l → l < 5 → inode_direct B2 j l ≠ inode_indirect B2 j) ∧
      (∀ l, 0 ≤ l → l + 5 < onb →
        pointers (disk_read st.disk (inode_indirect B2 j)) l = blk0 (l + 5)) ∧
      nbL - 5 - max 0 (onb - 5) ≤ (freeCount st : Int))
    (hold : ¬ (0 + L > size) →
      (∀ l, 0 ≤ l → l < 5 →
        inode_direct (disk_read st.disk (iB + 1)) j l = inode_direct B2 j l) ∧
      (20480 < L → inode_indirect (disk_read st.disk (iB + 1)) j = inode_indirect B2 j)) :
    (writeIndirectRun st ro nib ds iB j B2 W L wb size 0 iAI ib 0 0 w).1 = L ∧
    Stored (writeIndirectRun st ro nib ds iB j B2 W L wb size 0 iAI ib 0 0 w).2 nib ds iB j W L := by
  unfold writeIndirectRun
  simp only []
  by_cases hc : 5 < nbL
  · obtain ⟨b1, b2, b3, b4, b5, b6, b7⟩ := hbig hc
    subst b1
    have hib := hib hc
    have hI0 : IndirectInv st0 nib ds blk0 onb W L (fun l => inode_direct B2 j l)
        (inode_indirect B2 j) 0
        { st := st, pointers_block := disk_read st.disk (inode_indirect B2 j), writeBlock := wb,
          written := w, startByte := 0, changedPointersBlock := false, ranOutOfMemory := false,
          returned := false } :=
      { bitmapSize := hbs
        nblocks := hbn
        mono := hmono
        written := by simp only; omega
        startByte := rfl
        ranOut := rfl
        returned := rfl
        placedDirect := fun l h0 h1 => hpd l h0 h1 (by omega)
        placed := fun l h0 h1 => by omega
        pending := fun l h0 h1 => b6 l h0 h1
        ptrUsed := b3
        ptrDirect := b5
        ptrApart := fun l h0 h1 => by omega
        ptrDisk := fun _ => rfl }
    have C := writeIndirect_content st0 nib ds iAI W L ib blk0 onb nbL
      (fun l => inode_direct B2 j l) (inode_indirect B2 j) (ib - 0).toNat 0 _
      hnib hds hiAI hnbL hmeta hex hdist b4 (le_refl _) hI0 (by simp only; omega) (by omega)
    have F := writeIndirect_frame nib ds iAI W L ib (ib - 0).toNat 0
      { st := st, pointers_block := disk_read st.disk (inode_indirect B2 j), writeBlock := wb,
        written := w, startByte := 0, changedPointersBlock := false, ranOutOfMemory := false,
        returned := false } hnib (le_refl _) (by norm_num) (by simp only; omega)
      (by simp only; omega)
    revert C F
    generalize writeIndirect nib ds iAI W L ib (ib - 0).toNat 0
      { st := st, pointers_block := disk_read st.disk (inode_indirect B2 j), writeBlock := wb,
        written := w, startByte := 0, changedPointersBlock := false, ranOutOfMemory := false,
        returned := false } = v2
    intro C F
    have hK : max 0 (min ib (nbL - 5)) = nbL - 5 := by omega
    rw [hK] at C
    have hwr : v2.written = L := by
      have := C.written
      omega
    simp only [C.returned, Bool.false_eq_true, if_false]
    rw [writeFinish_fst]
    refine ⟨hwr, ?_⟩
    have hPg := b2
    rw [badBlock_false_iff] at hPg
    obtain ⟨st2, hst2⟩ : ∃ st2 : FsState, st2 = (if v2.changedPointersBlock = true then
        ({ v2.st with disk := (disk_write v2.st.disk (inode_indirect B2 j) v2.pointers_block) }
          : FsState)
      else v2.st) := ⟨_, rfl⟩
    rw [← hst2]
    have e1 : st2.disk.nblocks = ds := by
      rw [hst2]; split
      · show (disk_write _ _ _).nblocks = _
        rw [disk_write_nblocks]; exact C.nblocks
      · exact C.nblocks
    have e2 : ∀ b, b ≠ inode_indirect B2 j → disk_read st2.disk b = disk_read v2.st.disk b := by
      intro b hb
      rw [hst2]; split
      · exact disk_read_write_ne _ _ _ _ hb
      · rfl
    have e3 : disk_read st2.disk (inode_indirect B2 j) = v2.pointers_block := by
      rw [hst2]
      by_cases hch : v2.changedPointersBlock = true
      · rw [if_pos hch]
        exact disk_read_write_same _ _ _ (by omega) (by rw [C.nblocks]; exact hPg.2)
      · rw [if_neg hch]
        exact C.ptrDisk (by simpa using hch)
    have e4 : disk_read st2.disk (iB + 1) = disk_read st.disk (iB + 1) := by
      rw [e2 _ (by omega)]
      exact F.disk_bad _ (badBlock_meta _ _ _ hibn)
    apply writeFinish_content st2 nib ds iB j B2 W L size v2.written hib0 hibn e1 hib1
    · intro l hl0 hl5 hlL
      have hP := C.placedDirect l hl0 hl5
      refine ⟨hP.good, ?_⟩
      intro i h0 h1 h2
      rw [e2 _ (C.ptrDirect l hl0 hl5)]
      exact hP.holds i h0 h1 h2
    · intro _; exact b2
    · intro l hl5 hlL
      rw [e3]
      have hP := C.placed (l - 5) (by omega) (by omega)
      have e : l - 5 + 5 = l := by omega
      rw [e] at hP
      refine ⟨hP.good, ?_⟩
      intro i h0 h1 h2
      rw [e2 _ (C.ptrApart (l - 5) (by omega) (by omega))]
      exact hP.holds i h0 h1 h2
    · rw [hwr, e4]
      exact hold
  · have hwL : w = L := by omega
    rw [writeIndirect_done _ _ _ _ _ _ _ _ _ (by simp only; omega)]
    simp only [Bool.false_eq_true, if_false]
    rw [writeFinish_fst]
    refine ⟨hwL, ?_⟩
    apply writeFinish_content st nib ds iB j B2 W L size w hib0 hibn hbn hib1
    · intro l hl0 hl5 hlL
      have hP := hpd l hl0 hl5 (by omega)
      exact ⟨hP.good, hP.holds⟩
    · intro h; omega
    · intro l hl5 hlL; omega
    · rw [hwL]; exact hold

/-- A block placed earlier differs from a block that was in use before the
write and is no block of the file. -/
theorem Placed.ne_used {st0 cur : FsState} {nib ds : Int} {blk0 : Int → Int} {onb : Int}
    {W : Bytes} {L l b : Int} (h : Placed st0 cur nib ds blk0 onb W L l b) (P : Int)
    (hl0 : 0 ≤ l) (hP : st0.bitmap P = true) (hPex : ∀ l, 0 ≤ l → l < onb → blk0 l ≠ P) :
    b ≠ P := by
  rcases h.origin with ⟨ho1, ho2⟩ | ho
  · rw [ho2]
    exact hPex l hl0 ho1
  · intro heq
    rw [heq, hP] at ho
    exact Bool.false_ne_true ho.symm

/-- The block count that `fs_write` computes for a write of `L` bytes at
offset 0 is the number of blocks of `L` bytes, or one more. -/
theorem blocksToAllocate_bounds (L onb : Int) (hL : 0 ≤ L) :
    (L + 4095) / 4096 ≤ onb + blocksToAllocateOf (0 + L - onb * BYTES_PER_BLOCK) ∧
    onb + blocksToAllocateOf (0 + L - onb * BYTES_PER_BLOCK) ≤ (L + 4095) / 4096 + 1 := by
  unfold blocksToAllocateOf
  simp only [BYTES_PER_BLOCK]
  by_cases h : 0 ≤ 0 + L - onb * 4096
  · rw [Int.tdiv_eq_ediv h (by decide), Int.tmod_eq_emod h (by decide)]
    split <;> omega
  · rw [tdiv_of_nonpos _ (by omega), tmod_of_nonpos _ (by omega)]
    split <;> omega

/-- The indirect part of a write at offset 0, entered after the direct loop
has stored the first blocks. -/
theorem writeIndirectPart_content (st0 st1 : FsState) (nib ds iB j : Int) (B1 : Block)
    (W : Bytes) (L : Int) (wb : Block) (size : Int) (alloc : Bool) (iAI ib w : Int)
    (blk0 : Int → Int) (onb nbL : Int)
    (hnib : 0 ≤ nib) (hds : ds ≤ 2147483648) (hiAI : iAI = max (onb - 6) (-1))
    (hnbL : nbL = (L + 4095) / 4096) (hL0 : 0 ≤ L) (hnbL1 : nbL ≤ 1029)
    (hib : 5 < nbL → nbL - 5 ≤ ib) (honb : 0 ≤ onb)
    (hib0 : 0 ≤ iB + 1) (hibn : iB + 1 ≤ nib) (hib1 : iB + 1 < ds)
    (hmeta : ∀ b, 0 ≤ b → b ≤ nib → st0.bitmap b = true)
    (hex : ∀ l, 0 ≤ l → l < onb → badBlock nib ds (blk0 l) = false ∧ st0.bitmap (blk0 l) = true)
    (hdist : ∀ l l2, 0 ≤ l → l < onb → 0 ≤ l2 → l2 < onb → l ≠ l2 → blk0 l ≠ blk0 l2)
    (hbs : st1.bitmapSize = ds) (hbn : st1.disk.nblocks = ds)
    (hmono : ∀ b, st0.bitmap b = true → st1.bitmap b = true)
    (hw : w = min L 20480)
    (hpd : ∀ l, 0 ≤ l → l < 5 → l < nbL →
      Placed st0 st1 nib ds blk0 onb W L l (inode_direct B1 j l))
    (hallocT : alloc = true → onb ≤ 5) (hallocF : alloc = false → 5 < nbL → 5 < onb)
    (hInd : 5 < nbL → 5 < onb → badBlock nib ds (inode_indirect B1 j) = false ∧
      st0.bitmap (inode_indirect B1 j) = true ∧
      (∀ l, 0 ≤ l → l < onb → blk0 l ≠ inode_indirect B1 j) ∧
      (∀ l, 0 ≤ l → l + 5 < onb →
        pointers (disk_read st1.disk (inode_indirect B1 j)) l = blk0 (l + 5)))
    (hfreeA : 5 < nbL → onb ≤ 5 → nbL - 4 ≤ (freeCount st1 : Int))
    (hfreeB : 5 < nbL → 5 < onb → nbL - onb ≤ (freeCount st1 : Int))
    (hold1 : disk_read st1.disk (iB + 1) = B1)
    (hgrow : ¬ (0 + L > size) → 5 < nbL → 5 < onb) :
    (writeIndirectPart st1 nib ds iB j B1 W L wb size 0 alloc iAI ib 0 0 w).1 = L ∧
    Stored (writeIndirectPart st1 nib ds iB j B1 W L wb size 0 alloc iAI ib 0 0 w).2
      nib ds iB j W L := by
  unfold writeIndirectPart
  simp only []
  have hold : ¬ (0 + L > size) →
      (∀ l, 0 ≤ l → l < 5 →
        inode_direct (disk_read st1.disk (iB + 1)) j l = inode_direct B1 j l) ∧
      (20480 < L → inode_indirect (disk_read st1.disk (iB + 1)) j = inode_indirect B1 j) := by
    intro _
    rw [hold1]
    exact ⟨fun _ _ _ => rfl, fun _ => rfl⟩
  rcases allocIndirect_cases st1 j B1 alloc with
    ⟨a1, a2⟩ | ⟨a1, a2, a3⟩ | ⟨r, a1, r0, r1, r2, a3⟩
  · -- the file has an indirect block already
    rw [a2]
    simp only []
    apply writeIndirectRun_content st0 st1 false nib ds iB j B1 W L wb size iAI ib
      w blk0 onb nbL hnib hds hiAI hnbL hL0 hnbL1 hib honb hib0 hibn
      hib1 hmeta hex hdist hbs hbn hmono hw hpd _ hold
    intro hbig
    have hon := hallocF a1 hbig
    obtain ⟨hI1, hI2, hI3, hI4⟩ := hInd hbig hon
    refine ⟨rfl, hI1, hmono _ hI2, hI3, ?_, hI4, ?_⟩
    · intro l hl0 hl5
      exact (hpd l hl0 hl5 (by omega)).ne_used _ hl0 hI2 hI3
    · have := hfreeB hbig hon
      omega
  · -- no free block for a new indirect block: only when none is needed
    rw [a3]
    simp only []
    have hon := hallocT a1
    have hfull : freeCount st1 = 0 := freeCount_zero_of_full st1 a2
    have hsmall : ¬ 5 < nbL := by
      intro hbig
      have := hfreeA hbig hon
      omega
    exact writeIndirectRun_content st0 st1 true nib ds iB j B1 W L wb size iAI ib
      w blk0 onb nbL hnib hds hiAI hnbL hL0 hnbL1 hib honb hib0 hibn
      hib1 hmeta hex hdist hbs hbn hmono hw hpd (fun h => absurd h hsmall) hold
  · -- a new indirect block
    rw [a3]
    simp only []
    have hon := hallocT a1
    have hr31 : r < 2147483648 := by omega
    have hrg : badBlock nib ds r = false := by
      rw [badBlock_false_iff]
      refine ⟨?_, by omega⟩
      by_contra hcon
      have := hmono r (hmeta r r0 (by omega))
      rw [r2] at this
      exact Bool.false_ne_true this
    have hBi : inode_indirect (set_inode_indirect B1 j r) j = r :=
      inode_indirect_set _ _ _ r0 hr31
    have hBd : ∀ l, l < 5 → inode_direct (set_inode_indirect B1 j r) j l
        = inode_direct B1 j l := fun l hl => inode_direct_set_indirect _ _ _ _ hl
    revert hBi hBd
    generalize set_inode_indirect B1 j r = B2
    intro hBi hBd
    have hfc := freeCount_alloc' st1 { st1 with bitmap := Function.update st1.bitmap r true }
      r r0 r1 r2 rfl rfl
    apply writeIndirectRun_content st0 { st1 with bitmap := Function.update st1.bitmap r true }
      false nib ds iB j B2 W L wb size iAI ib
      w blk0 onb nbL hnib hds hiAI hnbL hL0 hnbL1 hib honb hib0 hibn
      hib1 hmeta hex hdist hbs hbn (fun b hb => update_true_mono _ _ _ (hmono b hb)) hw
    · intro l hl0 hl5 hl1
      rw [hBd l hl5]
      exact (hpd l hl0 hl5 hl1).keep (fun x hx => update_true_mono _ _ _ hx) rfl
    · intro hbig
      rw [hBi]
      refine ⟨rfl, hrg, ?_, ?_, ?_, ?_, ?_⟩
      · show Function.update st1.bitmap r true r = true
        simp
      · intro l hl0 hl1 heq
        have := hmono _ (hex l hl0 hl1).2
        rw [heq, r2] at this
        exact Bool.false_ne_true this
      · intro l hl0 hl5
        rw [hBd l hl5]
        exact (hpd l hl0 hl5 (by omega)).ne_free r r2
      · intro l hl0 hl1
        omega
      · have := hfreeA hbig hon
        omega
    · intro hng
      obtain ⟨o1, _⟩ := hold hng
      refine ⟨?_, ?_⟩
      · intro l hl0 hl5
        rw [hBd l hl5]
        exact o1 l hl0 hl5
      · intro hbig
        have := hgrow hng (by omega)
        omega

/-- The body of `fs_write` on a valid inode at offset 0, given enough free
blocks: all `L` bytes are written and the file holds them afterwards. -/
theorem writeInode_content (st : FsState) (nib iB j : Int) (inodeB : Block) (W : Bytes)
    (L : Int) (u : Uninit) (blk0 : Int → Int)
    (size onb nb' dAI iAI db ib nbL : Int) (alloc : Bool)
    (e_size : inode_size inodeB j = size) (e_onb : nblocksOf size = onb)
    (e_nb : onb + blocksToAllocateOf (0 + L - onb * BYTES_PER_BLOCK) = nb')
    (e_dAI : (if onb ≥ POINTERS_PER_INODE then POINTERS_PER_INODE - 1 else onb - 1) = dAI)
    (e_iAI : (if onb ≥ POINTERS_PER_INODE then onb - POINTERS_PER_INODE - 1 else -1) = iAI)
    (e_alloc : (decide (onb ≤ POINTERS_PER_INODE) && decide (nb' > POINTERS_PER_INODE)) = alloc)
    (e_db : directBlocks nb' = db) (e_ib : indirectBlocksCapped nb' = ib)
    (hnib : 0 ≤ nib) (hib0 : 0 ≤ iB + 1) (hibn : iB + 1 ≤ nib) (hib1 : iB + 1 < st.disk.nblocks)
    (hdsk : disk_read st.disk (iB + 1) = inodeB)
    (hbs : st.bitmapSize = st.disk.nblocks) (hsz : st.disk.nblocks ≤ 2147483648)
    (hmeta : ∀ b, 0 ≤ b → b ≤ nib → st.bitmap b = true)
    (hL0 : 0 ≤ L) (hnbL : nbL = (L + 4095) / 4096) (hnbL1 : nbL ≤ 1029)
    (honb : 0 ≤ onb) (honbe : onb = (size + 4095) / 4096)
    (hnb1 : nbL ≤ nb') (hnb2 : nb' ≤ nbL + 1)
    (hdAI : dAI = min 4 (onb - 1)) (hiAI : iAI = max (onb - 6) (-1))
    (hdb : db = min nb' 5) (hibe : ib = min (max (nb' - 5) 0) 1024)
    (halloc : alloc = true ↔ (onb ≤ 5 ∧ nb' > 5))
    (hblk : ∀ l, blk0 l = slotFileBlock st.disk inodeB j l)
    (hex : ∀ l, 0 ≤ l → l < onb →
      badBlock nib (disk_size st.disk) (blk0 l) = false ∧ st.bitmap (blk0 l) = true)
    (hdist : ∀ l l2, 0 ≤ l → l < onb → 0 ≤ l2 → l2 < onb → l ≠ l2 → blk0 l ≠ blk0 l2)
    (hInd : onb > 5 → badBlock nib (disk_size st.disk) (inode_indirect inodeB j) = false ∧
      st.bitmap (inode_indirect inodeB j) = true ∧
      (∀ l, 0 ≤ l → l < onb → blk0 l ≠ inode_indirect inodeB j))
    (hfree : max (nbL - onb) 0 + (if onb ≤ 5 ∧ 5 < nbL then 1 else 0) ≤ (freeCount st : Int)) :
    (writeInode st nib iB j inodeB W L 0 u).1 = L ∧
    Stored (writeInode st nib iB j inodeB W L 0 u).2 nib (disk_size st.disk) iB j W L := by
  unfold writeInode
  have z1 : (0 : Int).tmod BYTES_PER_BLOCK = 0 := by decide
  have z2 : startIndirectByteOf 0 = 0 := by decide
  have z3 : (0 : Int).tdiv BYTES_PER_BLOCK = 0 := by decide
  have z4 : startIndirectBlockOf 0 = 0 := by decide
  have z5 : (if (0 : Int) > BYTES_PER_BLOCK * onb then BYTES_PER_BLOCK * onb else 0) = 0 := by
    simp only [BYTES_PER_BLOCK]; split <;> omega
  simp only [e_size, e_onb, z1, z2, z3, z4, e_nb, e_dAI, e_iAI, e_alloc, z5, e_db, e_ib]
  clear e_onb e_nb e_dAI e_iAI e_alloc e_db e_ib z1 z2 z3 z4 z5
  generalize hdse : disk_size st.disk = ds at *
  have hdsn : st.disk.nblocks = ds := hdse
  -- arithmetic of the block counts
  have hfree0 : max (min db nbL - max 0 onb) 0 ≤ (freeCount st : Int) := by
    split at hfree <;> omega
  have hfreeB : ∀ f1 : Int, (freeCount st : Int) ≤ f1 + max (min db nbL - onb) 0 →
      5 < nbL → 5 < onb → nbL - onb ≤ f1 := by
    intro f1 h1 h2 h3
    split at hfree <;> omega
  have hfreeA : ∀ f1 : Int, (freeCount st : Int) ≤ f1 + max (min db nbL - onb) 0 →
      5 < nbL → onb ≤ 5 → nbL - 4 ≤ f1 := by
    intro f1 h1 h2 h3
    rw [if_pos ⟨h3, h2⟩] at hfree
    omega
  clear hfree
  have hdb5 : db ≤ 5 := by omega
  have hK1 : max 0 (min db nbL) = min db nbL := by omega
  have hK2 : max 0 onb = onb := by omega
  have hm5 : ∀ l : Int, l < 5 → l < nbL → l < min db nbL := by
    intro l h1 h2; omega
  have hwm : min L (4096 * min db nbL) = min L 20480 := by omega
  have hibL : 5 < nbL → nbL - 5 ≤ ib := by intro h; omega
  have hibS : ¬ ib > 0 → nbL ≤ 5 := by intro h; omega
  have hallocT : alloc = true → onb ≤ 5 := fun h => (halloc.1 h).1
  have hallocF : alloc = false → 5 < nbL → 5 < onb := by
    intro ha hbig
    by_contra hcon
    have : alloc = true := halloc.2 ⟨by omega, by omega⟩
    rw [ha] at this; exact Bool.false_ne_true this
  have hgrow : ¬ (0 + L > size) → 5 < nbL → 5 < onb := by
    intro h1 h2; omega
  have hdA1 : dAI ≤ onb - 1 := by omega
  clear hdb hibe halloc hnb1 hnb2 honbe
  have hI0 : DirectInv st nib ds j blk0 onb W L 0
      { st := st, inodeB := inodeB, written := 0, startByte := 0, changedInodeBlock := false,
        ranOutOfMemory := false } :=
    { bitmapSize := by rw [← hdsn]; exact hbs
      nblocks := hdsn
      mono := fun b h => h
      written := by simp only; omega
      startByte := rfl
      ranOut := rfl
      placed := fun l h0 h1 => by omega
      pending := fun l h0 h1 h2 => by
        show inode_direct inodeB j l = blk0 l
        rw [hblk, slotFileBlock_direct _ _ _ _ h2] }
  have C := writeDirect_content st nib ds j dAI W L u.direct db blk0 onb nbL (db - 0).toNat 0 _
    hnib (by omega) hdb5 hdAI hnbL hmeta hex hdist (le_refl _) hI0 hfree0 (by omega)
  have D := writeDirect_frame nib ds j dAI W L u.direct db (db - 0).toNat 0
    { st := st, inodeB := inodeB, written := 0, startByte := 0, changedInodeBlock := false,
      ranOutOfMemory := false } hnib (le_refl _) (by norm_num) hL0
  revert C D
  generalize writeDirect nib ds j dAI W L u.direct db (db - 0).toNat 0
    { st := st, inodeB := inodeB, written := 0, startByte := 0, changedInodeBlock := false,
      ranOutOfMemory := false } = v1
  intro C D
  rw [hK1, hK2] at C
  obtain ⟨C1, C2⟩ := C
  simp only at C2
  have hw1 : v1.written = min L 20480 := by rw [← hwm]; exact C1.written
  clear hfree0 hK1 hK2 hwm hI0 hdAI
  obtain ⟨st1, hst1⟩ : ∃ st1 : FsState, st1 = (if v1.changedInodeBlock = true then
        ({ v1.st with disk := (disk_write v1.st.disk (iB + 1) v1.inodeB) } : FsState)
      else v1.st) := ⟨_, rfl⟩
  rw [← hst1]
  have e2 : st1.bitmapSize = ds := by
    rw [hst1]; split <;> exact C1.bitmapSize
  have e4 : st1.bitmap = v1.st.bitmap := by rw [hst1]; split <;> rfl
  have e5 : st1.disk.nblocks = ds := by
    rw [hst1]; split
    · show (disk_write _ _ _).nblocks = _
      rw [disk_write_nblocks]; exact C1.nblocks
    · exact C1.nblocks
  have e6 : ∀ b, b ≠ iB + 1 → disk_read st1.disk b = disk_read v1.st.disk b := by
    intro b hb
    rw [hst1]; split
    · exact disk_read_write_ne _ _ _ _ hb
    · rfl
  have e7 : disk_read st1.disk (iB + 1) = v1.inodeB := by
    rw [hst1]
    by_cases hc : v1.changedInodeBlock = true
    · rw [if_pos hc]
      exact disk_read_write_same _ _ _ hib0 (by rw [C1.nblocks, ← hdsn]; exact hib1)
    · rw [if_neg hc]
      have hc' : v1.changedInodeBlock = false := by simpa using hc
      rw [D.unchanged hc', D.disk_bad _ (badBlock_meta _ _ _ hibn)]
      exact hdsk
  have e8 : freeCount st1 = freeCount v1.st :=
    freeCount_congr v1.st st1 e4 (by rw [e2]; exact C1.bitmapSize.symm)
  have hmono1 : ∀ b, st.bitmap b = true → st1.bitmap b = true := by
    intro b hb; rw [e4]; exact C1.mono b hb
  have hB1 : ∀ i, ¬ (8 * j + 2 ≤ i / 4 ∧ i / 4 ≤ 8 * j + 6) → v1.inodeB i = inodeB i := by
    intro i hi
    exact D.inode_frame i (by omega)
  have hpl1 : ∀ l, 0 ≤ l → l < 5 → l < nbL →
      Placed st st1 nib ds blk0 onb W L l (inode_direct v1.inodeB j l) := by
    intro l hl0 hl5 hl1
    have hP := C1.placed l hl0 (hm5 l hl5 hl1)
    have hg := hP.good
    rw [badBlock_false_iff] at hg
    exact hP.keep (fun x hx => by rw [e4]; exact hx) (e6 _ (by omega))
  by_cases hc : ib > 0 ∧ v1.ranOutOfMemory = false
  · rw [if_pos hc]
    apply writeIndirectPart_content st st1 nib ds iB j v1.inodeB W L u.indirect size alloc iAI ib
      v1.written blk0 onb nbL hnib (by omega) hiAI hnbL hL0 hnbL1 hibL honb hib0 hibn (by omega)
      hmeta hex hdist e2 e5 hmono1 hw1 hpl1 hallocT hallocF
    · intro hbig hon
      obtain ⟨hI1, hI2, hI3⟩ := hInd hon
      have hPe : inode_indirect v1.inodeB j = inode_indirect inodeB j :=
        inode_indirect_congr v1.inodeB inodeB j hB1
      have hPg := hI1
      rw [badBlock_false_iff] at hPg
      rw [hPe]
      refine ⟨hI1, hI2, hI3, ?_⟩
      intro l hl0 hl1
      have hfr : disk_read v1.st.disk (inode_indirect inodeB j)
          = disk_read st.disk (inode_indirect inodeB j) := by
        apply D.disk_frame _ hI2
        intro l2 h1 h2 h3 heq
        have := hI3 l2 h1 (by omega)
        rw [hblk, slotFileBlock_direct _ _ _ _ (by omega)] at this
        exact this heq.symm
      rw [hblk (l + 5), slotFileBlock_indirect _ _ _ _ (by omega), e6 _ (by omega), hfr]
      have e : l + 5 - 5 = l := by omega
      simp only [POINTERS_PER_INODE, e]
    · intro hbig hon
      rw [e8]
      exact hfreeA _ C2 hbig hon
    · intro hbig hon
      rw [e8]
      exact hfreeB _ C2 hbig hon
    · exact e7
    · exact hgrow
  · rw [if_neg hc]
    have hsmall : nbL ≤ 5 := hibS (fun h => hc ⟨h, C1.ranOut⟩)
    rw [writeFinish_fst]
    have hwL : v1.written = L := by omega
    refine ⟨hwL, ?_⟩
    apply writeFinish_content st1 nib ds iB j v1.inodeB W L size v1.written hib0 hibn e5
      (by omega)
    · intro l hl0 hl5 hlL
      have hP := hpl1 l hl0 hl5 (by omega)
      exact ⟨hP.good, hP.holds⟩
    · intro h; omega
    · intro l hl5 hlL; omega
    · intro _
      rw [e7]
      exact ⟨fun _ _ _ => rfl, fun _ => rfl⟩

theorem indirectBlocksCapped_eq (nb : Int) :
    indirectBlocksCapped nb = min (max (nb - 5) 0) 1024 := by
  unfold indirectBlocksCapped indirectBlocks
  simp only [POINTERS_PER_INODE, POINTERS_PER_BLOCK]
  split <;> split <;> omega

/-- In a well-formed state, `fs_write` of `L ≤ S_max` bytes at offset 0 to a
valid inode, given enough free blocks, writes all `L` bytes, and the file holds
them afterwards. -/
theorem fs_write_stored (st : FsState) (hwf : WF st) (inum : Int) (h1 : 1 ≤ inum)
    (h2 : inum < ninodesOf st) (hv : ino_isvalid st.disk inum ≠ 0) (W : Bytes)
    (L : Int) (u : Uninit) (hL0 : 0 ≤ L) (hL1 : L ≤ S_max)
    (hfree : max ((L + 4095) / 4096 - ino_nblocks st.disk inum) 0
        + (if ino_nblocks st.disk inum ≤ 5 ∧ 5 < (L + 4095) / 4096 then 1 else 0)
      ≤ (freeCount st : Int)) :
    (fs_write st inum W L 0 u).1 = L ∧
    Stored (fs_write st inum W L 0 u).2 (ninodeblocksOf st) (disk_size st.disk) (inum / 128)
      (inum % 128) W L := by
  rw [fs_write_valid st hwf.mounted hwf.superOK inum h1 h2 hv]
  have eS : ino_size st.disk inum = inode_size (inodeBlockOf st.disk inum) (inum % 128) := rfl
  have eN : ino_nblocks st.disk inum
      = nblocksOf (inode_size (inodeBlockOf st.disk inum) (inum % 128)) := rfl
  have eI : ino_indirect st.disk inum = inode_indirect (inodeBlockOf st.disk inum) (inum % 128) :=
    rfl
  have hs := hwf.superOK
  obtain ⟨hs1, hs2, hs3, hs4, hs5⟩ := hs
  have hsz := hwf.size inum (by omega) h2 hv
  rw [eS] at hsz
  have hnb := nblocksOf_le _ hsz.1 hsz.2
  have h2' : inum < 128 * ninodeblocksOf st := by rw [← hs5]; exact h2
  have hwi := write_indices (nblocksOf (inode_size (inodeBlockOf st.disk inum) (inum % 128)))
    0 hnb.1 (le_refl _)
  have hbb := blocksToAllocate_bounds L
    (nblocksOf (inode_size (inodeBlockOf st.disk inum) (inum % 128))) hL0
  rw [eN] at hfree
  have hex : ∀ l, 0 ≤ l → l < nblocksOf (inode_size (inodeBlockOf st.disk inum) (inum % 128)) →
      badBlock (ninodeblocksOf st) (disk_size st.disk) (fileBlock st.disk inum l) = false ∧
      st.bitmap (fileBlock st.disk inum l) = true := by
    intro l hl0 hl1
    have hr := hwf.reach inum (by omega) h2 hv l hl0 (by rw [eN]; exact hl1)
    exact ⟨usedData_good hwf.superOK hr, hr.2.2⟩
  have hdist : ∀ l l2, 0 ≤ l →
      l < nblocksOf (inode_size (inodeBlockOf st.disk inum) (inum % 128)) → 0 ≤ l2 →
      l2 < nblocksOf (inode_size (inodeBlockOf st.disk inum) (inum % 128)) → l ≠ l2 →
      fileBlock st.disk inum l ≠ fileBlock st.disk inum l2 := by
    intro l l2 hl0 hl1 hk0 hk1 hne
    exact hwf.dataApart inum inum (by omega) h2 hv (by omega) h2 hv l l2 hl0
      (by rw [eN]; exact hl1) hk0 (by rw [eN]; exact hk1) (Or.inr hne)
  have hInd : nblocksOf (inode_size (inodeBlockOf st.disk inum) (inum % 128)) > 5 →
      badBlock (ninodeblocksOf st) (disk_size st.disk)
        (inode_indirect (inodeBlockOf st.disk inum) (inum % 128)) = false ∧
      st.bitmap (inode_indirect (inodeBlockOf st.disk inum) (inum % 128)) = true ∧
      (∀ l, 0 ≤ l → l < nblocksOf (inode_size (inodeBlockOf st.disk inum) (inum % 128)) →
        fileBlock st.disk inum l ≠ inode_indirect (inodeBlockOf st.disk inum) (inum % 128)) := by
    intro hon
    rw [← eN] at hon
    have hI := hwf.indirect inum (by omega) h2 hv hon
    have hA := hwf.indirectApart inum inum (by omega) h2 hv (by omega) h2 hv hon
    rw [← eI]
    refine ⟨usedData_good hwf.superOK hI, hI.2.2, ?_⟩
    intro l hl0 hl1 heq
    exact hA.1 l hl0 (by rw [eN]; exact hl1) heq.symm
  exact writeInode_content st (ninodeblocksOf st) (inum / 128) (inum % 128)
    (inodeBlockOf st.disk inum) W L u (fun l => fileBlock st.disk inum l)
    _ _ _ _ _ _ _ ((L + 4095) / 4096) _
    rfl rfl rfl rfl rfl rfl rfl rfl
    hs3 (by omega) (by omega) (by omega) rfl hs2
    (by rw [← hs1]; exact le_of_lt (super_nblocks_lt _))
    (fun b h0 h1' => hwf.metaUsed b h0 h1')
    hL0 rfl (by simp only [S_max] at hL1; omega) hnb.1 (nblocksOf_nonneg _ hsz.1)
    hbb.1 hbb.2 hwi.1 hwi.2.1 (directBlocks_of _) (indirectBlocksCapped_eq _)
    (by simp only [POINTERS_PER_INODE, Bool.and_eq_true, decide_eq_true_eq])
    (fun l => rfl) hex hdist hInd hfree

/-- C1.  Write/read round trip at offset 0: in a mounted well-formed state, for
a valid inode `inum` with `1 ≤ inum < ninodes` and bytes `W` of length `L` with
`0 ≤ L ≤ S_max`, if the bitmap has at least as many free blocks as the write
needs (the missing data blocks, plus one indirect block when the file grows
past 5 blocks), then `fs_write(inum, W, L, 0)` returns `L`, and a following
`fs_read(inum, R, L, 0)` returns `L` and delivers `R[i] = W[i]` for all
`0 ≤ i < L`. -/
theorem fs_write_read_round_trip (st : FsState) (hwf : WF st) (inum : Int) (h1 : 1 ≤ inum)
    (h2 : inum < ninodesOf st) (hv : ino_isvalid st.disk inum ≠ 0) (W R : Bytes)
    (L : Int) (u : Uninit) (hL0 : 0 ≤ L) (hL1 : L ≤ S_max)
    (hfree : max ((L + 4095) / 4096 - ino_nblocks st.disk inum) 0
        + (if ino_nblocks st.disk inum ≤ 5 ∧ 5 < (L + 4095) / 4096 then 1 else 0)
      ≤ (freeCount st : Int)) :
    (fs_write st inum W L 0 u).1 = L ∧
    (fs_read (fs_write st inum W L 0 u).2 inum R L 0).1 = L ∧
    ∀ i, 0 ≤ i → i < L → (fs_read (fs_write st inum W L 0 u).2 inum R L 0).2 i = W i := by
  have F := fs_write_frame st hwf inum h1 h2 hv W L 0 u hL0 (le_refl _)
  have S := fs_write_stored st hwf inum h1 h2 hv W L u hL0 hL1 hfree
  have hs := hwf.superOK
  have hsz := hwf.size inum (by omega) h2 hv
  have hnbs := nblocksOf_le _ hsz.1 hsz.2
  have h2' : inum < 128 * ninodeblocksOf st := by rw [← hs.2.2.2.2]; exact h2
  have hI := fs_write_inodes st inum h1 (by omega) F
  revert F S hI
  generalize fs_write st inum W L 0 u = r
  intro F S hI
  obtain ⟨S1, S2⟩ := S
  obtain ⟨hs1, hs2, hs3, hs4, hs5⟩ := hs
  have hnib : ninodeblocksOf r.2 = ninodeblocksOf st := by
    unfold ninodeblocksOf superOf; rw [hI.1]
  have hnin : ninodesOf r.2 = ninodesOf st := by
    unfold ninodesOf superOf; rw [hI.1]
  have hds : disk_size r.2.disk = disk_size st.disk := F.nblocks
  have hm' : r.2.fs_mounted = true := by rw [F.mounted]; exact hwf.mounted
  have hs' : SuperOK r.2 := by
    refine ⟨?_, ?_, ?_, ?_, ?_⟩
    · unfold superOf; rw [hI.1, F.nblocks]; exact hs1
    · rw [F.bitmapSize, F.nblocks]; exact hs2
    · rw [hnib]; exact hs3
    · rw [hnib, F.nblocks]; exact hs4
    · rw [hnib, hnin]; exact hs5
  have hv' : ino_isvalid r.2.disk inum ≠ 0 := by
    rw [hI.2.1 inum (by omega) h2']; exact hv
  have hsize : inode_size (inodeBlockOf r.2.disk inum) (inum % 128)
      = max (ino_size st.disk inum) L := by
    have h := F.inode_size
    have e : inode_size (inodeBlockOf r.2.disk inum) (inum % 128)
        = inode_size (disk_read r.2.disk (inum / 128 + 1)) (inum % 128) := rfl
    have hnn : 0 ≤ ino_nblocks st.disk inum := hnbs.1
    rw [e, h, S1]
    simp only [S_max] at hsz hL1 ⊢
    split <;> omega
  rw [fs_read_valid r.2 hm' hs' inum h1 (by rw [hnin]; exact h2) hv' R L 0]
  have RS := readInode_spec r.2.disk (ninodeblocksOf r.2) (inodeBlockOf r.2.disk inum)
    (inum % 128) R L 0
    (by rw [hsize]; omega) (by rw [hsize]; simp only [S_max] at hsz hL1 ⊢; omega)
    (fun l hl0 _ hl2 => by
      rw [hnib, hds]
      exact (S2 l hl0 (by omega)).1)
    hL0 (le_refl _) (by simp only [S_max] at hL1; omega)
  rw [hsize] at RS
  obtain ⟨R1, R2, _⟩ := RS
  have hlen : (readInode r.2.disk (ninodeblocksOf r.2) (inodeBlockOf r.2.disk inum)
      (inum % 128) R L 0).1 = L := by
    rw [R1]; omega
  refine ⟨S1, hlen, ?_⟩
  intro i hi0 hiL
  rw [R2 i hi0 (by rw [hlen]; exact hiL)]
  have e1 : (0 + i) / 4096 = i / 4096 := by rw [zero_add]
  have e2 : (if i + 0 % 4096 < 4096 then i else (0 + i) % 4096) = i % 4096 := by
    split <;> omega
  rw [e1, e2]
  have hH := (S2 (i / 4096) (by omega) (by omega)).2 (i % 4096) (by omega) (by omega) (by omega)
  have e3 : 4096 * (i / 4096) + i % 4096 = i := by omega
  rw [e3] at hH
  exact hH

/-- Witness for C1: on the 20-block device, 20580 bytes written at offset 0 to
the new inode 2 (5 direct blocks, an indirect block and one block behind it)
are read back unchanged. -/
theorem fs_write_read_round_trip_witness :
    WF created2 ∧ (freeCount created2 : Int) = 16 ∧
    (fs_write created2 2 world 20580 0 zeroUninit).1 = 20580 ∧
    (fs_read (fs_write created2 2 world 20580 0 zeroUninit).2 2 zeroBlock 20580 0).1 = 20580 ∧
    ∀ i, 0 ≤ i → i < 20580 →
      (fs_read (fs_write created2 2 world 20580 0 zeroUninit).2 2 zeroBlock 20580 0).2 i
        = world i :=
  ⟨by decide!, by decide!,
    fs_write_read_round_trip created2 (by decide!) 2 (by decide) (by decide!) (by decide!)
      world zeroBlock 20580 zeroUninit (by decide) (by decide) (by decide!)⟩

/-! ## `getNewInode`: first fit -/

/-- C18.  `getNewInode()` on a bitmap of length `bitmapSize`: if every bit
below `bitmapSize` is set it returns -1 and changes nothing; otherwise it
returns the least index `r < bitmapSize` whose bit is clear, sets exactly that
bit and changes nothing else.  Two consecutive successful calls never return
the same index. -/
theorem getNewInode_first_fit (st : FsState) :
    ((getNewInode st = (-1, st) ∧ ∀ j, 0 ≤ j → j < st.bitmapSize → st.bitmap j = true) ∨
     (∃ r, 0 ≤ r ∧ r < st.bitmapSize ∧ st.bitmap r = false ∧
        (∀ j, 0 ≤ j → j < r → st.bitmap j = true) ∧
        (getNewInode st).1 = r ∧ (getNewInode st).2.bitmap r = true ∧
        (∀ b, b ≠ r → (getNewInode st).2.bitmap b = st.bitmap b) ∧
        (getNewInode st).2.disk = st.disk ∧ (getNewInode st).2.fs_mounted = st.fs_mounted ∧
        (getNewInode st).2.bitmapNull = st.bitmapNull ∧
        (getNewInode st).2.bitmapSize = st.bitmapSize)) ∧
    (0 ≤ (getNewInode st).1 → 0 ≤ (getNewInode (getNewInode st).2).1 →
      (getNewInode (getNewInode st).2).1 ≠ (getNewInode st).1) := by
  constructor
  · rcases getNewInode_spec st with h | ⟨r, h1, h2, h3, h4, h5⟩
    · exact Or.inl h
    · right
      refine ⟨r, h1, h2, h3, h4, ?_⟩
      rw [h5]
      refine ⟨rfl, ?_, ?_, rfl, rfl, rfl, rfl⟩
      · show Function.update st.bitmap r true r = true
        simp
      · intro b hb
        show Function.update st.bitmap r true b = st.bitmap b
        exact Function.update_noteq hb _ _
  · intro h1 h2
    rcases getNewInode_spec st with ⟨h, _⟩ | ⟨r, r1, r2, r3, r4, r5⟩
    · rw [h] at h1
      simp at h1
    · rw [r5]
      rw [r5] at h2
      simp only at h2 ⊢
      rcases getNewInode_spec { st with bitmap := Function.update st.bitmap r true } with
        ⟨h, _⟩ | ⟨q, q1, q2, q3, q4, q5⟩
      · rw [h] at h2
        simp at h2
      · rw [q5]
        simp only
        intro heq
        rw [heq] at q3
        simp at q3

/-! ## `fs_delete` twice -/

theorem getInt_zeroBlock (w : Int) : getInt zeroBlock w = 0 := by
  unfold getInt getU32 zeroBlock
  simp

theorem inode_isvalid_cleared (B : Block) (j : Int) :
    inode_isvalid (set_inode_isvalid B j 0) j = 0 := by
  unfold inode_isvalid set_inode_isvalid
  exact getInt_setInt_same _ _ _ (by norm_num) (by norm_num)

/-- C11.  When `fs_delete(inum)` has returned 1, an immediately following
`fs_delete(inum)` returns 0 and leaves the whole state, bitmap and disk
included, as the first call left it. -/
theorem fs_delete_idempotent (st : FsState) (inum : Int) (h : (fs_delete st inum).1 = 1) :
    fs_delete (fs_delete st inum).2 inum = (0, (fs_delete st inum).2) := by
  unfold fs_delete at h
  by_cases hm : st.fs_mounted = false
  · rw [if_pos hm] at h
    simp at h
  rw [if_neg hm] at h
  simp only [] at h
  by_cases hb : badInumber (disk_read st.disk 0) inum = true
  · rw [if_pos hb] at h
    simp at h
  rw [if_neg hb] at h
  by_cases hv : inode_isvalid (disk_read st.disk (inum.tdiv INODES_PER_BLOCK + 1))
      (inum - INODES_PER_BLOCK * inum.tdiv INODES_PER_BLOCK) ≠ 0
  swap
  · rw [if_neg hv] at h
    simp at h
  clear h
  -- the inode number is at least 1, so its block is not the superblock
  have h1 : 1 ≤ inum := by
    unfold badInumber at hb
    simp only [Bool.or_eq_true, decide_eq_true_eq, not_or, not_lt] at hb
    exact hb.2
  have hq : inum.tdiv INODES_PER_BLOCK = inum / 128 := inodeBlock_eq inum (by omega)
  have hq0 : 0 ≤ inum / 128 := by omega
  -- the inode block lies inside the device
  have hin : 0 ≤ inum / 128 + 1 ∧ inum / 128 + 1 < st.disk.nblocks := by
    by_contra hcon
    apply hv
    rw [hq]
    have : disk_read st.disk (inum / 128 + 1) = zeroBlock := by
      unfold disk_read
      rw [if_neg hcon]
    rw [this]
    exact getInt_zeroBlock _
  -- the state after the first call
  have e1 : fs_delete st inum = (1, { st with
      disk := disk_write st.disk (inum / 128 + 1)
        (set_inode_isvalid (set_inode_size (disk_read st.disk (inum / 128 + 1))
          (inum - INODES_PER_BLOCK * (inum / 128)) 0)
          (inum - INODES_PER_BLOCK * (inum / 128)) 0),
      bitmap := (fs_delete st inum).2.bitmap }) := by
    unfold fs_delete
    rw [if_neg hm]
    simp only []
    rw [if_neg hb, if_pos hv, hq]
  generalize (fs_delete st inum).2.bitmap = bm2 at e1
  rw [e1]
  simp only
  unfold fs_delete
  have hm' : ¬ st.fs_mounted = false := hm
  simp only []
  rw [if_neg hm']
  have e0 : disk_read (disk_write st.disk (inum / 128 + 1)
      (set_inode_isvalid (set_inode_size (disk_read st.disk (inum / 128 + 1))
        (inum - INODES_PER_BLOCK * (inum / 128)) 0)
        (inum - INODES_PER_BLOCK * (inum / 128)) 0)) 0 = disk_read st.disk 0 :=
    disk_read_write_ne _ _ _ _ (by omega)
  rw [e0, if_neg hb, hq, disk_read_write_same _ _ _ hin.1 hin.2, inode_isvalid_cleared]
  simp

/-- Witness for C11: deleting inode 1 of `hello20` twice. -/
theorem fs_delete_idempotent_witness :
    (fs_delete hello20 1).1 = 1 ∧
      fs_delete (fs_delete hello20 1).2 1 = (0, (fs_delete hello20 1).2) :=
  ⟨by decide!, fs_delete_idempotent hello20 1 (by decide!)⟩

/-! ## The inode number `ninodes` -/

/-- C12, the code at a failing input.  In `hello20` the superblock has
`ninodes = 256` and data block 3 holds "hello".  The inode number 256 passes
the test `inumber > super.super.ninodes`; block `256/128 + 1 = 3`, a data
block, is then read as an inode block: `fs_getsize(256)` returns 111 (the
byte 'o'), and `fs_delete(256)` returns 1 and overwrites the first bytes of
the file of inode 1. -/
theorem inumber_ninodes_accepted :
    hello20.fs_mounted = true ∧ ninodesOf hello20 = 256 ∧
      fileByte hello20.disk 1 0 = 104 ∧
      fs_getsize hello20 256 = 111 ∧
      (fs_delete hello20 256).1 = 1 ∧
      fileByte (fs_delete hello20 256).2.disk 1 0 = 0 := by
  decide!

/-! ## `fs_format` -/

theorem inode_isvalid_set_ne (B : Block) (j s v : Int) (h : s ≠ j) :
    inode_isvalid (set_inode_isvalid B j v) s = inode_isvalid B s := by
  unfold inode_isvalid set_inode_isvalid
  exact getInt_setInt_ne _ _ _ _ (by omega)

/-- The loop that invalidates the slots of one inode block clears `isvalid` in
the slots it visits and in no other word. -/
theorem formatInvalidate_spec (b : Block) (n : Nat) (j : Int) (hj : 0 ≤ j) :
    (∀ s, j ≤ s → s < j + n → s < 128 → inode_isvalid (formatInvalidate b n j) s = 0) ∧
    (∀ s, s < j → inode_isvalid (formatInvalidate b n j) s = inode_isvalid b s) := by
  induction n generalizing b j with
  | zero =>
    unfold formatInvalidate
    exact ⟨fun s h1 h2 => by simp at h2; omega, fun s _ => rfl⟩
  | succ n ih =>
    unfold formatInvalidate
    by_cases hc : j < INODES_PER_BLOCK
    · rw [if_pos hc]
      obtain ⟨i1, i2⟩ := ih (set_inode_isvalid b j 0) (j + 1) (by omega)
      refine ⟨?_, ?_⟩
      · intro s h1 h2 h3
        by_cases hs : s = j
        · subst hs
          rw [i2 s (by omega)]
          exact inode_isvalid_cleared b s
        · exact i1 s (by omega) (by push_cast at h2; omega) h3
      · intro s hs
        rw [i2 s (by omega)]
        exact inode_isvalid_set_ne b j s 0 (by omega)
    · rw [if_neg hc]
      simp only [INODES_PER_BLOCK] at hc
      exact ⟨fun s h1 h2 h3 => by omega, fun s _ => rfl⟩

theorem inode_isvalid_zeroBlock (s : Int) : inode_isvalid zeroBlock s = 0 :=
  getInt_zeroBlock _

/-- The loop of `fs_format` over the inode blocks: it writes only blocks
`i+1 .. ninode_blocks`, and every slot of those has `isvalid = 0` afterwards. -/
theorem formatLoop_spec (nib : Int) (n : Nat) (i : Int) (d : Disk) (hi : 0 ≤ i)
    (hn : nib - i ≤ n) :
    (formatLoop nib n i d).nblocks = d.nblocks ∧
    (∀ b, (b ≤ i ∨ nib < b) → disk_read (formatLoop nib n i d) b = disk_read d b) ∧
    (∀ t s, i < t → t ≤ nib → 0 ≤ s → s < 128 →
      inode_isvalid (disk_read (formatLoop nib n i d) t) s = 0) := by
  induction n generalizing i d with
  | zero =>
    unfold formatLoop
    refine ⟨rfl, fun _ _ => rfl, ?_⟩
    intro t s h1 h2
    simp at hn
    omega
  | succ n ih =>
    unfold formatLoop
    by_cases hc : i < nib
    · rw [if_pos hc]
      obtain ⟨i1, i2, i3⟩ := ih (i + 1)
        (disk_write d (i + 1) (formatInvalidate (disk_read d (i + 1)) 128 0)) (by omega)
        (by push_cast at hn; omega)
      refine ⟨?_, ?_, ?_⟩
      · rw [i1, disk_write_nblocks]
      · intro b hb
        rw [i2 b (by omega)]
        exact disk_read_write_ne _ _ _ _ (by omega)
      · intro t s h1 h2 h3 h4
        by_cases ht : t = i + 1
        · subst ht
          rw [i2 (i + 1) (Or.inl (le_refl _))]
          by_cases hin : 0 ≤ i + 1 ∧ i + 1 < d.nblocks
          · rw [disk_read_write_same _ _ _ hin.1 hin.2]
            exact (formatInvalidate_spec _ 128 0 (le_refl _)).1 s h3 (by push_cast; omega) h4
          · have : disk_read (disk_write d (i + 1)
                (formatInvalidate (disk_read d (i + 1)) 128 0)) (i + 1) = zeroBlock := by
              unfold disk_read
              rw [disk_write_nblocks, if_neg hin]
            rw [this]
            exact inode_isvalid_zeroBlock s
        · exact i3 t s (by omega) h2 h3 h4
    · rw [if_neg hc]
      refine ⟨rfl, fun _ _ => rfl, ?_⟩
      intro t s h1 h2
      omega

/-- The number of inode blocks that `fs_format` computes is positive and less
than the number of blocks of a device of at least 3 blocks. -/
theorem format_ninode_blocks_bounds (n : Int) (h : 3 ≤ n) :
    1 ≤ format_ninode_blocks n ∧ format_ninode_blocks n < n ∧
      format_ninode_blocks n ≤ n / 10 + 1 := by
  unfold format_ninode_blocks
  simp only []
  rw [Int.tdiv_eq_ediv (by omega) (by decide)]
  by_cases h0 : n / 10 ≠ 0
  · rw [if_pos h0]
    split <;> omega
  · rw [if_neg h0]
    omega

/-- What `fs_format` does: it refuses a mounted session and a device of fewer
than 3 blocks; otherwise it returns 1, writes the superblock, clears `isvalid`
in every slot of blocks `1..ninode_blocks` and writes no block behind them. -/
theorem fs_format_spec (st : FsState) :
    ((st.fs_mounted = true ∨ disk_size st.disk < 3) → fs_format st = (0, st)) ∧
    (¬ (st.fs_mounted = true ∨ disk_size st.disk < 3) →
      (fs_format st).1 = 1 ∧
      (fs_format st).2.fs_mounted = st.fs_mounted ∧
      (fs_format st).2.bitmap = st.bitmap ∧
      (fs_format st).2.bitmapSize = st.bitmapSize ∧
      (fs_format st).2.bitmapNull = st.bitmapNull ∧
      (fs_format st).2.disk.nblocks = st.disk.nblocks ∧
      disk_read (fs_format st).2.disk 0
        = setInt (setInt (setInt (setInt (disk_read st.disk 0) 0 FS_MAGIC) 1 (disk_size st.disk))
            2 (format_ninode_blocks (disk_size st.disk)))
            3 (format_ninode_blocks (disk_size st.disk) * INODES_PER_BLOCK) ∧
      (∀ t s, 1 ≤ t → t ≤ format_ninode_blocks (disk_size st.disk) → 0 ≤ s → s < 128 →
        inode_isvalid (disk_read (fs_format st).2.disk t) s = 0) ∧
      (∀ b, format_ninode_blocks (disk_size st.disk) < b →
        disk_read (fs_format st).2.disk b = disk_read st.disk b)) := by
  constructor
  · intro h
    unfold fs_format
    rcases h with h | h
    · rw [if_pos h]
    · by_cases hm : st.fs_mounted = true
      · rw [if_pos hm]
      · rw [if_neg hm]
        simp only []
        rw [if_pos h]
  · intro h
    have hm : ¬ st.fs_mounted = true := fun hm => h (Or.inl hm)
    have h3 : ¬ disk_size st.disk < 3 := fun h3 => h (Or.inr h3)
    have hb := format_ninode_blocks_bounds (disk_size st.disk) (by omega)
    have hn : 0 < st.disk.nblocks := by
      have : disk_size st.disk = st.disk.nblocks := rfl
      omega
    unfold fs_format
    rw [if_neg hm]
    simp only []
    rw [if_neg h3]
    have F := formatLoop_spec (format_ninode_blocks (disk_size st.disk))
      (format_ninode_blocks (disk_size st.disk)).toNat 0
      (disk_write st.disk 0
        (setInt (setInt (setInt (setInt (disk_read st.disk 0) 0 FS_MAGIC) 1 (disk_size st.disk))
            2 (format_ninode_blocks (disk_size st.disk)))
            3 (format_ninode_blocks (disk_size st.disk) * INODES_PER_BLOCK)))
      (le_refl _) (by omega)
    revert F
    generalize formatLoop (format_ninode_blocks (disk_size st.disk))
      (format_ninode_blocks (disk_size st.disk)).toNat 0
      (disk_write st.disk 0
        (setInt (setInt (setInt (setInt (disk_read st.disk 0) 0 FS_MAGIC) 1 (disk_size st.disk))
            2 (format_ninode_blocks (disk_size st.disk)))
            3 (format_ninode_blocks (disk_size st.disk) * INODES_PER_BLOCK))) = d'
    intro F
    obtain ⟨F1, F2, F3⟩ := F
    refine ⟨rfl, rfl, rfl, rfl, rfl, ?_, ?_, ?_, ?_⟩
    · show d'.nblocks = _
      rw [F1, disk_write_nblocks]
    · show disk_read d' 0 = _
      rw [F2 0 (Or.inl (le_refl _))]
      exact disk_read_write_same _ _ _ (le_refl _) hn
    · intro t s h1 h2 h3' h4
      exact F3 t s (by omega) h2 h3' h4
    · intro b hb'
      show disk_read d' b = _
      rw [F2 b (Or.inr hb')]
      exact disk_read_write_ne _ _ _ _ (by omega)

/-- C17.  `fs_format()` returns 0 exactly when a filesystem is mounted or the
device has fewer than 3 blocks, and then changes nothing.  Otherwise it returns
1, every inode slot of blocks `1..ninode_blocks` has `isvalid = 0` afterwards,
and every block behind the inode blocks is unchanged. -/
theorem fs_format_frame (st : FsState) :
    ((fs_format st).1 = 0 ↔ (st.fs_mounted = true ∨ disk_size st.disk < 3)) ∧
    ((fs_format st).1 = 0 → (fs_format st).2 = st) ∧
    ((fs_format st).1 ≠ 0 →
      (fs_format st).1 = 1 ∧
      (∀ t s, 1 ≤ t → t ≤ format_ninode_blocks (disk_size st.disk) → 0 ≤ s → s < 128 →
        inode_isvalid (disk_read (fs_format st).2.disk t) s = 0) ∧
      (∀ b, format_ninode_blocks (disk_size st.disk) < b →
        disk_read (fs_format st).2.disk b = disk_read st.disk b)) := by
  obtain ⟨S1, S2⟩ := fs_format_spec st
  by_cases hc : st.fs_mounted = true ∨ disk_size st.disk < 3
  · have e := S1 hc
    rw [e]
    refine ⟨⟨fun _ => hc, fun _ => rfl⟩, fun _ => rfl, fun h => absurd rfl h⟩
  · obtain ⟨T1, _, _, _, _, _, _, T8, T9⟩ := S2 hc
    refine ⟨⟨fun h => ?_, fun h => absurd h hc⟩, fun h => ?_, fun _ => ⟨T1, T8, T9⟩⟩
    · rw [T1] at h; exact absurd h (by decide)
    · rw [T1] at h; exact absurd h (by decide)

/-! ## The code at failing inputs: format, mount, growth, metadata bits -/

set_option maxRecDepth 100000

/-- C16, the code at a failing input.  On an unmounted 22-block device
`fs_format()` returns 1 and writes `nblocks = 22`, but `ninodeblocks = 2` and
`ninodes = 256`: `22 / 10 = 2` and `22 % 2 = 0`, so nothing is rounded up,
whereas `max(1, ceil(22/10)) = 3`. -/
theorem fs_format_rounds_by_quotient :
    blank22.fs_mounted = false ∧ disk_size blank22.disk = 22 ∧
      (fs_format blank22).1 = 1 ∧
      super_magic (disk_read (fs_format blank22).2.disk 0) % 4294967296 = FS_MAGIC ∧
      super_nblocks (disk_read (fs_format blank22).2.disk 0) = 22 ∧
      super_ninodeblocks (disk_read (fs_format blank22).2.disk 0) = 2 ∧
      super_ninodes (disk_read (fs_format blank22).2.disk 0) = 256 ∧
      max 1 ((22 + 9) / 10 : Int) = 3 := by
  decide!

/-- C14, the code at a failing input.  In the image `selfIndirect20`
(`ninodeblocks = 2`, `nblocks = 20`) inode 1 has `isvalid = 1`, 6 blocks, the
direct pointers 3..7 and `indirect = 1`, an inode block; entry 0 of that block
read as a pointer block is 8.  `fs_mount()` returns 1 and marks block 8. -/
theorem fs_mount_accepts_bad_indirect :
    ninodeblocksOf selfIndirect20 = 2 ∧ super_nblocks (superOf selfIndirect20) = 20 ∧
      disk_size selfIndirect20.disk = 20 ∧
      ino_isvalid selfIndirect20.disk 1 = 1 ∧ ino_nblocks selfIndirect20.disk 1 = 6 ∧
      ino_indirect selfIndirect20.disk 1 = 1 ∧
      ¬ (ninodeblocksOf selfIndirect20 < ino_indirect selfIndirect20.disk 1) ∧
      (fs_mount selfIndirect20).1 = 1 ∧
      (fs_mount selfIndirect20).2.fs_mounted = true ∧
      (fs_mount selfIndirect20).2.bitmap 8 = true := by
  decide!

/-- C15, the code at a failing input.  `holed20` is mounted; its inode 1 has
size 5 and `direct[0] = 0`.  `fs_mount()` returns 0 there, and afterwards
`fs_mounted` is still set: `fs_create()` returns 2 and `fs_getsize(1)`
returns 5. -/
theorem fs_mount_failure_stays_mounted :
    holed20.fs_mounted = true ∧ (fs_mount holed20).1 = 0 ∧
      (fs_mount holed20).2.fs_mounted = true ∧
      (fs_mount holed20).2.bitmapNull = true ∧
      (fs_create (fs_mount holed20).2).1 = 2 ∧
      fs_getsize (fs_mount holed20).2 1 = 5 := by
  decide!

/-- C19, the code at a failing input.  Inode 1 of `five20` has 5 blocks and 12
blocks are free.  `fs_write(1, data, 100, 16384)` ends inside the fifth block,
so the new number of blocks is 5; it returns 100 and leaves the size at 20480,
but bit 8, free before, is set afterwards and only 11 blocks are free. -/
theorem fs_write_allocates_unused_indirect :
    WF five20 ∧ ino_size five20.disk 1 = 20480 ∧ ino_nblocks five20.disk 1 = 5 ∧
      freeCount five20 = 12 ∧ five20.bitmap 8 = false ∧
      min ((16384 + 100 + 4095) / 4096 : Int) 1029 = 5 ∧
      (fs_write five20 1 hello 100 16384 zeroUninit).1 = 100 ∧
      ino_size (fs_write five20 1 hello 100 16384 zeroUninit).2.disk 1 = 20480 ∧
      (fs_write five20 1 hello 100 16384 zeroUninit).2.bitmap 8 = true ∧
      freeCount (fs_write five20 1 hello 100 16384 zeroUninit).2 = 11 := by
  decide!

/-- C20, the code at a failing input.  `fs_mount()` on the formatted 20-block
device returns 1 and sets bits 0, 1, 2.  Then `fs_create()` returns 1,
`fs_write(1, forgedInode, 32, 0)` returns 32 and puts the 32 bytes into data
block 3, and `fs_delete(256)` returns 1: it reads block 3 as an inode block,
finds `isvalid = 1`, 6 blocks and `indirect = 1` in slot 0, and clears bit 1 of
the bitmap, the bit of an inode block.  The next allocation returns block 1. -/
theorem fs_delete_frees_inode_block :
    (fs_mount (unmounted disk20)).1 = 1 ∧ mounted20.fs_mounted = true ∧
      ninodeblocksOf mounted20 = 2 ∧ ninodesOf mounted20 = 256 ∧
      mounted20.bitmap 0 = true ∧ mounted20.bitmap 1 = true ∧ mounted20.bitmap 2 = true ∧
      (fs_create mounted20).1 = 1 ∧
      (fs_write (fs_create mounted20).2 1 forgedInode 32 0 zeroUninit).1 = 32 ∧
      forged20.bitmap 1 = true ∧
      (fs_delete forged20 256).1 = 1 ∧
      (fs_delete forged20 256).2.bitmap 1 = false ∧
      (getNewInode (fs_delete forged20 256).2).1 = 1 := by
  decide!

/-- C13 as written, at an input where it fails.  In the image `negsize20`
inode 1 has `isvalid = 1`, `size = -1` and `direct[0] = 5`.  `fs_mount()`
returns 1 and sets bit 5, because it counts `-1/4096 + 1 = 1` block; with
`ceil(-1/4096) = 0` blocks, block 5 belongs to no inode and is above
`ninodeblocks = 2`. -/
theorem fs_mount_negative_size :
    ninodeblocksOf negsize20 = 2 ∧ super_nblocks (superOf negsize20) = 20 ∧
      ino_isvalid negsize20.disk 1 = 1 ∧ ino_size negsize20.disk 1 = -1 ∧
      specBlocks (-1) = 0 ∧ nblocksOf (-1) = 1 ∧
      (fs_mount negsize20).1 = 1 ∧
      (fs_mount negsize20).2.bitmap 5 = true ∧
      ¬ markedVia specBlocks negsize20.disk 2 5 := by
  decide!

/-! ## `fs_mount`: the bits it sets -/

theorem update_true_iff (bm : Int → Bool) (x b : Int) :
    Function.update bm x true b = true ↔ (bm b = true ∨ x = b) := by
  by_cases h : b = x
  · subst h
    simp
  · rw [Function.update_noteq h]
    constructor
    · exact Or.inl
    · rintro (h1 | h1)
      · exact h1
      · exact absurd h1.symm h

/-- A marking loop of `fs_mount` that ends without the failing return has
found every block number in range and has set exactly their bits. -/
theorem mountLoop_some (nib ds : Int) (blk : Int → Int) (bound : Int) (n : Nat) (k : Int)
    (bm bm' : Int → Bool) (h : mountLoop nib ds blk bound n k bm = some bm')
    (hf : bound - k ≤ n) :
    (∀ l, k ≤ l → l < bound → badBlock nib ds (blk l) = false) ∧
    (∀ b, bm' b = true ↔ (bm b = true ∨ ∃ l, k ≤ l ∧ l < bound ∧ blk l = b)) := by
  induction n generalizing k bm with
  | zero =>
    unfold mountLoop at h
    injection h with h
    subst h
    simp at hf
    refine ⟨fun l h1 h2 => by omega, fun b => ⟨Or.inl, ?_⟩⟩
    rintro (h1 | ⟨l, h1, h2, _⟩)
    · exact h1
    · omega
  | succ n ih =>
    unfold mountLoop at h
    by_cases hc : k < bound
    · rw [if_pos hc] at h
      simp only [] at h
      by_cases hb : badBlock nib ds (blk k) = true
      · rw [if_pos hb] at h
        exact absurd h (by simp)
      · rw [if_neg hb] at h
        obtain ⟨i1, i2⟩ := ih (k + 1) _ h (by push_cast at hf; omega)
        refine ⟨?_, ?_⟩
        · intro l h1 h2
          by_cases hl : l = k
          · subst hl; simpa using hb
          · exact i1 l (by omega) h2
        · intro b
          rw [i2 b, update_true_iff]
          constructor
          · rintro ((h1 | h1) | ⟨l, h1, h2, h3⟩)
            · exact Or.inl h1
            · exact Or.inr ⟨k, le_refl _, hc, h1⟩
            · exact Or.inr ⟨l, by omega, h2, h3⟩
          · rintro (h1 | ⟨l, h1, h2, h3⟩)
            · exact Or.inl (Or.inl h1)
            · by_cases hl : l = k
              · subst hl; exact Or.inl (Or.inr h3)
              · exact Or.inr ⟨l, by omega, h2, h3⟩
    · rw [if_neg hc] at h
      injection h with h
      subst h
      refine ⟨fun l h1 h2 => by omega, fun b => ⟨Or.inl, ?_⟩⟩
      rintro (h1 | ⟨l, h1, h2, _⟩)
      · exact h1
      · omega

/-- The bits `fs_mount` sets for one inode slot. -/
theorem mountInode_some (d : Disk) (nib ds : Int) (B : Block) (j : Int) (bm bm' : Int → Bool)
    (h : mountInode d nib ds B j bm = some bm') :
    ∀ b, bm' b = true ↔ (bm b = true ∨ (inode_isvalid B j = 1 ∧ slotMarks d B j b)) := by
  unfold mountInode at h
  by_cases hv : inode_isvalid B j = 1
  · rw [if_pos hv] at h
    simp only [] at h
    by_cases hbig : indirectBlocks (nblocksOf (inode_size B j)) > POINTERS_PER_BLOCK
    · rw [if_pos hbig] at h
      exact absurd h (by simp)
    rw [if_neg hbig] at h
    cases h1 : mountLoop nib ds (inode_direct B j) (directBlocks (nblocksOf (inode_size B j)))
        (directBlocks (nblocksOf (inode_size B j))).toNat 0 bm with
    | none =>
      rw [h1] at h
      exact absurd h (by simp)
    | some bm1 =>
      rw [h1] at h
      simp only [] at h
      obtain ⟨_, d2⟩ := mountLoop_some _ _ _ _ _ _ _ _ h1 (by omega)
      by_cases hi : indirectBlocks (nblocksOf (inode_size B j)) > 0
      · rw [if_pos hi] at h
        obtain ⟨_, e2⟩ := mountLoop_some _ _ _ _ _ _ _ _ h (by omega)
        intro b
        rw [e2 b, update_true_iff, d2 b]
        unfold slotMarks
        constructor
        · rintro (((h1 | ⟨l, h1, h2, h3⟩) | h1) | ⟨l, h1, h2, h3⟩)
          · exact Or.inl h1
          · exact Or.inr ⟨hv, Or.inl ⟨l, h1, h2, h3⟩⟩
          · exact Or.inr ⟨hv, Or.inr ⟨hi, Or.inl h1⟩⟩
          · exact Or.inr ⟨hv, Or.inr ⟨hi, Or.inr ⟨l, h1, h2, h3⟩⟩⟩
        · rintro (h1 | ⟨_, (⟨l, h1, h2, h3⟩ | ⟨_, (h1 | ⟨l, h1, h2, h3⟩)⟩)⟩)
          · exact Or.inl (Or.inl (Or.inl h1))
          · exact Or.inl (Or.inl (Or.inr ⟨l, h1, h2, h3⟩))
          · exact Or.inl (Or.inr h1)
          · exact Or.inr ⟨l, h1, h2, h3⟩
      · rw [if_neg hi] at h
        injection h with h
        subst h
        intro b
        rw [d2 b]
        unfold slotMarks
        constructor
        · rintro (h1 | ⟨l, h1, h2, h3⟩)
          · exact Or.inl h1
          · exact Or.inr ⟨hv, Or.inl ⟨l, h1, h2, h3⟩⟩
        · rintro (h1 | ⟨_, (⟨l, h1, h2, h3⟩ | ⟨h1, _⟩)⟩)
          · exact Or.inl h1
          · exact Or.inr ⟨l, h1, h2, h3⟩
          · exact absurd h1 hi
  · rw [if_neg hv] at h
    injection h with h
    subst h
    intro b
    constructor
    · exact Or.inl
    · rintro (h1 | ⟨h1, _⟩)
      · exact h1
      · exact absurd h1 hv

/-- The bits `fs_mount` sets for the slots `j .. 127` of one inode block. -/
theorem mountSlots_some (d : Disk) (nib ds : Int) (B : Block) (n : Nat) (j : Int)
    (bm bm' : Int → Bool) (h : mountSlots d nib ds B n j bm = some bm') (hf : 128 - j ≤ n) :
    ∀ b, bm' b = true ↔
      (bm b = true ∨ ∃ s, j ≤ s ∧ s < 128 ∧ inode_isvalid B s = 1 ∧ slotMarks d B s b) := by
  induction n generalizing j bm with
  | zero =>
    unfold mountSlots at h
    injection h with h
    subst h
    simp at hf
    intro b
    refine ⟨Or.inl, ?_⟩
    rintro (h1 | ⟨s, h1, h2, _⟩)
    · exact h1
    · omega
  | succ n ih =>
    unfold mountSlots at h
    by_cases hc : j < INODES_PER_BLOCK
    · rw [if_pos hc] at h
      cases h1 : mountInode d nib ds B j bm with
      | none =>
        rw [h1] at h
        exact absurd h (by simp)
      | some bm1 =>
        rw [h1] at h
        simp only [] at h
        have m := mountInode_some d nib ds B j bm bm1 h1
        have i := ih (j + 1) bm1 h (by push_cast at hf; omega)
        intro b
        rw [i b, m b]
        constructor
        · rintro ((h1 | ⟨h1, h2⟩) | ⟨s, h1, h2, h3, h4⟩)
          · exact Or.inl h1
          · exact Or.inr ⟨j, le_refl _, hc, h1, h2⟩
          · exact Or.inr ⟨s, by omega, h2, h3, h4⟩
        · rintro (h1 | ⟨s, h1, h2, h3, h4⟩)
          · exact Or.inl (Or.inl h1)
          · by_cases hs : s = j
            · subst hs; exact Or.inl (Or.inr ⟨h3, h4⟩)
            · exact Or.inr ⟨s, by omega, h2, h3, h4⟩
    · rw [if_neg hc] at h
      injection h with h
      subst h
      simp only [INODES_PER_BLOCK] at hc
      intro b
      refine ⟨Or.inl, ?_⟩
      rintro (h1 | ⟨s, h1, h2, _⟩)
      · exact h1
      · omega

/-- The bits `fs_mount` sets for the inode blocks `i .. ninodeblocks`. -/
theorem mountBlocks_some (d : Disk) (nib ds : Int) (n : Nat) (i : Int)
    (bm bm' : Int → Bool) (h : mountBlocks d nib ds n i bm = some bm') (hf : nib + 1 - i ≤ n) :
    ∀ b, bm' b = true ↔
      (bm b = true ∨ (i ≤ b ∧ b ≤ nib) ∨
        ∃ t s, i ≤ t ∧ t ≤ nib ∧ 0 ≤ s ∧ s < 128 ∧ inode_isvalid (disk_read d t) s = 1 ∧
          slotMarks d (disk_read d t) s b) := by
  induction n generalizing i bm with
  | zero =>
    unfold mountBlocks at h
    injection h with h
    subst h
    simp at hf
    intro b
    refine ⟨Or.inl, ?_⟩
    rintro (h1 | ⟨h1, h2⟩ | ⟨t, s, h1, h2, _⟩)
    · exact h1
    · omega
    · omega
  | succ n ih =>
    unfold mountBlocks at h
    by_cases hc : i ≤ nib
    · rw [if_pos hc] at h
      cases h1 : mountSlots d nib ds (disk_read d i) 128 0 (Function.update bm i true) with
      | none =>
        rw [h1] at h
        exact absurd h (by simp)
      | some bm1 =>
        rw [h1] at h
        simp only [] at h
        have m := mountSlots_some d nib ds (disk_read d i) 128 0 _ bm1 h1 (by norm_num)
        have r := ih (i + 1) bm1 h (by push_cast at hf; omega)
        intro b
        rw [r b, m b, update_true_iff]
        constructor
        · rintro (((h1 | h1) | ⟨s, h1, h2, h3, h4⟩) | ⟨h1, h2⟩ | ⟨t, s, h1, h2, h3, h4, h5, h6⟩)
          · exact Or.inl h1
          · exact Or.inr (Or.inl ⟨by omega, by omega⟩)
          · exact Or.inr (Or.inr ⟨i, s, le_refl _, hc, h1, h2, h3, h4⟩)
          · exact Or.inr (Or.inl ⟨by omega, h2⟩)
          · exact Or.inr (Or.inr ⟨t, s, by omega, h2, h3, h4, h5, h6⟩)
        · rintro (h1 | ⟨h1, h2⟩ | ⟨t, s, h1, h2, h3, h4, h5, h6⟩)
          · exact Or.inl (Or.inl (Or.inl h1))
          · by_cases hb : b = i
            · exact Or.inl (Or.inl (Or.inr hb.symm))
            · exact Or.inr (Or.inl ⟨by omega, h2⟩)
          · by_cases ht : t = i
            · subst ht
              exact Or.inl (Or.inr ⟨s, h3, h4, h5, h6⟩)
            · exact Or.inr (Or.inr ⟨t, s, by omega, h2, h3, h4, h5, h6⟩)
    · rw [if_neg hc] at h
      injection h with h
      subst h
      intro b
      refine ⟨Or.inl, ?_⟩
      rintro (h1 | ⟨h1, h2⟩ | ⟨t, s, h1, h2, _⟩)
      · exact h1
      · omega
      · omega

/-- A successful `fs_mount`: the marking loop ended without the failing return
and the new state holds its bitmap. -/
theorem fs_mount_one (st : FsState) (h : (fs_mount st).1 = 1) :
    ∃ bm, mountBlocks st.disk (ninodeblocksOf st) (disk_size st.disk)
        (ninodeblocksOf st).toNat 1 (Function.update (fun _ => false) 0 true) = some bm ∧
      fs_mount st = (1, { st with fs_mounted := true, bitmap := bm, bitmapNull := false,
                                  bitmapSize := super_nblocks (superOf st) }) := by
  unfold fs_mount at h ⊢
  unfold ninodeblocksOf superOf
  simp only [] at h ⊢
  by_cases hmag : super_magic (disk_read st.disk 0) % 4294967296 ≠ FS_MAGIC
  · rw [if_pos hmag] at h
    simp at h
  · rw [if_neg hmag] at h ⊢
    cases hb : mountBlocks st.disk (super_ninodeblocks (disk_read st.disk 0)) (disk_size st.disk)
        (super_ninodeblocks (disk_read st.disk 0)).toNat 1
        (Function.update (fun _ => false) 0 true) with
    | none =>
      rw [hb] at h
      simp at h
    | some bm => exact ⟨bm, rfl, rfl⟩

theorem exists_nat_iff_int (m : Int) (P : Int → Prop) :
    (∃ k : Nat, k < m.toNat ∧ P (k : Int)) ↔ (∃ k : Int, 0 ≤ k ∧ k < m ∧ P k) := by
  constructor
  · rintro ⟨k, h1, h2⟩
    exact ⟨k, by omega, by omega, h2⟩
  · rintro ⟨k, h1, h2, h3⟩
    refine ⟨k.toNat, by omega, ?_⟩
    have e : (k.toNat : Int) = k := by omega
    rw [e]
    exact h3

/-- The blocks that `fs_mount` marks for inode number `n` are those that belong
to it when the number of blocks of a file is computed as the code does. -/
theorem slotMarks_iff (d : Disk) (n b : Int) :
    slotMarks d (inodeBlockOf d n) (n % 128) b ↔ reachVia nblocksOf d n b := by
  unfold slotMarks reachVia
  have A := exists_nat_iff_int (min (nblocksOf (ino_size d n)) 5)
    (fun k => ino_direct d n k = b)
  have A2 := exists_nat_iff_int (nblocksOf (ino_size d n) - 5)
    (fun k => pointers (disk_read d (ino_indirect d n)) k = b)
  simp only [] at A A2
  rw [A, A2, directBlocks_of]
  have eS : ino_size d n = inode_size (inodeBlockOf d n) (n % 128) := rfl
  have eI : ino_indirect d n = inode_indirect (inodeBlockOf d n) (n % 128) := rfl
  have eD : ∀ k, ino_direct d n k = inode_direct (inodeBlockOf d n) (n % 128) k := fun _ => rfl
  rw [eS, eI]
  simp only [eD]
  generalize nblocksOf (inode_size (inodeBlockOf d n) (n % 128)) = nb
  unfold indirectBlocks
  simp only [POINTERS_PER_INODE]
  by_cases h5 : nb > 5
  · simp only [h5, if_true]
    have : nb - 5 > 0 := by omega
    simp only [this, true_and]
  · simp only [h5, if_false]
    simp

/-- After a successful `fs_mount` the session is mounted, the bitmap has the
length `nblocks` of the superblock, the disk is as before, and the bit of a
block `b ≥ 0` is set exactly if `b ≤ ninodeblocks` or `b` belongs to an inode
of the table with `isvalid = 1`. -/
theorem fs_mount_bitmap (st : FsState) (h : (fs_mount st).1 = 1)
    (hnib : 0 ≤ ninodeblocksOf st) :
    (fs_mount st).2.fs_mounted = true ∧
    (fs_mount st).2.bitmapSize = super_nblocks (superOf st) ∧
    (fs_mount st).2.bitmapNull = false ∧
    (fs_mount st).2.disk = st.disk ∧
    (∀ b, 0 ≤ b → ((fs_mount st).2.bitmap b = true ↔
      markedVia nblocksOf st.disk (ninodeblocksOf st) b)) := by
  obtain ⟨bm, h1, h2⟩ := fs_mount_one st h
  rw [h2]
  refine ⟨rfl, rfl, rfl, rfl, ?_⟩
  intro b hb
  show bm b = true ↔ _
  have M := mountBlocks_some st.disk (ninodeblocksOf st) (disk_size st.disk) _ 1 _ bm h1
    (by omega) b
  rw [M, update_true_iff]
  unfold markedVia
  generalize ninodeblocksOf st = nib at hnib
  constructor
  · rintro ((h3 | h3) | ⟨h3, h4⟩ | ⟨t, s, h3, h4, h5, h6, h7, h8⟩)
    · simp at h3
    · left; omega
    · left; exact h4
    · right
      have e1 : (128 * (t - 1) + s) / 128 + 1 = t := by omega
      have e2 : (128 * (t - 1) + s) % 128 = s := by omega
      have e3 : ((128 * (t - 1) + s).toNat : Int) = 128 * (t - 1) + s := by omega
      refine ⟨(128 * (t - 1) + s).toNat, by omega, ?_, ?_⟩
      · rw [e3]
        unfold ino_isvalid inodeBlockOf
        rw [e1, e2]
        exact h7
      · rw [e3, ← slotMarks_iff]
        unfold inodeBlockOf
        rw [e1, e2]
        exact h8
  · rintro (h3 | ⟨n, h3, h4, h5⟩)
    · by_cases h0 : b = 0
      · left; right; exact h0.symm
      · right; left; omega
    · right; right
      rw [← slotMarks_iff] at h5
      exact ⟨(n : Int) / 128 + 1, (n : Int) % 128, by omega, by omega, by omega, by omega, h4, h5⟩

/-! ## `fs_mount` after `fs_format` -/

theorem mountSlots_none_valid (d : Disk) (nib ds : Int) (B : Block) (n : Nat) (j : Int)
    (bm : Int → Bool) (hj : 0 ≤ j)
    (hB : ∀ s, 0 ≤ s → s < 128 → inode_isvalid B s ≠ 1) :
    mountSlots d nib ds B n j bm = some bm := by
  induction n generalizing j with
  | zero => rfl
  | succ n ih =>
    unfold mountSlots
    by_cases hc : j < INODES_PER_BLOCK
    · rw [if_pos hc]
      have : mountInode d nib ds B j bm = some bm := by
        unfold mountInode
        rw [if_neg (hB j hj hc)]
      rw [this]
      exact ih (j + 1) (by omega)
    · rw [if_neg hc]

theorem mountBlocks_none_valid (d : Disk) (nib ds : Int) (n : Nat) (i : Int)
    (bm : Int → Bool)
    (hB : ∀ t s, i ≤ t → t ≤ nib → 0 ≤ s → s < 128 → inode_isvalid (disk_read d t) s ≠ 1) :
    ∃ bm', mountBlocks d nib ds n i bm = some bm' := by
  induction n generalizing i bm with
  | zero => exact ⟨bm, rfl⟩
  | succ n ih =>
    unfold mountBlocks
    by_cases hc : i ≤ nib
    · rw [if_pos hc]
      rw [mountSlots_none_valid d nib ds (disk_read d i) 128 0 _ (le_refl _)
        (fun s h1 h2 => hB i s (le_refl _) hc h1 h2)]
      exact ih (i + 1) _ (fun t s h1 h2 h3 h4 => hB t s (by omega) h2 h3 h4)
    · rw [if_neg hc]
      exact ⟨bm, rfl⟩

theorem getInt_setInt_mod (b : Block) (w v : Int) :
    getInt (setInt b w v) w % 4294967296 = v % 4294967296 := by
  unfold getInt
  rw [getU32_setInt_same]
  split <;> omega

/-- The fields of the superblock that `fs_format` builds. -/
theorem format_super_fields (B : Block) (n nib : Int) (hn0 : 0 ≤ n) (hn : n < 2147483648)
    (hnib0 : 0 ≤ nib) (hnibn : nib < n) :
    super_magic (setInt (setInt (setInt (setInt B 0 FS_MAGIC) 1 n) 2 nib)
        3 (nib * INODES_PER_BLOCK)) % 4294967296 = FS_MAGIC ∧
    super_nblocks (setInt (setInt (setInt (setInt B 0 FS_MAGIC) 1 n) 2 nib)
        3 (nib * INODES_PER_BLOCK)) = n ∧
    super_ninodeblocks (setInt (setInt (setInt (setInt B 0 FS_MAGIC) 1 n) 2 nib)
        3 (nib * INODES_PER_BLOCK)) = nib ∧
    (nib * INODES_PER_BLOCK < 2147483648 →
      super_ninodes (setInt (setInt (setInt (setInt B 0 FS_MAGIC) 1 n) 2 nib)
        3 (nib * INODES_PER_BLOCK)) = 128 * nib) := by
  unfold super_magic super_nblocks super_ninodeblocks super_ninodes
  simp only [INODES_PER_BLOCK]
  refine ⟨?_, ?_, ?_, ?_⟩
  · rw [getInt_setInt_ne _ _ _ _ (by decide), getInt_setInt_ne _ _ _ _ (by decide),
      getInt_setInt_ne _ _ _ _ (by decide), getInt_setInt_mod]
    decide
  · rw [getInt_setInt_ne _ _ _ _ (by decide), getInt_setInt_ne _ _ _ _ (by decide),
      getInt_setInt_same _ _ _ (by omega) hn]
  · rw [getInt_setInt_ne _ _ _ _ (by decide), getInt_setInt_same _ _ _ (by omega) (by omega)]
  · intro hnib
    rw [getInt_setInt_same _ _ _ (by omega) hnib]
    omega

/-- On an unmounted device of `n` blocks, `3 ≤ n < 2^31`, `fs_format` followed
by `fs_mount` succeeds and sets exactly the bits of the superblock and of the
inode blocks. -/
theorem fs_mount_after_format (st : FsState) (hm : st.fs_mounted = false)
    (h3 : 3 ≤ disk_size st.disk) (h31 : disk_size st.disk < 2147483648) :
    (fs_format st).1 = 1 ∧
    ninodeblocksOf (fs_format st).2 = format_ninode_blocks (disk_size st.disk) ∧
    (fs_mount (fs_format st).2).1 = 1 ∧
    (∀ b, 0 ≤ b → ((fs_mount (fs_format st).2).2.bitmap b = true ↔
      b ≤ format_ninode_blocks (disk_size st.disk))) := by
  have hc : ¬ (st.fs_mounted = true ∨ disk_size st.disk < 3) := by
    rw [hm]
    simp only [Bool.false_eq_true, false_or, not_lt]
    exact h3
  obtain ⟨F1, _, _, _, _, F6, F7, F8, _⟩ := (fs_format_spec st).2 hc
  have hb := format_ninode_blocks_bounds (disk_size st.disk) h3
  have hS := format_super_fields (disk_read st.disk 0) (disk_size st.disk)
    (format_ninode_blocks (disk_size st.disk)) (by omega) h31 (by omega) (by omega)
  revert F1 F6 F7 F8
  generalize fs_format st = r
  intro F1 F6 F7 F8
  rw [← F7] at hS
  obtain ⟨S1, S2, S3, S4⟩ := hS
  have hnib : ninodeblocksOf r.2 = format_ninode_blocks (disk_size st.disk) := S3
  have hone : (fs_mount r.2).1 = 1 := by
    obtain ⟨bm', hbm⟩ := mountBlocks_none_valid r.2.disk
      (super_ninodeblocks (disk_read r.2.disk 0)) (disk_size r.2.disk)
      (super_ninodeblocks (disk_read r.2.disk 0)).toNat 1
      (Function.update (fun _ => false) 0 true)
      (fun t s h1 h2 h3' h4 => by
        rw [S3] at h2
        rw [F8 t s h1 h2 h3' h4]
        decide)
    unfold fs_mount
    simp only []
    rw [if_neg (by simp only [ne_eq, not_not]; exact S1), hbm]
  refine ⟨F1, hnib, hone, ?_⟩
  intro b hb0
  rw [(fs_mount_bitmap r.2 hone (by rw [hnib]; omega)).2.2.2.2 b hb0, hnib]
  unfold markedVia
  constructor
  · rintro (h | ⟨n, h1, h2, _⟩)
    · exact h
    · exfalso
      have := F8 ((n : Int) / 128 + 1) ((n : Int) % 128) (by omega) (by omega) (by omega)
        (by omega)
      unfold ino_isvalid inodeBlockOf at h2
      rw [this] at h2
      exact absurd h2 (by decide)
  · exact Or.inl

/-! ## `fs_mount` and the block count `ceil(size/4096)` -/

/-- The block count of the code and `ceil(size/4096)` agree for `size ≥ 0`; for
`size ≤ -4096` both are at most 0. -/
theorem nblocksOf_specBlocks (size : Int) (h : ¬ (-4096 < size ∧ size < 0)) :
    nblocksOf size = specBlocks size ∨ (nblocksOf size ≤ 0 ∧ specBlocks size ≤ 0) := by
  unfold nblocksOf specBlocks
  simp only [BYTES_PER_BLOCK]
  by_cases h0 : 0 ≤ size
  · left
    rw [Int.tdiv_eq_ediv h0 (by decide), Int.tmod_eq_emod h0 (by decide)]
    split <;> omega
  · right
    rw [tdiv_of_nonpos _ (by omega), tmod_of_nonpos _ (by omega)]
    split <;> omega

theorem reachVia_congr (cnt1 cnt2 : Int → Int) (d : Disk) (n b : Int)
    (h : cnt1 (ino_size d n) = cnt2 (ino_size d n) ∨
      (cnt1 (ino_size d n) ≤ 0 ∧ cnt2 (ino_size d n) ≤ 0)) :
    reachVia cnt1 d n b ↔ reachVia cnt2 d n b := by
  unfold reachVia
  rcases h with h | ⟨h1, h2⟩
  · rw [h]
  · constructor
    · rintro (⟨k, hk, _⟩ | ⟨hk, _⟩) <;> omega
    · rintro (⟨k, hk, _⟩ | ⟨hk, _⟩) <;> omega

theorem markedVia_congr (cnt1 cnt2 : Int → Int) (d : Disk) (nib b : Int)
    (h : ∀ n : Nat, n < (128 * nib).toNat → ino_isvalid d n = 1 →
      (cnt1 (ino_size d n) = cnt2 (ino_size d n) ∨
        (cnt1 (ino_size d n) ≤ 0 ∧ cnt2 (ino_size d n) ≤ 0))) :
    markedVia cnt1 d nib b ↔ markedVia cnt2 d nib b := by
  unfold markedVia
  constructor
  · rintro (h1 | ⟨n, h1, h2, h3⟩)
    · exact Or.inl h1
    · exact Or.inr ⟨n, h1, h2, (reachVia_congr cnt1 cnt2 d n b (h n h1 h2)).1 h3⟩
  · rintro (h1 | ⟨n, h1, h2, h3⟩)
    · exact Or.inl h1
    · exact Or.inr ⟨n, h1, h2, (reachVia_congr cnt1 cnt2 d n b (h n h1 h2)).2 h3⟩

/-- C13, amended.  First part: whenever `fs_mount()` returns 1 on an image with
`ninodeblocks ≥ 0` in which no inode with `isvalid = 1` has a size strictly
between -4096 and 0, the session is mounted, `bitmapSize` is the `nblocks` of
the superblock, the disk is unchanged, and for every block `0 ≤ b < nblocks`
the bit of `b` is set exactly if `b ≤ ninodeblocks` or `b` belongs to an inode
with `isvalid = 1`: one of its first `min(ceil(size/4096), 5)` direct pointers
or, when `ceil(size/4096) > 5`, its indirect block or one of the first
`ceil(size/4096) - 5` pointers stored there.  Second part: on an unmounted
20-block device `fs_format()` followed by `fs_mount()` succeeds and sets bits
0, 1, 2 and no bit of 3..19. -/
theorem fs_mount_rebuilds_used_set :
    (∀ st : FsState, (fs_mount st).1 = 1 → 0 ≤ ninodeblocksOf st →
      (∀ n : Nat, n < (128 * ninodeblocksOf st).toNat → ino_isvalid st.disk n = 1 →
        ¬ (-4096 < ino_size st.disk n ∧ ino_size st.disk n < 0)) →
      (fs_mount st).2.fs_mounted = true ∧
      (fs_mount st).2.bitmapSize = super_nblocks (superOf st) ∧
      (fs_mount st).2.disk = st.disk ∧
      ∀ b, 0 ≤ b → b < super_nblocks (superOf st) →
        ((fs_mount st).2.bitmap b = true ↔
          markedVia specBlocks st.disk (ninodeblocksOf st) b)) ∧
    (∀ st : FsState, st.fs_mounted = false → disk_size st.disk = 20 →
      (fs_format st).1 = 1 ∧ (fs_mount (fs_format st).2).1 = 1 ∧
      ∀ b, 0 ≤ b → b < 20 → ((fs_mount (fs_format st).2).2.bitmap b = true ↔ b ≤ 2)) := by
  constructor
  · intro st h hnib hsz
    obtain ⟨M1, M2, _, M4, M5⟩ := fs_mount_bitmap st h hnib
    refine ⟨M1, M2, M4, ?_⟩
    intro b hb0 _
    rw [M5 b hb0]
    apply markedVia_congr
    intro n h1 h2
    exact nblocksOf_specBlocks _ (hsz n h1 h2)
  · intro st hm h20
    obtain ⟨A1, _, A3, A4⟩ := fs_mount_after_format st hm (by omega) (by omega)
    have e : format_ninode_blocks (disk_size st.disk) = 2 := by
      rw [h20]; decide
    rw [e] at A4
    exact ⟨A1, A3, fun b hb0 _ => A4 b hb0⟩

/-- Witness for C13: mounting the disk of scenario 3 (inode 1 with one block,
inode 2 with 5 direct blocks, an indirect block and one block behind it) sets
the bit of block 10, which belongs to inode 2, and not the bit of block 11. -/
theorem fs_mount_rebuilds_used_set_witness :
    (fs_mount (unmounted scenario3.disk)).1 = 1 ∧
      (fs_mount (unmounted scenario3.disk)).2.bitmap 10 = true ∧
      markedVia specBlocks scenario3.disk 2 10 ∧
      (fs_mount (unmounted scenario3.disk)).2.bitmap 11 = false :=
  have h := (fs_mount_rebuilds_used_set.1 (unmounted scenario3.disk) (by decide!) (by decide!)
    (by decide!)).2.2.2
  ⟨by decide!, (h 10 (by decide) (by decide!)).2 (by decide!),
    by decide!, by
      have := (h 11 (by decide) (by decide!)).not.2 (by decide!)
      simpa using this⟩

/-! ## `fs_read` depends only on the inode record and the blocks it reaches -/

theorem readLoop_congr (d d2 : Disk) (nib ds len : Int) (blk blk2 : Int → Int) (bound : Int)
    (n : Nat) (k : Int) (v : ReadVars)
    (h : ∀ l, k ≤ l → l < bound → blk l = blk2 l ∧
      (badBlock nib ds (blk l) = false → disk_read d (blk l) = disk_read d2 (blk l))) :
    readLoop d nib ds len blk bound n k v = readLoop d2 nib ds len blk2 bound n k v := by
  induction n generalizing k v with
  | zero => rfl
  | succ n ih =>
    unfold readLoop
    by_cases hc : k < bound ∧ v.read < len
    · simp only [hc, and_self, if_true]
      obtain ⟨hb, hd⟩ := h k (le_refl _) hc.1
      have hbody : readBody d nib ds len (blk k) v = readBody d2 nib ds len (blk2 k) v := by
        rw [← hb]
        unfold readBody
        by_cases hg : badBlock nib ds (blk k) = true
        · simp only [hg, if_true]
        · have hg2 : badBlock nib ds (blk k) = false := by simpa using hg
          simp only [hg2, Bool.false_eq_true, if_false]
          rw [hd hg2]
      rw [← hbody]
      rw [ih (k + 1) (readBody d nib ds len (blk k) v)
        (fun l h1 h2 => h l (by omega) h2)]
    · simp only [hc, if_false]

theorem readInode_congr (d d2 : Disk) (nib : Int) (B B2 : Block) (j : Int) (data : Bytes)
    (len off : Int) (hoff : 0 ≤ off)
    (hds : disk_size d2 = disk_size d) (hsize : inode_size B2 j = inode_size B j)
    (hdir : ∀ l, 0 ≤ l → l < directBlocks (nblocksOf (inode_size B j)) →
      inode_direct B j l = inode_direct B2 j l ∧
      (badBlock nib (disk_size d) (inode_direct B j l) = false →
        disk_read d (inode_direct B j l) = disk_read d2 (inode_direct B j l)))
    (hind : indirectBlocksCapped (nblocksOf (inode_size B j)) > 0 →
      inode_indirect B2 j = inode_indirect B j ∧
      disk_read d2 (inode_indirect B j) = disk_read d (inode_indirect B j) ∧
      ∀ l, 0 ≤ l → l < indirectBlocksCapped (nblocksOf (inode_size B j)) →
        badBlock nib (disk_size d) (pointers (disk_read d (inode_indirect B j)) l) = false →
        disk_read d (pointers (disk_read d (inode_indirect B j)) l)
          = disk_read d2 (pointers (disk_read d (inode_indirect B j)) l)) :
    readInode d2 nib B2 j data len off = readInode d nib B j data len off := by
  unfold readInode
  simp only [hsize, hds]
  by_cases h1 : off > inode_size B j
  · simp only [h1, if_true]
  · simp only [h1, if_false]
    have hsdb : 0 ≤ off.tdiv BYTES_PER_BLOCK := Int.tdiv_nonneg hoff (by decide)
    have hsib : 0 ≤ startIndirectBlockOf off := by
      rw [startIndirectBlockOf_eq]; split <;> omega
    generalize (if int32 (len + off) > inode_size B j then inode_size B j - off else len) = len2
    rw [← readLoop_congr d d2 nib (disk_size d) len2 (inode_direct B j) (inode_direct B2 j) _ _ _ _
      (fun l h1 h2 => hdir l (by omega) h2)]
    generalize readLoop d nib (disk_size d) len2 (inode_direct B j)
      (directBlocks (nblocksOf (inode_size B j)))
      (directBlocks (nblocksOf (inode_size B j)) - off.tdiv BYTES_PER_BLOCK).toNat
      (off.tdiv BYTES_PER_BLOCK)
      { data := data, read := 0, startByte := off.tmod BYTES_PER_BLOCK, returned := false } = v1
    by_cases hr : v1.returned = true
    · simp only [hr, if_true]
    · simp only [hr, if_false]
      by_cases h2 : indirectBlocksCapped (nblocksOf (inode_size B j)) > 0
      · simp only [h2, if_true]
        obtain ⟨hI1, hI2, hI3⟩ := hind h2
        rw [hI1, hI2]
        rw [← readLoop_congr d d2 nib (disk_size d) len2 _ _ _ _ _ _
          (fun l h1 h2 => ⟨rfl, hI3 l (by omega) h2⟩)]
      · simp only [h2, if_false]

/-! ## `fs_write`: the blocks of other files are not written -/

theorem writeFinish_keep (st2 : FsState) (iB j : Int) (B : Block) (size offset w b : Int)
    (hb : b ≠ iB + 1) :
    disk_read (writeFinish st2 iB j B size offset w).2.disk b = disk_read st2.disk b := by
  unfold writeFinish
  simp only []
  split
  · exact disk_read_write_ne _ _ _ _ hb
  · rfl

/-- The indirect part after the allocation of the indirect block leaves alone
every block that is marked used, is not the inode block, is not the indirect
block and is none of the existing pointers the loop consults. -/
theorem writeIndirectRun_keep (st : FsState) (ro : Bool) (nib ds iB j : Int)
    (B2 : Block) (data : Bytes) (L : Int) (wb : Block) (size offset : Int)
    (iAI ib sib siy written : Int)
    (hnib : 0 ≤ nib) (hsz : st.bitmapSize ≤ 2147483648)
    (hsb0 : 0 ≤ siy) (hsb1 : siy < 4096) (hw : written ≤ L)
    (b : Int) (hb : st.bitmap b = true) (hbi : b ≠ iB + 1)
    (hP : ro = false → b ≠ inode_indirect B2 j)
    (hptr : ∀ l, sib ≤ l → l < ib → l ≤ iAI →
      b ≠ pointers (disk_read st.disk (inode_indirect B2 j)) l) :
    disk_read (writeIndirectRun st ro nib ds iB j B2 data L wb size offset iAI ib sib siy
      written).2.disk b = disk_read st.disk b := by
  unfold writeIndirectRun
  simp only []
  have F := writeIndirect_frame nib ds iAI data L ib (ib - sib).toNat sib
    { st := st, pointers_block := disk_read st.disk (inode_indirect B2 j), writeBlock := wb,
      written := written, startByte := siy, changedPointersBlock := false,
      ranOutOfMemory := ro, returned := false }
    hnib hsb0 hsb1 hw hsz
  revert F
  generalize writeIndirect nib ds iAI data L ib (ib - sib).toNat sib
    { st := st, pointers_block := disk_read st.disk (inode_indirect B2 j), writeBlock := wb,
      written := written, startByte := siy, changedPointersBlock := false,
      ranOutOfMemory := ro, returned := false } = v2
  intro F
  have hfr : disk_read v2.st.disk b = disk_read st.disk b := F.disk_frame b hb hptr
  have hch : v2.changedPointersBlock = true → ro = false := by
    intro hc
    by_contra hro
    have hro2 : ro = true := by simpa using hro
    have := F.stuck hro2
    rw [this] at hc
    exact Bool.false_ne_true hc
  by_cases hret : v2.returned = true
  · simp only [hret, if_true]
    exact hfr
  · have hret2 : v2.returned = false := by simpa using hret
    simp only [hret2, Bool.false_eq_true, if_false]
    rw [writeFinish_keep _ _ _ _ _ _ _ _ hbi]
    by_cases hc : v2.changedPointersBlock = true
    · simp only [hc, if_true]
      show disk_read (disk_write _ _ _) b = _
      rw [disk_read_write_ne _ _ _ _ (hP (hch hc)), hfr]
    · simp only [hc, if_false]
      exact hfr

theorem writeIndirectPart_keep (st1 : FsState) (nib ds iB j : Int)
    (inodeB : Block) (data : Bytes) (L : Int) (wb : Block) (size offset : Int)
    (alloc : Bool) (iAI ib sib siy written : Int)
    (hnib : 0 ≤ nib) (hsz : st1.bitmapSize ≤ 2147483648)
    (hsb0 : 0 ≤ siy) (hsb1 : siy < 4096) (hw : written ≤ L)
    (b : Int) (hb : st1.bitmap b = true) (hbi : b ≠ iB + 1)
    (hP : alloc = false → b ≠ inode_indirect inodeB j)
    (hptr : alloc = false → ∀ l, sib ≤ l → l < ib → l ≤ iAI →
      b ≠ pointers (disk_read st1.disk (inode_indirect inodeB j)) l)
    (hai : alloc = true → iAI < sib) :
    disk_read (writeIndirectPart st1 nib ds iB j inodeB data L wb size offset alloc iAI ib sib
      siy written).2.disk b = disk_read st1.disk b := by
  unfold writeIndirectPart
  simp only []
  rcases allocIndirect_cases st1 j inodeB alloc with ⟨ha, he⟩ | ⟨ha, hfull, he⟩ |
    ⟨r, ha, hr0, hr1, hrb, he⟩
  · rw [he]
    exact writeIndirectRun_keep st1 false nib ds iB j inodeB data L wb size offset iAI ib sib siy
      written hnib hsz hsb0 hsb1 hw b hb hbi (fun _ => hP ha) (hptr ha)
  · rw [he]
    exact writeIndirectRun_keep st1 true nib ds iB j inodeB data L wb size offset iAI ib sib siy
      written hnib hsz hsb0 hsb1 hw b hb hbi (fun h => absurd h (by decide))
      (fun l h1 _ h3 => by have := hai ha; omega)
  · rw [he]
    have hbr : b ≠ r := by
      intro h
      rw [h, hrb] at hb
      exact Bool.false_ne_true hb
    exact writeIndirectRun_keep { st1 with bitmap := Function.update st1.bitmap r true } false
      nib ds iB j (set_inode_indirect inodeB j r) data L wb size offset iAI ib sib siy
      written hnib hsz hsb0 hsb1 hw b
      (by
        show Function.update st1.bitmap r true b = true
        rw [Function.update_noteq hbr]; exact hb)
      hbi
      (fun _ => by rw [inode_indirect_set _ _ _ hr0 (by omega)]; exact hbr)
      (fun l h1 _ h3 => by have := hai ha; omega)

theorem writeInode_keep (st : FsState) (nib iB j : Int) (inodeB : Block) (data : Bytes)
    (L offset : Int) (u : Uninit)
    (size onb sdb sdy sib siy nb' dAI iAI db ib offset' : Int) (alloc : Bool)
    (e_size : inode_size inodeB j = size) (e_onb : nblocksOf size = onb)
    (e_sdy : offset.tmod BYTES_PER_BLOCK = sdy) (e_siy : startIndirectByteOf offset = siy)
    (e_sdb : offset.tdiv BYTES_PER_BLOCK = sdb) (e_sib : startIndirectBlockOf offset = sib)
    (e_nb : onb + blocksToAllocateOf (offset + L - onb * BYTES_PER_BLOCK) = nb')
    (e_dAI : (if onb ≥ POINTERS_PER_INODE then POINTERS_PER_INODE - 1 else onb - 1) = dAI)
    (e_iAI : (if onb ≥ POINTERS_PER_INODE then onb - POINTERS_PER_INODE - 1 else -1) = iAI)
    (e_alloc : (decide (onb ≤ POINTERS_PER_INODE) && decide (nb' > POINTERS_PER_INODE)) = alloc)
    (e_off : (if offset > BYTES_PER_BLOCK * onb then BYTES_PER_BLOCK * onb else offset) = offset')
    (e_db : directBlocks nb' = db) (e_ib : indirectBlocksCapped nb' = ib)
    (hnib : 0 ≤ nib) (hsz : st.bitmapSize ≤ 2147483648) (hL : 0 ≤ L)
    (hsdy0 : 0 ≤ sdy) (hsdy1 : sdy < 4096) (hsiy0 : 0 ≤ siy) (hsiy1 : siy < 4096)
    (hsdb : 0 ≤ sdb) (hsib : 0 ≤ sib)
    (hdAI : dAI = min 4 (onb - 1)) (hiAI : iAI = max (onb - 6) (-1))
    (hdb : db ≤ 5) (hibnb : ib > 0 → nb' > 5)
    (halloc : alloc = true ↔ (onb ≤ 5 ∧ nb' > 5))
    (hInd : onb > 5 → st.bitmap (inode_indirect inodeB j) = true ∧
      inode_indirect inodeB j ≠ iB + 1 ∧
      (∀ l, 0 ≤ l → l < 5 → inode_indirect inodeB j ≠ inode_direct inodeB j l))
    (b : Int) (hb : st.bitmap b = true) (hbi : b ≠ iB + 1)
    (hbd : ∀ l, 0 ≤ l → l < 5 → l < onb → b ≠ inode_direct inodeB j l)
    (hbP : onb > 5 → b ≠ inode_indirect inodeB j ∧
      ∀ l, 0 ≤ l → l < onb - 5 → b ≠ pointers (disk_read st.disk (inode_indirect inodeB j)) l) :
    disk_read (writeInode st nib iB j inodeB data L offset u).2.disk b = disk_read st.disk b := by
  unfold writeInode
  simp only [e_size, e_onb, e_sdy, e_siy, e_sdb, e_sib, e_nb, e_dAI, e_iAI, e_alloc, e_off, e_db,
    e_ib]
  clear e_onb e_sdy e_siy e_sdb e_sib e_nb e_dAI e_iAI e_alloc e_off e_db e_ib
  have D := writeDirect_frame nib (disk_size st.disk) j dAI data L u.direct db (db - sdb).toNat sdb
    { st := st, inodeB := inodeB, written := 0, startByte := sdy, changedInodeBlock := false,
      ranOutOfMemory := false } hnib hsdy0 hsdy1 hL
  revert D
  generalize writeDirect nib (disk_size st.disk) j dAI data L u.direct db (db - sdb).toNat sdb
    { st := st, inodeB := inodeB, written := 0, startByte := sdy, changedInodeBlock := false,
      ranOutOfMemory := false } = v1
  intro D
  obtain ⟨st1, hst1⟩ : ∃ st1 : FsState, st1 = (if v1.changedInodeBlock = true then
        ({ v1.st with disk := (disk_write v1.st.disk (iB + 1) v1.inodeB) } : FsState)
      else v1.st) := ⟨_, rfl⟩
  rw [← hst1]
  have e2 : st1.bitmapSize = st.bitmapSize := by
    rw [hst1]; split <;> exact D.bitmapSize
  have e4 : st1.bitmap = v1.st.bitmap := by rw [hst1]; split <;> rfl
  have e6 : ∀ x, x ≠ iB + 1 → disk_read st1.disk x = disk_read v1.st.disk x := by
    intro x hx
    rw [hst1]; split
    · exact disk_read_write_ne _ _ _ _ hx
    · rfl
  have hB1 : ∀ i, ¬ (8 * j + 2 ≤ i / 4 ∧ i / 4 ≤ 8 * j + 6) → v1.inodeB i = inodeB i := by
    intro i hi
    exact D.inode_frame i (by omega)
  have hk1 : disk_read st1.disk b = disk_read st.disk b := by
    rw [e6 b hbi]
    exact D.disk_frame b hb (fun l h1 h2 h3 => hbd l (by omega) (by omega) (by omega))
  by_cases hc : ib > 0 ∧ v1.ranOutOfMemory = false
  · rw [if_pos hc]
    have hnb5 := hibnb hc.1
    have hon : alloc = false → onb > 5 := by
      intro ha
      by_contra hcon
      have : alloc = true := halloc.2 ⟨by omega, hnb5⟩
      rw [ha] at this; exact Bool.false_ne_true this
    rw [writeIndirectPart_keep st1 nib (disk_size st.disk) iB j v1.inodeB data L u.indirect size
      offset' alloc iAI ib sib siy v1.written hnib (by rw [e2]; exact hsz) hsiy0 hsiy1
      D.written_le b (by rw [e4]; exact D.bitmap_mono b hb) hbi
      (fun ha => by
        rw [inode_indirect_congr v1.inodeB inodeB j hB1]
        exact (hbP (hon ha)).1)
      (fun ha l hl1 hl2 hl3 => by
        obtain ⟨hI1, hI2, hI3⟩ := hInd (hon ha)
        rw [inode_indirect_congr v1.inodeB inodeB j hB1]
        rw [e6 _ hI2, D.disk_frame _ hI1 (fun l2 h1 h2 h3 => hI3 l2 (by omega) (by omega))]
        exact (hbP (hon ha)).2 l (by omega) (by omega))
      (fun ha => by have := (halloc.1 ha).1; omega)]
    exact hk1
  · rw [if_neg hc]
    rw [writeFinish_keep _ _ _ _ _ _ _ _ hbi]
    exact hk1

/-- In a mounted state whose superblock agrees with the device, a write to the
valid inode `inum` leaves alone every block that is marked used, lies outside
the inode table and is none of the blocks of `inum`. -/
theorem fs_write_keep_of (st : FsState) (hm : st.fs_mounted = true) (hs : SuperOK st)
    (inum : Int) (h1 : 1 ≤ inum)
    (h2 : inum < ninodesOf st) (hv : ino_isvalid st.disk inum ≠ 0) (hT : TargetOK st inum)
    (data : Bytes)
    (L offset : Int) (u : Uninit) (hL : 0 ≤ L) (ho : 0 ≤ offset)
    (b : Int) (hb : st.bitmap b = true) (hbn : ninodeblocksOf st < b)
    (hbd : ∀ l, 0 ≤ l → l < ino_nblocks st.disk inum → b ≠ fileBlock st.disk inum l)
    (hbP : ino_nblocks st.disk inum > 5 → b ≠ ino_indirect st.disk inum) :
    disk_read (fs_write st inum data L offset u).2.disk b = disk_read st.disk b := by
  rw [fs_write_valid st hm hs inum h1 h2 hv]
  have eN : ino_nblocks st.disk inum
      = nblocksOf (inode_size (inodeBlockOf st.disk inum) (inum % 128)) := rfl
  have eI : ino_indirect st.disk inum = inode_indirect (inodeBlockOf st.disk inum) (inum % 128) :=
    rfl
  obtain ⟨hs1, hs2, hs3, hs4, hs5⟩ := hs
  have hwi := write_indices_any (nblocksOf (inode_size (inodeBlockOf st.disk inum) (inum % 128)))
    offset
  have hsib := startIndirectBlockOf_eq offset
  have hsiy := startIndirectByteOf_eq offset
  have hsdb : offset.tdiv BYTES_PER_BLOCK = offset / 4096 := Int.tdiv_eq_ediv ho (by decide)
  have hsdy : offset.tmod BYTES_PER_BLOCK = offset % 4096 := Int.tmod_eq_emod ho (by decide)
  have hibf := indirectBlocksCapped_facts
    (nblocksOf (inode_size (inodeBlockOf st.disk inum) (inum % 128))
      + blocksToAllocateOf (offset + L
          - nblocksOf (inode_size (inodeBlockOf st.disk inum) (inum % 128)) * BYTES_PER_BLOCK))
  have h2' : inum < 128 * ninodeblocksOf st := by rw [← hs5]; exact h2
  refine writeInode_keep st (ninodeblocksOf st) (inum / 128) (inum % 128)
    (inodeBlockOf st.disk inum) data L offset u _ _ _ _ _ _ _ _ _ _ _ _ _
    rfl rfl rfl rfl rfl rfl rfl rfl rfl rfl rfl rfl rfl
    hs3 (by rw [hs2, ← hs1]; exact le_of_lt (super_nblocks_lt _)) hL
    (by rw [hsdy]; omega) (by rw [hsdy]; omega)
    (by rw [hsiy]; split <;> omega) (by rw [hsiy]; split <;> omega)
    (by rw [hsdb]; omega) (by rw [hsib]; split <;> omega)
    hwi.1 hwi.2.1 (by rw [directBlocks_of]; omega) hibf.2.2
    (by simp only [POINTERS_PER_INODE, Bool.and_eq_true, decide_eq_true_eq])
    ?_ b hb (by omega) ?_ ?_
  · intro hon
    rw [← eN] at hon
    obtain ⟨t1, t2, t3, _⟩ := hT hon
    rw [← eI]
    exact ⟨t2, by omega, t3⟩
  · intro l hl0 hl1 hl2
    have := hbd l hl0 hl2
    rwa [fileBlock_direct _ _ _ hl1] at this
  · intro hon
    refine ⟨hbP hon, ?_⟩
    intro l hl0 hl1
    have := hbd (l + 5) (by omega) (by rw [eN]; omega)
    rw [fileBlock_indirect _ _ _ (by omega)] at this
    have e : l + 5 - 5 = l := by omega
    rw [e] at this
    exact this

theorem fs_write_invalid (st : FsState) (inum : Int) (h1 : 0 ≤ inum)
    (hv : ino_isvalid st.disk inum = 0) (data : Bytes) (L offset : Int) (u : Uninit) :
    fs_write st inum data L offset u = (0, st) := by
  have hidx : inum - INODES_PER_BLOCK * (inum / 128) = inum % 128 := by
    simp only [INODES_PER_BLOCK]; omega
  have hv2 : inode_isvalid (disk_read st.disk (inum / 128 + 1)) (inum % 128) = 0 := hv
  unfold fs_write
  rw [inodeBlock_eq inum h1]
  simp only [hidx, hv2]
  simp

/-- The superblock facts survive a write. -/
theorem fs_write_superOK (st : FsState) (hs : SuperOK st) (inum : Int) (h1 : 1 ≤ inum)
    (h2 : inum < ninodesOf st) {L size offset w c : Int} {fresh : Prop} {r : Int × FsState}
    (F : PartFrame st (ninodeblocksOf st) (inum / 128) (inum % 128) (inodeBlockOf st.disk inum) L
      size offset w c fresh r) :
    SuperOK r.2 ∧ ninodeblocksOf r.2 = ninodeblocksOf st ∧ ninodesOf r.2 = ninodesOf st := by
  obtain ⟨hs1, hs2, hs3, hs4, hs5⟩ := hs
  have h2' : inum < 128 * ninodeblocksOf st := by rw [← hs5]; exact h2
  have hI := fs_write_inodes st inum h1 (by omega) F
  have hnib : ninodeblocksOf r.2 = ninodeblocksOf st := by
    unfold ninodeblocksOf superOf; rw [hI.1]
  have hnin : ninodesOf r.2 = ninodesOf st := by
    unfold ninodesOf superOf; rw [hI.1]
  refine ⟨⟨?_, ?_, ?_, ?_, ?_⟩, hnib, hnin⟩
  · unfold superOf; rw [hI.1, F.nblocks]; exact hs1
  · rw [F.bitmapSize, F.nblocks]; exact hs2
  · rw [hnib]; exact hs3
  · rw [hnib, F.nblocks]; exact hs4
  · rw [hnib, hnin]; exact hs5

/-- A write to inode `inum` leaves every byte of the record of another inode
`m` as it was. -/
theorem fs_write_record (st : FsState) (inum : Int) (h1 : 1 ≤ inum)
    (hnib : inum / 128 + 1 ≤ ninodeblocksOf st) {L size offset w c : Int} {fresh : Prop}
    {r : Int × FsState}
    (F : PartFrame st (ninodeblocksOf st) (inum / 128) (inum % 128) (inodeBlockOf st.disk inum) L
      size offset w c fresh r)
    (m : Int) (hm0 : 0 ≤ m) (hm1 : m < 128 * ninodeblocksOf st) (hne : m ≠ inum)
    (i : Int) (hi0 : 8 * (m % 128) ≤ i / 4) (hi1 : i / 4 ≤ 8 * (m % 128) + 7) :
    inodeBlockOf r.2.disk m i = inodeBlockOf st.disk m i := by
  unfold inodeBlockOf
  by_cases hb : m / 128 = inum / 128
  · rw [hb]
    exact F.inode_bytes i (by omega)
  · rw [F.meta_frame (m / 128 + 1) (by omega) (by omega) (by omega)]

theorem inode_direct_congr (B1 B2 : Block) (j l : Int)
    (h : ∀ i, i / 4 = 8 * j + 2 + l → B1 i = B2 i) :
    inode_direct B1 j l = inode_direct B2 j l := by
  unfold inode_direct
  exact getInt_congr _ _ _ h

theorem inode_indirect_congr' (B1 B2 : Block) (j : Int)
    (h : ∀ i, i / 4 = 8 * j + 7 → B1 i = B2 i) :
    inode_indirect B1 j = inode_indirect B2 j := by
  unfold inode_indirect
  exact getInt_congr _ _ _ h

/-- In a mounted state that meets the conditions across inodes and whose
superblock agrees with the device, a write to the valid inode `a`, whose
indirect block is none of its direct blocks, leaves the pointers of another
valid inode `m`, its indirect block and its data blocks as they were. -/
theorem fs_write_other_of (st : FsState) (hx : WFAcross st) (hs : SuperOK st) (a : Int)
    (h1 : 1 ≤ a)
    (h2 : a < ninodesOf st) (hv : ino_isvalid st.disk a ≠ 0) (hsa : SelfApart st a)
    (data : Bytes)
    (L offset : Int) (u : Uninit) (hL : 0 ≤ L) (ho : 0 ≤ offset)
    (m : Int) (hm0 : 0 ≤ m) (hm1 : m < ninodesOf st) (hmv : ino_isvalid st.disk m ≠ 0)
    (hne : m ≠ a) :
    (∀ l, 0 ≤ l → l < 5 →
      ino_direct (fs_write st a data L offset u).2.disk m l = ino_direct st.disk m l) ∧
    ino_indirect (fs_write st a data L offset u).2.disk m = ino_indirect st.disk m ∧
    (ino_nblocks st.disk m > 5 →
      disk_read (fs_write st a data L offset u).2.disk (ino_indirect st.disk m)
        = disk_read st.disk (ino_indirect st.disk m)) ∧
    (∀ l, 0 ≤ l → l < ino_nblocks st.disk m →
      fileBlock (fs_write st a data L offset u).2.disk m l = fileBlock st.disk m l ∧
      disk_read (fs_write st a data L offset u).2.disk (fileBlock st.disk m l)
        = disk_read st.disk (fileBlock st.disk m l)) := by
  have hT := across_targetOK hx hs a (by omega) h2 hv hsa
  have F := fs_write_frame_of st hx.1 hs hx.2.1 a h1 h2 hv hT data L offset u hL ho
  have h2' : a < 128 * ninodeblocksOf st := by rw [← hs.2.2.2.2]; exact h2
  have hm1' : m < 128 * ninodeblocksOf st := by rw [← hs.2.2.2.2]; exact hm1
  have hR := fs_write_record st a h1 (by omega) F m hm0 hm1' hne
  have hK := fun b => fs_write_keep_of st hx.1 hs a h1 h2 hv hT data L offset u hL ho b
  revert hR hK
  clear F
  generalize (fs_write st a data L offset u).2 = st2
  intro hR hK
  have hdir : ∀ l, 0 ≤ l → l < 5 → ino_direct st2.disk m l = ino_direct st.disk m l := by
    intro l hl0 hl1
    unfold ino_direct
    exact inode_direct_congr _ _ _ _ (fun i hi => hR i (by omega) (by omega))
  have hind : ino_indirect st2.disk m = ino_indirect st.disk m := by
    unfold ino_indirect
    exact inode_indirect_congr' _ _ _ (fun i hi => hR i (by omega) (by omega))
  have hdata : ∀ l, 0 ≤ l → l < ino_nblocks st.disk m →
      disk_read st2.disk (fileBlock st.disk m l) = disk_read st.disk (fileBlock st.disk m l) := by
    intro l hl0 hl1
    have hu := across_reach hx m hm0 hm1 hmv l hl0 hl1
    refine hK _ hu.2.2 hu.1 ?_ ?_
    · intro l2 h0 h3
      exact across_dataApart hx m a hm0 hm1 hmv (by omega) h2 hv hne l l2 hl0 hl1 h0 h3
    · intro hon
      have := (across_indirectApart hx a m (by omega) h2 hv hm0 hm1 hmv (fun h => hne h.symm)
        hon).1 l hl0 hl1
      exact fun h => this h.symm
  have hpb : ino_nblocks st.disk m > 5 →
      disk_read st2.disk (ino_indirect st.disk m) = disk_read st.disk (ino_indirect st.disk m) := by
    intro hon
    have hu := across_indirect hx m hm0 hm1 hmv hon
    have hA := across_indirectApart hx m a hm0 hm1 hmv (by omega) h2 hv hne hon
    refine hK _ hu.2.2 hu.1 ?_ ?_
    · intro l2 h0 h3
      exact hA.1 l2 h0 h3
    · intro hon2
      exact hA.2 hon2
  refine ⟨hdir, hind, hpb, ?_⟩
  intro l hl0 hl1
  refine ⟨?_, hdata l hl0 hl1⟩
  by_cases hl5 : l < 5
  · rw [fileBlock_direct _ _ _ hl5, fileBlock_direct _ _ _ hl5]
    exact hdir l hl0 hl5
  · rw [fileBlock_indirect _ _ _ (by omega), fileBlock_indirect _ _ _ (by omega)]
    rw [hind, hpb (by omega)]

/-- In a well-formed state, a write to the valid inode `a` leaves the pointers
of another valid inode `m`, its indirect block and its data blocks as they
were. -/
theorem fs_write_other (st : FsState) (hwf : WF st) (a : Int) (h1 : 1 ≤ a)
    (h2 : a < ninodesOf st) (hv : ino_isvalid st.disk a ≠ 0) (data : Bytes)
    (L offset : Int) (u : Uninit) (hL : 0 ≤ L) (ho : 0 ≤ offset)
    (m : Int) (hm0 : 0 ≤ m) (hm1 : m < ninodesOf st) (hmv : ino_isvalid st.disk m ≠ 0)
    (hne : m ≠ a) :
    (∀ l, 0 ≤ l → l < 5 →
      ino_direct (fs_write st a data L offset u).2.disk m l = ino_direct st.disk m l) ∧
    ino_indirect (fs_write st a data L offset u).2.disk m = ino_indirect st.disk m ∧
    (ino_nblocks st.disk m > 5 →
      disk_read (fs_write st a data L offset u).2.disk (ino_indirect st.disk m)
        = disk_read st.disk (ino_indirect st.disk m)) ∧
    (∀ l, 0 ≤ l → l < ino_nblocks st.disk m →
      fileBlock (fs_write st a data L offset u).2.disk m l = fileBlock st.disk m l ∧
      disk_read (fs_write st a data L offset u).2.disk (fileBlock st.disk m l)
        = disk_read st.disk (fileBlock st.disk m l)) :=
  fs_write_other_of st hwf.across hwf.superOK a h1 h2 hv (hwf.selfApart a (by omega) h2 hv)
    data L offset u hL ho m hm0 hm1 hmv hne

/-- C22, the claim at a failing input.  The superblock of `wideTwo20` has
`ninodeblocks = 1` but `ninodes = 256`, so the inode numbers 128..255 address
block 2, which lies in the data region and is free.  The state is mounted and
meets every condition the claim lists (`WFAcross`; also `WFBare`); inode 1 and
inode 130 are valid and empty.  A write of 32 zero bytes to inode 1 is given
block 2 and overwrites the record of inode 130: its `isvalid` goes from 1 to 0
and `fs_getsize(130)` from 0 to -1. -/
theorem fs_write_alters_other_file :
    WFAcross wideTwo20 ∧ WFBare wideTwo20 ∧ ninodesOf wideTwo20 = 256 ∧
      ino_isvalid wideTwo20.disk 1 = 1 ∧
      ino_isvalid wideTwo20.disk 130 = 1 ∧ fs_getsize wideTwo20 130 = 0 ∧
      ino_isvalid (fs_write wideTwo20 1 zeroBlock 32 0 zeroUninit).2.disk 130 = 0 ∧
      fs_getsize (fs_write wideTwo20 1 zeroBlock 32 0 zeroUninit).2 130 = -1 := by
  decide!

/-- A second failing input for the statement of C22 as the claim words it, this
one with a superblock that agrees with the device.  In `aliased20` inode 1 has
six blocks and names block 3 both as `direct[0]` and as its indirect block;
inode 2 has the one block 9, holding "hello".  Every block reachable from a
valid inode lies in the data region, is marked used and is reachable from no
other valid inode.  A write of six blocks to inode 1 whose first word is 9
stores that word in block 3, then reads block 3 as the indirect block and
writes the sixth block of data to block 9: the first byte that `fs_read`
returns for inode 2 changes from 104 to 0. -/
theorem fs_write_alters_other_file_through_own_block :
    WFAcross aliased20 ∧ SuperOK aliased20 ∧ ¬ SelfApart aliased20 1 ∧
      ino_isvalid aliased20.disk 1 = 1 ∧ ino_isvalid aliased20.disk 2 = 1 ∧
      fileBlock aliased20.disk 2 0 = 9 ∧
      (fs_read aliased20 2 zeroBlock 1 0).2 0 = 104 ∧
      (fs_write aliased20 1 nine 24576 0 zeroUninit).1 = 24576 ∧
      (fs_read (fs_write aliased20 1 nine 24576 0 zeroUninit).2 2 zeroBlock 1 0).2 0 = 0 := by
  decide!

/-- C22, amended.  A write never alters another file.  Take a mounted state in
which every block reachable from a valid inode is in the data region, marked
used and reachable from no other valid inode, and the bits `0..ninodeblocks`
are set (`WFAcross`), and in which moreover the superblock agrees with the
device (`SuperOK`: `nblocks` is the device size and the length of the bitmap,
`0 ≤ ninodeblocks < nblocks`, `ninodes = 128 * ninodeblocks`) and the indirect
block of `a`, when `a` has more than 5 blocks, is none of the direct blocks of
`a` (`SelfApart`).  Then `fs_write(a, data, length, offset)` with
`1 ≤ a < ninodes`, `length ≥ 0` and any `offset ≥ 0` leaves every other valid
inode `b ≠ a` untouched: every byte of the on-disk record of `b` (hence
`isvalid`, `size`, `direct` and `indirect`), the indirect block of `b` and
every data block reachable from `b` are unchanged, so `fs_getsize(b)` and every
`fs_read` on `b` (any buffer, any length, any offset `≥ 0`) return the same
results as before the write.  Nothing is assumed of the sizes, of `isvalid`
being 0 or 1, or of the blocks within one inode being distinct. -/
theorem fs_write_other_untouched (st : FsState) (hx : WFAcross st) (hs : SuperOK st) (a : Int)
    (h1 : 1 ≤ a)
    (h2 : a < ninodesOf st) (hsa : SelfApart st a) (data : Bytes) (L offset : Int) (u : Uninit)
    (hL : 0 ≤ L)
    (ho : 0 ≤ offset) (b : Int) (hb0 : 0 ≤ b) (hb1 : b < ninodesOf st)
    (hbv : ino_isvalid st.disk b ≠ 0) (hne : b ≠ a)
    (st2 : FsState) (hst2 : st2 = (fs_write st a data L offset u).2) :
    (∀ i, 8 * (b % 128) ≤ i / 4 → i / 4 ≤ 8 * (b % 128) + 7 →
      inodeBlockOf st2.disk b i = inodeBlockOf st.disk b i) ∧
    ino_isvalid st2.disk b = ino_isvalid st.disk b ∧
    ino_size st2.disk b = ino_size st.disk b ∧
    (∀ l, 0 ≤ l → l < 5 → ino_direct st2.disk b l = ino_direct st.disk b l) ∧
    ino_indirect st2.disk b = ino_indirect st.disk b ∧
    (ino_nblocks st.disk b > 5 →
      disk_read st2.disk (ino_indirect st.disk b) = disk_read st.disk (ino_indirect st.disk b)) ∧
    (∀ l, 0 ≤ l → l < ino_nblocks st.disk b →
      fileBlock st2.disk b l = fileBlock st.disk b l ∧
      disk_read st2.disk (fileBlock st.disk b l) = disk_read st.disk (fileBlock st.disk b l)) ∧
    fs_getsize st2 b = fs_getsize st b ∧
    ∀ buf len off, 0 ≤ off → fs_read st2 b buf len off = fs_read st b buf len off := by
  by_cases hv : ino_isvalid st.disk a = 0
  · -- nothing is written to an inode that is not valid
    have e : st2 = st := by
      rw [hst2, fs_write_invalid st a (by omega) hv]
    rw [e]
    exact ⟨fun _ _ _ => rfl, rfl, rfl, fun _ _ _ => rfl, rfl, fun _ => rfl,
      fun _ _ _ => ⟨rfl, rfl⟩, rfl, fun _ _ _ _ => rfl⟩
  · have hT := across_targetOK hx hs a (by omega) h2 hv hsa
    have F := fs_write_frame_of st hx.1 hs hx.2.1 a h1 h2 hv hT data L offset u hL ho
    have h2' : a < 128 * ninodeblocksOf st := by rw [← hs.2.2.2.2]; exact h2
    have hb1' : b < 128 * ninodeblocksOf st := by rw [← hs.2.2.2.2]; exact hb1
    have hR := fs_write_record st a h1 (by omega) F b hb0 hb1' hne
    have hI := fs_write_inodes st a h1 (by omega) F
    have hS := fs_write_superOK st hs a h1 h2 F
    have hO := fs_write_other_of st hx hs a h1 h2 hv hsa data L offset u hL ho b hb0 hb1 hbv hne
    have hm : (fs_write st a data L offset u).2.fs_mounted = true := by
      rw [F.mounted]; exact hx.1
    have hds : disk_size (fs_write st a data L offset u).2.disk = disk_size st.disk := F.nblocks
    rw [← hst2] at hR hI hS hO hm hds
    clear F
    obtain ⟨hsup, hval, hsize⟩ := hI
    obtain ⟨hs', hnib, hnin⟩ := hS
    obtain ⟨hdir, hind, hpb, hblk⟩ := hO
    have hvb := hval b hb0 hb1'
    have hsb := hsize b hb0 hb1' hne
    refine ⟨hR, hvb, hsb, hdir, hind, hpb, hblk, ?_, ?_⟩
    · -- `fs_getsize`
      unfold fs_getsize
      rw [hm, hx.1, hsup]
      simp only [Bool.true_eq_false, if_false]
      have hidx : b - INODES_PER_BLOCK * (b / 128) = b % 128 := by
        simp only [INODES_PER_BLOCK]; omega
      rw [inodeBlock_eq b hb0]
      simp only [hidx]
      have e1 : inode_isvalid (disk_read st2.disk (b / 128 + 1)) (b % 128)
          = inode_isvalid (disk_read st.disk (b / 128 + 1)) (b % 128) := hvb
      have e2 : inode_size (disk_read st2.disk (b / 128 + 1)) (b % 128)
          = inode_size (disk_read st.disk (b / 128 + 1)) (b % 128) := hsb
      rw [e1, e2]
    · -- `fs_read`
      intro buf len off hoff
      by_cases hb : 1 ≤ b
      · rw [fs_read_valid st2 hm hs' b hb (by rw [hnin]; exact hb1) (by rw [hvb]; exact hbv),
          fs_read_valid st hx.1 hs b hb hb1 hbv, hnib]
        have hdb : ∀ l, l < directBlocks (nblocksOf (inode_size (inodeBlockOf st.disk b)
            (b % 128))) → l < 5 ∧ l < ino_nblocks st.disk b := by
          intro l hl
          rw [directBlocks_of] at hl
          exact ⟨by omega, by unfold ino_nblocks ino_size; omega⟩
        have hibk : ∀ l, 0 ≤ l → l < indirectBlocksCapped (nblocksOf (inode_size (inodeBlockOf st.disk b)
            (b % 128))) → l + 5 < ino_nblocks st.disk b := by
          intro l hl0 hl
          rw [indirectBlocksCapped_eq] at hl
          unfold ino_nblocks ino_size; omega
        refine readInode_congr st.disk st2.disk (ninodeblocksOf st) (inodeBlockOf st.disk b)
          (inodeBlockOf st2.disk b) (b % 128) buf len off hoff hds hsb ?_ ?_
        · intro l hl0 hl1
          obtain ⟨h5, hn⟩ := hdb l hl1
          refine ⟨(hdir l hl0 h5).symm, fun _ => ?_⟩
          have := (hblk l hl0 hn).2
          rw [fileBlock_direct _ _ _ h5] at this
          exact this.symm
        · intro hib
          have hon : ino_nblocks st.disk b > 5 := by
            have := hibk 0 (le_refl _) (by omega)
            omega
          refine ⟨hind, hpb hon, ?_⟩
          intro l hl0 hl1 _
          have := (hblk (l + 5) (by omega) (hibk l hl0 hl1)).2
          rw [fileBlock_indirect _ _ _ (by omega)] at this
          have e : l + 5 - 5 = l := by omega
          rw [e] at this
          exact this.symm
      · -- inode number 0 is refused before anything is read
        have hb' : b < 1 := by omega
        unfold fs_read
        rw [hm, hx.1, hsup]
        simp [badInumber, hb']

/-- Witness for C22 on the 20-block device of scenario 3, which holds inode 1
of one block and inode 2 of six blocks: a write of 9000 bytes at offset 3 to
inode 2 leaves the size and every read of inode 1 as they were. -/
theorem fs_write_other_untouched_witness :
    WFAcross scenario3 ∧ SuperOK scenario3 ∧ ino_nblocks scenario3.disk 2 = 6 ∧
    SelfApart scenario3 2 ∧
    fs_getsize (fs_write scenario3 2 world 9000 3 zeroUninit).2 1 = fs_getsize scenario3 1 ∧
    ∀ buf len off, 0 ≤ off →
      fs_read (fs_write scenario3 2 world 9000 3 zeroUninit).2 1 buf len off
        = fs_read scenario3 1 buf len off :=
  ⟨by decide!, by decide!, by decide!, by decide!,
    (fs_write_other_untouched scenario3 (by decide!) (by decide!) 2 (by decide) (by decide!)
      (by decide!) world 9000 3
      zeroUninit (by decide) (by decide) 1 (by decide) (by decide!) (by decide!) (by decide)
      _ rfl).2.2.2.2.2.2.2⟩

/-! ## `fs_write`: where the new blocks of a file come from -/

theorem Fresh.stay {st0 cur cur2 : FsState} {nib ds b : Int} (h : Fresh st0 cur nib ds b)
    (hb : ∀ x, cur.bitmap x = true → cur2.bitmap x = true) : Fresh st0 cur2 nib ds b :=
  ⟨h.1, h.2.1, hb b h.2.2⟩

theorem inode_direct_set (B : Block) (j k l r : Int) (h0 : 0 ≤ r) (h1 : r < 2147483648) :
    inode_direct (set_inode_direct B j k r) j l = if l = k then r else inode_direct B j l := by
  unfold inode_direct set_inode_direct
  by_cases hlk : l = k
  · subst hlk
    simp only [if_true]
    exact getInt_setInt_same _ _ _ (by omega) h1
  · simp only [hlk, if_false]
    exact getInt_setInt_ne _ _ _ _ (by omega)

/-- A newly found free block passes the range test when the inode table is
marked used. -/
theorem free_good (st0 cur : FsState) (nib ds r : Int)
    (hmeta : ∀ b, 0 ≤ b → b ≤ nib → st0.bitmap b = true)
    (hmono : ∀ b, st0.bitmap b = true → cur.bitmap b = true)
    (hr0 : 0 ≤ r) (hr1 : r < ds) (hr : cur.bitmap r = false) :
    badBlock nib ds r = false ∧ st0.bitmap r = false := by
  have h0 : st0.bitmap r = false := by
    by_contra hcon
    have := hmono r (by simpa using hcon)
    rw [hr] at this
    exact Bool.false_ne_true this
  refine ⟨?_, h0⟩
  rw [badBlock_false_iff]
  refine ⟨?_, hr1⟩
  by_contra hcon
  have := hmeta r hr0 (by omega)
  rw [h0] at this
  exact Bool.false_ne_true this

/-- One iteration of the direct loop advances the fill level, or meets a full
bitmap and leaves everything as it is. -/
theorem fill_step_d (st0 : FsState) (nib ds j dAI onb offset : Int) (data : Bytes) (L : Int)
    (wb : Block) (k m : Int) (v : WriteVars)
    (hnib : 0 ≤ nib) (hds : ds ≤ 2147483648) (hk0 : 0 ≤ k) (hk5 : k < 5)
    (hdAI : dAI = min 4 (onb - 1))
    (hmeta : ∀ b, 0 ≤ b → b ≤ nib → st0.bitmap b = true)
    (F : Fill st0 v.st nib ds onb offset L m (inode_direct v.inodeB j) v.written v.startByte
      v.ranOutOfMemory)
    (hwL : v.written < L)
    (hm : v.ranOutOfMemory = false → m = k) (hmk : m ≤ k)
    (hro : v.ranOutOfMemory = true → dAI < k)
    (hgood : k ≤ dAI → badBlock nib ds (inode_direct v.inodeB j k) = false) :
    ∃ m2, Fill st0 (writeDirectBody nib ds j dAI data L wb k v).st nib ds onb offset L m2
        (inode_direct (writeDirectBody nib ds j dAI data L wb k v).inodeB j)
        (writeDirectBody nib ds j dAI data L wb k v).written
        (writeDirectBody nib ds j dAI data L wb k v).startByte
        (writeDirectBody nib ds j dAI data L wb k v).ranOutOfMemory ∧
      ((writeDirectBody nib ds j dAI data L wb k v).ranOutOfMemory = false → m2 = k + 1) ∧
      m2 ≤ k + 1 ∧
      ((writeDirectBody nib ds j dAI data L wb k v).ranOutOfMemory = true → dAI < k + 1) ∧
      (∀ l, l ≠ k → inode_direct (writeDirectBody nib ds j dAI data L wb k v).inodeB j l
        = inode_direct v.inodeB j l) := by
  obtain ⟨vst, vB, vw, vsb, vch, vro⟩ := v
  obtain ⟨f1, f2, f3, f4, f5, f6, f7, f8, f9⟩ := F
  simp only at f1 f2 f3 f4 f5 f6 f7 f8 f9 hwL hm hro hgood
  have hL0 : 0 < L := by omega
  have hby := f6 hL0
  rcases writeDirectBody_cases nib ds j dAI data L wb k
      { st := vst, inodeB := vB, written := vw, startByte := vsb, changedInodeBlock := vch,
        ranOutOfMemory := vro } hnib f5.1 f5.2
    with ⟨h1, h2, h3⟩ | ⟨h1, h2, h3⟩ | ⟨h1, h2, h3⟩ | ⟨r, h1, hr0, hr1, hr2, h2, h3⟩ |
      ⟨r, h1, hr0, hr1, hr2, h2, h3⟩
  · -- an existing block is never refused
    exfalso
    simp only at h2
    rw [hgood h1] at h2
    exact Bool.false_ne_true h2
  · -- an existing block is written
    rw [h3]
    simp only at h1 h2 ⊢
    have hvro : vro = false := by
      by_contra hcon
      have := hro (by simpa using hcon)
      omega
    have hmk2 := hm hvro
    refine ⟨k + 1, ⟨f1, f2, f3, by omega, by omega, fun _ => by omega, Or.inl rfl, ?_, ?_⟩,
      fun _ => rfl, le_refl _, fun h => by have := hro h; omega, fun _ _ => trivial⟩
    · intro l hl0 hl1
      exact f8 l hl0 (by omega)
    · intro l l2 hl0 hl1 hl2
      exact f9 l l2 hl0 hl1 (by omega)
  · -- no free block
    rw [h3]
    simp only at h1 h2 ⊢
    refine ⟨m, ⟨f1, f2, fun _ b hb0 hb1 => h2 b hb0 (by rw [f1]; exact hb1), f4, f5, f6, f7, f8,
      f9⟩, fun h => absurd h (by decide), by omega, fun _ => by omega, fun _ _ => trivial⟩
  · -- a new block is never refused
    exfalso
    simp only at hr1 hr2
    have := (free_good st0 vst nib ds r hmeta f2 hr0 (by rw [← f1]; exact hr1) hr2).1
    rw [this] at h2
    exact Bool.false_ne_true h2
  · -- a new block is written
    rw [h3]
    simp only at h1 hr1 hr2 ⊢
    have hvro : vro = false := by
      by_contra hcon
      have := f3 (by simpa using hcon) r hr0 (by rw [← f1]; exact hr1)
      rw [hr2] at this
      exact Bool.false_ne_true this
    have hmk2 := hm hvro
    have hfg := free_good st0 vst nib ds r hmeta f2 hr0 (by rw [← f1]; exact hr1) hr2
    have hnew := fun l => inode_direct_set vB j k l r hr0 (by omega)
    refine ⟨k + 1, ⟨f1, fun b hb => update_true_mono _ _ _ (f2 b hb),
      fun h => absurd h (by rw [hvro]; decide), by omega, by omega, fun _ => by omega,
      Or.inl rfl, ?_, ?_⟩,
      fun _ => rfl, le_refl _, fun _ => by omega, ?_⟩
    · intro l hl0 hl1
      rw [hnew]
      by_cases hlk : l = k
      · simp only [hlk, if_true]
        exact ⟨hfg.1, hfg.2, by show Function.update vst.bitmap r true r = true; simp⟩
      · simp only [hlk, if_false]
        exact (f8 l hl0 (by omega)).stay (fun x hx => update_true_mono _ _ _ hx)
    · intro l l2 hl0 hl1 hl2
      rw [hnew, hnew]
      have hlk : l ≠ k := by omega
      simp only [hlk, if_false]
      by_cases hl2k : l2 = k
      · simp only [hl2k, if_true]
        intro heq
        have := (f8 l hl0 (by omega)).2.2
        rw [heq, hr2] at this
        exact Bool.false_ne_true this
      · simp only [hl2k, if_false]
        exact f9 l l2 hl0 hl1 (by omega)
    · intro l hl
      rw [hnew]
      simp only [hl, if_false]

/-- The direct loop of `fs_write` keeps the fill invariant. -/
theorem writeDirect_fill (st0 : FsState) (nib ds j dAI onb offset : Int) (data : Bytes) (L : Int)
    (uninit : Int → Block) (db : Int) (n : Nat) (k m : Int) (v : WriteVars)
    (hnib : 0 ≤ nib) (hds : ds ≤ 2147483648) (hk0 : 0 ≤ k) (hdb : db ≤ 5)
    (hdAI : dAI = min 4 (onb - 1))
    (hmeta : ∀ b, 0 ≤ b → b ≤ nib → st0.bitmap b = true)
    (F : Fill st0 v.st nib ds onb offset L m (inode_direct v.inodeB j) v.written v.startByte
      v.ranOutOfMemory)
    (hm : v.ranOutOfMemory = false → m = k) (hmk : m ≤ k)
    (hro : v.ranOutOfMemory = true → dAI < k)
    (hgood : ∀ l, k ≤ l → l ≤ dAI → badBlock nib ds (inode_direct v.inodeB j l) = false)
    (hfuel : db ≤ k + n) :
    ∃ m2, Fill st0 (writeDirect nib ds j dAI data L uninit db n k v).st nib ds onb offset L m2
        (inode_direct (writeDirect nib ds j dAI data L uninit db n k v).inodeB j)
        (writeDirect nib ds j dAI data L uninit db n k v).written
        (writeDirect nib ds j dAI data L uninit db n k v).startByte
        (writeDirect nib ds j dAI data L uninit db n k v).ranOutOfMemory ∧
      m2 ≤ max k db ∧
      ((writeDirect nib ds j dAI data L uninit db n k v).ranOutOfMemory = false →
        (writeDirect nib ds j dAI data L uninit db n k v).written < L → m2 = max k db) := by
  induction n generalizing k m v with
  | zero =>
    unfold writeDirect
    simp only [Nat.cast_zero, add_zero] at hfuel
    exact ⟨m, F, by omega, fun h _ => by have := hm h; omega⟩
  | succ n ih =>
    unfold writeDirect
    by_cases hc : k < db ∧ v.written < L
    · simp only [hc, and_self, if_true]
      obtain ⟨m1, F1, g1, g2, g3, g4⟩ := fill_step_d st0 nib ds j dAI onb offset data L (uninit k)
        k m v hnib hds hk0 (by omega) hdAI hmeta F hc.2 hm hmk hro (hgood k (le_refl _))
      obtain ⟨m2, F2, g5, g6⟩ := ih (k + 1) m1
        (writeDirectBody nib ds j dAI data L (uninit k) k v) (by omega) F1 g1 g2 g3
        (fun l hl0 hl1 => by
          rw [g4 l (by omega)]
          exact hgood l (by omega) hl1)
        (by push_cast at hfuel; omega)
      refine ⟨m2, F2, by omega, fun h1 h2 => ?_⟩
      have := g6 h1 h2
      omega
    · simp only [hc, if_false]
      refine ⟨m, F, by omega, fun h1 h2 => ?_⟩
      have := hm h1
      have : ¬ (k < db) := fun h => hc ⟨h, h2⟩
      omega

theorem slotFileBlock_slotPtr (d : Disk) (B : Block) (j l : Int) :
    slotFileBlock d B j l = slotPtr (inode_direct B j) (disk_read d (inode_indirect B j)) l := rfl

theorem slotPtr_set (dir : Int → Int) (pb : Block) (k l r : Int) (hk : 0 ≤ k) (h0 : 0 ≤ r)
    (h1 : r < 2147483648) :
    slotPtr dir (set_pointers pb k r) l = if l = k + 5 then r else slotPtr dir pb l := by
  unfold slotPtr
  by_cases hl : l < 5
  · have : l ≠ k + 5 := by omega
    simp only [hl, if_true, this, if_false]
  · simp only [hl, if_false]
    rw [pointers_set _ _ _ _ h0 h1]
    by_cases hlk : l = k + 5
    · have : l - 5 = k := by omega
      rw [this]
      simp only [hlk, if_true]
    · have : l - 5 ≠ k := by omega
      simp only [hlk, this, if_false]

/-- One iteration of the indirect loop advances the fill level, or meets a
full bitmap and leaves everything as it is; it does not reach the `return`
inside the loop. -/
theorem fill_step_i (st0 : FsState) (nib ds iAI onb offset : Int) (data : Bytes) (L : Int)
    (dir : Int → Int) (P k m : Int) (v : WriteIndVars)
    (hnib : 0 ≤ nib) (hds : ds ≤ 2147483648) (hk0 : 0 ≤ k)
    (hiAI : iAI = max (onb - 6) (-1))
    (hmeta : ∀ b, 0 ≤ b → b ≤ nib → st0.bitmap b = true)
    (F : Fill st0 v.st nib ds onb offset L m (slotPtr dir v.pointers_block) v.written v.startByte
      v.ranOutOfMemory)
    (hwL : v.written < L) (hro : v.ranOutOfMemory = false) (hm : m = k + 5)
    (hgood : k ≤ iAI → badBlock nib ds (pointers v.pointers_block k) = false)
    (hPu : v.st.bitmap P = true)
    (hPa : ∀ l, onb ≤ l → l < m → slotPtr dir v.pointers_block l ≠ P) :
    ∃ m2, Fill st0 (writeIndirectBody nib ds iAI data L k v).st nib ds onb offset L m2
        (slotPtr dir (writeIndirectBody nib ds iAI data L k v).pointers_block)
        (writeIndirectBody nib ds iAI data L k v).written
        (writeIndirectBody nib ds iAI data L k v).startByte
        (writeIndirectBody nib ds iAI data L k v).ranOutOfMemory ∧
      ((writeIndirectBody nib ds iAI data L k v).ranOutOfMemory = false → m2 = k + 6) ∧
      m2 ≤ k + 6 ∧
      (writeIndirectBody nib ds iAI data L k v).returned = v.returned ∧
      (∀ l, l ≠ k → pointers (writeIndirectBody nib ds iAI data L k v).pointers_block l
        = pointers v.pointers_block l) ∧
      (writeIndirectBody nib ds iAI data L k v).st.bitmap P = true ∧
      (∀ l, onb ≤ l → l < m2 →
        slotPtr dir (writeIndirectBody nib ds iAI data L k v).pointers_block l ≠ P) := by
  obtain ⟨vst, vpb, vwb, vw, vsb, vch, vro, vret⟩ := v
  obtain ⟨f1, f2, f3, f4, f5, f6, f7, f8, f9⟩ := F
  simp only at f1 f2 f3 f4 f5 f6 f7 f8 f9 hwL hro hgood hPu hPa
  subst hro hm
  have hL0 : 0 < L := by omega
  have hby := f6 hL0
  rcases writeIndirectBody_cases nib ds iAI data L k
      { st := vst, pointers_block := vpb, writeBlock := vwb, written := vw, startByte := vsb,
        changedPointersBlock := vch, ranOutOfMemory := false, returned := vret }
      hnib f5.1 f5.2 (by show vst.bitmapSize ≤ _; rw [f1]; exact hds)
    with ⟨h1, h2, h3⟩ | ⟨h1, h2, h3⟩ | ⟨h1, h2, h3⟩ | ⟨r, h1, hr0, hr1, hr2, h2, h3⟩ |
      ⟨r, h1, hr0, hr1, hr2, h2, h3⟩
  · -- an existing block is never refused
    exfalso
    simp only at h2
    rw [hgood h1] at h2
    exact Bool.false_ne_true h2
  · -- an existing block is written
    rw [h3]
    simp only at h1 h2 ⊢
    refine ⟨k + 6, ⟨f1, f2, f3, by omega, by omega, fun _ => by omega, Or.inl rfl, ?_, ?_⟩,
      fun _ => rfl, le_refl _, trivial, fun _ _ => trivial, hPu, ?_⟩
    · intro l hl0 hl1
      exact f8 l hl0 (by omega)
    · intro l l2 hl0 hl1 hl2
      exact f9 l l2 hl0 hl1 (by omega)
    · intro l hl0 hl1
      exact hPa l hl0 (by omega)
  · -- no free block
    rw [h3]
    simp only at h1 h2 ⊢
    refine ⟨k + 5, ⟨f1, f2, fun _ b hb0 hb1 => h2 b hb0 (by rw [f1]; exact hb1), f4, f5, f6, f7,
      f8, f9⟩, fun h => absurd h (by decide), by omega, trivial, fun _ _ => trivial, hPu, hPa⟩
  · -- a new block is never refused
    exfalso
    simp only at hr1 hr2
    have := (free_good st0 vst nib ds r hmeta f2 hr0 (by rw [← f1]; exact hr1) hr2).1
    rw [this] at h2
    exact Bool.false_ne_true h2
  · -- a new block is written
    rw [h3]
    simp only at h1 hr1 hr2 ⊢
    have hfg := free_good st0 vst nib ds r hmeta f2 hr0 (by rw [← f1]; exact hr1) hr2
    have hnew := fun l => slotPtr_set dir vpb k l r hk0 hr0 (by omega)
    have hrP : r ≠ P := by
      intro h
      rw [h, hPu] at hr2
      exact Bool.noConfusion hr2
    refine ⟨k + 6, ⟨f1, fun b hb => update_true_mono _ _ _ (f2 b hb),
      fun h => absurd h (by decide), by omega, by omega, fun _ => by omega,
      Or.inl rfl, ?_, ?_⟩,
      fun _ => rfl, le_refl _, trivial, ?_, update_true_mono _ _ _ hPu, ?_⟩
    · intro l hl0 hl1
      rw [hnew]
      by_cases hlk : l = k + 5
      · simp only [hlk, if_true]
        exact ⟨hfg.1, hfg.2, by show Function.update vst.bitmap r true r = true; simp⟩
      · simp only [hlk, if_false]
        exact (f8 l hl0 (by omega)).stay (fun x hx => update_true_mono _ _ _ hx)
    · intro l l2 hl0 hl1 hl2
      rw [hnew, hnew]
      have hlk : l ≠ k + 5 := by omega
      simp only [hlk, if_false]
      by_cases hl2k : l2 = k + 5
      · simp only [hl2k, if_true]
        intro heq
        have := (f8 l hl0 (by omega)).2.2
        rw [heq, hr2] at this
        exact Bool.false_ne_true this
      · simp only [hl2k, if_false]
        exact f9 l l2 hl0 hl1 (by omega)
    · intro l hl
      exact pointers_set_ne _ _ _ _ hl
    · intro l hl0 hl1
      rw [hnew]
      by_cases hlk : l = k + 5
      · simp only [hlk, if_true]
        exact hrP
      · simp only [hlk, if_false]
        exact hPa l hl0 (by omega)

/-- The indirect loop of `fs_write` keeps the fill invariant and ends without
the `return` inside the loop. -/
theorem writeIndirect_fill (st0 : FsState) (nib ds iAI onb offset : Int) (data : Bytes) (L : Int)
    (dir : Int → Int) (P ib : Int) (n : Nat) (k m : Int) (v : WriteIndVars)
    (hnib : 0 ≤ nib) (hds : ds ≤ 2147483648) (hk0 : 0 ≤ k)
    (hiAI : iAI = max (onb - 6) (-1))
    (hmeta : ∀ b, 0 ≤ b → b ≤ nib → st0.bitmap b = true)
    (F : Fill st0 v.st nib ds onb offset L m (slotPtr dir v.pointers_block) v.written v.startByte
      v.ranOutOfMemory)
    (hm : v.ranOutOfMemory = false → v.written < L → m = k + 5)
    (hret : v.returned = false)
    (hgood : ∀ l, k ≤ l → l ≤ iAI → badBlock nib ds (pointers v.pointers_block l) = false)
    (hPu : v.st.bitmap P = true)
    (hPa : ∀ l, onb ≤ l → l < m → slotPtr dir v.pointers_block l ≠ P) :
    ∃ m2, Fill st0 (writeIndirect nib ds iAI data L ib n k v).st nib ds onb offset L m2
        (slotPtr dir (writeIndirect nib ds iAI data L ib n k v).pointers_block)
        (writeIndirect nib ds iAI data L ib n k v).written
        (writeIndirect nib ds iAI data L ib n k v).startByte
        (writeIndirect nib ds iAI data L ib n k v).ranOutOfMemory ∧
      (writeIndirect nib ds iAI data L ib n k v).returned = false ∧
      (writeIndirect nib ds iAI data L ib n k v).st.bitmap P = true ∧
      (∀ l, onb ≤ l → l < m2 →
        slotPtr dir (writeIndirect nib ds iAI data L ib n k v).pointers_block l ≠ P) := by
  induction n generalizing k m v with
  | zero =>
    unfold writeIndirect
    exact ⟨m, F, hret, hPu, hPa⟩
  | succ n ih =>
    unfold writeIndirect
    by_cases hc : k < ib ∧ v.written < L ∧ v.ranOutOfMemory = false
    · simp only [hc, and_self, if_true]
      obtain ⟨m1, F1, g1, g2, g3, g4, g5, g6⟩ := fill_step_i st0 nib ds iAI onb offset data L dir
        P k m v hnib hds hk0 hiAI hmeta F hc.2.1 hc.2.2 (hm hc.2.2 hc.2.1)
        (hgood k (le_refl _)) hPu hPa
      have hr1 : (writeIndirectBody nib ds iAI data L k v).returned = false := by
        rw [g3]; exact hret
      simp only [hr1, Bool.false_eq_true, if_false]
      exact ih (k + 1) m1 (writeIndirectBody nib ds iAI data L k v) (by omega) F1
        (fun h _ => by have := g1 h; omega) hr1
        (fun l hl0 hl1 => by
          rw [g4 l (by omega)]
          exact hgood l (by omega) hl1)
        g5 g6
    · simp only [hc, if_false]
      exact ⟨m, F, hret, hPu, hPa⟩

/-! ## `fs_write`: the shape of the inode afterwards -/

/-- The end of `fs_write` turns the fill invariant into the shape of the
inode: `B` is the inode block in memory, `w` the bytes written. -/
theorem writeFinish_shape (st0 st2 : FsState) (nib ds iB j : Int) (B B0 : Block)
    (size offset w L onb m sb : Int) (ro : Bool)
    (hib0 : 0 ≤ iB + 1) (hib1 : iB + 1 < st2.disk.nblocks) (hibn : iB + 1 ≤ nib)
    (hsz0 : 0 ≤ size) (honb : nblocksOf size = onb) (ho0 : 0 ≤ offset)
    (ho1 : offset ≤ 4096 * onb) (hwL : w ≤ L)
    (F : Fill st0 st2 nib ds onb offset L m (slotFileBlock st2.disk B j) w sb ro)
    (hold : ∀ l, 0 ≤ l → l < onb →
      slotFileBlock st2.disk B j l = slotFileBlock st0.disk B0 j l)
    (hindold : onb > 5 → inode_indirect B j = inode_indirect B0 j ∧ nib < inode_indirect B0 j)
    (hindnew : onb ≤ 5 → 5 < m → Fresh st0 st2 nib ds (inode_indirect B j) ∧
      ∀ l, onb ≤ l → l < m → slotFileBlock st2.disk B j l ≠ inode_indirect B j)
    (hD : ¬ (offset + w > size) →
      inode_size (disk_read st2.disk (iB + 1)) j = size ∧
      (∀ l, 0 ≤ l → l < 5 → l < onb →
        inode_direct (disk_read st2.disk (iB + 1)) j l = inode_direct B j l) ∧
      (onb > 5 → inode_indirect (disk_read st2.disk (iB + 1)) j = inode_indirect B j)) :
    WShape st0 nib ds iB j B0 onb (writeFinish st2 iB j B size offset w) := by
  have honb0 : 0 ≤ onb := by
    rw [← honb, nblocksOf_nonneg size hsz0]; omega
  have hw0 := F.written_nn
  unfold writeFinish
  simp only [BYTES_PER_BLOCK, POINTERS_PER_INODE, POINTERS_PER_BLOCK]
  have e : (4096 : Int) * (5 + 1024) = 4214784 := by norm_num
  rw [e]
  by_cases hg : offset + w > size
  · simp only [hg, if_true]
    have hmin : (if offset + w > 4214784 then 4214784 else offset + w)
        = min (offset + w) 4214784 := by
      split <;> omega
    rw [hmin]
    have hrd : disk_read (disk_write st2.disk (iB + 1)
        (set_inode_size B j (min (offset + w) 4214784))) (iB + 1)
        = set_inode_size B j (min (offset + w) 4214784) := disk_read_write_same _ _ _ hib0 hib1
    have hns : inode_size (set_inode_size B j (min (offset + w) 4214784)) j
        = min (offset + w) 4214784 := inode_size_set_size _ _ _ (by omega) (by omega)
    have hnbf : nblocksOf (min (offset + w) 4214784) = (min (offset + w) 4214784 + 4095) / 4096 :=
      nblocksOf_nonneg _ (by omega)
    -- a logical block of the new file beyond the old ones lies below the fill level
    have key : ∀ l, onb ≤ l → l < nblocksOf (min (offset + w) 4214784) → l < m := by
      intro l hl0 hl1
      rw [hnbf] at hl1
      have h1 : 4096 * l < offset + w := by omega
      by_cases hL : 0 < L
      · have := F.bytes hL
        have := F.sb_range
        rcases F.start with hs | hs <;> omega
      · omega
    have hPne : (onb > 5 ∨ 5 < m) → inode_indirect B j ≠ iB + 1 := by
      intro h
      by_cases hon : onb > 5
      · have := hindold hon
        omega
      · have hm5 : 5 < m := by omega
        have := ((badBlock_false_iff _ _ _).1 (hindnew (by omega) hm5).1.1).1
        omega
    have heq : ∀ l, 0 ≤ l → (l < 5 ∨ onb > 5 ∨ 5 < m) →
        slotFileBlock (disk_write st2.disk (iB + 1)
          (set_inode_size B j (min (offset + w) 4214784)))
          (set_inode_size B j (min (offset + w) 4214784)) j l = slotFileBlock st2.disk B j l := by
      intro l hl0 hl
      by_cases hl5 : l < 5
      · rw [slotFileBlock_direct _ _ _ _ hl5, slotFileBlock_direct _ _ _ _ hl5,
          inode_direct_set_size _ _ _ _ hl0]
      · rw [slotFileBlock_indirect _ _ _ _ (by omega), slotFileBlock_indirect _ _ _ _ (by omega),
          inode_indirect_set_size, disk_read_write_ne _ _ _ _ (hPne (by omega))]
    refine ⟨?_, ?_, ?_, ?_, ?_⟩
    · intro l hl0 hl1
      show slotFileBlock (disk_write _ _ _) (disk_read (disk_write _ _ _) (iB + 1)) j l = _
      rw [hrd, heq l hl0 (by omega)]
      exact hold l hl0 hl1
    · intro l hl0 hl1
      show Fresh st0 _ nib ds
        (slotFileBlock (disk_write _ _ _) (disk_read (disk_write _ _ _) (iB + 1)) j l)
      have hl1' : l < nblocksOf (inode_size (disk_read (disk_write st2.disk (iB + 1)
          (set_inode_size B j (min (offset + w) 4214784))) (iB + 1)) j) := hl1
      rw [hrd, hns] at hl1'
      have hlm := key l hl0 hl1'
      rw [hrd, heq l (by omega) (by omega)]
      exact F.fresh l hl0 hlm
    · intro l l2 hl0 hl1 hl2
      show slotFileBlock (disk_write _ _ _) (disk_read (disk_write _ _ _) (iB + 1)) j l
        ≠ slotFileBlock (disk_write _ _ _) (disk_read (disk_write _ _ _) (iB + 1)) j l2
      have hl2' : l2 < nblocksOf (inode_size (disk_read (disk_write st2.disk (iB + 1)
          (set_inode_size B j (min (offset + w) 4214784))) (iB + 1)) j) := hl2
      rw [hrd, hns] at hl2'
      have hlm := key l2 (by omega) hl2'
      rw [hrd, heq l (by omega) (by omega), heq l2 (by omega) (by omega)]
      exact F.apart l l2 hl0 hl1 hlm
    · intro hon
      show inode_indirect (disk_read (disk_write _ _ _) (iB + 1)) j = _
      rw [hrd, inode_indirect_set_size]
      exact (hindold hon).1
    · intro hon hnb
      have hnb' : nblocksOf (inode_size (disk_read (disk_write st2.disk (iB + 1)
          (set_inode_size B j (min (offset + w) 4214784))) (iB + 1)) j) > 5 := hnb
      rw [hrd, hns] at hnb'
      have hm5 : 5 < m := key 5 hon hnb'
      obtain ⟨hF, hA⟩ := hindnew hon hm5
      refine ⟨?_, ?_⟩
      · show Fresh st0 _ nib ds (inode_indirect (disk_read (disk_write _ _ _) (iB + 1)) j)
        rw [hrd, inode_indirect_set_size]
        exact hF
      · intro l hl0 hl1
        show slotFileBlock (disk_write _ _ _) (disk_read (disk_write _ _ _) (iB + 1)) j l
          ≠ inode_indirect (disk_read (disk_write _ _ _) (iB + 1)) j
        have hl1' : l < nblocksOf (inode_size (disk_read (disk_write st2.disk (iB + 1)
            (set_inode_size B j (min (offset + w) 4214784))) (iB + 1)) j) := hl1
        rw [hrd, hns] at hl1'
        rw [hrd, heq l (by omega) (by omega), inode_indirect_set_size]
        exact hA l hl0 (key l hl0 hl1')
  · simp only [hg, if_false]
    obtain ⟨hD1, hD2, hD3⟩ := hD hg
    have heq : ∀ l, 0 ≤ l → l < onb →
        slotFileBlock st2.disk (disk_read st2.disk (iB + 1)) j l = slotFileBlock st2.disk B j l := by
      intro l hl0 hl1
      by_cases hl5 : l < 5
      · rw [slotFileBlock_direct _ _ _ _ hl5, slotFileBlock_direct _ _ _ _ hl5, hD2 l hl0 hl5 hl1]
      · rw [slotFileBlock_indirect _ _ _ _ (by omega), slotFileBlock_indirect _ _ _ _ (by omega),
          hD3 (by omega)]
    have hnbf : nblocksOf (inode_size (disk_read st2.disk (iB + 1)) j) = onb := by
      rw [hD1, honb]
    refine ⟨?_, ?_, ?_, ?_, ?_⟩
    · intro l hl0 hl1
      show slotFileBlock st2.disk (disk_read st2.disk (iB + 1)) j l = _
      rw [heq l hl0 hl1]
      exact hold l hl0 hl1
    · intro l hl0 hl1
      have hl1' : l < nblocksOf (inode_size (disk_read st2.disk (iB + 1)) j) := hl1
      omega
    · intro l l2 hl0 hl1 hl2
      have hl2' : l2 < nblocksOf (inode_size (disk_read st2.disk (iB + 1)) j) := hl2
      omega
    · intro hon
      show inode_indirect (disk_read st2.disk (iB + 1)) j = _
      rw [hD3 hon]
      exact (hindold hon).1
    · intro hon hnb
      have hnb' : nblocksOf (inode_size (disk_read st2.disk (iB + 1)) j) > 5 := hnb
      omega

/-- The fill invariant survives a change of the current state that keeps the
length of the bitmap, clears no bit and keeps the pointers below the fill
level. -/
theorem Fill.transfer {st0 cur cur2 : FsState} {nib ds onb offset L m : Int} {ptr ptr2 : Int → Int}
    {w sb : Int} {ro : Bool} (F : Fill st0 cur nib ds onb offset L m ptr w sb ro)
    (hbs : cur2.bitmapSize = cur.bitmapSize)
    (hbm : ∀ x, cur.bitmap x = true → cur2.bitmap x = true)
    (hptr : ∀ l, onb ≤ l → l < m → ptr2 l = ptr l) :
    Fill st0 cur2 nib ds onb offset L m ptr2 w sb ro where
  bitmapSize := hbs.trans F.bitmapSize
  mono := fun b hb => hbm b (F.mono b hb)
  full := fun h b h0 h1 => hbm b (F.full h b h0 h1)
  written_nn := F.written_nn
  sb_range := F.sb_range
  bytes := F.bytes
  start := F.start
  fresh := fun l h0 h1 => by
    rw [hptr l h0 h1]
    exact (F.fresh l h0 h1).stay hbm
  apart := fun l l2 h0 h1 h2 => by
    rw [hptr l h0 (by omega), hptr l2 (by omega) h2]
    exact F.apart l l2 h0 h1 h2

theorem pointers_congr (b1 b2 : Block) (l : Int) (h : ∀ i, i / 4 = l → b1 i = b2 i) :
    pointers b1 l = pointers b2 l := by
  unfold pointers
  exact getInt_congr _ _ _ h

/-- The indirect part after the allocation of the indirect block: from the
fill invariant to the shape of the inode. -/
theorem writeIndirectRun_shape (st0 st : FsState) (ro : Bool) (nib ds iB j : Int)
    (B2 B0 : Block) (data : Bytes) (L : Int) (wb : Block) (size offset : Int)
    (iAI ib sib siy written onb m : Int)
    (hnib : 0 ≤ nib) (hds : ds ≤ 2147483648) (hib0 : 0 ≤ iB + 1) (hibn : iB + 1 ≤ nib)
    (hnbl : st.disk.nblocks = ds) (hnd : nib < ds)
    (hsz0 : 0 ≤ size) (honb : nblocksOf size = onb) (ho0 : 0 ≤ offset)
    (ho1 : offset ≤ 4096 * onb) (hwL : written ≤ L)
    (hsib : 0 ≤ sib) (hiAI : iAI = max (onb - 6) (-1))
    (hmeta : ∀ b, 0 ≤ b → b ≤ nib → st0.bitmap b = true)
    (F : Fill st0 st nib ds onb offset L m (slotFileBlock st.disk B2 j) written siy ro)
    (hm : ro = false → written < L → m = sib + 5)
    (hro : ro = true → onb ≤ 5 ∧ m ≤ 5)
    (hold : ∀ l, 0 ≤ l → l < onb →
      slotFileBlock st.disk B2 j l = slotFileBlock st0.disk B0 j l)
    (hgood : ∀ l, 0 ≤ l → l < onb → badBlock nib ds (slotFileBlock st0.disk B0 j l) = false)
    (hindold : onb > 5 → inode_indirect B2 j = inode_indirect B0 j)
    (hP : ro = false → badBlock nib ds (inode_indirect B2 j) = false ∧
      st.bitmap (inode_indirect B2 j) = true ∧
      (onb ≤ 5 → st0.bitmap (inode_indirect B2 j) = false) ∧
      ∀ l, 0 ≤ l → l < max onb m → slotFileBlock st.disk B2 j l ≠ inode_indirect B2 j)
    (hD : inode_size (disk_read st.disk (iB + 1)) j = size ∧
      (∀ l, 0 ≤ l → l < 5 → l < onb →
        inode_direct (disk_read st.disk (iB + 1)) j l = inode_direct B2 j l) ∧
      (onb > 5 → inode_indirect (disk_read st.disk (iB + 1)) j = inode_indirect B2 j)) :
    WShape st0 nib ds iB j B0 onb
      (writeIndirectRun st ro nib ds iB j B2 data L wb size offset iAI ib sib siy written) := by
  have honb0 : 0 ≤ onb := by
    rw [← honb, nblocksOf_nonneg size hsz0]; omega
  unfold writeIndirectRun
  simp only []
  have IF := writeIndirect_frame nib ds iAI data L ib (ib - sib).toNat sib
    { st := st, pointers_block := disk_read st.disk (inode_indirect B2 j), writeBlock := wb,
      written := written, startByte := siy, changedPointersBlock := false,
      ranOutOfMemory := ro, returned := false }
    hnib F.sb_range.1 F.sb_range.2 hwL (by show st.bitmapSize ≤ _; rw [F.bitmapSize]; exact hds)
  cases ro with
  | true =>
    -- the allocation of the indirect block failed: the loop does not run
    have hst := IF.stuck rfl
    rw [hst]
    simp only [Bool.false_eq_true, if_false]
    obtain ⟨hro1, hro2⟩ := hro rfl
    exact writeFinish_shape st0 st nib ds iB j B2 B0 size offset written L onb m siy true
      hib0 (by omega) hibn hsz0 honb ho0 ho1 hwL F hold
      (fun h => by omega) (fun _ h => by omega) (fun _ => hD)
  | false =>
    obtain ⟨hP1, hP2, hP3, hP4⟩ := hP rfl
    have hPr := (badBlock_false_iff _ _ _).1 hP1
    have FL := writeIndirect_fill st0 nib ds iAI onb offset data L (inode_direct B2 j)
      (inode_indirect B2 j) ib (ib - sib).toNat sib m
      { st := st, pointers_block := disk_read st.disk (inode_indirect B2 j), writeBlock := wb,
        written := written, startByte := siy, changedPointersBlock := false,
        ranOutOfMemory := false, returned := false }
      hnib hds hsib hiAI hmeta F (fun _ h => hm rfl h) rfl
      (fun l hl0 hl1 => by
        have h1 := hold (l + 5) (by omega) (by omega)
        rw [slotFileBlock_indirect _ _ _ _ (by omega)] at h1
        have e : l + 5 - 5 = l := by omega
        rw [e] at h1
        show badBlock nib ds (pointers (disk_read st.disk (inode_indirect B2 j)) l) = false
        rw [h1]
        exact hgood (l + 5) (by omega) (by omega))
      hP2 (fun l hl0 hl1 => hP4 l (by omega) (by omega))
    revert IF FL
    generalize writeIndirect nib ds iAI data L ib (ib - sib).toNat sib
      { st := st, pointers_block := disk_read st.disk (inode_indirect B2 j), writeBlock := wb,
        written := written, startByte := siy, changedPointersBlock := false,
        ranOutOfMemory := false, returned := false } = v2
    intro IF FL
    obtain ⟨m2, F2, hret, hPu2, hPa2⟩ := FL
    simp only [hret, Bool.false_eq_true, if_false]
    -- the state after the pointer block is written back
    obtain ⟨st2, hst2⟩ : ∃ st2 : FsState, st2 = (if v2.changedPointersBlock = true then
          ({ v2.st with disk := (disk_write v2.st.disk (inode_indirect B2 j) v2.pointers_block) }
            : FsState) else v2.st) := ⟨_, rfl⟩
    rw [← hst2]
    have e2 : st2.bitmapSize = v2.st.bitmapSize := by rw [hst2]; split <;> rfl
    have e4 : st2.bitmap = v2.st.bitmap := by rw [hst2]; split <;> rfl
    have e5 : st2.disk.nblocks = ds := by
      rw [hst2]; split
      · show (disk_write _ _ _).nblocks = _
        rw [disk_write_nblocks]; exact IF.nblocks.trans hnbl
      · exact IF.nblocks.trans hnbl
    have hPfr : disk_read v2.st.disk (inode_indirect B2 j)
        = disk_read st.disk (inode_indirect B2 j) := by
      refine IF.disk_frame _ hP2 (fun l hl0 hl1 hl2 => ?_)
      have h1 := hP4 (l + 5) (by omega) (by omega)
      rw [slotFileBlock_indirect _ _ _ _ (by omega)] at h1
      have e : l + 5 - 5 = l := by omega
      rw [e] at h1
      exact fun h => h1 h.symm
    have e7 : disk_read st2.disk (inode_indirect B2 j) = v2.pointers_block := by
      rw [hst2]
      by_cases hc : v2.changedPointersBlock = true
      · rw [if_pos hc]
        exact disk_read_write_same _ _ _ (by omega) (by rw [IF.nblocks, hnbl]; omega)
      · rw [if_neg hc]
        have hc2 : v2.changedPointersBlock = false := by simpa using hc
        rw [IF.unchanged hc2, hPfr]
    have e6 : disk_read st2.disk (iB + 1) = disk_read st.disk (iB + 1) := by
      have h1 : disk_read v2.st.disk (iB + 1) = disk_read st.disk (iB + 1) :=
        IF.disk_bad _ (badBlock_meta _ _ _ hibn)
      rw [hst2]
      split
      · show disk_read (disk_write _ _ _) (iB + 1) = _
        rw [disk_read_write_ne _ _ _ _ (by omega), h1]
      · exact h1
    have hptr : ∀ l, slotFileBlock st2.disk B2 j l
        = slotPtr (inode_direct B2 j) v2.pointers_block l := by
      intro l
      rw [slotFileBlock_slotPtr, e7]
    have hkeep : ∀ l, 0 ≤ l → l < onb →
        slotFileBlock st2.disk B2 j l = slotFileBlock st.disk B2 j l := by
      intro l hl0 hl1
      by_cases hl5 : l < 5
      · rw [slotFileBlock_direct _ _ _ _ hl5, slotFileBlock_direct _ _ _ _ hl5]
      · rw [slotFileBlock_indirect _ _ _ _ (by omega), slotFileBlock_indirect _ _ _ _ (by omega),
          e7]
        exact pointers_congr _ _ _ (fun i hi => IF.pointers_frame i (by omega))
    refine writeFinish_shape st0 st2 nib ds iB j B2 B0 size offset v2.written L onb m2
      v2.startByte v2.ranOutOfMemory hib0 (by omega) hibn hsz0 honb ho0 ho1 IF.written_le
      (F2.transfer e2 (fun x hx => by rw [e4]; exact hx) (fun l _ _ => hptr l))
      (fun l hl0 hl1 => by rw [hkeep l hl0 hl1]; exact hold l hl0 hl1)
      (fun h => ⟨hindold h, by rw [← hindold h]; exact hPr.1⟩)
      (fun hon hm5 => ⟨⟨hP1, hP3 hon, by rw [e4]; exact hPu2⟩,
        fun l hl0 hl1 => by rw [hptr]; exact hPa2 l hl0 hl1⟩)
      (fun _ => by rw [e6]; exact hD)

/-- The indirect part of `fs_write`, entered with `ranOutOfMemory` clear: from
the fill invariant to the shape of the inode. -/
theorem writeIndirectPart_shape (st0 st1 : FsState) (nib ds iB j : Int)
    (inodeB B0 : Block) (data : Bytes) (L : Int) (wb : Block) (size offset : Int)
    (alloc : Bool) (iAI ib sib siy written onb m : Int)
    (hnib : 0 ≤ nib) (hds : ds ≤ 2147483648) (hib0 : 0 ≤ iB + 1) (hibn : iB + 1 ≤ nib)
    (hnbl : st1.disk.nblocks = ds) (hnd : nib < ds)
    (hsz0 : 0 ≤ size) (honb : nblocksOf size = onb) (ho0 : 0 ≤ offset)
    (ho1 : offset ≤ 4096 * onb) (hwL : written ≤ L)
    (hsib : 0 ≤ sib) (hiAI : iAI = max (onb - 6) (-1))
    (hmeta : ∀ b, 0 ≤ b → b ≤ nib → st0.bitmap b = true)
    (F : Fill st0 st1 nib ds onb offset L m (slotFileBlock st1.disk inodeB j) written siy false)
    (hm : written < L → m = sib + 5) (hmo : m ≤ max onb 5)
    (halloc : alloc = true ↔ onb ≤ 5)
    (hold : ∀ l, 0 ≤ l → l < onb →
      slotFileBlock st1.disk inodeB j l = slotFileBlock st0.disk B0 j l)
    (hex : ∀ l, 0 ≤ l → l < onb → badBlock nib ds (slotFileBlock st0.disk B0 j l) = false ∧
      st0.bitmap (slotFileBlock st0.disk B0 j l) = true)
    (hindold : onb > 5 → inode_indirect inodeB j = inode_indirect B0 j)
    (hP : onb > 5 → badBlock nib ds (inode_indirect B0 j) = false ∧
      st0.bitmap (inode_indirect B0 j) = true ∧
      ∀ l, 0 ≤ l → l < onb → slotFileBlock st0.disk B0 j l ≠ inode_indirect B0 j)
    (hD : inode_size (disk_read st1.disk (iB + 1)) j = size ∧
      (∀ l, 0 ≤ l → l < 5 → l < onb →
        inode_direct (disk_read st1.disk (iB + 1)) j l = inode_direct inodeB j l) ∧
      (onb > 5 → inode_indirect (disk_read st1.disk (iB + 1)) j = inode_indirect inodeB j)) :
    WShape st0 nib ds iB j B0 onb
      (writeIndirectPart st1 nib ds iB j inodeB data L wb size offset alloc iAI ib sib siy
        written) := by
  have honb0 : 0 ≤ onb := by
    rw [← honb, nblocksOf_nonneg size hsz0]; omega
  unfold writeIndirectPart
  simp only []
  rcases allocIndirect_cases st1 j inodeB alloc with ⟨ha, he⟩ | ⟨ha, hfull, he⟩ |
    ⟨r, ha, hr0, hr1, hrb, he⟩
  · -- the file has an indirect block already
    rw [he]
    have hon : onb > 5 := by
      by_contra hcon
      have := halloc.2 (by omega)
      rw [ha] at this; exact Bool.false_ne_true this
    obtain ⟨hP1, hP2, hP3⟩ := hP hon
    exact writeIndirectRun_shape st0 st1 false nib ds iB j inodeB B0 data L wb size offset iAI ib
      sib siy written onb m hnib hds hib0 hibn hnbl hnd hsz0 honb ho0 ho1 hwL hsib hiAI hmeta F
      (fun _ h => hm h) (fun h => absurd h (by decide)) hold (fun l h0 h1 => (hex l h0 h1).1)
      hindold
      (fun _ => by
        rw [hindold hon]
        refine ⟨hP1, F.mono _ hP2, fun h => by omega, ?_⟩
        intro l hl0 hl1
        rw [hold l hl0 (by omega)]
        exact hP3 l hl0 (by omega))
      hD
  · -- no block is left for the indirect block
    rw [he]
    have hon : onb ≤ 5 := halloc.1 ha
    exact writeIndirectRun_shape st0 st1 true nib ds iB j inodeB B0 data L wb size offset iAI ib
      sib siy written onb m hnib hds hib0 hibn hnbl hnd hsz0 honb ho0 ho1 hwL hsib hiAI hmeta
      { F with full := fun _ b hb0 hb1 => hfull b hb0 (by rw [F.bitmapSize]; exact hb1) }
      (fun h => absurd h (by decide)) (fun _ => ⟨hon, by omega⟩) hold
      (fun l h0 h1 => (hex l h0 h1).1) hindold (fun h => absurd h (by decide)) hD
  · -- the indirect block is newly allocated
    rw [he]
    have hon : onb ≤ 5 := halloc.1 ha
    have hm5 : m ≤ 5 := by omega
    have hfg := free_good st0 st1 nib ds r hmeta F.mono hr0 (by rw [← F.bitmapSize]; exact hr1) hrb
    have hI : inode_indirect (set_inode_indirect inodeB j r) j = r :=
      inode_indirect_set _ _ _ hr0 (by have := F.bitmapSize; omega)
    have hptr : ∀ l, l < 5 →
        slotFileBlock st1.disk (set_inode_indirect inodeB j r) j l
          = slotFileBlock st1.disk inodeB j l := by
      intro l hl
      rw [slotFileBlock_direct _ _ _ _ hl, slotFileBlock_direct _ _ _ _ hl,
        inode_direct_set_indirect _ _ _ _ hl]
    exact writeIndirectRun_shape st0 { st1 with bitmap := Function.update st1.bitmap r true }
      false nib ds iB j (set_inode_indirect inodeB j r) B0 data L wb size offset iAI ib
      sib siy written onb m hnib hds hib0 hibn hnbl hnd hsz0 honb ho0 ho1 hwL hsib hiAI hmeta
      (F.transfer rfl (fun x hx => update_true_mono _ _ _ hx) (fun l _ hl1 => hptr l (by omega)))
      (fun _ h => hm h) (fun h => absurd h (by decide))
      (fun l hl0 hl1 => by
        show slotFileBlock st1.disk (set_inode_indirect inodeB j r) j l = _
        rw [hptr l (by omega)]
        exact hold l hl0 hl1)
      (fun l h0 h1 => (hex l h0 h1).1)
      (fun h => by omega)
      (fun _ => by
        rw [hI]
        refine ⟨hfg.1, by show Function.update st1.bitmap r true r = true; simp,
          fun _ => hfg.2, ?_⟩
        intro l hl0 hl1
        show slotFileBlock st1.disk (set_inode_indirect inodeB j r) j l ≠ r
        rw [hptr l (by omega)]
        intro heq
        by_cases hlo : l < onb
        · have h1 := F.mono _ (hex l hl0 hlo).2
          rw [← hold l hl0 hlo, heq, hrb] at h1
          exact Bool.false_ne_true h1
        · have h1 := (F.fresh l (by omega) (by omega)).2.2
          rw [heq, hrb] at h1
          exact Bool.false_ne_true h1)
      ⟨hD.1, fun l hl0 hl1 hl2 => by
          show inode_direct (disk_read st1.disk (iB + 1)) j l = _
          rw [inode_direct_set_indirect _ _ _ _ hl1]
          exact hD.2.1 l hl0 hl1 hl2,
        fun h => by omega⟩

/-- The shape of the inode after `writeInode`, for an offset that leaves no
hole: the old blocks of the file pass the range test, are marked used and
differ from its indirect block. -/
theorem writeInode_shape (st : FsState) (nib iB j : Int) (inodeB : Block) (data : Bytes)
    (L offset : Int) (u : Uninit)
    (size onb sdb sdy sib siy nb' dAI iAI db ib offset' : Int) (alloc : Bool)
    (e_size : inode_size inodeB j = size) (e_onb : nblocksOf size = onb)
    (e_sdy : offset.tmod BYTES_PER_BLOCK = sdy) (e_siy : startIndirectByteOf offset = siy)
    (e_sdb : offset.tdiv BYTES_PER_BLOCK = sdb) (e_sib : startIndirectBlockOf offset = sib)
    (e_nb : onb + blocksToAllocateOf (offset + L - onb * BYTES_PER_BLOCK) = nb')
    (e_dAI : (if onb ≥ POINTERS_PER_INODE then POINTERS_PER_INODE - 1 else onb - 1) = dAI)
    (e_iAI : (if onb ≥ POINTERS_PER_INODE then onb - POINTERS_PER_INODE - 1 else -1) = iAI)
    (e_alloc : (decide (onb ≤ POINTERS_PER_INODE) && decide (nb' > POINTERS_PER_INODE)) = alloc)
    (e_off : (if offset > BYTES_PER_BLOCK * onb then BYTES_PER_BLOCK * onb else offset) = offset')
    (e_db : directBlocks nb' = db) (e_ib : indirectBlocksCapped nb' = ib)
    (hnib : 0 ≤ nib) (hib0 : 0 ≤ iB + 1) (hibn : iB + 1 ≤ nib) (hnd : nib < st.disk.nblocks)
    (hdsk : disk_read st.disk (iB + 1) = inodeB)
    (hbs : st.bitmapSize = st.disk.nblocks) (hsz : st.disk.nblocks ≤ 2147483648)
    (hmeta : ∀ b, 0 ≤ b → b ≤ nib → st.bitmap b = true)
    (hsz0 : 0 ≤ size) (hL : 0 ≤ L) (ho0 : 0 ≤ offset) (ho1 : offset ≤ 4096 * onb)
    (hsdy : sdy = offset % 4096) (hsdb : sdb = offset / 4096)
    (hsiy : siy = if 20480 ≤ offset then (offset - 20480) % 4096 else 0)
    (hsib : sib = if 20480 ≤ offset then (offset - 20480) / 4096 else 0)
    (hdAI : dAI = min 4 (onb - 1)) (hiAI : iAI = max (onb - 6) (-1))
    (hdb : db = min nb' 5) (hibnb : ib > 0 → nb' > 5)
    (halloc : alloc = true ↔ (onb ≤ 5 ∧ nb' > 5))
    (hex : ∀ l, 0 ≤ l → l < onb →
      badBlock nib (disk_size st.disk) (slotFileBlock st.disk inodeB j l) = false ∧
      st.bitmap (slotFileBlock st.disk inodeB j l) = true)
    (hInd : onb > 5 → badBlock nib (disk_size st.disk) (inode_indirect inodeB j) = false ∧
      st.bitmap (inode_indirect inodeB j) = true ∧
      ∀ l, 0 ≤ l → l < onb → slotFileBlock st.disk inodeB j l ≠ inode_indirect inodeB j) :
    WShape st nib (disk_size st.disk) iB j inodeB onb
      (writeInode st nib iB j inodeB data L offset u) := by
  have honb0 : 0 ≤ onb := by
    rw [← e_onb, nblocksOf_nonneg size hsz0]; omega
  have hoff : offset' = offset := by
    rw [← e_off]
    simp only [BYTES_PER_BLOCK]
    split <;> omega
  have hds : disk_size st.disk = st.disk.nblocks := rfl
  unfold writeInode
  simp only [e_size, e_onb, e_sdy, e_siy, e_sdb, e_sib, e_nb, e_dAI, e_iAI, e_alloc, e_off, e_db,
    e_ib]
  clear e_sdy e_siy e_sdb e_sib e_nb e_dAI e_iAI e_alloc e_off e_db e_ib
  rw [hoff]
  have hsdy0 : 0 ≤ sdy ∧ sdy < 4096 := by omega
  have hsiy0 : 0 ≤ siy ∧ siy < 4096 := by rw [hsiy]; split <;> omega
  have hsdb0 : 0 ≤ sdb ∧ sdb ≤ onb := by omega
  have hsib0 : 0 ≤ sib := by rw [hsib]; split <;> omega
  have D := writeDirect_frame nib (disk_size st.disk) j dAI data L u.direct db (db - sdb).toNat sdb
    { st := st, inodeB := inodeB, written := 0, startByte := sdy, changedInodeBlock := false,
      ranOutOfMemory := false } hnib hsdy0.1 hsdy0.2 hL
  have F0 : Fill st st nib (disk_size st.disk) onb offset L sdb (inode_direct inodeB j) 0 sdy
      false :=
    { bitmapSize := hbs
      mono := fun _ h => h
      full := fun h => absurd h (by decide)
      written_nn := le_refl _
      sb_range := hsdy0
      bytes := fun _ => by omega
      start := Or.inr rfl
      fresh := fun l h0 h1 => by omega
      apart := fun l l2 h0 h1 h2 => by omega }
  have DL := writeDirect_fill st nib (disk_size st.disk) j dAI onb offset data L u.direct db
    (db - sdb).toNat sdb sdb
    { st := st, inodeB := inodeB, written := 0, startByte := sdy, changedInodeBlock := false,
      ranOutOfMemory := false } hnib hsz hsdb0.1 (by omega) hdAI hmeta F0 (fun _ => rfl)
    (le_refl _) (fun h => by simp at h)
    (fun l hl0 hl1 => by
      have := (hex l (by omega) (by omega)).1
      rwa [slotFileBlock_direct _ _ _ _ (by omega)] at this)
    (by omega)
  revert D DL
  generalize writeDirect nib (disk_size st.disk) j dAI data L u.direct db (db - sdb).toNat sdb
    { st := st, inodeB := inodeB, written := 0, startByte := sdy, changedInodeBlock := false,
      ranOutOfMemory := false } = v1
  intro D DL
  obtain ⟨m1, F1, hm1, hm2⟩ := DL
  -- the state after the inode block is written back
  obtain ⟨st1, hst1⟩ : ∃ st1 : FsState, st1 = (if v1.changedInodeBlock = true then
        ({ v1.st with disk := (disk_write v1.st.disk (iB + 1) v1.inodeB) } : FsState)
      else v1.st) := ⟨_, rfl⟩
  rw [← hst1]
  have e2 : st1.bitmapSize = v1.st.bitmapSize := by rw [hst1]; split <;> rfl
  have e4 : st1.bitmap = v1.st.bitmap := by rw [hst1]; split <;> rfl
  have e5 : st1.disk.nblocks = st.disk.nblocks := by
    rw [hst1]; split
    · show (disk_write _ _ _).nblocks = _
      rw [disk_write_nblocks]; exact D.nblocks
    · exact D.nblocks
  have e6 : ∀ b, b ≠ iB + 1 → disk_read st1.disk b = disk_read v1.st.disk b := by
    intro b hb
    rw [hst1]; split
    · exact disk_read_write_ne _ _ _ _ hb
    · rfl
  have e7 : disk_read st1.disk (iB + 1) = v1.inodeB := by
    rw [hst1]
    by_cases hc : v1.changedInodeBlock = true
    · rw [if_pos hc]
      exact disk_read_write_same _ _ _ hib0 (by rw [D.nblocks]; show iB + 1 < st.disk.nblocks; omega)
    · rw [if_neg hc]
      have hc2 : v1.changedInodeBlock = false := by simpa using hc
      rw [D.unchanged hc2, D.disk_bad _ (badBlock_meta _ _ _ hibn)]
      exact hdsk
  have hB1 : ∀ i, ¬ (8 * j + 2 ≤ i / 4 ∧ i / 4 ≤ 8 * j + 6) → v1.inodeB i = inodeB i := by
    intro i hi
    exact D.inode_frame i (by omega)
  have hs1 : inode_size v1.inodeB j = size := by
    rw [inode_size_congr v1.inodeB inodeB j (fun i hi => hB1 i (by omega))]
    exact e_size
  have hi1 : inode_indirect v1.inodeB j = inode_indirect inodeB j :=
    inode_indirect_congr v1.inodeB inodeB j hB1
  have hd1 : ∀ l, 0 ≤ l → l < 5 → l < onb →
      inode_direct v1.inodeB j l = inode_direct inodeB j l := by
    intro l hl0 hl1 hl2
    exact inode_direct_congr _ _ _ _ (fun i hi => D.inode_frame i (by omega))
  have hold1 : ∀ l, 0 ≤ l → l < onb →
      slotFileBlock st1.disk v1.inodeB j l = slotFileBlock st.disk inodeB j l := by
    intro l hl0 hl1
    by_cases hl5 : l < 5
    · rw [slotFileBlock_direct _ _ _ _ hl5, slotFileBlock_direct _ _ _ _ hl5, hd1 l hl0 hl5 hl1]
    · obtain ⟨hI1, hI2, hI3⟩ := hInd (by omega)
      have hIr := (badBlock_false_iff _ _ _).1 hI1
      rw [slotFileBlock_indirect _ _ _ _ (by omega), slotFileBlock_indirect _ _ _ _ (by omega),
        hi1, e6 _ (by omega)]
      rw [D.disk_frame _ hI2 (fun l2 h1 h2 h3 => by
        have := hI3 l2 (by omega) (by omega)
        rw [slotFileBlock_direct _ _ _ _ (by omega)] at this
        exact fun h => this h.symm)]
  have hmo : m1 ≤ max onb 5 := by omega
  have F2 : Fill st st1 nib (disk_size st.disk) onb offset L m1 (slotFileBlock st1.disk v1.inodeB j)
      v1.written v1.startByte v1.ranOutOfMemory :=
    F1.transfer e2 (fun x hx => by rw [e4]; exact hx)
      (fun l hl0 hl1 => slotFileBlock_direct _ _ _ _ (by omega))
  have hD1 : inode_size (disk_read st1.disk (iB + 1)) j = size ∧
      (∀ l, 0 ≤ l → l < 5 → l < onb →
        inode_direct (disk_read st1.disk (iB + 1)) j l = inode_direct v1.inodeB j l) ∧
      (onb > 5 → inode_indirect (disk_read st1.disk (iB + 1)) j = inode_indirect v1.inodeB j) := by
    rw [e7]
    exact ⟨hs1, fun _ _ _ _ => rfl, fun _ => rfl⟩
  by_cases hc : ib > 0 ∧ v1.ranOutOfMemory = false
  · rw [if_pos hc]
    obtain ⟨hc1, hc2⟩ := hc
    have hnb5 := hibnb hc1
    have hdb5 : db = 5 := by omega
    rw [hc2] at F2 hm2
    have hwr : 20480 ≤ offset → v1.written = 0 := by
      intro h
      have h1 := D.written_cap
      have h2 := D.written_ge
      have h3 : v1.written ≤ 0 + 4096 * max (db - sdb) 0 := h1
      have h4 : (0 : Int) ≤ v1.written := h2
      omega
    have hmL : v1.written < L → m1 = sib + 5 := by
      intro h
      have := hm2 rfl h
      rw [hsib]
      split <;> omega
    have F3 : Fill st st1 nib (disk_size st.disk) onb offset L m1
        (slotFileBlock st1.disk v1.inodeB j) v1.written siy false :=
      { F2 with
        sb_range := hsiy0
        bytes := fun h0 => by
          have hb := F2.bytes h0
          have hw0 := F2.written_nn
          have hsr := F2.sb_range
          by_cases ho : 20480 ≤ offset
          · have hw := hwr ho
            have := hmL (by omega)
            rw [hsiy, if_pos ho]
            rw [hsib, if_pos ho] at this
            omega
          · rw [hsiy, if_neg ho]
            rcases F2.start with hs | hs
            · omega
            · have := hmL (by omega)
              rw [hsib, if_neg ho] at this
              omega
        start := by
          by_cases ho : 20480 ≤ offset
          · exact Or.inr (hwr ho)
          · left; rw [hsiy, if_neg ho] }
    exact writeIndirectPart_shape st st1 nib (disk_size st.disk) iB j v1.inodeB inodeB data L
      u.indirect size offset alloc iAI ib sib siy v1.written onb m1 hnib hsz hib0 hibn
      (by rw [e5]; rfl) hnd hsz0 e_onb ho0 ho1 D.written_le hsib0 hiAI hmeta F3 hmL hmo
      ⟨fun h => (halloc.1 h).1, fun h => halloc.2 ⟨h, hnb5⟩⟩ hold1 hex (fun _ => hi1) hInd hD1
  · rw [if_neg hc]
    exact writeFinish_shape st st1 nib (disk_size st.disk) iB j v1.inodeB inodeB size offset
      v1.written L onb m1 v1.startByte v1.ranOutOfMemory hib0 (by rw [e5]; omega) hibn hsz0 e_onb
      ho0 ho1 D.written_le F2 hold1
      (fun h => ⟨hi1, ((badBlock_false_iff _ _ _).1 (hInd h).1).1⟩)
      (fun h h5 => by omega) (fun _ => hD1)

/-- In a well-formed state, the shape of the valid inode `inum` after a write
whose offset leaves no hole. -/
theorem fs_write_shape (st : FsState) (hwf : WF st) (inum : Int) (h1 : 1 ≤ inum)
    (h2 : inum < ninodesOf st) (hv : ino_isvalid st.disk inum ≠ 0) (data : Bytes)
    (L offset : Int) (u : Uninit) (hL : 0 ≤ L) (ho : 0 ≤ offset)
    (ho1 : offset ≤ 4096 * ino_nblocks st.disk inum) :
    WShape st (ninodeblocksOf st) (disk_size st.disk) (inum / 128) (inum % 128)
      (inodeBlockOf st.disk inum) (ino_nblocks st.disk inum)
      (fs_write st inum data L offset u) := by
  rw [fs_write_valid st hwf.mounted hwf.superOK inum h1 h2 hv]
  have eN : ino_nblocks st.disk inum
      = nblocksOf (inode_size (inodeBlockOf st.disk inum) (inum % 128)) := rfl
  have eI : ino_indirect st.disk inum = inode_indirect (inodeBlockOf st.disk inum) (inum % 128) :=
    rfl
  have eF : ∀ l, fileBlock st.disk inum l
      = slotFileBlock st.disk (inodeBlockOf st.disk inum) (inum % 128) l := fun _ => rfl
  obtain ⟨hs1, hs2, hs3, hs4, hs5⟩ := hwf.superOK
  have hsz := hwf.size inum (by omega) h2 hv
  have hnb := nblocksOf_le _ hsz.1 hsz.2
  have h2' : inum < 128 * ninodeblocksOf st := by rw [← hs5]; exact h2
  have hwi := write_indices (nblocksOf (inode_size (inodeBlockOf st.disk inum) (inum % 128)))
    offset hnb.1 ho
  have hibf := indirectBlocksCapped_facts
    (nblocksOf (inode_size (inodeBlockOf st.disk inum) (inum % 128))
      + blocksToAllocateOf (offset + L
          - nblocksOf (inode_size (inodeBlockOf st.disk inum) (inum % 128)) * BYTES_PER_BLOCK))
  rw [eN]
  refine writeInode_shape st (ninodeblocksOf st) (inum / 128) (inum % 128)
    (inodeBlockOf st.disk inum) data L offset u _ _ _ _ _ _ _ _ _ _ _ _ _
    rfl rfl rfl rfl rfl rfl rfl rfl rfl rfl rfl rfl rfl
    hs3 (by omega) (by omega) hs4 rfl hs2
    (by rw [← hs1]; exact le_of_lt (super_nblocks_lt _))
    (fun b h0 h1' => hwf.metaUsed b h0 h1')
    hsz.1 hL ho (by rw [← eN]; exact ho1)
    (Int.tmod_eq_emod ho (by decide)) (Int.tdiv_eq_ediv ho (by decide))
    (startIndirectByteOf_eq offset) (startIndirectBlockOf_eq offset)
    hwi.1 hwi.2.1 (directBlocks_of _) hibf.2.2
    (by simp only [POINTERS_PER_INODE, Bool.and_eq_true, decide_eq_true_eq])
    ?_ ?_
  · intro l hl0 hl1
    rw [← eN] at hl1
    have hr := hwf.reach inum (by omega) h2 hv l hl0 hl1
    rw [← eF]
    exact ⟨usedData_good hwf.superOK hr, hr.2.2⟩
  · intro hon
    rw [← eN] at hon
    have hI := hwf.indirect inum (by omega) h2 hv hon
    have hA := hwf.indirectApart inum inum (by omega) h2 hv (by omega) h2 hv hon
    rw [← eI]
    refine ⟨usedData_good hwf.superOK hI, hI.2.2, ?_⟩
    intro l hl0 hl1
    rw [← eN] at hl1
    rw [← eF]
    exact fun h => hA.1 l hl0 hl1 h.symm

/-- Well-formedness from its parts, stated over the integers. -/
theorem WF.of_int (st : FsState) (hm : st.fs_mounted = true) (hs : SuperOK st)
    (hmeta : ∀ b, 0 ≤ b → b ≤ ninodeblocksOf st → st.bitmap b = true)
    (hval : ∀ n, 0 ≤ n → n < ninodesOf st →
      (ino_isvalid st.disk n = 0 ∨ ino_isvalid st.disk n = 1) ∧
      (ino_isvalid st.disk n ≠ 0 → 0 ≤ ino_size st.disk n ∧ ino_size st.disk n ≤ S_max))
    (hreach : ∀ n, 0 ≤ n → n < ninodesOf st → ino_isvalid st.disk n ≠ 0 →
      ∀ l, 0 ≤ l → l < ino_nblocks st.disk n → usedData st (fileBlock st.disk n l))
    (hind : ∀ n, 0 ≤ n → n < ninodesOf st → ino_isvalid st.disk n ≠ 0 →
      ino_nblocks st.disk n > 5 → usedData st (ino_indirect st.disk n))
    (hda : ∀ n m, 0 ≤ n → n < ninodesOf st → ino_isvalid st.disk n ≠ 0 →
      0 ≤ m → m < ninodesOf st → ino_isvalid st.disk m ≠ 0 →
      ∀ l l2, 0 ≤ l → l < ino_nblocks st.disk n → 0 ≤ l2 → l2 < ino_nblocks st.disk m →
      (n ≠ m ∨ l ≠ l2) → fileBlock st.disk n l ≠ fileBlock st.disk m l2)
    (hia : ∀ n m, 0 ≤ n → n < ninodesOf st → ino_isvalid st.disk n ≠ 0 →
      0 ≤ m → m < ninodesOf st → ino_isvalid st.disk m ≠ 0 → ino_nblocks st.disk n > 5 →
      (∀ l2, 0 ≤ l2 → l2 < ino_nblocks st.disk m →
        ino_indirect st.disk n ≠ fileBlock st.disk m l2) ∧
      (ino_nblocks st.disk m > 5 → n ≠ m → ino_indirect st.disk n ≠ ino_indirect st.disk m)) :
    WF st := by
  refine ⟨hm, hs, ?_, ?_, ?_, ?_, ?_⟩
  · intro b hb
    exact hmeta b (by omega) (by omega)
  · intro n hn
    exact hval n (by omega) (by omega)
  · intro n hn hv l hl
    exact hreach n (by omega) (by omega) hv l (by omega) (by omega)
  · intro n hn hv hnb
    exact hind n (by omega) (by omega) hv hnb
  · intro n hn hv m hm' hv'
    refine ⟨?_, ?_⟩
    · intro l hl l2 hl2 hne
      exact hda n m (by omega) (by omega) hv (by omega) (by omega) hv' l l2 (by omega) (by omega)
        (by omega) (by omega) (by omega)
    · intro hnb
      have := hia n m (by omega) (by omega) hv (by omega) (by omega) hv' hnb
      refine ⟨?_, ?_⟩
      · intro l2 hl2
        exact this.1 l2 (by omega) (by omega)
      · intro hmb hne
        exact this.2 hmb (by omega)

/-! ## Well-formedness is preserved -/

theorem ne_of_used_free {f : Int → Bool} {b1 b2 : Int} (h1 : f b1 = true) (h2 : f b2 = false) :
    b1 ≠ b2 := by
  intro h
  rw [h, h2] at h1
  exact Bool.false_ne_true h1

/-- Well-formedness of `st2` from well-formedness of `st`, when every block
reachable in `st2` is either the block of the same inode at the same place in
`st`, still marked used, or a block of inode `a` that was free in `st`, and the
blocks of the second kind are pairwise distinct. -/
theorem wf_of_classes (st st2 : FsState) (hwf : WF st) (a : Int)
    (hm : st2.fs_mounted = true) (hs2 : SuperOK st2)
    (hnib : ninodeblocksOf st2 = ninodeblocksOf st) (hnin : ninodesOf st2 = ninodesOf st)
    (hnbl : st2.disk.nblocks = st.disk.nblocks)
    (hmeta : ∀ b, 0 ≤ b → b ≤ ninodeblocksOf st → st2.bitmap b = true)
    (hval : ∀ n, 0 ≤ n → n < ninodesOf st →
      (ino_isvalid st2.disk n = 0 ∨ ino_isvalid st2.disk n = 1) ∧
      (ino_isvalid st2.disk n ≠ 0 → 0 ≤ ino_size st2.disk n ∧ ino_size st2.disk n ≤ S_max))
    (hcls : ∀ n, 0 ≤ n → n < ninodesOf st → ino_isvalid st2.disk n ≠ 0 →
      ∀ l, 0 ≤ l → l < ino_nblocks st2.disk n →
      (ino_isvalid st.disk n ≠ 0 ∧ l < ino_nblocks st.disk n ∧
        fileBlock st2.disk n l = fileBlock st.disk n l ∧
        st2.bitmap (fileBlock st.disk n l) = true) ∨
      (n = a ∧ Fresh st st2 (ninodeblocksOf st) (disk_size st.disk) (fileBlock st2.disk n l)))
    (hclsI : ∀ n, 0 ≤ n → n < ninodesOf st → ino_isvalid st2.disk n ≠ 0 →
      ino_nblocks st2.disk n > 5 →
      (ino_isvalid st.disk n ≠ 0 ∧ ino_nblocks st.disk n > 5 ∧
        ino_indirect st2.disk n = ino_indirect st.disk n ∧
        st2.bitmap (ino_indirect st.disk n) = true) ∨
      (n = a ∧ Fresh st st2 (ninodeblocksOf st) (disk_size st.disk) (ino_indirect st2.disk n)))
    (hnew : ∀ l l2, 0 ≤ l → l < l2 → l2 < ino_nblocks st2.disk a →
      Fresh st st2 (ninodeblocksOf st) (disk_size st.disk) (fileBlock st2.disk a l) →
      Fresh st st2 (ninodeblocksOf st) (disk_size st.disk) (fileBlock st2.disk a l2) →
      fileBlock st2.disk a l ≠ fileBlock st2.disk a l2)
    (hnewI : ∀ l, 0 ≤ l → l < ino_nblocks st2.disk a → ino_nblocks st2.disk a > 5 →
      Fresh st st2 (ninodeblocksOf st) (disk_size st.disk) (fileBlock st2.disk a l) →
      Fresh st st2 (ninodeblocksOf st) (disk_size st.disk) (ino_indirect st2.disk a) →
      fileBlock st2.disk a l ≠ ino_indirect st2.disk a) :
    WF st2 := by
  have hs := hwf.superOK
  have hsn : super_nblocks (superOf st2) = super_nblocks (superOf st) := by
    rw [hs2.1, hs.1, hnbl]
  have hds : disk_size st.disk = super_nblocks (superOf st) := hs.1.symm
  have hused : ∀ b, usedData st b → st2.bitmap b = true → usedData st2 b := by
    intro b hb h2
    exact ⟨by rw [hnib]; exact hb.1, by rw [hsn]; exact hb.2.1, h2⟩
  have hfresh : ∀ b, Fresh st st2 (ninodeblocksOf st) (disk_size st.disk) b → usedData st2 b := by
    intro b hb
    have := (badBlock_false_iff _ _ _).1 hb.1
    exact ⟨by rw [hnib]; exact this.1, by rw [hsn, ← hds]; exact this.2, hb.2.2⟩
  refine WF.of_int st2 hm hs2 ?_ ?_ ?_ ?_ ?_ ?_
  · rw [hnib]; exact hmeta
  · rw [hnin]; exact hval
  · rw [hnin]
    intro n hn0 hn1 hv l hl0 hl1
    rcases hcls n hn0 hn1 hv l hl0 hl1 with ⟨c1, c2, c3, c4⟩ | ⟨c1, c2⟩
    · rw [c3]
      exact hused _ (hwf.reach n hn0 hn1 c1 l hl0 c2) c4
    · exact hfresh _ c2
  · rw [hnin]
    intro n hn0 hn1 hv hnb
    rcases hclsI n hn0 hn1 hv hnb with ⟨c1, c2, c3, c4⟩ | ⟨c1, c2⟩
    · rw [c3]
      exact hused _ (hwf.indirect n hn0 hn1 c1 c2) c4
    · exact hfresh _ c2
  · rw [hnin]
    intro n m hn0 hn1 hv hm0 hm1 hv' l l2 hl0 hl1 hk0 hk1 hne
    rcases hcls n hn0 hn1 hv l hl0 hl1 with ⟨c1, c2, c3, c4⟩ | ⟨c1, c2⟩
    · rcases hcls m hm0 hm1 hv' l2 hk0 hk1 with ⟨d1, d2, d3, d4⟩ | ⟨d1, d2⟩
      · rw [c3, d3]
        exact hwf.dataApart n m hn0 hn1 c1 hm0 hm1 d1 l l2 hl0 c2 hk0 d2 hne
      · rw [c3]
        exact ne_of_used_free (hwf.reach n hn0 hn1 c1 l hl0 c2).2.2 d2.2.1
    · rcases hcls m hm0 hm1 hv' l2 hk0 hk1 with ⟨d1, d2, d3, d4⟩ | ⟨d1, d2⟩
      · rw [d3]
        exact fun h => ne_of_used_free (hwf.reach m hm0 hm1 d1 l2 hk0 d2).2.2 c2.2.1 h.symm
      · subst c1
        subst d1
        have hll : l ≠ l2 := by
          rcases hne with h | h
          · exact absurd rfl h
          · exact h
        rcases lt_or_gt_of_ne hll with h | h
        · exact hnew l l2 hl0 h hk1 c2 d2
        · exact fun e => hnew l2 l hk0 h hl1 d2 c2 e.symm
  · rw [hnin]
    intro n m hn0 hn1 hv hm0 hm1 hv' hnb
    refine ⟨?_, ?_⟩
    · intro l2 hk0 hk1
      rcases hclsI n hn0 hn1 hv hnb with ⟨c1, c2, c3, c4⟩ | ⟨c1, c2⟩
      · rcases hcls m hm0 hm1 hv' l2 hk0 hk1 with ⟨d1, d2, d3, d4⟩ | ⟨d1, d2⟩
        · rw [c3, d3]
          exact (hwf.indirectApart n m hn0 hn1 c1 hm0 hm1 d1 c2).1 l2 hk0 d2
        · rw [c3]
          exact ne_of_used_free (hwf.indirect n hn0 hn1 c1 c2).2.2 d2.2.1
      · rcases hcls m hm0 hm1 hv' l2 hk0 hk1 with ⟨d1, d2, d3, d4⟩ | ⟨d1, d2⟩
        · rw [d3]
          exact fun h => ne_of_used_free (hwf.reach m hm0 hm1 d1 l2 hk0 d2).2.2 c2.2.1 h.symm
        · subst c1
          subst d1
          exact fun e => hnewI l2 hk0 hk1 hnb d2 c2 e.symm
    · intro hmb hne
      rcases hclsI n hn0 hn1 hv hnb with ⟨c1, c2, c3, c4⟩ | ⟨c1, c2⟩
      · rcases hclsI m hm0 hm1 hv' hmb with ⟨d1, d2, d3, d4⟩ | ⟨d1, d2⟩
        · rw [c3, d3]
          exact (hwf.indirectApart n m hn0 hn1 c1 hm0 hm1 d1 c2).2 d2 hne
        · rw [c3]
          exact ne_of_used_free (hwf.indirect n hn0 hn1 c1 c2).2.2 d2.2.1
      · rcases hclsI m hm0 hm1 hv' hmb with ⟨d1, d2, d3, d4⟩ | ⟨d1, d2⟩
        · rw [d3]
          exact fun h => ne_of_used_free (hwf.indirect m hm0 hm1 d1 d2).2.2 c2.2.1 h.symm
        · exact absurd (c1.trans d1.symm) hne

/-- In a well-formed state, `fs_write` to an inode `1 ≤ a < ninodes` with
`length ≥ 0` and an offset that leaves no hole leads to a well-formed state. -/
theorem fs_write_wf (st : FsState) (hwf : WF st) (a : Int) (h1 : 1 ≤ a)
    (h2 : a < ninodesOf st) (data : Bytes) (L offset : Int) (u : Uninit) (hL : 0 ≤ L)
    (ho : 0 ≤ offset) (ho1 : offset ≤ 4096 * ino_nblocks st.disk a) :
    WF (fs_write st a data L offset u).2 := by
  by_cases hv : ino_isvalid st.disk a = 0
  · rw [fs_write_invalid st a (by omega) hv]
    exact hwf
  · have PF := fs_write_frame st hwf a h1 h2 hv data L offset u hL ho
    have hs := hwf.superOK
    have h2' : a < 128 * ninodeblocksOf st := by rw [← hs.2.2.2.2]; exact h2
    have hI := fs_write_inodes st a h1 (by omega) PF
    have hS := fs_write_superOK st hs a h1 h2 PF
    have W := fs_write_shape st hwf a h1 h2 hv data L offset u hL ho ho1
    have hO := fun m hm0 hm1 hmv hne =>
      fs_write_other st hwf a h1 h2 hv data L offset u hL ho m hm0 hm1 hmv hne
    have hsz := hwf.size a (by omega) h2 hv
    have hnbs := nblocksOf_le _ hsz.1 hsz.2
    have honb : ino_nblocks st.disk a = nblocksOf (ino_size st.disk a) := rfl
    have hmin : min offset (4096 * ino_nblocks st.disk a) = offset := by omega
    rw [hmin] at PF
    revert PF hI hS W hO
    generalize fs_write st a data L offset u = r
    intro PF hI hS W hO
    obtain ⟨hsup, hval, hsize⟩ := hI
    obtain ⟨hs2, hnib, hnin⟩ := hS
    have hn128 : ninodesOf st = 128 * ninodeblocksOf st := hs.2.2.2.2
    -- the new size of the inode written
    have hsa : ino_size r.2.disk a
        = if offset + r.1 > ino_size st.disk a then min (offset + r.1) S_max
          else ino_size st.disk a := PF.inode_size
    have hr0 : 0 ≤ r.1 := PF.written_ge
    have hsa0 : 0 ≤ ino_size r.2.disk a ∧ ino_size r.2.disk a ≤ S_max ∧
        ino_size st.disk a ≤ ino_size r.2.disk a := by
      rw [hsa]
      simp only [S_max] at hsz ⊢
      split <;> omega
    have hnb2 : ino_nblocks r.2.disk a = nblocksOf (ino_size r.2.disk a) := rfl
    have hgrow : ino_nblocks st.disk a ≤ ino_nblocks r.2.disk a := by
      rw [honb, hnb2, nblocksOf_nonneg _ hsz.1, nblocksOf_nonneg _ hsa0.1]
      omega
    have hnbo : ∀ n, 0 ≤ n → n < ninodesOf st → n ≠ a →
        ino_nblocks r.2.disk n = ino_nblocks st.disk n := by
      intro n hn0 hn1 hne
      unfold ino_nblocks
      rw [hsize n hn0 (by omega) hne]
    have hvs : ∀ n, 0 ≤ n → n < ninodesOf st → ino_isvalid r.2.disk n ≠ 0 →
        ino_isvalid st.disk n ≠ 0 := by
      intro n hn0 hn1 h
      rw [hval n hn0 (by omega)] at h
      exact h
    -- the shape of the inode written, in terms of the file's block map
    have W1 : ∀ l, 0 ≤ l → l < ino_nblocks st.disk a →
        fileBlock r.2.disk a l = fileBlock st.disk a l := W.old
    have W2 : ∀ l, ino_nblocks st.disk a ≤ l → l < ino_nblocks r.2.disk a →
        Fresh st r.2 (ninodeblocksOf st) (disk_size st.disk) (fileBlock r.2.disk a l) := W.fresh
    have W3 : ∀ l l2, ino_nblocks st.disk a ≤ l → l < l2 → l2 < ino_nblocks r.2.disk a →
        fileBlock r.2.disk a l ≠ fileBlock r.2.disk a l2 := W.apart
    have W4 : ino_nblocks st.disk a > 5 → ino_indirect r.2.disk a = ino_indirect st.disk a :=
      W.ind_old
    have W5 : ino_nblocks st.disk a ≤ 5 → ino_nblocks r.2.disk a > 5 →
        Fresh st r.2 (ninodeblocksOf st) (disk_size st.disk) (ino_indirect r.2.disk a) ∧
        ∀ l, ino_nblocks st.disk a ≤ l → l < ino_nblocks r.2.disk a →
          fileBlock r.2.disk a l ≠ ino_indirect r.2.disk a := W.ind_new
    have hnotfresh : ∀ l, 0 ≤ l → l < ino_nblocks st.disk a →
        ¬ Fresh st r.2 (ninodeblocksOf st) (disk_size st.disk) (fileBlock r.2.disk a l) := by
      intro l hl0 hl1 hF
      rw [W1 l hl0 hl1] at hF
      have := (hwf.reach a (by omega) h2 hv l hl0 hl1).2.2
      rw [hF.2.1] at this
      exact Bool.false_ne_true this
    refine wf_of_classes st r.2 hwf a (by rw [PF.mounted]; exact hwf.mounted) hs2 hnib hnin
      PF.nblocks (fun b hb0 hb1 => PF.bitmap_mono b (hwf.metaUsed b hb0 hb1)) ?_ ?_ ?_ ?_ ?_
    · intro n hn0 hn1
      refine ⟨by rw [hval n hn0 (by omega)]; exact hwf.isvalid01 n hn0 hn1, fun hv2 => ?_⟩
      by_cases hna : n = a
      · rw [hna]; exact ⟨hsa0.1, hsa0.2.1⟩
      · rw [hsize n hn0 (by omega) hna]
        exact hwf.size n hn0 hn1 (hvs n hn0 hn1 hv2)
    · intro n hn0 hn1 hv2 l hl0 hl1
      have hvn := hvs n hn0 hn1 hv2
      by_cases hna : n = a
      · subst hna
        by_cases hlo : l < ino_nblocks st.disk n
        · exact Or.inl ⟨hvn, hlo, W1 l hl0 hlo,
            PF.bitmap_mono _ (hwf.reach n hn0 hn1 hvn l hl0 hlo).2.2⟩
        · exact Or.inr ⟨rfl, W2 l (by omega) hl1⟩
      · rw [hnbo n hn0 hn1 hna] at hl1
        exact Or.inl ⟨hvn, hl1, ((hO n hn0 hn1 hvn hna).2.2.2 l hl0 hl1).1,
          PF.bitmap_mono _ (hwf.reach n hn0 hn1 hvn l hl0 hl1).2.2⟩
    · intro n hn0 hn1 hv2 hnb
      have hvn := hvs n hn0 hn1 hv2
      by_cases hna : n = a
      · subst hna
        by_cases hon : ino_nblocks st.disk n > 5
        · exact Or.inl ⟨hvn, hon, W4 hon, PF.bitmap_mono _ (hwf.indirect n hn0 hn1 hvn hon).2.2⟩
        · exact Or.inr ⟨rfl, (W5 (by omega) hnb).1⟩
      · rw [hnbo n hn0 hn1 hna] at hnb
        exact Or.inl ⟨hvn, hnb, (hO n hn0 hn1 hvn hna).2.1,
          PF.bitmap_mono _ (hwf.indirect n hn0 hn1 hvn hnb).2.2⟩
    · intro l l2 hl0 hl1 hl2 hF1 hF2
      by_cases hlo : l < ino_nblocks st.disk a
      · exact absurd hF1 (hnotfresh l hl0 hlo)
      · exact W3 l l2 (by omega) hl1 hl2
    · intro l hl0 hl1 hnb hF1 hF2
      by_cases hlo : l < ino_nblocks st.disk a
      · exact absurd hF1 (hnotfresh l hl0 hlo)
      · by_cases hon : ino_nblocks st.disk a > 5
        · exfalso
          rw [W4 hon] at hF2
          have := (hwf.indirect a (by omega) h2 hv hon).2.2
          rw [hF2.2.1] at this
          exact Bool.false_ne_true this
        · exact (W5 (by omega) hnb).2 l (by omega) hl1

/-- Well-formedness survives an update of the inode table that changes only
`isvalid` and `size` of inode `a`, leaves `isvalid` 0 or 1 and the size 0, and
a change of the bitmap that keeps the bits of the inode table and of the blocks
of every other valid inode. -/
theorem wf_of_record_update (st : FsState) (hwf : WF st) (a : Int) (ha0 : 0 ≤ a)
    (ha1 : a < ninodesOf st) (B2 : Block) (bm2 : Int → Bool)
    (hB : ∀ i, ¬ (i / 4 = 8 * (a % 128) ∨ i / 4 = 8 * (a % 128) + 1) →
      B2 i = inodeBlockOf st.disk a i)
    (hv01 : inode_isvalid B2 (a % 128) = 0 ∨ inode_isvalid B2 (a % 128) = 1)
    (hs0 : inode_size B2 (a % 128) = 0)
    (hmeta : ∀ b, 0 ≤ b → b ≤ ninodeblocksOf st → bm2 b = true)
    (hbm : ∀ n, 0 ≤ n → n < ninodesOf st → n ≠ a → ino_isvalid st.disk n ≠ 0 →
      (∀ l, 0 ≤ l → l < ino_nblocks st.disk n → bm2 (fileBlock st.disk n l) = true) ∧
      (ino_nblocks st.disk n > 5 → bm2 (ino_indirect st.disk n) = true)) :
    WF { st with disk := disk_write st.disk (a / 128 + 1) B2, bitmap := bm2 } := by
  obtain ⟨hs1, hs2, hs3, hs4, hs5⟩ := hwf.superOK
  have ha1' : a < 128 * ninodeblocksOf st := by rw [← hs5]; exact ha1
  have hib0 : 0 ≤ a / 128 + 1 := by omega
  have hib1 : a / 128 + 1 < st.disk.nblocks := by omega
  obtain ⟨st2, hst2⟩ : ∃ st2 : FsState,
      st2 = { st with disk := disk_write st.disk (a / 128 + 1) B2, bitmap := bm2 } := ⟨_, rfl⟩
  rw [← hst2]
  have e1 : st2.disk = disk_write st.disk (a / 128 + 1) B2 := by rw [hst2]
  have e2 : st2.bitmap = bm2 := by rw [hst2]
  have e3 : st2.bitmapSize = st.bitmapSize := by rw [hst2]
  have e4 : st2.fs_mounted = st.fs_mounted := by rw [hst2]
  have hnbl : st2.disk.nblocks = st.disk.nblocks := by rw [e1]; exact disk_write_nblocks _ _ _
  have hblk : disk_read st2.disk (a / 128 + 1) = B2 := by
    rw [e1]; exact disk_read_write_same _ _ _ hib0 hib1
  have hoth : ∀ b, b ≠ a / 128 + 1 → disk_read st2.disk b = disk_read st.disk b := by
    intro b hb
    rw [e1]; exact disk_read_write_ne _ _ _ _ hb
  have hsup : superOf st2 = superOf st := hoth 0 (by omega)
  have hnib : ninodeblocksOf st2 = ninodeblocksOf st := by unfold ninodeblocksOf; rw [hsup]
  have hnin : ninodesOf st2 = ninodesOf st := by unfold ninodesOf; rw [hsup]
  have hs2' : SuperOK st2 :=
    ⟨by rw [hsup, hnbl]; exact hs1, by rw [e3, hnbl]; exact hs2, by rw [hnib]; exact hs3,
      by rw [hnib, hnbl]; exact hs4, by rw [hnib, hnin]; exact hs5⟩
  -- the records of the other inodes
  have hrec : ∀ n, 0 ≤ n → n ≠ a → ∀ i, 8 * (n % 128) ≤ i / 4 → i / 4 ≤ 8 * (n % 128) + 7 →
      inodeBlockOf st2.disk n i = inodeBlockOf st.disk n i := by
    intro n hn0 hne i hi0 hi1
    unfold inodeBlockOf
    by_cases hb : n / 128 = a / 128
    · rw [hb, hblk, hB i (by omega)]
      rfl
    · rw [hoth _ (by omega)]
  have hval : ∀ n, 0 ≤ n → n ≠ a → ino_isvalid st2.disk n = ino_isvalid st.disk n := by
    intro n hn0 hne
    unfold ino_isvalid
    exact inode_isvalid_congr _ _ _ (fun i hi => hrec n hn0 hne i (by omega) (by omega))
  have hsize : ∀ n, 0 ≤ n → n ≠ a → ino_size st2.disk n = ino_size st.disk n := by
    intro n hn0 hne
    unfold ino_size
    exact inode_size_congr' _ _ _ (fun i hi => hrec n hn0 hne i (by omega) (by omega))
  have hnbo : ∀ n, 0 ≤ n → n ≠ a → ino_nblocks st2.disk n = ino_nblocks st.disk n := by
    intro n hn0 hne
    unfold ino_nblocks
    rw [hsize n hn0 hne]
  have hdir : ∀ n, 0 ≤ n → n ≠ a → ∀ l, 0 ≤ l → l < 5 →
      ino_direct st2.disk n l = ino_direct st.disk n l := by
    intro n hn0 hne l hl0 hl1
    unfold ino_direct
    exact inode_direct_congr _ _ _ _ (fun i hi => hrec n hn0 hne i (by omega) (by omega))
  have hind : ∀ n, 0 ≤ n → n ≠ a → ino_indirect st2.disk n = ino_indirect st.disk n := by
    intro n hn0 hne
    unfold ino_indirect
    exact inode_indirect_congr' _ _ _ (fun i hi => hrec n hn0 hne i (by omega) (by omega))
  have hfb : ∀ n, 0 ≤ n → n < ninodesOf st → n ≠ a → ino_isvalid st.disk n ≠ 0 →
      ∀ l, 0 ≤ l → l < ino_nblocks st.disk n →
      fileBlock st2.disk n l = fileBlock st.disk n l := by
    intro n hn0 hn1 hne hv l hl0 hl1
    by_cases hl5 : l < 5
    · rw [fileBlock_direct _ _ _ hl5, fileBlock_direct _ _ _ hl5]
      exact hdir n hn0 hne l hl0 hl5
    · rw [fileBlock_indirect _ _ _ (by omega), fileBlock_indirect _ _ _ (by omega),
        hind n hn0 hne]
      have := (hwf.indirect n hn0 hn1 hv (by simp only [POINTERS_PER_INODE]; omega)).1
      rw [hoth _ (by omega)]
  -- the inode `a` has no blocks
  have hsa : ino_size st2.disk a = 0 := by
    unfold ino_size inodeBlockOf
    rw [hblk]; exact hs0
  have hna : ino_nblocks st2.disk a = 0 := by
    unfold ino_nblocks
    rw [hsa]
    decide
  have hva : ino_isvalid st2.disk a = inode_isvalid B2 (a % 128) := by
    unfold ino_isvalid inodeBlockOf
    rw [hblk]
  refine wf_of_classes st st2 hwf a (by rw [e4]; exact hwf.mounted) hs2' hnib hnin hnbl
    (fun b hb0 hb1 => by rw [e2]; exact hmeta b hb0 hb1) ?_ ?_ ?_ ?_ ?_
  · intro n hn0 hn1
    by_cases hne : n = a
    · subst hne
      rw [hva, hsa]
      exact ⟨hv01, fun _ => ⟨le_refl _, by decide⟩⟩
    · rw [hval n hn0 hne, hsize n hn0 hne]
      exact ⟨hwf.isvalid01 n hn0 hn1, hwf.size n hn0 hn1⟩
  · intro n hn0 hn1 hv2 l hl0 hl1
    by_cases hne : n = a
    · subst hne
      omega
    · rw [hval n hn0 hne] at hv2
      rw [hnbo n hn0 hne] at hl1
      exact Or.inl ⟨hv2, hl1, hfb n hn0 hn1 hne hv2 l hl0 hl1,
        by rw [e2]; exact (hbm n hn0 hn1 hne hv2).1 l hl0 hl1⟩
  · intro n hn0 hn1 hv2 hnb
    by_cases hne : n = a
    · subst hne
      omega
    · rw [hval n hn0 hne] at hv2
      rw [hnbo n hn0 hne] at hnb
      exact Or.inl ⟨hv2, hnb, hind n hn0 hne,
        by rw [e2]; exact (hbm n hn0 hn1 hne hv2).2 hnb⟩
  · intro l l2 hl0 hl1 hl2
    omega
  · intro l hl0 hl1
    omega

/-- In a well-formed state, `fs_create` leads to a well-formed state. -/
theorem fs_create_wf (st : FsState) (hwf : WF st) : WF (fs_create st).2 := by
  have hm := hwf.mounted
  obtain ⟨hs1, hs2, hs3, hs4, hs5⟩ := hwf.superOK
  have key := createBlocks_spec st.disk (super_ninodeblocks (disk_read st.disk 0))
    (super_ninodeblocks (disk_read st.disk 0)).toNat 0
  rcases key with ⟨g1, _⟩ | ⟨r, j, g1, g2, g3, g4, g5, g6, g7, g8, g9, g10⟩
  · have e : fs_create st = (0, st) := by simp [fs_create, hm, g1]
    rw [e]; exact hwf
  · have hcr : fs_create st = (j + r * INODES_PER_BLOCK,
        { st with disk := (disk_write st.disk (r + 1)
            (set_inode_size (set_inode_isvalid (disk_read st.disk (r + 1)) j 1) j 0)) }) := by
      simp [fs_create, hm, g10]
    rw [hcr]
    have g3' : r < ninodeblocksOf st := g3
    have e1 : (128 * r + j) / 128 = r := by omega
    have e2 : (128 * r + j) % 128 = j := by omega
    have hW := wf_of_record_update st hwf (128 * r + j) (by omega) (by rw [hs5]; omega)
      (set_inode_size (set_inode_isvalid (disk_read st.disk (r + 1)) j 1) j 0) st.bitmap
      (fun i hi => by
        rw [e2] at hi
        unfold set_inode_size set_inode_isvalid inodeBlockOf
        rw [setInt_other _ _ _ _ (by omega), setInt_other _ _ _ _ (by omega), e1])
      (by
        right
        rw [e2]
        unfold inode_isvalid set_inode_size set_inode_isvalid
        rw [getInt_setInt_ne _ _ _ _ (by omega), getInt_setInt_same _ _ _ (by omega) (by omega)])
      (by
        rw [e2]
        unfold inode_size set_inode_size
        rw [getInt_setInt_same _ _ _ (by omega) (by omega)])
      (fun b hb0 hb1 => hwf.metaUsed b hb0 hb1)
      (fun n hn0 hn1 _ hv => ⟨fun l hl0 hl1 => (hwf.reach n hn0 hn1 hv l hl0 hl1).2.2,
        fun hnb => (hwf.indirect n hn0 hn1 hv hnb).2.2⟩)
    rw [e1] at hW
    exact hW

/-- What `fs_delete` does to a valid inode of a well-formed state: the new
state, and the bits of the bitmap it leaves alone. -/
theorem fs_delete_effect (st : FsState) (hwf : WF st) (inum : Int) (h1 : 1 ≤ inum)
    (h2 : inum < ninodesOf st) (hv : ino_isvalid st.disk inum ≠ 0) :
    ∃ bm2 : Int → Bool,
      fs_delete st inum = (1, { st with
        disk := (disk_write st.disk (inum / 128 + 1)
          (set_inode_isvalid (set_inode_size (disk_read st.disk (inum / 128 + 1)) (inum % 128) 0)
            (inum % 128) 0)),
        bitmap := bm2 }) ∧
      ∀ b, (∀ l, 0 ≤ l → l < ino_nblocks st.disk inum → b ≠ fileBlock st.disk inum l) →
        (ino_nblocks st.disk inum > 5 → b ≠ ino_indirect st.disk inum) →
        bm2 b = st.bitmap b := by
  have hm := hwf.mounted
  have hsz := hwf.size inum (by omega) h2 hv
  have hnb := nblocksOf_le _ hsz.1 hsz.2
  obtain ⟨hs1, hs2, hs3, hs4, hs5⟩ := hwf.superOK
  have hv2 : inode_isvalid (disk_read st.disk (inum / 128 + 1)) (inum % 128) ≠ 0 := hv
  have h2' : inum < super_ninodes (disk_read st.disk 0) := h2
  have hs5' : super_ninodes (disk_read st.disk 0) = 128 * super_ninodeblocks (disk_read st.disk 0) :=
    hs5
  obtain ⟨bm2, hbm2, hdel⟩ : ∃ bm2 : Int → Bool,
      bm2 = (if indirectBlocksCapped (ino_nblocks st.disk inum) > 0 then
          Function.update
            (deleteLoop (super_ninodeblocks (disk_read st.disk 0)) (disk_size st.disk)
              (pointers (disk_read st.disk (ino_indirect st.disk inum)))
              (indirectBlocksCapped (ino_nblocks st.disk inum))
              (indirectBlocksCapped (ino_nblocks st.disk inum)).toNat 0
              (deleteLoop (super_ninodeblocks (disk_read st.disk 0)) (disk_size st.disk)
                (ino_direct st.disk inum) (directBlocks (ino_nblocks st.disk inum))
                (directBlocks (ino_nblocks st.disk inum)).toNat 0 st.bitmap))
            (ino_indirect st.disk inum) false
        else
          deleteLoop (super_ninodeblocks (disk_read st.disk 0)) (disk_size st.disk)
                (ino_direct st.disk inum) (directBlocks (ino_nblocks st.disk inum))
                (directBlocks (ino_nblocks st.disk inum)).toNat 0 st.bitmap) ∧
      fs_delete st inum = (1, { st with
        disk := (disk_write st.disk (inum / 128 + 1)
          (set_inode_isvalid (set_inode_size (disk_read st.disk (inum / 128 + 1)) (inum % 128) 0)
            (inum % 128) 0)),
        bitmap := bm2 }) := by
    refine ⟨_, rfl, ?_⟩
    unfold fs_delete
    have hidx : inum - INODES_PER_BLOCK * (inum / 128) = inum % 128 := by
      simp only [INODES_PER_BLOCK]; omega
    simp only [hm]
    rw [badInumber_false _ inum h1 h2' hs5', inodeBlock_eq inum (by omega), hidx]
    rw [if_neg (by simp), if_neg (by simp), if_pos hv2]
    rfl
  refine ⟨bm2, hdel, ?_⟩
  intro b hb1 hb2
  have hnb' : ino_nblocks st.disk inum ≤ 1029 := hnb.2
  have hdb := directBlocks_of (ino_nblocks st.disk inum)
  have hib := indirectBlocksCapped_of (ino_nblocks st.disk inum) hnb'
  have hd : deleteLoop (super_ninodeblocks (disk_read st.disk 0)) (disk_size st.disk)
      (ino_direct st.disk inum) (directBlocks (ino_nblocks st.disk inum))
      (directBlocks (ino_nblocks st.disk inum)).toNat 0 st.bitmap b = st.bitmap b := by
    apply deleteLoop_frame
    intro l hl0 hl1
    have := hb1 l hl0 (by omega)
    rwa [fileBlock_direct _ _ _ (by omega)] at this
  rw [hbm2]
  split
  · rename_i hpos
    rw [Function.update_noteq (hb2 (by omega)), deleteLoop_frame, hd]
    intro l hl0 hl1
    have := hb1 (l + 5) (by omega) (by omega)
    rw [fileBlock_indirect _ _ _ (by omega)] at this
    have e : l + 5 - 5 = l := by omega
    rwa [e] at this
  · exact hd

theorem fs_delete_invalid (st : FsState) (inum : Int) (h1 : 0 ≤ inum)
    (hv : ino_isvalid st.disk inum = 0) : fs_delete st inum = (0, st) := by
  have hidx : inum - INODES_PER_BLOCK * (inum / 128) = inum % 128 := by
    simp only [INODES_PER_BLOCK]; omega
  have hv2 : inode_isvalid (disk_read st.disk (inum / 128 + 1)) (inum % 128) = 0 := hv
  unfold fs_delete
  rw [inodeBlock_eq inum h1]
  simp only [hidx, hv2]
  simp

/-- In a well-formed state, `fs_delete` of an inode `1 ≤ inum < ninodes` leads
to a well-formed state. -/
theorem fs_delete_wf (st : FsState) (hwf : WF st) (inum : Int) (h1 : 1 ≤ inum)
    (h2 : inum < ninodesOf st) : WF (fs_delete st inum).2 := by
  by_cases hv : ino_isvalid st.disk inum = 0
  · rw [fs_delete_invalid st inum (by omega) hv]
    exact hwf
  · obtain ⟨bm2, hdel, hfr⟩ := fs_delete_effect st hwf inum h1 h2 hv
    rw [hdel]
    refine wf_of_record_update st hwf inum (by omega) h2 _ bm2 ?_ ?_ ?_ ?_ ?_
    · intro i hi
      unfold set_inode_size set_inode_isvalid inodeBlockOf
      rw [setInt_other _ _ _ _ (by omega), setInt_other _ _ _ _ (by omega)]
    · left
      unfold inode_isvalid set_inode_isvalid
      rw [getInt_setInt_same _ _ _ (by omega) (by omega)]
    · unfold inode_size set_inode_isvalid set_inode_size
      rw [getInt_setInt_ne _ _ _ _ (by omega), getInt_setInt_same _ _ _ (by omega) (by omega)]
    · intro b hb0 hb1
      rw [hfr b (fun l hl0 hl1 => by
          have := (hwf.reach inum (by omega) h2 hv l hl0 hl1).1
          omega)
        (fun hnb => by
          have := (hwf.indirect inum (by omega) h2 hv hnb).1
          omega)]
      exact hwf.metaUsed b hb0 hb1
    · intro n hn0 hn1 hne hvn
      refine ⟨fun l hl0 hl1 => ?_, fun hnb => ?_⟩
      · rw [hfr _ (fun l2 h0 h3 =>
            hwf.dataApart n inum hn0 hn1 hvn (by omega) h2 hv l l2 hl0 hl1 h0 h3 (Or.inl hne))
          (fun hnb2 h => (hwf.indirectApart inum n (by omega) h2 hv hn0 hn1 hvn hnb2).1 l hl0 hl1
            h.symm)]
        exact (hwf.reach n hn0 hn1 hvn l hl0 hl1).2.2
      · have hA := hwf.indirectApart n inum hn0 hn1 hvn (by omega) h2 hv hnb
        rw [hfr _ (fun l2 h0 h3 => hA.1 l2 h0 h3) (fun hnb2 => hA.2 hnb2 hne)]
        exact (hwf.indirect n hn0 hn1 hvn hnb).2.2

/-- Well-formedness `WF` is the well-formedness that the specification lists,
`WFBare`, together with `0 ≤ ninodeblocks < nblocks` and
`ninodes = 128 * ninodeblocks`. -/
theorem wf_iff_bare (st : FsState) :
    WF st ↔ (WFBare st ∧ 0 ≤ ninodeblocksOf st ∧ ninodeblocksOf st < st.disk.nblocks
      ∧ ninodesOf st = 128 * ninodeblocksOf st) := by
  unfold WF WFBare SuperOK
  constructor
  · rintro ⟨a, ⟨b, c, d, e, f⟩, g⟩
    exact ⟨⟨a, b, c, g⟩, d, e, f⟩
  · rintro ⟨⟨a, b, c, g⟩, d, e, f⟩
    exact ⟨a, ⟨b, c, d, e, f⟩, g⟩

/-- C21, the claim at a failing input.  The superblock of `wide20` has
`ninodeblocks = 1` but `ninodes = 256`, so the inode numbers 128..255 address
block 2, which lies in the data region and is free.  The state is mounted and
well-formed as the claim spells it out (`WFBare`); inode 1 is valid and empty.
The write `fs_write(1, data, 32, 0)`, hole-free, with a first data word of 7,
returns 32, is given block 2 and so makes `isvalid` of inode 128 equal to 7:
the state afterwards is not well-formed. -/
theorem wellformed_lost_on_wide_table :
    WFBare wide20 ∧ ninodeblocksOf wide20 = 1 ∧ ninodesOf wide20 = 256 ∧
      ino_isvalid wide20.disk 1 = 1 ∧ ino_size wide20.disk 1 = 0 ∧
      (fs_write wide20 1 seven 32 0 zeroUninit).1 = 32 ∧
      ino_isvalid (fs_write wide20 1 seven 32 0 zeroUninit).2.disk 128 = 7 ∧
      ¬ WFBare (fs_write wide20 1 seven 32 0 zeroUninit).2 := by
  decide!

/-- C21, amended.  Hole-free operations preserve well-formedness, provided
that well-formedness includes the layout of the superblock.  Call a mounted state
well-formed (`WF`) when the superblock describes the device (`nblocks` is the
device size and the bitmap length, `0 ≤ ninodeblocks < nblocks`,
`ninodes = 128 * ninodeblocks`), bits `0..ninodeblocks` of the bitmap are set,
every inode's `isvalid` is 0 or 1, every valid inode has `0 ≤ size ≤ 4096*1029`,
every block reachable from a valid inode (its used direct pointers, the used
pointers of its indirect block, and the indirect block when it has more than 5
blocks) lies strictly between `ninodeblocks` and `nblocks` and is marked used,
and all blocks reachable from valid inodes are pairwise distinct, within one
inode and across inodes.  From every well-formed state, `fs_create()`,
`fs_delete(inum)` with `1 ≤ inum < ninodes`, and
`fs_write(inum, data, length, offset)` with `1 ≤ inum < ninodes`, `length ≥ 0`
and `0 ≤ offset ≤ 4096 * ceil(size/4096)` each lead to a well-formed state;
nothing is assumed about the number of free blocks, so this includes the
writes during which the allocator runs out of free blocks. -/
theorem wellformed_preserved (st : FsState) (hwf : WF st) :
    WF (fs_create st).2 ∧
    (∀ inum, 1 ≤ inum → inum < ninodesOf st → WF (fs_delete st inum).2) ∧
    (∀ inum data L offset u, 1 ≤ inum → inum < ninodesOf st → 0 ≤ L → 0 ≤ offset →
      offset ≤ 4096 * ino_nblocks st.disk inum → WF (fs_write st inum data L offset u).2) :=
  ⟨fs_create_wf st hwf, fun inum h1 h2 => fs_delete_wf st hwf inum h1 h2,
    fun inum data L offset u h1 h2 hL ho ho1 => fs_write_wf st hwf inum h1 h2 data L offset u hL ho
      ho1⟩

/-- Witness for C21 on the 20-block device with the empty inode 1: a write of
`4096 * 1029` bytes at offset 0 finds 17 free blocks, stores 16 blocks of data
and then runs out of free blocks; the state after it, the state after
`fs_create()` and the state after `fs_delete(1)` are well-formed. -/
theorem wellformed_preserved_witness :
    WF created20 ∧ WF (fs_create created20).2 ∧ WF (fs_delete created20 1).2 ∧
    WF (fs_write created20 1 zeroBlock S_max 0 zeroUninit).2 ∧
    (fs_write created20 1 zeroBlock S_max 0 zeroUninit).1 = 65536 ∧
    freeCount (fs_write created20 1 zeroBlock S_max 0 zeroUninit).2 = 0 :=
  have h := wellformed_preserved created20 (by decide!)
  ⟨by decide!, h.1, h.2.1 1 (by decide) (by decide!),
    h.2.2 1 zeroBlock S_max 0 zeroUninit (by decide) (by decide!) (by decide) (by decide)
      (by decide!),
    by decide!, by decide!⟩

end SimpleFS
